import Mathlib

/-!
# Catalog and fragment-update engine: a shallow embedding

The definitions below follow `Catalog/Catalog.cpp` and `Catalog/Catalog.h`.
C++ maps are association lists, exceptions are values of `Failure`, a failed
`CHECK` is the failure `check_failed`, and an operation that mutates the
catalog returns its outcome together with the state it leaves behind, so that
the state after a raised error can be inspected.  Locks are not modelled: every
operation is followed on a single thread.
-/

namespace Catalog_Namespace

/-! ## Outcomes -/

/-- The two ways an operation can stop early: a `std::runtime_error` carrying its
message, or a failed `CHECK`, which aborts the process. -/
inductive Failure where
  | runtime_error (msg : String)
  | check_failed
  deriving DecidableEq, Repr

/-- The result of a call: a value or the failure that ended it. -/
abbrev Result (α : Type) := Except Failure α

deriving instance DecidableEq for Except

/-! ## Association lists standing for `std::map` and `std::multimap` -/

/-- The lookup `m.find(k)`: the value stored under `k`, when there is one. -/
def mapFind {κ ν : Type} [DecidableEq κ] (m : List (κ × ν)) (k : κ) : Option ν :=
  match m with
  | [] => none
  | (k', v) :: rest => if k' = k then some v else mapFind rest k

/-- The erasure `m.erase(k)`: every entry stored under `k` is removed. -/
def mapErase {κ ν : Type} [DecidableEq κ] (m : List (κ × ν)) (k : κ) : List (κ × ν) :=
  m.filter (fun e => !decide (e.1 = k))

/-- The assignment `m[k] = v`: the entry under `k` is replaced, or added. -/
def mapAssign {κ ν : Type} [DecidableEq κ] (m : List (κ × ν)) (k : κ) (v : ν) :
    List (κ × ν) :=
  match m with
  | [] => [(k, v)]
  | (k', v') :: rest =>
    if k' = k then (k, v) :: rest else (k', v') :: mapAssign rest k v

/-- The upper-casing `to_upper` of `Shared/StringTransform.h`, character by character. -/
def to_upper (s : String) : String := String.mk (s.data.map Char.toUpper)

/-! ## Machine integers -/

/-- Conversion of an integer to `size_t` (64 bits, unsigned). -/
def toSizeT (x : Int) : Int := x % 2 ^ 64

/-- Conversion of an integer to `int32_t` (two's complement). -/
def toInt32 (x : Int) : Int := (x + 2 ^ 31) % 2 ^ 32 - 2 ^ 31

/-- The values of type `int32_t`. -/
def isInt32 (x : Int) : Prop := -2 ^ 31 ≤ x ∧ x < 2 ^ 31

instance (x : Int) : Decidable (isInt32 x) := by unfold isInt32; infer_instance

/-! ## Metadata records (`Catalog.h`) -/

/-- Metadata for a user (`UserMetadata`). -/
structure UserMetadata where
  userId : Int
  userName : String
  passwd_hash : String
  isSuper : Bool
  isReallySuper : Bool
  deriving DecidableEq, Repr

/-- Metadata for a database (`DBMetadata`). -/
structure DBMetadata where
  dbId : Int
  dbName : String
  dbOwner : Int
  deriving DecidableEq, Repr

/-- The legacy database-level privileges (`Privileges`). -/
structure Privileges where
  super_ : Bool
  select_ : Bool
  insert_ : Bool
  deriving DecidableEq, Repr

/-- The name of the system database, `MAPD_SYSTEM_DB`. -/
def MAPD_SYSTEM_DB : String := "mapd"

/-- The name of the root user, `MAPD_ROOT_USER`. -/
def MAPD_ROOT_USER : String := "mapd"

/-! ## Column, table and dictionary descriptors

`sqltypes.h`, `ColumnDescriptor.h`, `TableDescriptor.h` and `DictDescriptor.h`
are not among the sources; the records below hold the fields that
`Catalog.cpp` reads and writes. -/

/-- The SQL types named by the catalog and by the update of chunks (`SQLTypes`). -/
inductive SQLTypes where
  | kNULLT | kBOOLEAN | kCHAR | kVARCHAR | kNUMERIC | kDECIMAL | kINT | kSMALLINT
  | kFLOAT | kDOUBLE | kTIME | kTIMESTAMP | kBIGINT | kTEXT | kDATE | kARRAY
  | kTINYINT | kPOINT | kLINESTRING | kPOLYGON | kMULTIPOLYGON
  | kINTERVAL_DAY_TIME | kINTERVAL_YEAR_MONTH
  deriving DecidableEq, Repr

/-- The column encodings (`EncodingType`). -/
inductive EncodingType where
  | kENCODING_NONE | kENCODING_FIXED | kENCODING_RL | kENCODING_DIFF
  | kENCODING_DICT | kENCODING_SPARSE | kENCODING_GEOINT
  deriving DecidableEq, Repr

/-- The geometry test `IS_GEO`. -/
def IS_GEO (t : SQLTypes) : Bool :=
  t == .kPOINT || t == .kLINESTRING || t == .kPOLYGON || t == .kMULTIPOLYGON

/-- Modelled from the spec: `SQLTypeInfo::get_storage_size` is not among the
sources; fixed-width scalar types have their byte width and every other type is
variable-length, written -1. -/
def get_storage_size (t : SQLTypes) : Int :=
  match t with
  | .kBOOLEAN => 1
  | .kTINYINT => 1
  | .kSMALLINT => 2
  | .kINT => 4
  | .kBIGINT => 8
  | .kFLOAT => 4
  | .kDOUBLE => 8
  | _ => -1

/-- The full type descriptor of a column (`SQLTypeInfo`): base type, subtype,
dimension, scale, nullability, encoding and encoding parameter, size. -/
structure SQLTypeInfo where
  type : SQLTypes
  subtype : SQLTypes
  dimension : Int
  scale : Int
  notnull : Bool
  compression : EncodingType
  comp_param : Int
  size : Int
  deriving DecidableEq, Repr

namespace SQLTypeInfo

/-- The constructor `SQLTypeInfo(t, notnull)`. -/
def ofType (t : SQLTypes) (n : Bool) : SQLTypeInfo :=
  { type := t, subtype := .kNULLT, dimension := 0, scale := 0, notnull := n,
    compression := .kENCODING_NONE, comp_param := 0, size := get_storage_size t }

/-- The default constructor `SQLTypeInfo()`. -/
def default : SQLTypeInfo :=
  { type := .kNULLT, subtype := .kNULLT, dimension := 0, scale := 0, notnull := false,
    compression := .kENCODING_NONE, comp_param := 0, size := 0 }

/-- The test `is_geometry()`. -/
def is_geometry (ti : SQLTypeInfo) : Bool := IS_GEO ti.type

/-- The test `is_array()`. -/
def is_array (ti : SQLTypeInfo) : Bool := ti.type == .kARRAY

/-- Modelled from the spec: the test `IS_STRING` of `sqltypes.h`, which is not
among the sources: the character types. -/
def IS_STRING (t : SQLTypes) : Bool := t == .kTEXT || t == .kVARCHAR || t == .kCHAR

/-- The test `is_string()`. -/
def is_string (ti : SQLTypeInfo) : Bool := IS_STRING ti.type

/-- The test `is_string_array()`. -/
def is_string_array (ti : SQLTypeInfo) : Bool := ti.type == .kARRAY && IS_STRING ti.subtype

end SQLTypeInfo

/-- A column descriptor (`ColumnDescriptor`). -/
structure ColumnDescriptor where
  tableId : Int
  columnId : Int
  columnName : String
  columnType : SQLTypeInfo
  chunks : String
  isSystemCol : Bool
  isVirtualCol : Bool
  virtualExpr : String
  isDeletedCol : Bool
  isGeoPhyCol : Bool
  deriving DecidableEq, Repr

/-- The constructors `ColumnDescriptor()` and `ColumnDescriptor(isGeoPhyCol)`. -/
def ColumnDescriptor.new (isGeoPhyCol : Bool) : ColumnDescriptor :=
  { tableId := 0, columnId := 0, columnName := "", columnType := SQLTypeInfo.default,
    chunks := "", isSystemCol := false, isVirtualCol := false, virtualExpr := "",
    isDeletedCol := false, isGeoPhyCol := isGeoPhyCol }

/-- The memory tiers (`Data_Namespace::MemoryLevel`). -/
inductive MemoryLevel where
  | DISK_LEVEL | CPU_LEVEL | GPU_LEVEL
  deriving DecidableEq, Repr

/-- A table descriptor (`TableDescriptor`).  The lazily instantiated fragmenter
handle is a cache of the process and is left out. -/
structure TableDescriptor where
  tableId : Int
  tableName : String
  userId : Int
  nColumns : Int
  isView : Bool
  viewSQL : String
  fragments : String
  fragType : Int
  maxFragRows : Int
  maxChunkSize : Int
  fragPageSize : Int
  maxRows : Int
  partitions : String
  keyMetainfo : String
  shardedColumnId : Int
  shard : Int
  nShards : Int
  persistenceLevel : MemoryLevel
  hasDeletedCol : Bool
  columnIdBySpi_ : List Int
  deriving DecidableEq, Repr

/-- A dictionary reference (`DictRef`): database id and dictionary id. -/
structure DictRef where
  dbId : Int
  dictId : Int
  deriving DecidableEq, Repr

/-- A dictionary descriptor (`DictDescriptor`); the lazily loaded dictionary
handle is left out. -/
structure DictDescriptor where
  dictRef : DictRef
  dictName : String
  dictNBits : Int
  dictIsShared : Bool
  refcount : Int
  dictFolderPath : String
  dictIsTemp : Bool
  deriving DecidableEq, Repr

/-- A shared-dictionary declaration of `CREATE TABLE`
(`Parser::SharedDictionaryDef`): the column, and the foreign table and column
whose dictionary it shares. -/
structure SharedDictionaryDef where
  column : String
  foreign_table : String
  foreign_column : String
  deriving DecidableEq, Repr

/-! ## The persisted rows of one database -/

/-- A row of `mapd_tables`. -/
structure TableRow where
  tableid : Int
  name : String
  userid : Int
  ncolumns : Int
  isview : Bool
  shard_column_id : Int
  shard : Int
  num_shards : Int
  deriving DecidableEq, Repr

/-- A row of `mapd_columns`. -/
structure ColumnRow where
  tableid : Int
  columnid : Int
  name : String
  compression : EncodingType
  comp_param : Int
  deriving DecidableEq, Repr

/-- A row of `mapd_dictionaries`. -/
structure DictRow where
  dictid : Int
  name : String
  nbits : Int
  is_shared : Bool
  refcount : Int
  deriving DecidableEq, Repr

/-- The tables of the persistent store of one database that the catalog
operations below read and write. -/
structure CatalogStore where
  mapd_tables : List TableRow
  mapd_columns : List ColumnRow
  mapd_dictionaries : List DictRow
  mapd_views : List (Int × String)
  mapd_logical_to_physical : List (Int × Int)
  deriving DecidableEq, Repr

/-! ## The per-database catalog -/

/-- The in-memory state of a per-database `Catalog` together with its
persistent store (`sqliteConnector_`); `columnDescriptorsForRoll` is the list
of pending column changes, empty outside a schema change. -/
structure Catalog where
  basePath_ : String
  currentDB_ : DBMetadata
  tableDescriptorMap_ : List (String × TableDescriptor)
  tableDescriptorMapById_ : List (Int × TableDescriptor)
  columnDescriptorMap_ : List ((Int × String) × ColumnDescriptor)
  columnDescriptorMapById_ : List ((Int × Int) × ColumnDescriptor)
  dictDescriptorMapByRef_ : List (DictRef × DictDescriptor)
  logicalToPhysicalTableMapById_ : List (Int × List Int)
  deletedColumnPerTable_ : List (Int × ColumnDescriptor)
  nextTempTableId_ : Int
  nextTempDictId_ : Int
  sqliteConnector_ : CatalogStore
  columnDescriptorsForRoll : List (Option ColumnDescriptor × Option ColumnDescriptor) := []
  deriving DecidableEq, Repr

/-- Modelled from the spec: the storage manager (`DataMgr`) is not among the
sources.  It exposes get/set table epoch per (database, table); the model keeps
the epoch of every table, a C++ `int`. -/
structure DataMgr where
  epoch : Int → Int → Int

namespace DataMgr

/-- Modelled from the spec: `DataMgr::getTableEpoch(db_id, tb_id)`. -/
def getTableEpoch (dm : DataMgr) (db_id tb_id : Int) : Int :=
  toInt32 (dm.epoch db_id tb_id)

/-- Modelled from the spec: `DataMgr::setTableEpoch(db_id, tb_id, new_epoch)`
records the new epoch of that table and of no other. -/
def setTableEpoch (dm : DataMgr) (db_id tb_id new_epoch : Int) : DataMgr :=
  { epoch := fun d t => if d = db_id ∧ t = tb_id then new_epoch else dm.epoch d t }

end DataMgr

namespace Catalog

/-- The lookup `Catalog::getMetadataForTable(int tableId)`; `none` stands for
`nullptr`. -/
def getMetadataForTable (cat : Catalog) (tableId : Int) : Option TableDescriptor :=
  mapFind cat.tableDescriptorMapById_ tableId

/-- The lookup `Catalog::getMetadataForTable(const string& tableName)`, by
upper-cased name. -/
def getMetadataForTableByName (cat : Catalog) (tableName : String) :
    Option TableDescriptor :=
  mapFind cat.tableDescriptorMap_ (to_upper tableName)

/-- The shard loop of `Catalog::getTableEpoch`: `i` is the loop index and
`curr_epoch` the `size_t` accumulator. -/
def getTableEpoch.loop (cat : Catalog) (dataMgr_ : DataMgr) (db_id : Int) :
    List Int → Nat → Int → Result Int
  | [], _, curr_epoch => .ok (toInt32 curr_epoch)
  | physical_tb_id :: rest, i, curr_epoch =>
    match cat.getMetadataForTable physical_tb_id with
    | none => .error .check_failed
    | some _ =>
      if i = 0 then
        getTableEpoch.loop cat dataMgr_ db_id rest (i + 1)
          (toSizeT (dataMgr_.getTableEpoch db_id physical_tb_id))
      else if curr_epoch ≠ toSizeT (dataMgr_.getTableEpoch db_id physical_tb_id) then
        .ok (-1)
      else
        getTableEpoch.loop cat dataMgr_ db_id rest (i + 1) curr_epoch

/-- `Catalog::getTableEpoch`: the table epoch, or -1 when the shards disagree. -/
def getTableEpoch (cat : Catalog) (dataMgr_ : DataMgr) (db_id table_id : Int) :
    Result Int :=
  match mapFind cat.logicalToPhysicalTableMapById_ table_id with
  | some physicalTables =>
    if physicalTables.isEmpty then .error .check_failed
    else getTableEpoch.loop cat dataMgr_ db_id physicalTables 0 0
  | none => .ok (dataMgr_.getTableEpoch db_id table_id)

/-- `Catalog::removeChunks`: the table descriptor is dereferenced, so the table
has to exist; the chunk buffers it drops are not part of the model. -/
def removeChunks (cat : Catalog) (table_id : Int) : Result Unit :=
  match cat.getMetadataForTable table_id with
  | none => .error .check_failed
  | some _ => .ok ()

/-- The shard loop of `Catalog::setTableEpoch`. -/
def setTableEpoch.loop (cat : Catalog) (db_id new_epoch : Int) :
    List Int → DataMgr → Result DataMgr
  | [], dataMgr_ => .ok dataMgr_
  | physical_tb_id :: rest, dataMgr_ =>
    match cat.getMetadataForTable physical_tb_id with
    | none => .error .check_failed
    | some _ =>
      match cat.removeChunks physical_tb_id with
      | .error e => .error e
      | .ok _ =>
        setTableEpoch.loop cat db_id new_epoch rest
          (dataMgr_.setTableEpoch db_id physical_tb_id new_epoch)

/-- `Catalog::setTableEpoch`: the epoch of the table and of each of its shards is set. -/
def setTableEpoch (cat : Catalog) (dataMgr_ : DataMgr) (db_id table_id new_epoch : Int) :
    Result DataMgr :=
  match cat.removeChunks table_id with
  | .error e => .error e
  | .ok _ =>
    let dataMgr_ := dataMgr_.setTableEpoch db_id table_id new_epoch
    match mapFind cat.logicalToPhysicalTableMapById_ table_id with
    | some physicalTables =>
      if physicalTables.isEmpty then .error .check_failed
      else setTableEpoch.loop cat db_id new_epoch physicalTables dataMgr_
    | none => .ok dataMgr_

end Catalog

/-! ## Privilege objects

`DBObject.h`, `Role.h` and `ObjectRoleDescriptor.h` are not among the sources.
The spec describes them in its data model: a `DBObjectKey` is (permission type,
database id, object id), a `DBObject` carries a privilege bitmask and an owner
id, a `GroupRole` holds a name and a map from keys to privileges, a `UserRole`
links a user to the group roles granted to them. -/

/-- The kinds of privilege-able entity (`DBObjectType`). -/
inductive DBObjectType where
  | AbstractDBObjectType
  | DatabaseDBObjectType
  | TableDBObjectType
  | DashboardDBObjectType
  | ViewDBObjectType
  deriving DecidableEq, Repr

/-- Modelled from the spec: `AccessPrivileges`, the privilege bitmask of an
object; the mask is the 64-bit pattern read as a natural number. -/
structure AccessPrivileges where
  privileges : Nat
  deriving DecidableEq, Repr

/-- The bitmask with every privilege set, the 64-bit pattern of -1. -/
def allPrivilegeBits : Nat := 2 ^ 64 - 1

/-- Modelled from the spec: `DatabasePrivileges::ALL`, every privilege. -/
def DatabasePrivileges.ALL : Nat := allPrivilegeBits

namespace AccessPrivileges

/-- Modelled from the spec: `hasAny()`, some privilege is set. -/
def hasAny (p : AccessPrivileges) : Bool := p.privileges != 0

/-- Modelled from the spec: `hasPermission(permission)`, every requested bit is set. -/
def hasPermission (p : AccessPrivileges) (permission : Nat) : Bool :=
  permission == (p.privileges &&& permission)

/-- Modelled from the spec: `add(newprivs)`, the union of the two masks. -/
def add (p newprivs : AccessPrivileges) : AccessPrivileges :=
  ⟨p.privileges ||| newprivs.privileges⟩

/-- Modelled from the spec: `remove(newprivs)`, the bits of `newprivs` are cleared. -/
def remove (p newprivs : AccessPrivileges) : AccessPrivileges :=
  ⟨p.privileges ^^^ (p.privileges &&& newprivs.privileges)⟩

/-- Modelled from the spec: the empty mask, as left by `reset()`. -/
def NONE : AccessPrivileges := ⟨0⟩

/-- Modelled from the spec: `AccessPrivileges::ALL_DATABASE`. -/
def ALL_DATABASE : AccessPrivileges := ⟨allPrivilegeBits⟩

/-- Modelled from the spec: `AccessPrivileges::ALL_TABLE`. -/
def ALL_TABLE : AccessPrivileges := ⟨allPrivilegeBits⟩

/-- Modelled from the spec: `AccessPrivileges::ALL_DASHBOARD`. -/
def ALL_DASHBOARD : AccessPrivileges := ⟨allPrivilegeBits⟩

/-- Modelled from the spec: `AccessPrivileges::ALL_VIEW`. -/
def ALL_VIEW : AccessPrivileges := ⟨allPrivilegeBits⟩

end AccessPrivileges

/-- The key of a privilege-able entity (`DBObjectKey`). -/
structure DBObjectKey where
  permissionType : DBObjectType
  dbId : Int
  objectId : Int
  deriving DecidableEq, Repr

/-- A privilege-able entity with its key, privileges and owner (`DBObject`). -/
structure DBObject where
  objectName_ : String
  objectType_ : DBObjectType
  objectKey_ : DBObjectKey
  objectPrivs_ : AccessPrivileges
  ownerId_ : Int
  deriving DecidableEq, Repr

namespace DBObject

/-- Modelled from the spec: the constructor `DBObject(name, type)`, before its
key is loaded. -/
def ofName (name : String) (type : DBObjectType) : DBObject :=
  { objectName_ := name, objectType_ := type,
    objectKey_ := { permissionType := type, dbId := -1, objectId := -1 },
    objectPrivs_ := AccessPrivileges.NONE, ownerId_ := 0 }

/-- Modelled from the spec: `DBObject::loadKey` is not among the sources.  A
`DBObject` of the model carries the key that `loadKey` resolves for it, so
loading it again changes nothing. -/
def loadKey (o : DBObject) (_catalog : Catalog) : DBObject := o

/-- Modelled from the spec: `DBObject(name, DatabaseDBObjectType)` with its key
loaded, for the database `db`. -/
def ofDatabase (db : DBMetadata) : DBObject :=
  { objectName_ := db.dbName, objectType_ := .DatabaseDBObjectType,
    objectKey_ := { permissionType := .DatabaseDBObjectType, dbId := db.dbId, objectId := -1 },
    objectPrivs_ := AccessPrivileges.NONE, ownerId_ := db.dbOwner }

/-- Modelled from the spec: `DBObject(name, type)` with its key loaded, for the
table or view `td` of the catalog. -/
def ofTable (catalog : Catalog) (td : TableDescriptor) (type : DBObjectType) : DBObject :=
  { objectName_ := td.tableName, objectType_ := type,
    objectKey_ := { permissionType := type, dbId := catalog.currentDB_.dbId,
                    objectId := td.tableId },
    objectPrivs_ := AccessPrivileges.NONE, ownerId_ := td.userId }

/-- The setter `setPrivileges`. -/
def setPrivileges (o : DBObject) (privs : AccessPrivileges) : DBObject :=
  { o with objectPrivs_ := privs }

/-- The setter `resetPrivileges`. -/
def resetPrivileges (o : DBObject) : DBObject :=
  { o with objectPrivs_ := AccessPrivileges.NONE }

/-- The setter `setPermissionType`, on the key. -/
def setPermissionType (o : DBObject) (t : DBObjectType) : DBObject :=
  { o with objectKey_ := { o.objectKey_ with permissionType := t } }

/-- The setter `setObjectKey`. -/
def setObjectKey (o : DBObject) (k : DBObjectKey) : DBObject :=
  { o with objectKey_ := k }

/-- The setter `setOwner`. -/
def setOwner (o : DBObject) (userId : Int) : DBObject :=
  { o with ownerId_ := userId }

/-- Modelled from the spec: `DBObject::grantPrivileges`, the privileges of
`object` are added. -/
def grantPrivileges (o object : DBObject) : DBObject :=
  { o with objectPrivs_ := o.objectPrivs_.add object.objectPrivs_ }

/-- Modelled from the spec: `DBObject::revokePrivileges`, the privileges of
`object` are removed. -/
def revokePrivileges (o object : DBObject) : DBObject :=
  { o with objectPrivs_ := o.objectPrivs_.remove object.objectPrivs_ }

/-- The test of both grant and revoke for "ALL on DATABASE". -/
def isAllOnDatabase (o : DBObject) : Bool :=
  o.objectPrivs_.hasPermission DatabasePrivileges.ALL &&
    o.objectKey_.permissionType == .DatabaseDBObjectType

end DBObject

/-- A named role with its map from object keys to privilege records (`GroupRole`). -/
structure Role where
  roleName_ : String
  userPrivateRole_ : Bool
  dbObjectMap_ : List (DBObjectKey × DBObject)
  deriving DecidableEq, Repr

namespace Role

/-- Modelled from the spec: the constructor `GroupRole(name, userPrivateRole)`. -/
def new (name : String) (userPrivateRole : Bool) : Role :=
  { roleName_ := name, userPrivateRole_ := userPrivateRole, dbObjectMap_ := [] }

/-- Modelled from the spec: `findDbObject`, the record held for a key. -/
def findDbObject (rl : Role) (key : DBObjectKey) : Option DBObject :=
  mapFind rl.dbObjectMap_ key

/-- Modelled from the spec: `grantPrivileges`, the record of the object's key
gains the privileges of `object`, or a copy of `object` becomes the record. -/
def grantPrivileges (rl : Role) (object : DBObject) : Role :=
  match rl.findDbObject object.objectKey_ with
  | some dbObject =>
    { rl with dbObjectMap_ :=
        mapAssign rl.dbObjectMap_ object.objectKey_ (dbObject.grantPrivileges object) }
  | none => { rl with dbObjectMap_ := mapAssign rl.dbObjectMap_ object.objectKey_ object }

/-- Modelled from the spec: `revokePrivileges`, the record of the object's key
loses the privileges of `object`; a record left without any privilege is erased
and nothing is returned, otherwise the record is returned. -/
def revokePrivileges (rl : Role) (object : DBObject) : Role × Option DBObject :=
  match rl.findDbObject object.objectKey_ with
  | some dbObject =>
    let dbObject := dbObject.revokePrivileges object
    if dbObject.objectPrivs_.hasAny then
      ({ rl with dbObjectMap_ := mapAssign rl.dbObjectMap_ object.objectKey_ dbObject },
        some dbObject)
    else
      ({ rl with dbObjectMap_ := mapErase rl.dbObjectMap_ object.objectKey_ }, Option.none)
  | none => (rl, Option.none)

/-- Modelled from the spec: `getPrivileges`, the privileges the role holds for
the object's key are added to `object`. -/
def getPrivileges (rl : Role) (object : DBObject) : DBObject :=
  match rl.findDbObject object.objectKey_ with
  | some dbObject => object.grantPrivileges dbObject
  | none => object

/-- The privileges the role holds for a key; none when it has no record. -/
def privilegesOn (rl : Role) (key : DBObjectKey) : AccessPrivileges :=
  match rl.findDbObject key with
  | some dbObject => dbObject.objectPrivs_
  | none => AccessPrivileges.NONE

/-- Modelled from the spec: `revokeAllOnDatabase`, every record of the database
is erased. -/
def revokeAllOnDatabase (rl : Role) (dbId : Int) : Role :=
  { rl with dbObjectMap_ := rl.dbObjectMap_.filter (fun e => !decide (e.1.dbId = dbId)) }

/-- Modelled from the spec: `checkPrivileges`, the role's record for the key of
the requested object holds every requested privilege. -/
def checkPrivileges (rl : Role) (objectRequested : DBObject) : Bool :=
  match rl.findDbObject objectRequested.objectKey_ with
  | some dbObject => dbObject.objectPrivs_.hasPermission objectRequested.objectPrivs_.privileges
  | none => false

end Role

/-- The link between a user and the group roles granted to them (`UserRole`);
the group roles are named by their key in the role map. -/
structure UserRole where
  userId_ : Int
  userName_ : String
  groupRole_ : List String
  dbObjectMap_ : List (DBObjectKey × DBObject)
  deriving DecidableEq, Repr

namespace UserRole

/-- Modelled from the spec: the constructor `UserRole(role, userId, userName)`,
starting from the records of the role it is built from. -/
def new (role : Role) (userId : Int) (userName : String) : UserRole :=
  { userId_ := userId, userName_ := userName, groupRole_ := [],
    dbObjectMap_ := role.dbObjectMap_ }

/-- Modelled from the spec: `findDbObject`, the record held for a key. -/
def findDbObject (rl : UserRole) (key : DBObjectKey) : Option DBObject :=
  mapFind rl.dbObjectMap_ key

/-- Modelled from the spec: `hasRole`, membership of a group role. -/
def hasRole (rl : UserRole) (role : Role) : Bool :=
  rl.groupRole_.contains (to_upper role.roleName_)

/-- Modelled from the spec: `grantPrivileges`, as for a group role. -/
def grantPrivileges (rl : UserRole) (object : DBObject) : UserRole :=
  match rl.findDbObject object.objectKey_ with
  | some dbObject =>
    { rl with dbObjectMap_ :=
        mapAssign rl.dbObjectMap_ object.objectKey_ (dbObject.grantPrivileges object) }
  | none => { rl with dbObjectMap_ := mapAssign rl.dbObjectMap_ object.objectKey_ object }

/-- Modelled from the spec: `grantRole`, the group role joins the membership
set and its records are granted to the user role. -/
def grantRole (rl : UserRole) (role : Role) : UserRole :=
  let rl := { rl with groupRole_ := rl.groupRole_ ++ [to_upper role.roleName_] }
  role.dbObjectMap_.foldl (fun acc e => acc.grantPrivileges e.2) rl

/-- Modelled from the spec: the part of the destructor of a group role that
removes the role from the membership set of a user role. -/
def dropRole (rl : UserRole) (role : Role) : UserRole :=
  { rl with groupRole_ := rl.groupRole_.filter (fun k => !decide (k = to_upper role.roleName_)) }

end UserRole

/-- The denormalized (role, object) privilege entry of the reverse lookup
(`ObjectRoleDescriptor`). -/
structure ObjectRoleDescriptor where
  roleName : String
  roleType : Bool
  objectType : DBObjectType
  dbId : Int
  objectId : Int
  privs : AccessPrivileges
  objectOwnerId : Int
  objectName : String
  deriving DecidableEq, Repr

/-- The key of the reverse-lookup map.  The source spells it as the string
`dbId:objectType:objectId`; the model keeps the three numbers. -/
abbrev ObjectDescriptorKey := Int × DBObjectType × Int

/-- The key under which a descriptor is inserted. -/
def ObjectRoleDescriptor.key (od : ObjectRoleDescriptor) : ObjectDescriptorKey :=
  (od.dbId, od.objectType, od.objectId)

/-! ## The persisted rows of the system catalog -/

/-- A row of `mapd_users`. -/
structure UserRow where
  userid : Int
  name : String
  passwd_hash : String
  issuper : Bool
  deriving DecidableEq, Repr

/-- A row of `mapd_object_permissions`. -/
structure ObjectPermissionRow where
  roleName : String
  roleType : Bool
  objectPermissionsType : DBObjectType
  dbId : Int
  objectId : Int
  objectPermissions : Nat
  objectOwnerId : Int
  objectName : String
  deriving DecidableEq, Repr

/-- A row of `mapd_privileges`. -/
structure PrivilegeRow where
  userid : Int
  dbid : Int
  select_priv : Bool
  insert_priv : Bool
  deriving DecidableEq, Repr

/-- The tables of the persistent store of the system catalog. -/
structure SysStore where
  mapd_users : List UserRow
  mapd_databases : List DBMetadata
  mapd_roles : List (String × String)
  mapd_object_permissions : List ObjectPermissionRow
  mapd_privileges : List PrivilegeRow
  deriving DecidableEq, Repr

/-- The free function `deleteObjectPrivileges`. -/
def deleteObjectPrivileges (sqliteConnector : SysStore) (roleName : String)
    (userRole : Bool) (object : DBObject) : SysStore :=
  let key := object.objectKey_
  { sqliteConnector with
    mapd_object_permissions := sqliteConnector.mapd_object_permissions.filter (fun row =>
      !(decide (row.roleName = roleName) && decide (row.roleType = userRole) &&
        decide (row.objectPermissionsType = key.permissionType) &&
        decide (row.dbId = key.dbId) && decide (row.objectId = key.objectId))) }

/-- The free function `insertOrUpdateObjectPrivileges`: `INSERT OR REPLACE`
under the uniqueness of (roleName, objectPermissionsType, dbId, objectId). -/
def insertOrUpdateObjectPrivileges (sqliteConnector : SysStore) (roleName : String)
    (userRole : Bool) (object : DBObject) : SysStore :=
  let key := object.objectKey_
  { sqliteConnector with
    mapd_object_permissions :=
      sqliteConnector.mapd_object_permissions.filter (fun row =>
        !(decide (row.roleName = roleName) &&
          decide (row.objectPermissionsType = key.permissionType) &&
          decide (row.dbId = key.dbId) && decide (row.objectId = key.objectId))) ++
      [{ roleName := roleName, roleType := userRole,
         objectPermissionsType := key.permissionType, dbId := key.dbId,
         objectId := key.objectId, objectPermissions := object.objectPrivs_.privileges,
         objectOwnerId := object.ownerId_, objectName := object.objectName_ }] }

/-! ## The system catalog -/

/-- The state of the `SysCatalog`, its persistent store and the process-wide
registry of catalog instances (`Catalog::mapd_cat_map_`). -/
structure SysCatalog where
  check_privileges_ : Bool
  currentDB_ : DBMetadata
  roleMap_ : List (String × Role)
  userRoleMap_ : List (Int × UserRole)
  objectDescriptorMap_ : List (ObjectDescriptorKey × ObjectRoleDescriptor)
  sqliteConnector_ : SysStore
  mapd_cat_map_ : List (String × Catalog)
  deriving DecidableEq, Repr

namespace SysCatalog

/-- The accessor `arePrivilegesOn`. -/
def arePrivilegesOn (s : SysCatalog) : Bool := s.check_privileges_

/-- `Catalog::get`: the registered instance of a database, by exact name. -/
def catalogGet (s : SysCatalog) (dbName : String) : Option Catalog :=
  mapFind s.mapd_cat_map_ dbName

/-- `Catalog::set`: registers an instance under the database name. -/
def catalogSet (s : SysCatalog) (dbName : String) (cat : Catalog) : SysCatalog :=
  { s with mapd_cat_map_ := mapAssign s.mapd_cat_map_ dbName cat }

/-- `SysCatalog::getMetadataForUser`: the first row of `mapd_users` with that name. -/
def getMetadataForUser (s : SysCatalog) (name : String) : Option UserMetadata :=
  match s.sqliteConnector_.mapd_users.find? (fun row => decide (row.name = name)) with
  | some row =>
    some { userId := row.userid, userName := row.name, passwd_hash := row.passwd_hash,
           isSuper := row.issuper, isReallySuper := row.issuper }
  | none => none

/-- `SysCatalog::getMetadataForDB`: the first row of `mapd_databases` with that name. -/
def getMetadataForDB (s : SysCatalog) (name : String) : Option DBMetadata :=
  s.sqliteConnector_.mapd_databases.find? (fun row => decide (row.dbName = name))

/-- `SysCatalog::getMetadataForRole`, by upper-cased name. -/
def getMetadataForRole (s : SysCatalog) (roleName : String) : Option Role :=
  mapFind s.roleMap_ (to_upper roleName)

/-- `SysCatalog::getMetadataForUserRole`. -/
def getMetadataForUserRole (s : SysCatalog) (userId : Int) : Option UserRole :=
  mapFind s.userRoleMap_ userId

/-- `SysCatalog::getMetadataForObject`: the descriptors stored under the key of
(dbId, dbType, objectId). -/
def getMetadataForObject (s : SysCatalog) (dbId : Int) (dbType : DBObjectType)
    (objectId : Int) : List ObjectRoleDescriptor :=
  (s.objectDescriptorMap_.filter
    (fun d => decide (d.1 = (dbId, dbType, objectId)))).map (fun d => d.2)

/-- `SysCatalog::checkPasswordForUser`; `bcrypt_checkpw` is the library call,
whose negative results fail the `CHECK`. -/
def checkPasswordForUser (bcrypt_checkpw : String → String → Int) (passwd : String)
    (user : UserMetadata) : Result Bool :=
  let pwd_check_result := bcrypt_checkpw passwd user.passwd_hash
  if pwd_check_result < 0 then .error .check_failed
  else if pwd_check_result ≠ 0 then .ok false
  else .ok true

/-- The legacy `SysCatalog::checkPrivileges(user, db, wants_privs)`. -/
def checkPrivileges (s : SysCatalog) (user : UserMetadata) (db : DBMetadata)
    (wants_privs : Privileges) : Bool :=
  if user.isSuper || decide (user.userId = db.dbOwner) then true
  else
    match s.sqliteConnector_.mapd_privileges.find?
        (fun row => decide (row.userid = user.userId) && decide (row.dbid = db.dbId)) with
    | none => false
    | some has_privs =>
      if wants_privs.select_ && !has_privs.select_priv then false
      else if wants_privs.insert_ && !has_privs.insert_priv then false
      else true

/-- `SysCatalog::login`.  The result is the catalog instance and the user;
`mkCatalog` stands for the constructor of a `Catalog`, which builds its maps
from the persistent store of the database. -/
def login (bcrypt_checkpw : String → String → Int) (mkCatalog : DBMetadata → Catalog)
    (s : SysCatalog) (dbname username password : String) (check_password : Bool) :
    Result (Catalog × UserMetadata) × SysCatalog :=
  match s.getMetadataForDB dbname with
  | none => (.error (.runtime_error ("Database " ++ dbname ++ " does not exist.")), s)
  | some db_meta =>
    match s.getMetadataForUser username with
    | none => (.error (.runtime_error "Invalid credentials."), s)
    | some user_meta =>
      match (if check_password then checkPasswordForUser bcrypt_checkpw password user_meta
             else .ok true) with
      | .error e => (.error e, s)
      | .ok false => (.error (.runtime_error "Invalid credentials."), s)
      | .ok true =>
        if !s.arePrivilegesOn &&
            !s.checkPrivileges user_meta db_meta
              { super_ := false, select_ := false, insert_ := true } then
          (.error (.runtime_error "Invalid credentials."), s)
        else
          match s.catalogGet dbname with
          | some cat => (.ok (cat, user_meta), s)
          | none =>
            let cat := mkCatalog db_meta
            (.ok (cat, user_meta), s.catalogSet dbname cat)

/-- The private helper `execInTransaction`: a raised error rolls the persistent
store back to its state at `BEGIN TRANSACTION` and is raised again. -/
def execInTransaction {α : Type} (f : SysCatalog → Result α × SysCatalog)
    (s : SysCatalog) : Result α × SysCatalog :=
  match f s with
  | (.error (.runtime_error msg), s') =>
    (.error (.runtime_error msg), { s' with sqliteConnector_ := s.sqliteConnector_ })
  | (.error .check_failed, s') => (.error .check_failed, s')
  | (.ok a, s') => (.ok a, s')

/-- The invariant of the reverse-lookup map: every descriptor is stored under
the key its fields spell, as both insertions of the source do. -/
def DescriptorMapWF (s : SysCatalog) : Prop :=
  ∀ e ∈ s.objectDescriptorMap_, e.1 = e.2.key

/-- The body of the loop of `updateObjectDescriptorMap`: a descriptor of the
role within the range of the key has its privileges overwritten. -/
def overwritePrivileges (range : ObjectDescriptorKey) (roleName : String)
    (privs : AccessPrivileges) (d : ObjectDescriptorKey × ObjectRoleDescriptor) :
    ObjectDescriptorKey × ObjectRoleDescriptor :=
  if d.1 = range ∧ d.2.roleName = roleName then (d.1, { d.2 with privs := privs }) else d

/-- `SysCatalog::updateObjectDescriptorMap`: the privileges of the role's
descriptors under the object's key are overwritten, or a descriptor is added. -/
def updateObjectDescriptorMap (s : SysCatalog) (roleName : String) (object : DBObject)
    (roleType : Bool) (cat : Catalog) : SysCatalog :=
  let privs := object.objectPrivs_
  let range : ObjectDescriptorKey :=
    (cat.currentDB_.dbId, object.objectKey_.permissionType, object.objectKey_.objectId)
  let present := s.objectDescriptorMap_.any
    (fun d => decide (d.1 = range) && decide (d.2.roleName = roleName))
  let updated := s.objectDescriptorMap_.map (overwritePrivileges range roleName privs)
  if present then { s with objectDescriptorMap_ := updated }
  else
    let od : ObjectRoleDescriptor :=
      { roleName := roleName, roleType := roleType,
        objectType := object.objectKey_.permissionType, dbId := object.objectKey_.dbId,
        objectId := object.objectKey_.objectId, privs := object.objectPrivs_,
        objectOwnerId := object.ownerId_, objectName := object.objectName_ }
    { s with objectDescriptorMap_ := updated ++ [(od.key, od)] }

/-- `SysCatalog::deleteObjectDescriptorMap(roleName)`: every descriptor of the
role is removed. -/
def deleteObjectDescriptorMapOfRole (s : SysCatalog) (roleName : String) : SysCatalog :=
  let kept := s.objectDescriptorMap_.filter (fun d => !decide (d.2.roleName = roleName))
  { s with objectDescriptorMap_ := kept }

/-- `SysCatalog::deleteObjectDescriptorMap(roleName, object, cat)`: the role's
descriptors under the object's key are removed. -/
def deleteObjectDescriptorMap (s : SysCatalog) (roleName : String) (object : DBObject)
    (cat : Catalog) : SysCatalog :=
  let range : ObjectDescriptorKey :=
    (cat.currentDB_.dbId, object.objectKey_.permissionType, object.objectKey_.objectId)
  let kept := s.objectDescriptorMap_.filter
    (fun d => !(decide (d.1 = range) && decide (d.2.roleName = roleName)))
  { s with objectDescriptorMap_ := kept }

/-- `SysCatalog::grantAllOnDatabase_unsafe`: ALL on DATABASE becomes ALL on
TABLE, ALL on VIEW and ALL on DASHBOARD, each granted through `grant`, which
stands for `grantDBObjectPrivileges_unsafe`. -/
def grantAllOnDatabase_unsafe
    (grant : SysCatalog → String → DBObject → Catalog → Result DBObject × SysCatalog)
    (s : SysCatalog) (roleName : String) (object : DBObject) (catalog : Catalog) :
    Result Unit × SysCatalog :=
  let tmp_object := object
  let tmp_object := tmp_object.setPrivileges AccessPrivileges.ALL_TABLE
  let tmp_object := tmp_object.setPermissionType .TableDBObjectType
  match grant s roleName tmp_object catalog with
  | (.error e, s) => (.error e, s)
  | (.ok tmp_object, s) =>
    let tmp_object := tmp_object.setPrivileges AccessPrivileges.ALL_VIEW
    let tmp_object := tmp_object.setPermissionType .ViewDBObjectType
    match grant s roleName tmp_object catalog with
    | (.error e, s) => (.error e, s)
    | (.ok tmp_object, s) =>
      let tmp_object := tmp_object.setPrivileges AccessPrivileges.ALL_DASHBOARD
      let tmp_object := tmp_object.setPermissionType .DashboardDBObjectType
      match grant s roleName tmp_object catalog with
      | (.error e, s) => (.error e, s)
      | (.ok _, s) => (.ok (), s)

/-- The body of `SysCatalog::grantDBObjectPrivileges_unsafe`.  The function and
`grantAllOnDatabase_unsafe` call each other; `depth` bounds the nesting of
these calls, which the source never takes beyond two. -/
def grantDBObjectPrivileges_unsafe.go :
    Nat → SysCatalog → String → DBObject → Catalog → Result DBObject × SysCatalog
  | 0, s, _, _, _ => (.error .check_failed, s)
  | depth + 1, s, roleName, object, catalog =>
    let object := object.loadKey catalog
    if object.isAllOnDatabase then
      match grantAllOnDatabase_unsafe ( grantDBObjectPrivileges_unsafe.go depth)
          s roleName object catalog with
      | (.error e, s) => (.error e, s)
      | (.ok _, s) => (.ok object, s)
    else if roleName = MAPD_ROOT_USER then
      (.error (.runtime_error ("Request to grant privileges to " ++ roleName ++
        " failed because mapd root user has all privileges by default.")), s)
    else
      match s.getMetadataForRole roleName with
      | none =>
        (.error (.runtime_error ("Request to grant privileges to " ++ roleName ++
          " failed because role or user with this name does not exist.")), s)
      | some rl =>
        let rl := rl.grantPrivileges object
        let s := { s with roleMap_ := mapAssign s.roleMap_ (to_upper roleName) rl }
        let object := object.resetPrivileges
        let object := rl.getPrivileges object
        let store := insertOrUpdateObjectPrivileges s.sqliteConnector_ roleName
          rl.userPrivateRole_ object
        let s := { s with sqliteConnector_ := store }
        (.ok object, s.updateObjectDescriptorMap roleName object rl.userPrivateRole_ catalog)

/-- `SysCatalog::grantDBObjectPrivileges_unsafe`; the object is returned as the
call leaves it. -/
def grantDBObjectPrivileges_unsafe (s : SysCatalog) (roleName : String) (object : DBObject)
    (catalog : Catalog) : Result DBObject × SysCatalog :=
  grantDBObjectPrivileges_unsafe.go 2 s roleName object catalog

/-- `SysCatalog::revokeAllOnDatabase_unsafe`: the persisted rows, the records
and the descriptors of the role in the database are removed. -/
def revokeAllOnDatabase_unsafe (s : SysCatalog) (roleName : String) (dbId : Int)
    (rl : Role) : SysCatalog :=
  let rows := s.sqliteConnector_.mapd_object_permissions.filter
    (fun row => !(decide (row.roleName = roleName) && decide (row.dbId = dbId)))
  let store := { s.sqliteConnector_ with mapd_object_permissions := rows }
  let kept := s.objectDescriptorMap_.filter
    (fun d => !(decide (d.2.roleName = roleName) && decide (d.2.dbId = dbId)))
  { s with
    sqliteConnector_ := store
    roleMap_ := mapAssign s.roleMap_ (to_upper roleName) (rl.revokeAllOnDatabase dbId)
    objectDescriptorMap_ := kept }

/-- `SysCatalog::revokeDBObjectPrivileges_unsafe`. -/
def revokeDBObjectPrivileges_unsafe (s : SysCatalog) (roleName : String) (object : DBObject)
    (catalog : Catalog) : Result Unit × SysCatalog :=
  if roleName = MAPD_ROOT_USER then
    (.error (.runtime_error ("Request to revoke privileges from " ++ roleName ++
      " failed because privileges can not be revoked from mapd root user.")), s)
  else
    match s.getMetadataForRole roleName with
    | none =>
      (.error (.runtime_error ("Request to revoke privileges from " ++ roleName ++
        " failed because role or user with this name does not exist.")), s)
    | some rl =>
      let object := object.loadKey catalog
      if object.isAllOnDatabase then
        (.ok (), revokeAllOnDatabase_unsafe s roleName object.objectKey_.dbId rl)
      else
        let (rl', ret_object) := rl.revokePrivileges object
        let s := { s with roleMap_ := mapAssign s.roleMap_ (to_upper roleName) rl' }
        match ret_object with
        | some ret_object =>
          let store := insertOrUpdateObjectPrivileges s.sqliteConnector_ roleName
            rl'.userPrivateRole_ ret_object
          let s := { s with sqliteConnector_ := store }
          (.ok (), s.updateObjectDescriptorMap roleName ret_object rl'.userPrivateRole_ catalog)
        | none =>
          let store := deleteObjectPrivileges s.sqliteConnector_ roleName
            rl'.userPrivateRole_ object
          let s := { s with sqliteConnector_ := store }
          (.ok (), s.deleteObjectDescriptorMap roleName object catalog)

/-- `SysCatalog::getRoles(userPrivateRole, isSuper, userId)` for a superuser:
the names of the roles of the role map, private roles included on request. -/
def getRoles (s : SysCatalog) (userPrivateRole : Bool) : List String :=
  (s.roleMap_.filter (fun e => userPrivateRole || !e.2.userPrivateRole_)).map
    (fun e => e.2.roleName_)

/-- The loop of `SysCatalog::revokeDBObjectPrivilegesFromAllRoles_unsafe`. -/
def revokeDBObjectPrivilegesFromAllRoles_unsafe.loop (dbObject : DBObject)
    (catalog : Catalog) : List String → SysCatalog → Result Unit × SysCatalog
  | [], s => (.ok (), s)
  | role :: roles, s =>
    match s.getMetadataForRole role with
    | none => (.error .check_failed, s)
    | some rl =>
      if (rl.findDbObject dbObject.objectKey_).isSome then
        match revokeDBObjectPrivileges_unsafe s role dbObject catalog with
        | (.error e, s) => (.error e, s)
        | (.ok _, s) =>
          revokeDBObjectPrivilegesFromAllRoles_unsafe.loop dbObject catalog roles s
      else revokeDBObjectPrivilegesFromAllRoles_unsafe.loop dbObject catalog roles s

/-- `SysCatalog::revokeDBObjectPrivilegesFromAllRoles_unsafe`. -/
def revokeDBObjectPrivilegesFromAllRoles_unsafe (s : SysCatalog) (dbObject : DBObject)
    (catalog : Catalog) : Result Unit × SysCatalog :=
  let dbObject := dbObject.loadKey catalog
  let privs :=
    if dbObject.objectKey_.permissionType = .TableDBObjectType then AccessPrivileges.ALL_TABLE
    else if dbObject.objectKey_.permissionType = .DashboardDBObjectType then
      AccessPrivileges.ALL_DASHBOARD
    else AccessPrivileges.ALL_TABLE
  let dbObject := dbObject.setPrivileges privs
  revokeDBObjectPrivilegesFromAllRoles_unsafe.loop dbObject catalog (s.getRoles true) s

/-- `SysCatalog::verifyDBObjectOwnership`. -/
def verifyDBObjectOwnership (s : SysCatalog) (user : UserMetadata) (object : DBObject)
    (catalog : Catalog) : Bool :=
  match s.getMetadataForUserRole user.userId with
  | some rl =>
    let object := object.loadKey catalog
    match rl.findDbObject object.objectKey_ with
    | some found_object => decide (found_object.ownerId_ = user.userId)
    | none => false
  | none => false

/-- `SysCatalog::createRole_unsafe`. -/
def createRole_unsafe (s : SysCatalog) (roleName : String) (userPrivateRole : Bool) :
    Result Unit × SysCatalog :=
  if !userPrivateRole && (s.getMetadataForUser roleName).isSome then
    (.error (.runtime_error ("Role name " ++ roleName ++
      " is same as one of user names. Role and user names should be unique.")), s)
  else if (s.getMetadataForRole roleName).isSome then
    (.error (.runtime_error ("CREATE ROLE " ++ roleName ++
      " failed because role with this name already exists.")), s)
  else
    let rl := Role.new roleName userPrivateRole
    let s := { s with roleMap_ := mapAssign s.roleMap_ (to_upper roleName) rl }
    let dbObject := DBObject.ofName s.currentDB_.dbName .DatabaseDBObjectType
    match s.catalogGet s.currentDB_.dbName with
    | none => (.error .check_failed, s)
    | some _ =>
      let objKey : DBObjectKey :=
        { permissionType := .DatabaseDBObjectType, dbId := 0, objectId := -1 }
      let dbObject := dbObject.setObjectKey objKey
      let rl := rl.grantPrivileges dbObject
      let s := { s with roleMap_ := mapAssign s.roleMap_ (to_upper roleName) rl }
      let store := insertOrUpdateObjectPrivileges s.sqliteConnector_ roleName
        userPrivateRole dbObject
      (.ok (), { s with sqliteConnector_ := store })

/-- `SysCatalog::createRole`. -/
def createRole (s : SysCatalog) (roleName : String) (userPrivateRole : Bool) :
    Result Unit × SysCatalog :=
  execInTransaction (fun s => createRole_unsafe s roleName userPrivateRole) s

/-- `SysCatalog::dropRole_unsafe`.  Destroying the role removes it from the
membership set of every user role (modelled from the spec: the destructor of
`GroupRole` is not among the sources). -/
def dropRole_unsafe (s : SysCatalog) (roleName : String) : Result Unit × SysCatalog :=
  match s.getMetadataForRole roleName with
  | none => (.error .check_failed, s)
  | some rl =>
    let s := { s with
      userRoleMap_ := s.userRoleMap_.map (fun (e : Int × UserRole) => (e.1, e.2.dropRole rl))
      roleMap_ := mapErase s.roleMap_ (to_upper roleName) }
    let roles := s.sqliteConnector_.mapd_roles.filter (fun row => !decide (row.1 = roleName))
    let rows := s.sqliteConnector_.mapd_object_permissions.filter
      (fun row => !decide (row.roleName = roleName))
    let store := { s.sqliteConnector_ with
      mapd_roles := roles
      mapd_object_permissions := rows }
    (.ok (), { s with sqliteConnector_ := store })

/-- `SysCatalog::dropRole`. -/
def dropRole (s : SysCatalog) (roleName : String) : Result Unit × SysCatalog :=
  execInTransaction (fun s => dropRole_unsafe s roleName) s

/-- `SysCatalog::grantRole_unsafe`. -/
def grantRole_unsafe (s : SysCatalog) (roleName userName : String) :
    Result Unit × SysCatalog :=
  match s.getMetadataForRole roleName with
  | none =>
    (.error (.runtime_error ("Request to grant role " ++ roleName ++
      " failed because role with this name does not exist.")), s)
  | some rl =>
    match s.getMetadataForUser userName with
    | none =>
      (.error (.runtime_error ("Request to grant role to user " ++ userName ++
        " failed because user with this name does not exist.")), s)
    | some user =>
      let (user_rl, s) :=
        match s.getMetadataForUserRole user.userId with
        | some user_rl => (user_rl, s)
        | none =>
          let user_rl := UserRole.new rl user.userId userName
          (user_rl, { s with userRoleMap_ := mapAssign s.userRoleMap_ user.userId user_rl })
      if !user_rl.hasRole rl then
        let user_rl := user_rl.grantRole rl
        let s := { s with userRoleMap_ := mapAssign s.userRoleMap_ user.userId user_rl }
        if s.sqliteConnector_.mapd_roles.contains (roleName, userName) then
          (.error (.runtime_error
            "UNIQUE constraint failed: mapd_roles.roleName, mapd_roles.userName"), s)
        else
          (.ok (), { s with sqliteConnector_ := { s.sqliteConnector_ with
            mapd_roles := s.sqliteConnector_.mapd_roles ++ [(roleName, userName)] } })
      else (.ok (), s)

/-- `SysCatalog::grantDefaultPrivilegesToRole_unsafe`. -/
def grantDefaultPrivilegesToRole_unsafe (s : SysCatalog) (name : String) (_issuper : Bool) :
    Result Unit × SysCatalog :=
  match s.catalogGet s.currentDB_.dbName with
  | none => (.error .check_failed, s)
  | some catalog =>
    let dbObject := (DBObject.ofDatabase s.currentDB_).loadKey catalog
    match grantDBObjectPrivileges_unsafe s name dbObject catalog with
    | (.error e, s) => (.error e, s)
    | (.ok _, s) => (.ok (), s)

/-- The row id that the persistent store gives a new row of `mapd_users`. -/
def nextUserId (rows : List UserRow) : Int :=
  rows.foldl (fun acc row => max acc row.userid) 0 + 1

/-- `SysCatalog::createUser`; `hash_with_bcrypt` is the library hash. -/
def createUser (hash_with_bcrypt : String → String) (s : SysCatalog) (name passwd : String)
    (issuper : Bool) : Result Unit × SysCatalog :=
  if (s.getMetadataForUser name).isSome then
    (.error (.runtime_error ("User " ++ name ++ " already exists.")), s)
  else if s.arePrivilegesOn && (s.getMetadataForRole name).isSome then
    (.error (.runtime_error ("User name " ++ name ++
      " is same as one of role names. User and role names should be unique.")), s)
  else
    execInTransaction (fun s =>
      let row : UserRow :=
        { userid := nextUserId s.sqliteConnector_.mapd_users, name := name,
          passwd_hash := hash_with_bcrypt passwd, issuper := issuper }
      let s := { s with sqliteConnector_ := { s.sqliteConnector_ with
        mapd_users := s.sqliteConnector_.mapd_users ++ [row] } }
      if s.arePrivilegesOn then
        match createRole_unsafe s name true with
        | (.error e, s) => (.error e, s)
        | (.ok _, s) =>
          match grantDefaultPrivilegesToRole_unsafe s name issuper with
          | (.error e, s) => (.error e, s)
          | (.ok _, s) => grantRole_unsafe s name name
      else (.ok (), s)) s

/-- `SysCatalog::grantDBObjectPrivileges`. -/
def grantDBObjectPrivileges (s : SysCatalog) (roleName : String) (object : DBObject)
    (catalog : Catalog) : Result DBObject × SysCatalog :=
  execInTransaction (fun s => grantDBObjectPrivileges_unsafe s roleName object catalog) s

/-- `SysCatalog::revokeDBObjectPrivileges`. -/
def revokeDBObjectPrivileges (s : SysCatalog) (roleName : String) (object : DBObject)
    (catalog : Catalog) : Result Unit × SysCatalog :=
  execInTransaction (fun s => revokeDBObjectPrivileges_unsafe s roleName object catalog) s

end SysCatalog

/-! ## Creating and dropping tables -/

/-- The global `g_test_against_columnId_gap`: its initial value, which only the
column-id sanity test changes. -/
def g_test_against_columnId_gap : Int := 0

/-- The message of the persistent store for a violated uniqueness constraint. -/
def uniqueConstraintFailed (what : String) : Failure :=
  .runtime_error ("UNIQUE constraint failed: " ++ what)

namespace CatalogStore

/-- The row id the store gives a new row of `mapd_tables` (`tableid integer
primary key`): 1 for an empty table, else one more than the largest id. -/
def nextTableId (st : CatalogStore) : Int :=
  match st.mapd_tables with
  | [] => 1
  | row :: rows => rows.foldl (fun acc r => max acc r.tableid) row.tableid + 1

/-- The row id the store gives a new row of `mapd_dictionaries`. -/
def nextDictId (st : CatalogStore) : Int :=
  match st.mapd_dictionaries with
  | [] => 1
  | row :: rows => rows.foldl (fun acc r => max acc r.dictid) row.dictid + 1

/-- `INSERT INTO mapd_tables`, with `name text unique`. -/
def insertTable (st : CatalogStore) (td : TableDescriptor) : Result CatalogStore :=
  if st.mapd_tables.any (fun row => decide (row.name = td.tableName)) then
    .error (uniqueConstraintFailed "mapd_tables.name")
  else
    let row : TableRow :=
      { tableid := st.nextTableId, name := td.tableName, userid := td.userId,
        ncolumns := td.nColumns, isview := td.isView, shard_column_id := td.shardedColumnId,
        shard := td.shard, num_shards := td.nShards }
    .ok { st with mapd_tables := st.mapd_tables ++ [row] }

/-- `SELECT tableid FROM mapd_tables WHERE name = ?`. -/
def selectTableId (st : CatalogStore) (name : String) : Option Int :=
  (st.mapd_tables.find? (fun row => decide (row.name = name))).map (fun row => row.tableid)

/-- `INSERT INTO mapd_columns`, with `primary key(tableid, columnid)` and
`unique(tableid, name)`. -/
def insertColumn (st : CatalogStore) (tableId colId : Int) (cd : ColumnDescriptor) :
    Result CatalogStore :=
  if st.mapd_columns.any
      (fun row => decide (row.tableid = tableId) && decide (row.columnid = colId)) then
    .error (uniqueConstraintFailed "mapd_columns.tableid, mapd_columns.columnid")
  else if st.mapd_columns.any
      (fun row => decide (row.tableid = tableId) && decide (row.name = cd.columnName)) then
    .error (uniqueConstraintFailed "mapd_columns.tableid, mapd_columns.name")
  else
    let row : ColumnRow :=
      { tableid := tableId, columnid := colId, name := cd.columnName,
        compression := cd.columnType.compression, comp_param := cd.columnType.comp_param }
    .ok { st with mapd_columns := st.mapd_columns ++ [row] }

/-- `UPDATE mapd_dictionaries SET refcount = refcount + delta WHERE dictid = ?`. -/
def addRefcount (st : CatalogStore) (dict_id delta : Int) : CatalogStore :=
  let rows := st.mapd_dictionaries.map (fun row =>
    if row.dictid = dict_id then { row with refcount := row.refcount + delta } else row)
  { st with mapd_dictionaries := rows }

/-- The ids `select comp_param from mapd_columns where compression = ? and
tableid = ?`, for the dictionary encoding. -/
def dictParamsOfTable (st : CatalogStore) (tableId : Int) : List Int :=
  (st.mapd_columns.filter (fun row =>
    decide (row.compression = .kENCODING_DICT) && decide (row.tableid = tableId))).map
    (fun row => row.comp_param)

end CatalogStore

namespace Catalog

/-- The lookup `Catalog::getMetadataForColumn(int tableId, const string& colName)`. -/
def getMetadataForColumn (cat : Catalog) (tableId : Int) (columnName : String) :
    Option ColumnDescriptor :=
  mapFind cat.columnDescriptorMap_ (tableId, to_upper columnName)

/-- The lookup `Catalog::getMetadataForDict`, without loading the dictionary. -/
def getMetadataForDict (cat : Catalog) (dictId : Int) : Option DictDescriptor :=
  mapFind cat.dictDescriptorMapByRef_ ⟨cat.currentDB_.dbId, dictId⟩

/-- A physical column of a geometry column: `ColumnDescriptor(true)` with its
name and type set. -/
def physicalColumn (name : String) (ti : SQLTypeInfo) : ColumnDescriptor :=
  { ColumnDescriptor.new true with columnName := name, columnType := ti }

/-- The type `SQLTypeInfo(kARRAY, true)` with its subtype set. -/
def arrayOf (subtype : SQLTypes) : SQLTypeInfo :=
  { SQLTypeInfo.ofType .kARRAY true with subtype := subtype }

/-- `Catalog::expandGeoColumn`: the physical columns of a geometry column are
appended to `columns`. -/
def expandGeoColumn (cd : ColumnDescriptor) (columns : List ColumnDescriptor) :
    Result (List ColumnDescriptor) :=
  let col_ti := cd.columnType
  if IS_GEO col_ti.type then
    match col_ti.type with
    | .kPOINT =>
      if col_ti.compression = .kENCODING_GEOINT ∧ col_ti.comp_param = 32 then
        .ok (columns ++
          [physicalColumn (cd.columnName ++ "_coords") { arrayOf .kTINYINT with size := 2 * 4 }])
      else if col_ti.compression = .kENCODING_NONE then
        .ok (columns ++
          [physicalColumn (cd.columnName ++ "_coords") { arrayOf .kTINYINT with size := 2 * 8 }])
      else .error .check_failed
    | .kLINESTRING =>
      .ok (columns ++
        [physicalColumn (cd.columnName ++ "_coords") (arrayOf .kTINYINT),
         physicalColumn (cd.columnName ++ "_bounds") { arrayOf .kDOUBLE with size := 4 * 8 }])
    | .kPOLYGON =>
      .ok (columns ++
        [physicalColumn (cd.columnName ++ "_coords") (arrayOf .kTINYINT),
         physicalColumn (cd.columnName ++ "_ring_sizes") (arrayOf .kINT),
         physicalColumn (cd.columnName ++ "_bounds") { arrayOf .kDOUBLE with size := 4 * 8 },
         physicalColumn (cd.columnName ++ "_render_group") (SQLTypeInfo.ofType .kINT true)])
    | .kMULTIPOLYGON =>
      .ok (columns ++
        [physicalColumn (cd.columnName ++ "_coords") (arrayOf .kTINYINT),
         physicalColumn (cd.columnName ++ "_ring_sizes") (arrayOf .kINT),
         physicalColumn (cd.columnName ++ "_poly_rings") (arrayOf .kINT),
         physicalColumn (cd.columnName ++ "_bounds") { arrayOf .kDOUBLE with size := 4 * 8 },
         physicalColumn (cd.columnName ++ "_render_group") (SQLTypeInfo.ofType .kINT true)])
    | _ => .error (.runtime_error "Unrecognized geometry type.")
  else .ok columns

/-- `Catalog::setDeletedColumnUnlocked`: the emplace has to succeed. -/
def setDeletedColumnUnlocked (cat : Catalog) (td : TableDescriptor) (cd : ColumnDescriptor) :
    Result Catalog :=
  match mapFind cat.deletedColumnPerTable_ td.tableId with
  | some _ => .error .check_failed
  | none =>
    let deleted := cat.deletedColumnPerTable_ ++ [(td.tableId, cd)]
    .ok { cat with deletedColumnPerTable_ := deleted }

/-- The column loop of `Catalog::addTableToMap`. -/
def addTableToMap.columns (new_td : TableDescriptor) :
    List ColumnDescriptor → Catalog → Result Catalog
  | [], cat => .ok cat
  | cd :: rest, cat =>
    let byName := mapAssign cat.columnDescriptorMap_ (cd.tableId, to_upper cd.columnName) cd
    let byId := mapAssign cat.columnDescriptorMapById_ (cd.tableId, cd.columnId) cd
    let cat := { cat with columnDescriptorMap_ := byName, columnDescriptorMapById_ := byId }
    if cd.isDeletedCol then
      if new_td.hasDeletedCol then
        match cat.setDeletedColumnUnlocked new_td cd with
        | .error e => .error e
        | .ok cat => addTableToMap.columns new_td rest cat
      else .error .check_failed
    else addTableToMap.columns new_td rest cat

/-- The dictionary loop of `Catalog::addTableToMap`: the dummy entries, with
id zero, are skipped. -/
def addTableToMap.dicts : List DictDescriptor → Catalog → Catalog
  | [], cat => cat
  | dd :: rest, cat =>
    if dd.dictRef.dictId = 0 then addTableToMap.dicts rest cat
    else
      let dicts :=
        mapAssign cat.dictDescriptorMapByRef_ ⟨cat.currentDB_.dbId, dd.dictRef.dictId⟩ dd
      addTableToMap.dicts rest { cat with dictDescriptorMapByRef_ := dicts }

/-- `Catalog::addTableToMap`. -/
def addTableToMap (cat : Catalog) (td : TableDescriptor) (columns : List ColumnDescriptor)
    (dicts : List DictDescriptor) : Result Catalog :=
  let sorted := td.columnIdBySpi_.insertionSort (· ≤ ·)
  let new_td := { td with columnIdBySpi_ := sorted }
  let byName := mapAssign cat.tableDescriptorMap_ (to_upper td.tableName) new_td
  let byId := mapAssign cat.tableDescriptorMapById_ td.tableId new_td
  let cat := { cat with tableDescriptorMap_ := byName, tableDescriptorMapById_ := byId }
  match addTableToMap.columns new_td columns cat with
  | .error e => .error e
  | .ok cat => .ok (addTableToMap.dicts dicts cat)

/-- The column loop of `Catalog::removeTableFromMap`, over the entries of the
by-id column map: the descriptors of the table are erased and the dictionary
of each dictionary-encoded column loses a reference, and is unregistered at 0. -/
def removeTableFromMap.columns (tableId : Int) :
    List ((Int × Int) × ColumnDescriptor) → Catalog → Result Catalog
  | [], cat => .ok cat
  | (key, cd) :: rest, cat =>
    if tableId ≠ key.1 then removeTableFromMap.columns tableId rest cat
    else
      let byId := mapErase cat.columnDescriptorMapById_ (tableId, key.2)
      let byName := mapErase cat.columnDescriptorMap_ (tableId, to_upper cd.columnName)
      let cat := { cat with columnDescriptorMapById_ := byId, columnDescriptorMap_ := byName }
      let dictId := cd.columnType.comp_param
      if cd.columnType.compression = .kENCODING_DICT ∧ dictId ≠ 0 then
        match mapFind cat.dictDescriptorMapByRef_ ⟨cat.currentDB_.dbId, dictId⟩ with
        | none => .error .check_failed
        | some dd =>
          if dd.refcount < 1 then .error .check_failed
          else
            let dd := { dd with refcount := dd.refcount - 1 }
            let dicts :=
              if dd.refcount = 0 then
                mapErase cat.dictDescriptorMapByRef_ ⟨cat.currentDB_.dbId, dictId⟩
              else mapAssign cat.dictDescriptorMapByRef_ ⟨cat.currentDB_.dbId, dictId⟩ dd
            removeTableFromMap.columns tableId rest { cat with dictDescriptorMapByRef_ := dicts }
      else removeTableFromMap.columns tableId rest cat

/-- `Catalog::removeTableFromMap`. -/
def removeTableFromMap (cat : Catalog) (tableName : String) (tableId : Int) :
    Result Unit × Catalog :=
  match mapFind cat.tableDescriptorMapById_ tableId with
  | none => (.error (.runtime_error ("Table " ++ tableName ++ " does not exist.")), cat)
  | some td =>
    let erased : Result Catalog :=
      if td.hasDeletedCol then
        match mapFind cat.deletedColumnPerTable_ td.tableId with
        | none => .error .check_failed
        | some _ =>
          let deleted := mapErase cat.deletedColumnPerTable_ td.tableId
          .ok { cat with deletedColumnPerTable_ := deleted }
      else .ok cat
    match erased with
    | .error e => (.error e, cat)
    | .ok cat =>
      let byId := mapErase cat.tableDescriptorMapById_ tableId
      let byName := mapErase cat.tableDescriptorMap_ (to_upper tableName)
      let cat := { cat with tableDescriptorMapById_ := byId, tableDescriptorMap_ := byName }
      match removeTableFromMap.columns tableId cat.columnDescriptorMapById_ cat with
      | .error e => (.error e, cat)
      | .ok cat => (.ok (), cat)

/-- `Catalog::addReferenceToForeignDict`: the referencing column takes the type
of the foreign column and the dictionary of that column gains a reference. -/
def addReferenceToForeignDict (cat : Catalog) (referencing_column : ColumnDescriptor)
    (shared_dict_def : SharedDictionaryDef) : Result ColumnDescriptor × Catalog :=
  match cat.getMetadataForTableByName shared_dict_def.foreign_table with
  | none => (.error .check_failed, cat)
  | some td =>
    match cat.getMetadataForColumn td.tableId shared_dict_def.foreign_column with
    | none => (.error .check_failed, cat)
    | some foreign_ref_col =>
      let referencing_column : ColumnDescriptor :=
        { referencing_column with columnType := foreign_ref_col.columnType }
      let dict_id := referencing_column.columnType.comp_param
      match mapFind cat.dictDescriptorMapByRef_ ⟨cat.currentDB_.dbId, dict_id⟩ with
      | none => (.error .check_failed, cat)
      | some dd =>
        if dd.refcount < 1 then (.error .check_failed, cat)
        else
          let dd : DictDescriptor := { dd with refcount := dd.refcount + 1 }
          let dicts := mapAssign cat.dictDescriptorMapByRef_ ⟨cat.currentDB_.dbId, dict_id⟩ dd
          let st := cat.sqliteConnector_.addRefcount dict_id 1
          (.ok referencing_column,
            { cat with dictDescriptorMapByRef_ := dicts, sqliteConnector_ := st })

/-- The increment `++dictIt->refcount` on the first dictionary of the list that
`isIt` holds of. -/
def raiseFirst (isIt : DictDescriptor → Bool) : List DictDescriptor → List DictDescriptor
  | [] => []
  | dd :: rest =>
    if isIt dd then { dd with refcount := dd.refcount + 1 } :: rest
    else dd :: raiseFirst isIt rest

/-- The loop of `Catalog::setColumnSharedDictionary` over the declarations.
The result tells whether the column is a referencing column, with the column
and the dictionaries of the table as the call leaves them.
`compress_reference_path` (`SharedDictionaryValidator.h`) is not among the
sources and is a parameter. -/
def setColumnSharedDictionary.loop
    (compress_reference_path :
      SharedDictionaryDef → List SharedDictionaryDef → SharedDictionaryDef)
    (all_defs : List SharedDictionaryDef) (cd : ColumnDescriptor)
    (cdd : List ColumnDescriptor) (dds : List DictDescriptor) (td : TableDescriptor) :
    List SharedDictionaryDef → Catalog →
      Result (Bool × ColumnDescriptor × List DictDescriptor) × Catalog
  | [], cat => (.ok (false, cd, dds), cat)
  | shared_dict_def :: rest, cat =>
    if cd.columnName = shared_dict_def.column then
      if shared_dict_def.foreign_table = td.tableName then
        match cdd.find? (fun it => decide (shared_dict_def.foreign_column = it.columnName)) with
        | none => (.error .check_failed, cat)
        | some col =>
          let cd := { cd with columnType := col.columnType }
          let ids := (cat.sqliteConnector_.mapd_dictionaries.filter (fun row =>
            (cat.sqliteConnector_.mapd_columns.any (fun c =>
              decide (c.compression = .kENCODING_DICT) && decide (c.tableid = td.tableId) &&
              decide (c.columnid = col.columnId) && decide (c.comp_param = row.dictid))))).map
            (fun row => row.dictid)
          match ids with
          | [] => (.error .check_failed, cat)
          | dict_id :: _ =>
            let isIt : DictDescriptor → Bool := fun it =>
              decide (it.dictRef.dbId = cat.currentDB_.dbId) &&
              decide (it.dictRef.dictId = dict_id)
            match dds.find? isIt with
            | some dd =>
              if dd.refcount < 1 then (.error .check_failed, cat)
              else
                let st := cat.sqliteConnector_.addRefcount dict_id 1
                (.ok (true, cd, raiseFirst isIt dds), { cat with sqliteConnector_ := st })
            | none =>
              let root_dict_def := compress_reference_path shared_dict_def all_defs
              match cat.addReferenceToForeignDict cd root_dict_def with
              | (.error e, cat) => (.error e, cat)
              | (.ok cd, cat) => (.ok (true, cd, dds), cat)
      else
        match cat.addReferenceToForeignDict cd shared_dict_def with
        | (.error e, cat) => (.error e, cat)
        | (.ok cd, cat) => (.ok (true, cd, dds), cat)
    else
      setColumnSharedDictionary.loop compress_reference_path all_defs cd cdd dds td rest cat

/-- `Catalog::setColumnSharedDictionary`. -/
def setColumnSharedDictionary
    (compress_reference_path :
      SharedDictionaryDef → List SharedDictionaryDef → SharedDictionaryDef)
    (cat : Catalog) (cd : ColumnDescriptor) (cdd : List ColumnDescriptor)
    (dds : List DictDescriptor) (td : TableDescriptor)
    (shared_dict_defs : List SharedDictionaryDef) :
    Result (Bool × ColumnDescriptor × List DictDescriptor) × Catalog :=
  setColumnSharedDictionary.loop compress_reference_path shared_dict_defs cd cdd dds td
    shared_dict_defs cat

/-- `Catalog::setColumnDictionary`: a dictionary of the column is created, with
reference count 1; for a shard of a logical table it is a dummy with id zero. -/
def setColumnDictionary (cat : Catalog) (cd : ColumnDescriptor) (dds : List DictDescriptor)
    (td : TableDescriptor) (isLogicalTable : Bool) :
    Result (ColumnDescriptor × List DictDescriptor) × Catalog :=
  let finish (cat : Catalog) (dictId : Int) (dictName folderPath : String) :
      Result (ColumnDescriptor × List DictDescriptor) × Catalog :=
    let dd : DictDescriptor :=
      { dictRef := ⟨cat.currentDB_.dbId, dictId⟩, dictName := dictName,
        dictNBits := cd.columnType.comp_param, dictIsShared := false, refcount := 1,
        dictFolderPath := folderPath, dictIsTemp := false }
    let ti := cd.columnType
    let ti := if !ti.is_array then { ti with size := ti.comp_param / 8 } else ti
    let ti := { ti with comp_param := dictId }
    (.ok ({ cd with columnType := ti }, dds ++ [dd]), cat)
  if isLogicalTable then
    let st := cat.sqliteConnector_
    if st.mapd_dictionaries.any (fun row => decide (row.name = "Initial_key")) then
      (.error (uniqueConstraintFailed "mapd_dictionaries.name"), cat)
    else
      let dictId := st.nextDictId
      let dictName :=
        td.tableName ++ "_" ++ cd.columnName ++ "_dict" ++ toString dictId
      if st.mapd_dictionaries.any (fun row => decide (row.name = dictName)) then
        let rows := st.mapd_dictionaries ++
          [⟨dictId, "Initial_key", cd.columnType.comp_param, false, 1⟩]
        (.error (uniqueConstraintFailed "mapd_dictionaries.name"),
          { cat with sqliteConnector_ := { st with mapd_dictionaries := rows } })
      else
        let folderPath := cat.basePath_ ++ "/mapd_data/DB_" ++ toString cat.currentDB_.dbId ++
          "_DICT_" ++ toString dictId
        let rows := st.mapd_dictionaries ++
          [⟨dictId, dictName, cd.columnType.comp_param, false, 1⟩]
        finish { cat with sqliteConnector_ := { st with mapd_dictionaries := rows } }
          dictId dictName folderPath
  else finish cat 0 "Initial_key" ""

end Catalog


namespace Catalog

/-- The first loop of `Catalog::createTable`: the columns of the statement are
copied, each geometry column followed by its physical columns, and the names
of the columns of the statement are collected in `toplevel_column_names`. -/
def createTable.expand :
    List ColumnDescriptor → List ColumnDescriptor → List String →
      Result (List ColumnDescriptor × List String)
  | [], columns, names => .ok (columns, names)
  | cd :: cols, columns, names =>
    if cd.columnName = "rowid" then
      .error (.runtime_error
        "Cannot create column with name rowid. rowid is a system defined column.")
    else if cd.columnType.is_geometry then
      match expandGeoColumn cd (columns ++ [cd]) with
      | .error e => .error e
      | .ok columns => createTable.expand cols columns (names ++ [cd.columnName])
    else createTable.expand cols (columns ++ [cd]) (names ++ [cd.columnName])

/-- The system column `rowid` that `Catalog::createTable` appends (virtual,
as `MATERIALIZED_ROWID` is not defined). -/
def createTable.rowid : ColumnDescriptor :=
  { ColumnDescriptor.new false with
    columnName := "rowid", isSystemCol := true,
    columnType := SQLTypeInfo.ofType .kBIGINT true, isVirtualCol := true,
    virtualExpr := "MAPD_FRAG_ID * MAPD_ROWS_PER_FRAG + MAPD_FRAG_ROW_ID" }

/-- The system column `$deleted$` of a table with `hasDeletedCol`. -/
def createTable.deleted : ColumnDescriptor :=
  { ColumnDescriptor.new false with
    columnName := "$deleted$", isSystemCol := true, isVirtualCol := false,
    columnType := SQLTypeInfo.ofType .kBOOLEAN true, isDeletedCol := true }

/-- The dictionary step of the column loop of `Catalog::createTable` for a
durable table: a dictionary-encoded column either refers to the dictionary of
the column it is declared to share with, or gets a dictionary of its own. -/
def createTable.columnDictionary
    (compress_reference_path :
      SharedDictionaryDef → List SharedDictionaryDef → SharedDictionaryDef)
    (shared_dict_defs : List SharedDictionaryDef) (isLogicalTable : Bool)
    (td : TableDescriptor) (cd : ColumnDescriptor) (cds : List ColumnDescriptor)
    (dds : List DictDescriptor) (cat : Catalog) :
    Result (ColumnDescriptor × List DictDescriptor) × Catalog :=
  if cd.columnType.compression = .kENCODING_DICT then
    match cat.setColumnSharedDictionary compress_reference_path cd cds dds td
        shared_dict_defs with
    | (.error e, cat) => (.error e, cat)
    | (.ok (true, cd, dds), cat) => (.ok (cd, dds), cat)
    | (.ok (false, cd, dds), cat) => cat.setColumnDictionary cd dds td isLogicalTable
  else (.ok (cd, dds), cat)

/-- The body of the column loop of `Catalog::createTable` for a durable table,
for the column `cd`: its dictionary is settled, it gets the column id `colId`
(after the gap of the sanity test) and its row in `mapd_columns`.  The result
is the column id used, `td.columnIdBySpi_`, the descriptor of the column and
the dictionaries `dds`. -/
def createTable.diskColumn
    (compress_reference_path :
      SharedDictionaryDef → List SharedDictionaryDef → SharedDictionaryDef)
    (toplevel_column_names : List String) (shared_dict_defs : List SharedDictionaryDef)
    (isLogicalTable : Bool) (td : TableDescriptor) (cd : ColumnDescriptor) (colId : Int)
    (spi : List Int) (cds : List ColumnDescriptor) (dds : List DictDescriptor)
    (cat : Catalog) :
    Result (Int × List Int × ColumnDescriptor × List DictDescriptor) × Catalog :=
  let td_now : TableDescriptor := { td with columnIdBySpi_ := spi }
  match createTable.columnDictionary compress_reference_path shared_dict_defs
      isLogicalTable td_now cd cds dds cat with
  | (.error e, cat) => (.error e, cat)
  | (.ok (cd, dds), cat) =>
    let top : Bool := toplevel_column_names.contains cd.columnName
    let colId := if top && decide (colId > 1) then colId + g_test_against_columnId_gap
                 else colId
    let spi := if top && !cd.isGeoPhyCol then spi ++ [colId] else spi
    match cat.sqliteConnector_.insertColumn td.tableId colId cd with
    | .error e => (.error e, cat)
    | .ok st =>
      let cd : ColumnDescriptor := { cd with tableId := td.tableId, columnId := colId }
      (.ok (colId, spi, cd, dds), { cat with sqliteConnector_ := st })

/-- The column loop of `Catalog::createTable` for a durable table.  The state
is the next column id, `td.columnIdBySpi_`, the descriptors `cds` and `dds`
built so far, and the catalog. -/
def createTable.diskColumns
    (compress_reference_path :
      SharedDictionaryDef → List SharedDictionaryDef → SharedDictionaryDef)
    (toplevel_column_names : List String) (shared_dict_defs : List SharedDictionaryDef)
    (isLogicalTable : Bool) (td : TableDescriptor) :
    List ColumnDescriptor → Int → List Int → List ColumnDescriptor → List DictDescriptor →
      Catalog → Result (List Int × List ColumnDescriptor × List DictDescriptor) × Catalog
  | [], _, spi, cds, dds, cat => (.ok (spi, cds, dds), cat)
  | cd :: rest, colId, spi, cds, dds, cat =>
    match createTable.diskColumn compress_reference_path toplevel_column_names
        shared_dict_defs isLogicalTable td cd colId spi cds dds cat with
    | (.error e, cat) => (.error e, cat)
    | (.ok (colId, spi, cd, dds), cat) =>
      createTable.diskColumns compress_reference_path toplevel_column_names
        shared_dict_defs isLogicalTable td rest (colId + 1) spi (cds ++ [cd]) dds cat

/-- The column loop of `Catalog::createTable` for a temporary table. -/
def createTable.tempColumns (td : TableDescriptor) :
    List ColumnDescriptor → Int → List ColumnDescriptor → List DictDescriptor →
      Catalog → Result (List ColumnDescriptor × List DictDescriptor) × Catalog
  | [], _, cds, dds, cat => (.ok (cds, dds), cat)
  | cd :: rest, colId, cds, dds, cat =>
    if IS_GEO cd.columnType.type then
      (.error (.runtime_error "Geometry types in temporary tables are not supported."), cat)
    else if cd.columnType.compression = .kENCODING_DICT then
      let dict_ref : DictRef := ⟨cat.currentDB_.dbId, cat.nextTempDictId_⟩
      let dd : DictDescriptor :=
        { dictRef := dict_ref, dictName := "", dictNBits := cd.columnType.comp_param,
          dictIsShared := false, refcount := 1, dictFolderPath := "", dictIsTemp := true }
      let ti := cd.columnType
      let ti := if !ti.is_array then { ti with size := ti.comp_param / 8 } else ti
      let ti := { ti with comp_param := dict_ref.dictId }
      let cd : ColumnDescriptor :=
        { cd with columnType := ti, tableId := td.tableId, columnId := colId }
      createTable.tempColumns td rest (colId + 1) (cds ++ [cd]) (dds ++ [dd])
        { cat with nextTempDictId_ := cat.nextTempDictId_ + 1 }
    else
      let cd : ColumnDescriptor := { cd with tableId := td.tableId, columnId := colId }
      createTable.tempColumns td rest (colId + 1) (cds ++ [cd]) dds cat

/-- The part of `Catalog::createTable` between `BEGIN TRANSACTION` and
`addTableToMap`: the table gets its id and the descriptors of its columns and
dictionaries are built.  A failure on the durable path rolls the store back to
`begun`; the reference counts raised in memory stay as they are. -/
def createTable.build
    (compress_reference_path :
      SharedDictionaryDef → List SharedDictionaryDef → SharedDictionaryDef)
    (cat : Catalog) (td : TableDescriptor) (columns : List ColumnDescriptor)
    (toplevel_column_names : List String) (shared_dict_defs : List SharedDictionaryDef)
    (isLogicalTable : Bool) :
    Result (TableDescriptor × List ColumnDescriptor × List DictDescriptor) × Catalog :=
  let begun := cat.sqliteConnector_
  if td.persistenceLevel = .DISK_LEVEL then
    match cat.sqliteConnector_.insertTable td with
    | .error e => (.error e, cat)
    | .ok st =>
      match st.selectTableId td.tableName with
      | none => (.error .check_failed, cat)
      | some tableId =>
        let td : TableDescriptor := { td with tableId := tableId }
        match createTable.diskColumns compress_reference_path toplevel_column_names
            shared_dict_defs isLogicalTable td columns 1 td.columnIdBySpi_ [] []
            { cat with sqliteConnector_ := st } with
        | (.error e, cat) => (.error e, { cat with sqliteConnector_ := begun })
        | (.ok (spi, cds, dds), cat) =>
          let td : TableDescriptor := { td with columnIdBySpi_ := spi }
          if td.isView then
            let views := cat.sqliteConnector_.mapd_views ++ [(td.tableId, td.viewSQL)]
            let st := { cat.sqliteConnector_ with mapd_views := views }
            (.ok (td, cds, dds), { cat with sqliteConnector_ := st })
          else (.ok (td, cds, dds), cat)
  else
    let td : TableDescriptor := { td with tableId := cat.nextTempTableId_ }
    let cat := { cat with nextTempTableId_ := cat.nextTempTableId_ + 1 }
    match createTable.tempColumns td columns 1 [] [] cat with
    | (.error e, cat) => (.error e, cat)
    | (.ok (cds, dds), cat) => (.ok (td, cds, dds), cat)

/-- `Catalog::createTable`.  The result is the table descriptor as the call
leaves it (`td` is passed by reference) and the catalog after the call.  The
notification of the Calcite server is outside the catalog state, and
`addTableToMap` fails by a `CHECK` only, which ends the process, so that the
handler around it is never entered. -/
def createTable
    (compress_reference_path :
      SharedDictionaryDef → List SharedDictionaryDef → SharedDictionaryDef)
    (cat : Catalog) (td : TableDescriptor) (cols : List ColumnDescriptor)
    (shared_dict_defs : List SharedDictionaryDef) (isLogicalTable : Bool) :
    Result TableDescriptor × Catalog :=
  match createTable.expand cols [] [] with
  | .error e => (.error e, cat)
  | .ok (columns, names) =>
    let columns := columns ++ [createTable.rowid]
    let toplevel_column_names := names ++ ["rowid"]
    let columns := if td.hasDeletedCol then columns ++ [createTable.deleted] else columns
    let td : TableDescriptor := { td with nColumns := columns.length }
    match createTable.build compress_reference_path cat td columns toplevel_column_names
        shared_dict_defs isLogicalTable with
    | (.error e, cat) => (.error e, cat)
    | (.ok (td, cds, dds), cat) =>
      match cat.addTableToMap td cds dds with
      | .error e => (.error e, cat)
      | .ok cat => (.ok td, cat)

/-- `Catalog::doDropTable`: the rows of the table leave the store, every
dictionary a column of the table refers to loses a reference there and is
deleted at zero, and the privileges on the table are revoked from all roles.
The chunks of the table in the storage manager are outside the catalog state. -/
def doDropTable (s : SysCatalog) (cat : Catalog) (td : TableDescriptor) :
    Result Unit × SysCatalog × Catalog :=
  let view := td.isView
  let tableId := td.tableId
  let st := cat.sqliteConnector_
  let tables := st.mapd_tables.filter (fun row => !decide (row.tableid = tableId))
  let st : CatalogStore := { st with mapd_tables := tables }
  let dict_id_list := st.dictParamsOfTable tableId
  let st := dict_id_list.foldl (fun st dict_id => st.addRefcount dict_id (-1)) st
  let dicts := st.mapd_dictionaries.filter (fun row =>
    !(dict_id_list.contains row.dictid && decide (row.refcount = 0)))
  let st : CatalogStore := { st with mapd_dictionaries := dicts }
  let columns := st.mapd_columns.filter (fun row => !decide (row.tableid = tableId))
  let st : CatalogStore := { st with mapd_columns := columns }
  let views := st.mapd_views.filter (fun row => !decide (row.1 = tableId))
  let st : CatalogStore := if td.isView then { st with mapd_views := views } else st
  let cat := { cat with sqliteConnector_ := st }
  if s.arePrivilegesOn then
    let type : DBObjectType := if view then .ViewDBObjectType else .TableDBObjectType
    match s.revokeDBObjectPrivilegesFromAllRoles_unsafe (DBObject.ofTable cat td type) cat with
    | (.error e, s) => (.error e, s, cat)
    | (.ok _, s) => (.ok (), s, cat)
  else (.ok (), s, cat)

/-- The two steps `doDropTable` and `removeTableFromMap` of `Catalog::dropTable`
for one table. -/
def dropTable.one (s : SysCatalog) (cat : Catalog) (td : TableDescriptor) :
    Result Unit × SysCatalog × Catalog :=
  match cat.doDropTable s td with
  | (.error e, s, cat) => (.error e, s, cat)
  | (.ok _, s, cat) =>
    match cat.removeTableFromMap td.tableName td.tableId with
    | (.error e, cat) => (.error e, s, cat)
    | (.ok _, cat) => (.ok (), s, cat)

/-- The loop of `Catalog::dropTable` over the physical tables of a logical
table. -/
def dropTable.shards : List Int → SysCatalog → Catalog → Result Unit × SysCatalog × Catalog
  | [], s, cat => (.ok (), s, cat)
  | physical_tb_id :: rest, s, cat =>
    match cat.getMetadataForTable physical_tb_id with
    | none => (.error .check_failed, s, cat)
    | some phys_td =>
      match dropTable.one s cat phys_td with
      | (.error e, s, cat) => (.error e, s, cat)
      | (.ok _, s, cat) => dropTable.shards rest s cat

/-- The body of `Catalog::dropTable` inside the transactions. -/
def dropTable.body (s : SysCatalog) (cat : Catalog) (td : TableDescriptor) :
    Result Unit × SysCatalog × Catalog :=
  match mapFind cat.logicalToPhysicalTableMapById_ td.tableId with
  | some physicalTables =>
    if physicalTables.isEmpty then (.error .check_failed, s, cat)
    else
      match dropTable.shards physicalTables s cat with
      | (.error e, s, cat) => (.error e, s, cat)
      | (.ok _, s, cat) =>
        let links := cat.sqliteConnector_.mapd_logical_to_physical.filter
          (fun row => !decide (row.1 = td.tableId))
        let st := { cat.sqliteConnector_ with mapd_logical_to_physical := links }
        let shards := mapErase cat.logicalToPhysicalTableMapById_ td.tableId
        dropTable.one s
          { cat with sqliteConnector_ := st, logicalToPhysicalTableMapById_ := shards } td
  | none => dropTable.one s cat td

/-- `Catalog::dropTable`, on the system catalog `s` and the catalog of the
database.  The tables of the database are in `cat.sqliteConnector_` also for
the system database, whose file holds the tables of the system catalog as
well; on an exception both transactions are rolled back, and the in-memory
state stays as the failed body left it. -/
def dropTable (s : SysCatalog) (cat : Catalog) (td : TableDescriptor) :
    Result Unit × SysCatalog × Catalog :=
  let sys_begun := s.sqliteConnector_
  let drop_begun := cat.sqliteConnector_
  match dropTable.body s cat td with
  | (.error e, s, cat) =>
    (.error e, { s with sqliteConnector_ := sys_begun },
      { cat with sqliteConnector_ := drop_begun })
  | (.ok _, s, cat) => (.ok (), s, cat)

end Catalog

/-! ## Dictionaries of single columns, added columns and the roll list -/

namespace Catalog

/-- The descriptor object of the table `tableId`, which both table maps point
to, is changed by `f`. -/
def updateTableDescriptor (cat : Catalog) (tableId : Int)
    (f : TableDescriptor → TableDescriptor) : Catalog :=
  let byName := cat.tableDescriptorMap_.map
    (fun e => if e.2.tableId = tableId then (e.1, f e.2) else e)
  let byId := cat.tableDescriptorMapById_.map
    (fun e => if e.2.tableId = tableId then (e.1, f e.2) else e)
  { cat with tableDescriptorMap_ := byName, tableDescriptorMapById_ := byId }

/-- `Catalog::addDictionary`: a dictionary of the column is created in the
store and registered; the result is the column as the call leaves it and the
reference of the dictionary. -/
def addDictionary (cat : Catalog) (cd : ColumnDescriptor) :
    Result (ColumnDescriptor × DictRef) × Catalog :=
  match mapFind cat.tableDescriptorMapById_ cd.tableId with
  | none => (.error .check_failed, cat)
  | some td =>
    match cat.setColumnDictionary cd [] td true with
    | (.error e, cat) => (.error e, cat)
    | (.ok (cd, dds), cat) =>
      match dds.getLast? with
      | none => (.error .check_failed, cat)
      | some dd =>
        if dd.dictRef.dictId = 0 then (.error .check_failed, cat)
        else
          let dicts := mapAssign cat.dictDescriptorMapByRef_ dd.dictRef dd
          (.ok (cd, dd.dictRef), { cat with dictDescriptorMapByRef_ := dicts })

/-- `Catalog::delDictionary`: for a dictionary-encoded string column with a
positive dictionary id, the row of the dictionary named after the column
leaves the store, the folder of the dictionary is removed and the dictionary
is taken out of the map.  The result is the folder removed, if any. -/
def delDictionary (cat : Catalog) (cd : ColumnDescriptor) : Result (Option String) × Catalog :=
  if !(cd.columnType.is_string || cd.columnType.is_string_array) then (.ok none, cat)
  else if !decide (cd.columnType.compression = .kENCODING_DICT) then (.ok none, cat)
  else if !decide (cd.columnType.comp_param > 0) then (.ok none, cat)
  else
    match mapFind cat.tableDescriptorMapById_ cd.tableId with
    | none => (.error .check_failed, cat)
    | some td =>
      let dictId := cd.columnType.comp_param
      let dictRef : DictRef := ⟨cat.currentDB_.dbId, dictId⟩
      let dictName := td.tableName ++ "_" ++ cd.columnName ++ "_dict" ++ toString dictId
      let rows := cat.sqliteConnector_.mapd_dictionaries.filter
        (fun row => !decide (row.name = dictName))
      let st := { cat.sqliteConnector_ with mapd_dictionaries := rows }
      let folder := cat.basePath_ ++ "/mapd_data/DB_" ++ toString cat.currentDB_.dbId ++
        "_DICT_" ++ toString dictId
      let dicts := mapErase cat.dictDescriptorMapByRef_ dictRef
      (.ok (some folder), { cat with sqliteConnector_ := st, dictDescriptorMapByRef_ := dicts })

end Catalog

namespace CatalogStore

/-- The column id `(SELECT max(columnid) + 1 FROM mapd_columns WHERE tableid = ?)`;
`none` stands for the NULL of a table without rows. -/
def nextColumnId (st : CatalogStore) (tableId : Int) : Option Int :=
  match (st.mapd_columns.filter (fun row => decide (row.tableid = tableId))).map
      (fun row => row.columnid) with
  | [] => none
  | c :: cs => some (cs.foldl max c + 1)

/-- `UPDATE mapd_tables SET ncolumns = ncolumns + 1 WHERE tableid = ?`. -/
def addNColumns (st : CatalogStore) (tableId : Int) : CatalogStore :=
  let rows := st.mapd_tables.map (fun row =>
    if row.tableid = tableId then { row with ncolumns := row.ncolumns + 1 } else row)
  { st with mapd_tables := rows }

/-- `SELECT columnid FROM mapd_columns WHERE tableid = ? AND name = ?`. -/
def selectColumnId (st : CatalogStore) (tableId : Int) (name : String) : Option Int :=
  (st.mapd_columns.find?
    (fun row => decide (row.tableid = tableId) && decide (row.name = name))).map
    (fun row => row.columnid)

end CatalogStore

namespace Catalog

/-- `Catalog::addColumn`: the column gets the table id, a dictionary if it is
dictionary-encoded, the next column id of the table and its row in the store;
the column count of the table grows, the descriptor enters both column maps
and the roll list.  The caller handles the transaction of the store.  A table
without rows in `mapd_columns` gives the column no id, and a table without
descriptor is dereferenced: both end the call as a failed check. -/
def addColumn (cat : Catalog) (td : TableDescriptor) (cd : ColumnDescriptor) :
    Result ColumnDescriptor × Catalog :=
  let cd : ColumnDescriptor := { cd with tableId := td.tableId }
  let withDict : Result ColumnDescriptor × Catalog :=
    if cd.columnType.compression = .kENCODING_DICT then
      match cat.addDictionary cd with
      | (.error e, cat) => (.error e, cat)
      | (.ok (cd, _), cat) => (.ok cd, cat)
    else (.ok cd, cat)
  match withDict with
  | (.error e, cat) => (.error e, cat)
  | (.ok cd, cat) =>
    match cat.sqliteConnector_.nextColumnId td.tableId with
    | none => (.error .check_failed, cat)
    | some colId =>
      match cat.sqliteConnector_.insertColumn td.tableId colId cd with
      | .error e => (.error e, cat)
      | .ok st =>
        let st := st.addNColumns td.tableId
        match st.selectColumnId td.tableId cd.columnName with
        | none => (.error .check_failed, { cat with sqliteConnector_ := st })
        | some columnId =>
          let cd : ColumnDescriptor := { cd with columnId := columnId }
          match mapFind cat.tableDescriptorMapById_ td.tableId with
          | none => (.error .check_failed, { cat with sqliteConnector_ := st })
          | some _ =>
            let cat := cat.updateTableDescriptor td.tableId
              (fun t => { t with nColumns := t.nColumns + 1 })
            let byName :=
              mapAssign cat.columnDescriptorMap_ (cd.tableId, to_upper cd.columnName) cd
            let byId := mapAssign cat.columnDescriptorMapById_ (cd.tableId, cd.columnId) cd
            let pending := cat.columnDescriptorsForRoll ++ [(none, some cd)]
            (.ok cd, { cat with
              sqliteConnector_ := st, columnDescriptorMap_ := byName,
              columnDescriptorMapById_ := byId, columnDescriptorsForRoll := pending })

/-- The body of the loop of `Catalog::roll` for one pair of the roll list: the
old and the new descriptor of a column.  The result is the folders removed. -/
def roll.one (forward : Bool) (cat : Catalog)
    (cdr : Option ColumnDescriptor × Option ColumnDescriptor) :
    Result (List String) × Catalog :=
  let ocd := cdr.1
  let ncd := cdr.2
  match (match ncd with | some c => some c | none => ocd) with
  | none => (.error .check_failed, cat)
  | some either =>
    match mapFind cat.tableDescriptorMapById_ either.tableId with
    | none => (.error .check_failed, cat)
    | some td =>
      if forward then
        let dropped : Result (List String) × Catalog :=
          match ocd with
          | some o =>
            let unshared : Bool :=
              match ncd with
              | none => true
              | some n => decide (n.columnType.comp_param ≠ o.columnType.comp_param)
            let deleted : Result (List String) × Catalog :=
              if unshared then
                match cat.delDictionary o with
                | (.error e, cat) => (.error e, cat)
                | (.ok folder, cat) => (.ok folder.toList, cat)
              else (.ok [], cat)
            match deleted with
            | (.error e, cat) => (.error e, cat)
            | (.ok folders, cat) =>
              (.ok folders, cat.updateTableDescriptor td.tableId (fun t =>
                { t with columnIdBySpi_ :=
                    t.columnIdBySpi_.filter (fun c => !decide (c = o.columnId)) }))
          | none => (.ok [], cat)
        match dropped with
        | (.error e, cat) => (.error e, cat)
        | (.ok folders, cat) =>
          match ncd with
          | some n =>
            (.ok folders, cat.updateTableDescriptor td.tableId (fun t =>
              if !t.columnIdBySpi_.contains n.columnId && !n.isGeoPhyCol then
                { t with columnIdBySpi_ := t.columnIdBySpi_ ++ [n.columnId] }
              else t))
          | none => (.ok folders, cat)
      else
        let cat : Catalog :=
          match ocd with
          | some o =>
            let byName :=
              mapAssign cat.columnDescriptorMap_ (o.tableId, to_upper o.columnName) o
            let byId := mapAssign cat.columnDescriptorMapById_ (o.tableId, o.columnId) o
            { cat with columnDescriptorMap_ := byName, columnDescriptorMapById_ := byId }
          | none => cat
        match ncd with
        | some n =>
          let byName := mapErase cat.columnDescriptorMap_ (n.tableId, to_upper n.columnName)
          let byId := mapErase cat.columnDescriptorMapById_ (n.tableId, n.columnId)
          let cat := { cat with columnDescriptorMap_ := byName, columnDescriptorMapById_ := byId }
          let unshared : Bool :=
            match ocd with
            | none => true
            | some o => decide (o.columnType.comp_param ≠ n.columnType.comp_param)
          if unshared then
            match cat.delDictionary n with
            | (.error e, cat) => (.error e, cat)
            | (.ok folder, cat) => (.ok folder.toList, cat)
          else (.ok [], cat)
        | none => (.ok [], cat)

/-- The loop of `Catalog::roll` over the roll list. -/
def roll.loop (forward : Bool) :
    List (Option ColumnDescriptor × Option ColumnDescriptor) → Catalog →
      Result (List String) × Catalog
  | [], cat => (.ok [], cat)
  | cdr :: rest, cat =>
    match roll.one forward cat cdr with
    | (.error e, cat) => (.error e, cat)
    | (.ok folders, cat) =>
      match roll.loop forward rest cat with
      | (.error e, cat) => (.error e, cat)
      | (.ok more, cat) => (.ok (folders ++ more), cat)

/-- `Catalog::roll`: the pending column changes are applied (`forward`) or
undone, and the roll list is cleared.  The result is the folders removed; the
notification of the Calcite server is outside the catalog state. -/
def roll (cat : Catalog) (forward : Bool) : Result (List String) × Catalog :=
  match roll.loop forward cat.columnDescriptorsForRoll cat with
  | (.error e, cat) => (.error e, cat)
  | (.ok folders, cat) => (.ok folders, { cat with columnDescriptorsForRoll := [] })

/-- The loop of `Catalog::doTruncateTable` over the entries of the by-id
column map: the dictionary of each dictionary-encoded column of the table is
replaced by a copy of its descriptor, under the reference the descriptor
carries.  The folders on disk are outside the catalog state. -/
def doTruncateTable.columns (td : TableDescriptor) :
    List ((Int × Int) × ColumnDescriptor) → Catalog → Result Unit × Catalog
  | [], cat => (.ok (), cat)
  | (_, cd) :: rest, cat =>
    if cd.tableId ≠ td.tableId then doTruncateTable.columns td rest cat
    else
      let dict_id := cd.columnType.comp_param
      if cd.columnType.compression = .kENCODING_DICT ∧ dict_id ≠ 0 then
        let dict_ref : DictRef := ⟨cat.currentDB_.dbId, dict_id⟩
        match mapFind cat.dictDescriptorMapByRef_ dict_ref with
        | none => (.error .check_failed, cat)
        | some dd =>
          if dd.refcount < 1 then (.error .check_failed, cat)
          else
            let new_dd : DictDescriptor :=
              { dictRef := dd.dictRef, dictName := dd.dictName, dictNBits := dd.dictNBits,
                dictIsShared := dd.dictIsShared, refcount := dd.refcount,
                dictFolderPath := dd.dictFolderPath, dictIsTemp := dd.dictIsTemp }
            let erased := mapErase cat.dictDescriptorMapByRef_ dict_ref
            let dicts := mapAssign erased new_dd.dictRef new_dd
            doTruncateTable.columns td rest { cat with dictDescriptorMapByRef_ := dicts }
      else doTruncateTable.columns td rest cat

/-- `Catalog::doTruncateTable`; the chunks of the table in the storage manager
are outside the catalog state. -/
def doTruncateTable (cat : Catalog) (td : TableDescriptor) : Result Unit × Catalog :=
  doTruncateTable.columns td cat.columnDescriptorMapById_ cat

/-- `Catalog::getLogicalTableId`: the key of the first shard list that holds
the id, and the id itself when no list holds it. -/
def getLogicalTableId.loop (physicalTableId : Int) : List (Int × List Int) → Int
  | [] => physicalTableId
  | l :: rest =>
    if l.2.any (fun tid => decide (physicalTableId = tid)) then l.1
    else getLogicalTableId.loop physicalTableId rest

/-- `Catalog::getLogicalTableId`. -/
def getLogicalTableId (cat : Catalog) (physicalTableId : Int) : Int :=
  getLogicalTableId.loop physicalTableId cat.logicalToPhysicalTableMapById_

/-- The tag `Catalog::physicalTableNameTag_`. -/
def physicalTableNameTag_ : String := "_shard_#"

/-- `Catalog::generatePhysicalTableName`. -/
def generatePhysicalTableName (logicalTableName : String) (shardNumber : Int) : String :=
  logicalTableName ++ physicalTableNameTag_ ++ toString shardNumber

/-- `Catalog::updateLogicalToPhysicalTableMap`: the pairs of the logical table
and its physical tables are recorded in `mapd_logical_to_physical`, a table
without constraints. -/
def updateLogicalToPhysicalTableMap (cat : Catalog) (logical_tb_id : Int) :
    Result Unit × Catalog :=
  match mapFind cat.logicalToPhysicalTableMapById_ logical_tb_id with
  | none => (.ok (), cat)
  | some physicalTables =>
    if physicalTables.isEmpty then (.error .check_failed, cat)
    else
      let links := cat.sqliteConnector_.mapd_logical_to_physical ++
        physicalTables.map (fun physical_tb_id => (logical_tb_id, physical_tb_id))
      let st := { cat.sqliteConnector_ with mapd_logical_to_physical := links }
      (.ok (), { cat with sqliteConnector_ := st })

/-- The loop of `Catalog::createShardedTable` over the shard numbers: a
physical table is created for each, and its id is collected. -/
def createShardedTable.shards
    (compress_reference_path :
      SharedDictionaryDef → List SharedDictionaryDef → SharedDictionaryDef)
    (td : TableDescriptor) (cols : List ColumnDescriptor)
    (shared_dict_defs : List SharedDictionaryDef) :
    List Int → List Int → Catalog → Result (List Int) × Catalog
  | [], physicalTables, cat => (.ok physicalTables, cat)
  | i :: rest, physicalTables, cat =>
    let tdp : TableDescriptor :=
      { td with tableName := generatePhysicalTableName td.tableName i, shard := i - 1 }
    match cat.createTable compress_reference_path tdp cols shared_dict_defs false with
    | (.error e, cat) => (.error e, cat)
    | (.ok tdp, cat) =>
      createShardedTable.shards compress_reference_path td cols shared_dict_defs rest
        (physicalTables ++ [tdp.tableId]) cat

/-- `Catalog::createShardedTable`.  The result is the id of the logical table
and the ids of the physical tables, the locals `logical_tb_id` and
`physicalTables` of the call. -/
def createShardedTable
    (compress_reference_path :
      SharedDictionaryDef → List SharedDictionaryDef → SharedDictionaryDef)
    (cat : Catalog) (td : TableDescriptor) (cols : List ColumnDescriptor)
    (shared_dict_defs : List SharedDictionaryDef) : Result (Int × List Int) × Catalog :=
  if td.nShards > 0 ∧ (td.shardedColumnId ≤ 0 ∨ toSizeT td.shardedColumnId > cols.length) then
    (.error (.runtime_error ("Invalid sharding column for table " ++ td.tableName ++
      " of database " ++ cat.currentDB_.dbName)), cat)
  else
    match cat.createTable compress_reference_path td cols shared_dict_defs true with
    | (.error e, cat) => (.error e, cat)
    | (.ok tdl, cat) =>
      let logical_tb_id := tdl.tableId
      let numbers : List Int := (List.range td.nShards.toNat).map (fun (k : Nat) => Int.ofNat k + 1)
      match createShardedTable.shards compress_reference_path td cols shared_dict_defs
          numbers [] cat with
      | (.error e, cat) => (.error e, cat)
      | (.ok physicalTables, cat) =>
        if physicalTables.isEmpty then (.ok (logical_tb_id, physicalTables), cat)
        else
          match mapFind cat.logicalToPhysicalTableMapById_ logical_tb_id with
          | some _ => (.error .check_failed, cat)
          | none =>
            let shards := cat.logicalToPhysicalTableMapById_ ++ [(logical_tb_id, physicalTables)]
            let cat := { cat with logicalToPhysicalTableMapById_ := shards }
            match cat.updateLogicalToPhysicalTableMap logical_tb_id with
            | (.error e, cat) => (.error e, cat)
            | (.ok _, cat) => (.ok (logical_tb_id, physicalTables), cat)

end Catalog

/-! ## Columns and the dictionaries they refer to -/

/-- The test whether a column is encoded with the dictionary `dictId`. -/
def ColumnDescriptor.refersTo (cd : ColumnDescriptor) (dictId : Int) : Bool :=
  decide (cd.columnType.compression = .kENCODING_DICT) &&
    decide (cd.columnType.comp_param = dictId)

/-- The test whether a column of a `CREATE TABLE` statement is a referencing
column of the declaration: it has the declared name and is dictionary-encoded,
so that `Catalog::createTable` asks `setColumnSharedDictionary` about it. -/
def SharedDictionaryDef.declares (sd : SharedDictionaryDef) (cd : ColumnDescriptor) : Bool :=
  decide (cd.columnName = sd.column) &&
    decide (cd.columnType.compression = .kENCODING_DICT)

/-- The test whether a column of a `CREATE TABLE` statement is dictionary-encoded
and not named by the declaration: it gets a dictionary of its own. -/
def SharedDictionaryDef.leavesOut (sd : SharedDictionaryDef) (cd : ColumnDescriptor) : Bool :=
  !decide (cd.columnName = sd.column) &&
    decide (cd.columnType.compression = .kENCODING_DICT)

/-- The column descriptors of the table `tableId` in the by-id map that are
encoded with the dictionary `dictId`. -/
def Catalog.columnsReferring (cat : Catalog) (tableId dictId : Int) : List ColumnDescriptor :=
  (cat.columnDescriptorMapById_.filter
    (fun e => decide (e.1.1 = tableId) && e.2.refersTo dictId)).map (fun e => e.2)

/-! ## The update of column chunks (`Fragmenter/UpdelStorage.cpp`)

`sqltypes.h`, `Shared/TypedDataAccessors.h`, `Shared/thread_count.h`,
`TargetValue.h`, `UpdelRoll.h` and the classes of chunks, buffers, encoders,
fragments and string dictionaries are not among the sources.  The records
below hold what `UpdelStorage.cpp` reads and writes of them, and the functions
of those files that it calls are the fields of `Accessors`. -/

namespace SQLTypeInfo

/-- Modelled from the spec: the test `is_integer()` of `sqltypes.h`. -/
def is_integer (ti : SQLTypeInfo) : Bool :=
  ti.type == .kTINYINT || ti.type == .kSMALLINT || ti.type == .kINT || ti.type == .kBIGINT

/-- Modelled from the spec: the test `is_boolean()` of `sqltypes.h`. -/
def is_boolean (ti : SQLTypeInfo) : Bool := ti.type == .kBOOLEAN

/-- Modelled from the spec: the test `is_time()` of `sqltypes.h`. -/
def is_time (ti : SQLTypeInfo) : Bool :=
  ti.type == .kTIME || ti.type == .kTIMESTAMP || ti.type == .kDATE

/-- Modelled from the spec: the test `is_timeinterval()` of `sqltypes.h`. -/
def is_timeinterval (ti : SQLTypeInfo) : Bool :=
  ti.type == .kINTERVAL_DAY_TIME || ti.type == .kINTERVAL_YEAR_MONTH

/-- Modelled from the spec: the test `is_decimal()` of `sqltypes.h`. -/
def is_decimal (ti : SQLTypeInfo) : Bool := ti.type == .kNUMERIC || ti.type == .kDECIMAL

/-- Modelled from the spec: the test `is_fp()` of `sqltypes.h`. -/
def is_fp (ti : SQLTypeInfo) : Bool := ti.type == .kFLOAT || ti.type == .kDOUBLE

end SQLTypeInfo

namespace Catalog

/-- The lookup `Catalog::getMetadataForColumn(int tableId, int columnId)`. -/
def getMetadataForColumnById (cat : Catalog) (tableId columnId : Int) :
    Option ColumnDescriptor :=
  mapFind cat.columnDescriptorMapById_ (tableId, columnId)

/-- `Catalog::getPhysicalTablesDescriptors`, as the ids of the tables; `none`
stands for a table without descriptor. -/
def getPhysicalTablesDescriptors (cat : Catalog) (logicalTableDesc : TableDescriptor) :
    Result (List (Option Int)) :=
  match mapFind cat.logicalToPhysicalTableMapById_ logicalTableDesc.tableId with
  | none => .ok [some logicalTableDesc.tableId]
  | some physicalTablesIds =>
    if physicalTablesIds.isEmpty then .error .check_failed
    else .ok (physicalTablesIds.map (fun tid =>
      (cat.getMetadataForTable tid).map (fun td => td.tableId)))

/-- The loop of `Catalog::checkpoint` over the shards: the pairs of database
and table that the storage manager is asked to checkpoint; a shard without
descriptor is dereferenced, which ends the call as a failed check. -/
def checkpoint.loop (db_id : Int) : List (Option Int) → Result (List (Int × Int))
  | [] => .ok []
  | none :: _ => .error .check_failed
  | some tableId :: rest =>
    match checkpoint.loop db_id rest with
    | .error e => .error e
    | .ok calls => .ok ((db_id, tableId) :: calls)

/-- `Catalog::checkpoint`: the result is the calls `DataMgr::checkpoint(db, table)`
made, in order. -/
def checkpoint (cat : Catalog) (logicalTableId : Int) : Result (List (Int × Int)) :=
  match cat.getMetadataForTable logicalTableId with
  | none => .error .check_failed
  | some td =>
    match cat.getPhysicalTablesDescriptors td with
    | .error e => .error e
    | .ok shards => checkpoint.loop cat.currentDB_.dbId shards

end Catalog

namespace Fragmenter_Namespace

/-! ### Numbers -/

/-- A finite `double`, held as the integer number of units of `2^-1074`, the
least positive double, that it amounts to: every finite `double`, and every
finite `float`, is a whole number of these units.  Infinities and NaN are left
out. -/
abbrev Double := Int

/-- The number one as a `double`: `2^1074` units. -/
def Double.one : Double := Int.ofNat (1 <<< 1074)

/-- Conversion of an integer to `int64_t` (two's complement). -/
def toInt64 (x : Int) : Int :=
  (x + Int.ofNat (2 ^ 63)) % Int.ofNat (2 ^ 64) - Int.ofNat (2 ^ 63)

/-- The constant `std::numeric_limits<int64_t>::min()`. -/
def INT64_MIN : Int := -Int.ofNat (2 ^ 63)

/-- The constant `std::numeric_limits<int64_t>::max()`. -/
def INT64_MAX : Int := Int.ofNat (2 ^ 63 - 1)

/-- The constant `std::numeric_limits<double>::min()`, the least positive
normal double `2^-1022`. -/
def DBL_MIN : Double := Int.ofNat (1 <<< 52)

/-- The constant `std::numeric_limits<double>::max()`, `(2^53 - 1) * 2^971`. -/
def DBL_MAX : Double := Int.ofNat ((2 ^ 53 - 1) <<< (971 + 1074))

/-- The number of binary digits of `a`, for `a` below `2^fuel`. -/
def bitLength : Nat → Nat → Nat
  | 0, _ => 0
  | fuel + 1, a => if a = 0 then 0 else bitLength fuel (a / 2) + 1

/-- The conversion of an `int64_t` to `double`: exact up to 53 bits, rounded to
the nearest double, ties to even, beyond. -/
def int64_to_double (v : Int) : Double :=
  let a := v.natAbs
  if a < 2 ^ 53 then v * Double.one
  else
    let shift := bitLength 64 a - 53
    let q := a / 2 ^ shift
    let r := a % 2 ^ shift
    let half := 2 ^ (shift - 1)
    let q := if r > half ∨ (r = half ∧ q % 2 = 1) then q + 1 else q
    let m : Int := Int.ofNat (q * 2 ^ shift)
    if v < 0 then -m * Double.one else m * Double.one

/-- The conversion of a `double` to `int64_t`: truncation towards zero.  A
value out of range, undefined in C++, wraps around here. -/
def double_to_int64 (x : Double) : Int :=
  let n : Int := Int.ofNat (x.natAbs >>> 1074)
  toInt64 (if x < 0 then -n else n)

/-- The function `round` of the C library: to the nearest integer, halves away
from zero. -/
def round (x : Double) : Double :=
  let n : Int := Int.ofNat ((x.natAbs + (1 <<< 1073)) >>> 1074)
  if x < 0 then -n * Double.one else n * Double.one

/-! ### Values, chunks, fragments and the roll -/

/-- Modelled from the spec: a right-hand value `ScalarTargetValue`, a variant
of `int64_t`, `double`, `float` and `NullableString`; a `NullableString`
without string is `none`. -/
inductive ScalarTargetValue where
  | int64 (v : Int)
  | double (v : Double)
  | float (v : Double)
  | string (s : Option String)
  deriving DecidableEq, Repr

/-- A chunk key (`ChunkKey`): database, table, column and fragment. -/
abbrev ChunkKey := List Int

/-- Modelled from the spec: the statistics of a chunk (`ChunkStats`); a bound,
of the union type `Datum`, is held as the integer or the `double` it is. -/
structure ChunkStats where
  min : Int
  max : Int
  has_nulls : Bool
  deriving DecidableEq, Repr

/-- Modelled from the spec: the metadata of a chunk (`ChunkMetadata`). -/
structure ChunkMetadata where
  sqlType : SQLTypeInfo
  numBytes : Nat
  numElements : Nat
  chunkStats : ChunkStats
  deriving DecidableEq, Repr

/-- The default-constructed `ChunkMetadata` that `operator[]` adds to a map. -/
def ChunkMetadata.new : ChunkMetadata :=
  { sqlType := SQLTypeInfo.default, numBytes := 0, numElements := 0,
    chunkStats := { min := 0, max := 0, has_nulls := false } }

/-- Modelled from the spec: a fragment (`FragmentInfo`) with its shadow and
physical tuple counts and chunk-metadata maps, which are keyed by column id. -/
structure FragmentInfo where
  fragmentId : Int
  shadowNumTuples : Nat
  physicalNumTuples : Nat
  shadowChunkMetadataMap : List (Int × ChunkMetadata)
  chunkMetadataMap : List (Int × ChunkMetadata)
  deriving DecidableEq, Repr

/-- The fields of an `InsertOrderFragmenter` that the update reads and writes. -/
structure InsertOrderFragmenter where
  fragmentInfoVec_ : List FragmentInfo
  shard_ : Int
  deriving DecidableEq, Repr

/-- Modelled from the spec: a chunk object (`Chunk_NS::Chunk`): its key, and
the handle of its buffer, which names a buffer of the storage manager or is
null. -/
structure Chunk where
  key : ChunkKey
  buffer : Option ChunkKey
  deriving DecidableEq, Repr

/-- A key `MetaDataKey` of the metadata maps of a roll, a pair of pointers: the
table descriptor, as its table id (`none` is the null pointer), and the
fragment, as the table id of the fragmenter that owns it and its fragment id. -/
abbrev MetaDataKey := Option Int × (Int × Int)

/-- Modelled from the spec: the roll of an update (`UpdelRoll`).  `catalog`
tells whether the catalog pointer is set; `dirtyChunks`, keyed by the address
of the chunk object, holds the chunk objects in the order they were added, and
`dirtyChunkeys` the keys in that order. -/
structure UpdelRoll where
  catalog : Bool
  logicalTableId : Int
  memoryLevel : MemoryLevel
  dirtyChunks : List Chunk
  dirtyChunkeys : List ChunkKey
  chunkMetadata : List (MetaDataKey × List (Int × ChunkMetadata))
  numTuples : List (MetaDataKey × Nat)
  deriving DecidableEq, Repr

/-- A newly constructed `UpdelRoll`, for a table and memory level that the
first update overwrites. -/
def UpdelRoll.new (logicalTableId : Int) (memoryLevel : MemoryLevel) : UpdelRoll :=
  { catalog := false, logicalTableId := logicalTableId, memoryLevel := memoryLevel,
    dirtyChunks := [], dirtyChunkeys := [], chunkMetadata := [], numTuples := [] }

/-- Modelled from the spec: a call of the storage manager (`DataMgr`) made by
a commit or a cancel. -/
inductive DataMgrCall where
  | checkpoint (db_id tb_id : Int)
  | deleteChunksWithPrefix (key : ChunkKey) (level : MemoryLevel)
  | free (buffer : Option ChunkKey)
  deriving DecidableEq, Repr

/-- The state the update works on: the catalog, the fragmenter of every table,
the buffer, with its encoder, that the storage manager holds in CPU memory for
every chunk key (fetched at first use), the string dictionary of every
dictionary id (loaded at first use), and the calls of the storage manager so
far.  `β` is the type of buffers and `δ` that of string dictionaries. -/
structure UpdelState (β δ : Type) where
  catalog : Catalog
  fragmenters : Int → InsertOrderFragmenter
  buffers : ChunkKey → β
  stringDicts : Int → δ
  calls : List DataMgrCall

/-- Modelled from the spec: the functions of `Shared/TypedDataAccessors.h`, of
the C library, of the buffers and encoders and of `StringDictionary` that the
update calls.  A pointer into a buffer is the buffer and the offset of the
element. -/
structure Accessors (β δ : Type) where
  put_scalar_int64 : β → Nat → SQLTypeInfo → Int → String → Option SQLTypeInfo → Result β
  put_scalar_double : β → Nat → SQLTypeInfo → Double → String → Result β
  put_scalar_float : β → Nat → SQLTypeInfo → Double → String → Result β
  put_scalar_int32 : β → Nat → SQLTypeInfo → Int → String → Result β
  put_null : β → Nat → SQLTypeInfo → String → Result β
  get_scalar_int64 : β → Nat → SQLTypeInfo → Int
  decimal_to_double : SQLTypeInfo → Int → Double
  atof : String → Double
  StringToDatum_timeval : String → SQLTypeInfo → Result Int
  getString : δ → Int → Result String
  getOrAdd : δ → String → Int × δ
  setUpdated : β → β
  updateStats_int64 : β → Int → Bool → β
  updateStats_double : β → Double → Bool → β
  getMetadata : β → ChunkMetadata → ChunkMetadata

variable {β δ : Type}

/-- The buffer under `key` is replaced. -/
def UpdelState.setBuffer (s : UpdelState β δ) (key : ChunkKey) (b : β) : UpdelState β δ :=
  { s with buffers := fun k => if k = key then b else s.buffers k }

/-- The string dictionary `dictId` is replaced. -/
def UpdelState.setStringDict (s : UpdelState β δ) (dictId : Int) (d : δ) : UpdelState β δ :=
  { s with stringDicts := fun k => if k = dictId then d else s.stringDicts k }

/-- The fragment that a fragment pointer points to: the first fragment with
the id in the fragmenter of the table. -/
def UpdelState.fragment (s : UpdelState β δ) (ptr : Int × Int) : Option FragmentInfo :=
  (s.fragmenters ptr.1).fragmentInfoVec_.find? (fun f => f.fragmentId == ptr.2)

/-- The first fragment with the id `fragmentId` is changed by `f`. -/
def FragmentInfo.updateFirst (f : FragmentInfo → FragmentInfo) (fragmentId : Int) :
    List FragmentInfo → List FragmentInfo
  | [] => []
  | x :: rest =>
    if x.fragmentId == fragmentId then f x :: rest
    else x :: FragmentInfo.updateFirst f fragmentId rest

/-- The fragment that `ptr` points to is changed by `f`. -/
def UpdelState.setFragment (s : UpdelState β δ) (ptr : Int × Int)
    (f : FragmentInfo → FragmentInfo) : UpdelState β δ :=
  { s with fragmenters := fun t =>
      if t = ptr.1 then
        { s.fragmenters t with
          fragmentInfoVec_ :=
            FragmentInfo.updateFirst f ptr.2 (s.fragmenters t).fragmentInfoVec_ }
      else s.fragmenters t }

end Fragmenter_Namespace

namespace Fragmenter_Namespace

variable {β δ : Type}

/-! ### `updateColumn` -/

/-- The test `is_integral` of `UpdelStorage.cpp`. -/
def is_integral (t : SQLTypeInfo) : Bool :=
  t.is_integer || t.is_boolean || t.is_time || t.is_timeinterval

/-- The statistics vectors `null`, `dmax`, `dmin`, `lmax` and `lmin` of
`updateColumn`, with one slot per worker. -/
structure StatArrays where
  null : List Bool
  dmax : List Double
  dmin : List Double
  lmax : List Int
  lmin : List Int
  deriving DecidableEq, Repr

/-- The vectors as `updateColumn` sets them up for `ncore` workers. -/
def StatArrays.new (ncore : Nat) : StatArrays :=
  { null := List.replicate ncore false,
    dmax := List.replicate ncore DBL_MIN,
    dmin := List.replicate ncore DBL_MAX,
    lmax := List.replicate ncore INT64_MIN,
    lmin := List.replicate ncore INT64_MAX }

/-- Modelled from the spec: `set_minmax<int64_t>(lmin[c], lmax[c], val)` of
`Shared/TypedDataAccessors.h`: `val` replaces a bound that it passes. -/
def StatArrays.set_minmax_int64 (st : StatArrays) (c : Nat) (val : Int) : StatArrays :=
  { st with
    lmin := st.lmin.modify (fun m => if val < m then val else m) c,
    lmax := st.lmax.modify (fun m => if val > m then val else m) c }

/-- Modelled from the spec: `set_minmax<double>(dmin[c], dmax[c], val)`. -/
def StatArrays.set_minmax_double (st : StatArrays) (c : Nat) (val : Double) : StatArrays :=
  { st with
    dmin := st.dmin.modify (fun m => if val < m then val else m) c,
    dmax := st.dmax.modify (fun m => if val > m then val else m) c }

/-- The assignment `null[c] = true`. -/
def StatArrays.set_null (st : StatArrays) (c : Nat) : StatArrays :=
  { st with null := st.null.set c true }

/-- The message of the overflow error of a decimal conversion. -/
def overflowMessage (v : Int) (rhsType lctype : SQLTypeInfo) : String :=
  "Data conversion overflow on " ++ toString v ++ " from DECIMAL(" ++
    toString rhsType.dimension ++ ", " ++ toString rhsType.scale ++ ") to (" ++
    toString lctype.dimension ++ ", " ++ toString lctype.scale ++ ")"

/-- The first step of the body of the row loop of `updateColumn`: a right-hand
value of a string type that is given as an index is replaced by the string
that the dictionary of the right-hand type holds under the index. -/
def updateColumn.resolve (acc : Accessors β δ) (rhsType : SQLTypeInfo) (s : UpdelState β δ)
    (sv : ScalarTargetValue) : Result ScalarTargetValue :=
  match sv with
  | .int64 vp =>
    if rhsType.is_string then
      match s.catalog.getMetadataForDict rhsType.comp_param with
      | none => .error (.runtime_error
          "UPDATE does not support cast from string literal to string column.")
      | some _ =>
        match acc.getString (s.stringDicts rhsType.comp_param) vp with
        | .error e => .error e
        | .ok str => .ok (.string (some str))
    else .ok sv
  | _ => .ok sv

/-- The body of the row loop of a worker of `updateColumn`, for the row whose
offset in the fragment is `roffs` and whose right-hand value is `sv`; `c` is
the slot of the worker.  The conversion of a value to a string at the storage
layer (`ENABLE_STRING_CONVERSION_AT_STORAGE_LAYER`) is not compiled in. -/
def updateColumn.row (acc : Accessors β δ) (cd cdl : ColumnDescriptor) (chunk_key : ChunkKey)
    (rhsType : SQLTypeInfo) (c : Nat) (roffs : Nat) (sv : ScalarTargetValue)
    (s : UpdelState β δ) (st : StatArrays) : Result Unit × UpdelState β δ × StatArrays :=
  let lctype := cd.columnType
  match updateColumn.resolve acc rhsType s sv with
  | .error e => (.error e, s, st)
  | .ok (.int64 v) =>
    if lctype.is_string then
      (.error (.runtime_error "UPDATE does not support cast to string."), s, st)
    else
      match acc.put_scalar_int64 (s.buffers chunk_key) roffs lctype v cd.columnName
          (some rhsType) with
      | .error e => (.error e, s, st)
      | .ok buf =>
        let s := s.setBuffer chunk_key buf
        if lctype.is_decimal then
          let decimal := acc.get_scalar_int64 buf roffs lctype
          let st := st.set_minmax_int64 c decimal
          if !(xor (decide (v ≥ 0)) (decide (decimal < 0))) then
            (.error (.runtime_error (overflowMessage v rhsType lctype)), s, st)
          else (.ok (), s, st)
        else if is_integral lctype then
          let val : Double :=
            if rhsType.is_decimal then round (acc.decimal_to_double rhsType v)
            else int64_to_double v
          (.ok (), s, st.set_minmax_int64 c (double_to_int64 val))
        else
          let val : Double :=
            if rhsType.is_decimal then acc.decimal_to_double rhsType v
            else int64_to_double v
          (.ok (), s, st.set_minmax_double c val)
  | .ok (.double v) =>
    if lctype.is_string then
      (.error (.runtime_error "UPDATE does not support cast to string."), s, st)
    else
      match acc.put_scalar_double (s.buffers chunk_key) roffs lctype v cd.columnName with
      | .error e => (.error e, s, st)
      | .ok buf =>
        let s := s.setBuffer chunk_key buf
        if lctype.is_integer then (.ok (), s, st.set_minmax_int64 c (double_to_int64 v))
        else (.ok (), s, st.set_minmax_double c v)
  | .ok (.float v) =>
    if lctype.is_string then
      (.error (.runtime_error "UPDATE does not support cast to string."), s, st)
    else
      match acc.put_scalar_float (s.buffers chunk_key) roffs lctype v cd.columnName with
      | .error e => (.error e, s, st)
      | .ok buf =>
        let s := s.setBuffer chunk_key buf
        if lctype.is_integer then (.ok (), s, st.set_minmax_int64 c (double_to_int64 v))
        else (.ok (), s, st.set_minmax_double c v)
  | .ok (.string str) =>
    let sval : String := match str with | some x => x | none => ""
    if lctype.is_string then
      let added := acc.getOrAdd (s.stringDicts cdl.columnType.comp_param) sval
      let sidx := added.1
      let s := s.setStringDict cdl.columnType.comp_param added.2
      match acc.put_scalar_int32 (s.buffers chunk_key) roffs lctype sidx cd.columnName with
      | .error e => (.error e, s, st)
      | .ok buf => (.ok (), s.setBuffer chunk_key buf, st.set_minmax_int64 c sidx)
    else if sval.length > 0 then
      let parsed : Result Double :=
        if lctype.is_boolean then
          .ok (if sval = "t" ∨ sval = "true" ∨ sval = "T" ∨ sval = "True" then Double.one else 0)
        else if lctype.is_time then
          match acc.StringToDatum_timeval sval lctype with
          | .error e => .error e
          | .ok timeval => .ok (int64_to_double timeval)
        else .ok (acc.atof sval)
      match parsed with
      | .error e => (.error e, s, st)
      | .ok dval =>
        if lctype.is_fp || lctype.is_decimal then
          match acc.put_scalar_double (s.buffers chunk_key) roffs lctype dval cd.columnName with
          | .error e => (.error e, s, st)
          | .ok buf => (.ok (), s.setBuffer chunk_key buf, st.set_minmax_double c dval)
        else
          match acc.put_scalar_int64 (s.buffers chunk_key) roffs lctype (double_to_int64 dval)
              cd.columnName none with
          | .error e => (.error e, s, st)
          | .ok buf =>
            (.ok (), s.setBuffer chunk_key buf, st.set_minmax_int64 c (double_to_int64 dval))
    else
      match acc.put_null (s.buffers chunk_key) roffs lctype cd.columnName with
      | .error e => (.error e, s, st)
      | .ok buf => (.ok (), s.setBuffer chunk_key buf, st.set_null c)

end Fragmenter_Namespace

namespace Fragmenter_Namespace

variable {β δ : Type}

/-- The row loop of a worker of `updateColumn` over the rows `r` of its
segment.  An index outside `fragOffsets` or `rhsValues`, which the check of
`updateColumn` on their sizes excludes, ends the call as a failed check. -/
def updateColumn.rows (acc : Accessors β δ) (cd cdl : ColumnDescriptor) (chunk_key : ChunkKey)
    (fragOffsets : List Nat) (rhsValues : List ScalarTargetValue) (rhsType : SQLTypeInfo)
    (c : Nat) : List Nat → UpdelState β δ → StatArrays →
      Result Unit × UpdelState β δ × StatArrays
  | [], s, st => (.ok (), s, st)
  | r :: rest, s, st =>
    match fragOffsets.get? r, rhsValues.get? (if 1 = rhsValues.length then 0 else r) with
    | some roffs, some sv =>
      match updateColumn.row acc cd cdl chunk_key rhsType c roffs sv s st with
      | (.error e, s, st) => (.error e, s, st)
      | (.ok _, s, st) => updateColumn.rows acc cd cdl chunk_key fragOffsets rhsValues rhsType c
          rest s st
    | _, _ => (.error .check_failed, s, st)

/-- The task of worker `c` of `updateColumn`, for the rows from `rbegin` up to
`min(rbegin + segsz, nrow)`. -/
def updateColumn.task (acc : Accessors β δ) (td : TableDescriptor) (cd : ColumnDescriptor)
    (shard_ : Int) (chunk_key : ChunkKey) (fragOffsets : List Nat)
    (rhsValues : List ScalarTargetValue) (rhsType : SQLTypeInfo) (segsz rbegin c : Nat)
    (s : UpdelState β δ) (st : StatArrays) : Result Unit × UpdelState β δ × StatArrays :=
  let lctype := cd.columnType
  let nrow := fragOffsets.length
  let cdl : Option ColumnDescriptor :=
    if shard_ < 0 then some cd
    else s.catalog.getMetadataForColumnById (s.catalog.getLogicalTableId td.tableId) cd.columnId
  match cdl with
  | none => (.error .check_failed, s, st)
  | some cdl =>
    let stringDict : Result Unit :=
      if lctype.is_string then
        if lctype.compression ≠ .kENCODING_DICT then .error .check_failed
        else
          match s.catalog.getMetadataForDict cdl.columnType.comp_param with
          | none => .error .check_failed
          | some _ => .ok ()
      else .ok ()
    match stringDict with
    | .error e => (.error e, s, st)
    | .ok _ =>
      updateColumn.rows acc cd cdl chunk_key fragOffsets rhsValues rhsType c
        (List.range' rbegin (min (rbegin + segsz) nrow - rbegin)) s st

/-- The lambda `wait_cleanup_threads` of `updateColumn`: the first exception of
the joined tasks, if any, becomes `failed_any_chunk`, and `threads` is cleared.
A task is the result it ended with. -/
def updateColumn.wait_cleanup_threads (threads : List (Option String))
    (failed_any_chunk : Option String) : Option String :=
  match threads.find? (fun t => t.isSome) with
  | some (some e) => some e
  | _ => failed_any_chunk

/-- The exception that a task ended with, if it raised one. -/
def updateColumn.raised (r : Result Unit) : Option String :=
  match r with
  | .error (.runtime_error e) => some e
  | _ => none

/-- The dispatch loop of `updateColumn`, `for (rbegin = 0, c = 0; rbegin < nrow;
++c, rbegin += segsz)`, with the tasks run one after the other, each when it is
dispatched: one of the schedules of the source.  A task that raises leaves its
exception in `threads`; a failed check ends the process.  The loop runs at most
`fuel` rounds; `updateColumn` gives it `nrow`, one round per row at least.
The result is `threads` and `failed_any_chunk` after the loop. -/
def updateColumn.dispatch (acc : Accessors β δ) (cpu_threads : Nat) (td : TableDescriptor)
    (cd : ColumnDescriptor) (shard_ : Int) (chunk_key : ChunkKey) (fragOffsets : List Nat)
    (rhsValues : List ScalarTargetValue) (rhsType : SQLTypeInfo) (segsz : Nat) :
    Nat → Nat → Nat → List (Option String) → Option String → UpdelState β δ → StatArrays →
      Result (List (Option String) × Option String) × UpdelState β δ × StatArrays
  | 0, rbegin, _, threads, failed_any_chunk, s, st =>
    if rbegin < fragOffsets.length then (.error .check_failed, s, st)
    else (.ok (threads, failed_any_chunk), s, st)
  | fuel + 1, rbegin, c, threads, failed_any_chunk, s, st =>
    if rbegin < fragOffsets.length then
      match updateColumn.task acc td cd shard_ chunk_key fragOffsets rhsValues rhsType segsz
          rbegin c s st with
      | (.error .check_failed, s, st) => (.error .check_failed, s, st)
      | (r, s, st) =>
        let threads := threads ++ [updateColumn.raised r]
        let joined : List (Option String) × Option String :=
          if threads.length ≥ cpu_threads then
            ([], updateColumn.wait_cleanup_threads threads failed_any_chunk)
          else (threads, failed_any_chunk)
        if joined.2.isSome then (.ok joined, s, st)
        else
          updateColumn.dispatch acc cpu_threads td cd shard_ chunk_key fragOffsets rhsValues
            rhsType segsz fuel (rbegin + segsz) (c + 1) joined.1 joined.2 s st
    else (.ok (threads, failed_any_chunk), s, st)

/-- The fragment-level summary of the statistics that `updateColumn` hands to
`updateColumnMetadata`. -/
structure Summary where
  null : Bool
  dmax : Double
  dmin : Double
  lmax : Int
  lmin : Int
  deriving DecidableEq, Repr

/-- The merge loop of `updateColumn` over the slots of the workers. -/
def updateColumn.merge (st : StatArrays) : Summary :=
  { null := st.null.foldl (fun lc_null n => lc_null || n) false,
    dmax := st.dmax.foldl (fun lc_dmax d => max lc_dmax d) DBL_MIN,
    dmin := st.dmin.foldl (fun lc_dmin d => min lc_dmin d) DBL_MAX,
    lmax := st.lmax.foldl (fun lc_lmax l => max lc_lmax l) INT64_MIN,
    lmin := st.lmin.foldl (fun lc_lmin l => min lc_lmin l) INT64_MAX }

/-- `InsertOrderFragmenter::updateColumnMetadata`, for the fragment `fragment`
that `ptr` points to: the roll gets the metadata map and the tuple count of
the fragment when it has none under the key, the encoder of the buffer of the
chunk takes the bounds, and its metadata become those of the column in the map
of the roll.  A chunk without buffer is dereferenced.  The product of a bound
and `pow(10, scale)`, for a scale that is not negative, is taken exactly. -/
def updateColumnMetadata (acc : Accessors β δ) (s : UpdelState β δ) (cd : ColumnDescriptor)
    (ptr : Int × Int) (fragment : FragmentInfo) (chunk : Chunk) (sm : Summary)
    (rhsType : SQLTypeInfo) (updelRoll : UpdelRoll) :
    Result Unit × UpdelState β δ × UpdelRoll :=
  let td := s.catalog.getMetadataForTable cd.tableId
  let key : MetaDataKey := (td.map (fun t => t.tableId), ptr)
  let updelRoll :=
    match mapFind updelRoll.chunkMetadata key with
    | none =>
      { updelRoll with
        chunkMetadata := mapAssign updelRoll.chunkMetadata key fragment.chunkMetadataMap }
    | some _ => updelRoll
  let updelRoll :=
    match mapFind updelRoll.numTuples key with
    | none =>
      { updelRoll with numTuples := mapAssign updelRoll.numTuples key fragment.shadowNumTuples }
    | some _ => updelRoll
  match chunk.buffer with
  | none => (.error .check_failed, s, updelRoll)
  | some handle =>
    let lctype := cd.columnType
    let buffer := s.buffers handle
    let buffer :=
      if is_integral lctype || (lctype.is_decimal && rhsType.is_decimal) then
        acc.updateStats_int64 (acc.updateStats_int64 buffer sm.lmax sm.null) sm.lmin sm.null
      else if lctype.is_fp then
        acc.updateStats_double (acc.updateStats_double buffer sm.dmax sm.null) sm.dmin sm.null
      else if lctype.is_decimal then
        acc.updateStats_int64
          (acc.updateStats_int64 buffer
            (double_to_int64 (sm.dmax * 10 ^ lctype.scale.toNat)) sm.null)
          (double_to_int64 (sm.dmin * 10 ^ lctype.scale.toNat)) sm.null
      else if !lctype.is_array &&
          !(lctype.is_string && decide (lctype.compression ≠ .kENCODING_DICT)) then
        acc.updateStats_int64 (acc.updateStats_int64 buffer sm.lmax sm.null) sm.lmin sm.null
      else buffer
    let s := s.setBuffer handle buffer
    let chunkMetadata := (mapFind updelRoll.chunkMetadata key).getD []
    let column := (mapFind chunkMetadata cd.columnId).getD ChunkMetadata.new
    let chunkMetadata := mapAssign chunkMetadata cd.columnId (acc.getMetadata buffer column)
    (.ok (), s,
      { updelRoll with chunkMetadata := mapAssign updelRoll.chunkMetadata key chunkMetadata })

end Fragmenter_Namespace

namespace Fragmenter_Namespace

variable {β δ : Type}

/-- `InsertOrderFragmenter::updateColumn` of the fragmenter of the table `td`,
with `cpu_threads` the value of `cpu_threads()`.  The result is the summary
handed to `updateColumnMetadata`, and `none` when the call returns before.  The
chunk that `Chunk::getChunk` returns is a new chunk object whose buffer is the
one the storage manager holds for the key in CPU memory.  The division by
`cpu_threads() = 0` ends the call as a failed check. -/
def updateColumn (acc : Accessors β δ) (cpu_threads : Nat) (s : UpdelState β δ)
    (td : TableDescriptor) (cd : ColumnDescriptor) (fragmentId : Int) (fragOffsets : List Nat)
    (rhsValues : List ScalarTargetValue) (rhsType : SQLTypeInfo) (memoryLevel : MemoryLevel)
    (updelRoll : UpdelRoll) : Result (Option Summary) × UpdelState β δ × UpdelRoll :=
  let updelRoll := { updelRoll with
    catalog := true, logicalTableId := s.catalog.getLogicalTableId td.tableId,
    memoryLevel := memoryLevel }
  let nrow := fragOffsets.length
  let nval := rhsValues.length
  if 0 = nrow then (.ok none, s, updelRoll)
  else if ¬(nrow = nval ∨ 1 = nval) then (.error .check_failed, s, updelRoll)
  else
    let fragmenter := s.fragmenters td.tableId
    match fragmenter.fragmentInfoVec_.find? (fun f => f.fragmentId == fragmentId) with
    | none => (.error .check_failed, s, updelRoll)
    | some fragment =>
      match mapFind fragment.chunkMetadataMap cd.columnId with
      | none => (.error .check_failed, s, updelRoll)
      | some _ =>
        let chunk_key : ChunkKey :=
          [s.catalog.currentDB_.dbId, td.tableId, cd.columnId, fragment.fragmentId]
        let chunk : Chunk := { key := chunk_key, buffer := some chunk_key }
        let ncore := cpu_threads
        if ncore = 0 then (.error .check_failed, s, updelRoll)
        else
          let st := StatArrays.new ncore
          let segsz := (nrow + ncore - 1) / ncore
          let s := s.setBuffer chunk_key (acc.setUpdated (s.buffers chunk_key))
          let chunkey : ChunkKey :=
            [s.catalog.currentDB_.dbId, cd.tableId, cd.columnId, fragment.fragmentId]
          let dirtyChunkeys :=
            if updelRoll.dirtyChunkeys.contains chunkey then updelRoll.dirtyChunkeys
            else updelRoll.dirtyChunkeys ++ [chunkey]
          let updelRoll := { updelRoll with
            dirtyChunks := updelRoll.dirtyChunks ++ [chunk], dirtyChunkeys := dirtyChunkeys }
          match updateColumn.dispatch acc cpu_threads td cd fragmenter.shard_ chunk_key fragOffsets
              rhsValues rhsType segsz nrow 0 0 [] none s st with
          | (.error e, s, _) => (.error e, s, updelRoll)
          | (.ok (threads, failed_any_chunk), s, st) =>
            match updateColumn.wait_cleanup_threads threads failed_any_chunk with
            | some e => (.error (.runtime_error e), s, updelRoll)
            | none =>
              let sm := updateColumn.merge st
              match updateColumnMetadata acc s cd (td.tableId, fragment.fragmentId) fragment
                  chunk sm cd.columnType updelRoll with
              | (.error e, s, updelRoll) => (.error e, s, updelRoll)
              | (.ok _, s, updelRoll) => (.ok (some sm), s, updelRoll)

/-- `InsertOrderFragmenter::updateMetadata`: the fragment of a key recorded in
the roll takes the metadata map of the roll, as its shadow and its physical
map, and the tuple count of the roll, which `operator[]` adds as 0 when the
roll has none. -/
def updateMetadata (s : UpdelState β δ) (key : MetaDataKey) (updelRoll : UpdelRoll) :
    UpdelState β δ × UpdelRoll :=
  match mapFind updelRoll.chunkMetadata key with
  | none => (s, updelRoll)
  | some chunkMetadata =>
    let updelRoll :=
      match mapFind updelRoll.numTuples key with
      | none => { updelRoll with numTuples := mapAssign updelRoll.numTuples key 0 }
      | some _ => updelRoll
    let numTuples := (mapFind updelRoll.numTuples key).getD 0
    let s := s.setFragment key.2 (fun fragmentInfo =>
      { fragmentInfo with
        shadowChunkMetadataMap := chunkMetadata, chunkMetadataMap := chunkMetadata,
        shadowNumTuples := numTuples, physicalNumTuples := numTuples })
    (s, updelRoll)

/-- The loop of `UpdelRoll::commitUpdate` over the keys of the metadata map of
the roll; the fragmenter of a key without table descriptor is dereferenced. -/
def UpdelRoll.commitUpdate.loop :
    List MetaDataKey → UpdelState β δ → UpdelRoll → Result Unit × UpdelState β δ × UpdelRoll
  | [], s, updelRoll => (.ok (), s, updelRoll)
  | key :: rest, s, updelRoll =>
    match key.1 with
    | none => (.error .check_failed, s, updelRoll)
    | some _ =>
      let updated := updateMetadata s key updelRoll
      UpdelRoll.commitUpdate.loop rest updated.1 updated.2

/-- `UpdelRoll::commitUpdate`. -/
def UpdelRoll.commitUpdate (s : UpdelState β δ) (updelRoll : UpdelRoll) :
    Result Unit × UpdelState β δ × UpdelRoll :=
  if !updelRoll.catalog then (.ok (), s, updelRoll)
  else
    match s.catalog.getMetadataForTable updelRoll.logicalTableId with
    | none => (.error .check_failed, s, updelRoll)
    | some td =>
      let checkpointed : Result (List DataMgrCall) :=
        if td.persistenceLevel = .DISK_LEVEL then
          match s.catalog.checkpoint updelRoll.logicalTableId with
          | .error e => .error e
          | .ok calls => .ok (calls.map (fun call => DataMgrCall.checkpoint call.1 call.2))
        else .ok []
      match checkpointed with
      | .error e => (.error e, s, updelRoll)
      | .ok calls =>
        let s := { s with calls := s.calls ++ calls }
        match UpdelRoll.commitUpdate.loop (updelRoll.chunkMetadata.map (fun cm => cm.1)) s
            updelRoll with
        | (.error e, s, updelRoll) => (.error e, s, updelRoll)
        | (.ok _, s, updelRoll) =>
          let updelRoll := { updelRoll with dirtyChunks := [] }
          let flushed : List DataMgrCall :=
            if updelRoll.memoryLevel ≠ .GPU_LEVEL then
              updelRoll.dirtyChunkeys.map
                (fun chunkey => DataMgrCall.deleteChunksWithPrefix chunkey .GPU_LEVEL)
            else []
          (.ok (), { s with calls := s.calls ++ flushed }, updelRoll)

/-- `UpdelRoll::cancelUpdate`. -/
def UpdelRoll.cancelUpdate (s : UpdelState β δ) (updelRoll : UpdelRoll) :
    Result Unit × UpdelState β δ × UpdelRoll :=
  if !updelRoll.catalog then (.ok (), s, updelRoll)
  else
    match s.catalog.getMetadataForTable updelRoll.logicalTableId with
    | none => (.error .check_failed, s, updelRoll)
    | some td =>
      if td.persistenceLevel ≠ updelRoll.memoryLevel then
        let freed := updelRoll.dirtyChunks.map (fun dit => DataMgrCall.free dit.buffer)
        let dirtyChunks := updelRoll.dirtyChunks.map (fun dit => { dit with buffer := none })
        (.ok (), { s with calls := s.calls ++ freed },
          { updelRoll with dirtyChunks := dirtyChunks })
      else (.ok (), s, updelRoll)

/-- The fragment record as `updateMetadata` leaves it, for the metadata map
and the tuple count of the roll. -/
def FragmentInfo.committed (chunkMetadata : List (Int × ChunkMetadata)) (numTuples : Nat)
    (fragmentInfo : FragmentInfo) : FragmentInfo :=
  { fragmentInfo with
    shadowChunkMetadataMap := chunkMetadata, chunkMetadataMap := chunkMetadata,
    shadowNumTuples := numTuples, physicalNumTuples := numTuples }

/-- The `int64_t` right-hand values of the rows `rows` of an update, in their
order: the row `r` has the value `rhsValues[r]`, or the single value of
`rhsValues`. -/
def int64Values (rhsValues : List ScalarTargetValue) (rows : List Nat) : List Int :=
  rows.filterMap (fun r =>
    match rhsValues.get? (if 1 = rhsValues.length then 0 else r) with
    | some (.int64 v) => some v
    | _ => none)

end Fragmenter_Namespace

/-! ## Sequential positional indexes (`Catalog.h`) -/

/-- The constant `SPIMAP_MAGIC1`, `std::numeric_limits<unsigned>::max() / 4`. -/
def SPIMAP_MAGIC1 : Nat := (2 ^ 32 - 1) / 4

/-- The constant `SPIMAP_MAGIC2`. -/
def SPIMAP_MAGIC2 : Nat := 8

/-- The expansion of `SPIMAP_GEO_PHYSICAL_INPUT(c, i)` for `c` and `i` that
are not negative: the inner sum is cast to `unsigned`, and the outer sum is
one of `unsigned` values. -/
def SPIMAP_GEO_PHYSICAL_INPUT (c i : Nat) : Nat :=
  (SPIMAP_MAGIC1 + (SPIMAP_MAGIC2 * (c + 1) + i) % 2 ^ 32) % 2 ^ 32

namespace Catalog

/-- `Catalog::getColumnIdBySpi`, for `spi` a `size_t`.  The sum that is
returned is one of two `int` values, whose overflow the language leaves
undefined; it is taken in the integers. -/
def getColumnIdBySpi (cat : Catalog) (tableId : Int) (spi : Nat) : Result Int :=
  match mapFind cat.tableDescriptorMapById_ tableId with
  | none => .error .check_failed
  | some td =>
    let columnIdBySpi := td.columnIdBySpi_
    let spx := if spi ≥ SPIMAP_MAGIC1 then (spi - SPIMAP_MAGIC1) / SPIMAP_MAGIC2 else spi
    let phi : Int :=
      if spi ≥ SPIMAP_MAGIC1 then Int.ofNat ((spi - SPIMAP_MAGIC1) % SPIMAP_MAGIC2) else 0
    if 0 < spx ∧ spx ≤ columnIdBySpi.length then
      match columnIdBySpi.get? (spx - 1) with
      | none => .error .check_failed
      | some columnId => .ok (columnId + phi)
    else .error .check_failed

end Catalog

/-! ## The migration of the schema of `mapd_tables` -/

/-- Modelled from the spec: `DEFAULT_MAX_CHUNK_SIZE` of `Fragmenter.h`, one
gigabyte. -/
def DEFAULT_MAX_CHUNK_SIZE : Int := 1073741824

/-- The constant `MAPD_ROOT_USER_ID`. -/
def MAPD_ROOT_USER_ID : Int := 0

/-- Modelled from the spec: the part of the persistent store that the
migration of `mapd_tables` works on: the names of the columns of `mapd_tables`,
in the order of `PRAGMA TABLE_INFO`, and the statements run so far. -/
structure TablesSchema where
  mapd_tables_info : List String
  statements : List String
  deriving DecidableEq, Repr

namespace TablesSchema

/-- A statement that leaves the schema as it is. -/
def query (db : TablesSchema) (statement : String) : TablesSchema :=
  { db with statements := db.statements ++ [statement] }

/-- Modelled from the spec: `ALTER TABLE mapd_tables ADD name decl` as the
store runs it: a column whose name is there already, compared without regard
to case, is refused, and else the column is added after the others. -/
def alterAdd (db : TablesSchema) (name decl : String) : Result Unit × TablesSchema :=
  let db := db.query ("ALTER TABLE mapd_tables ADD " ++ name ++ " " ++ decl)
  if db.mapd_tables_info.any (fun c => decide (to_upper c = to_upper name)) then
    (.error (.runtime_error ("duplicate column name: " ++ name)), db)
  else (.ok (), { db with mapd_tables_info := db.mapd_tables_info ++ [name] })

end TablesSchema

namespace Catalog

/-- The columns that `Catalog::updateTableDescriptorSchema` looks for, in its
order, each with the declaration it adds the column with. -/
def updateTableDescriptorSchema.columns : List (String × String) :=
  [("max_chunk_size", "BIGINT DEFAULT " ++ toString DEFAULT_MAX_CHUNK_SIZE),
   ("shard_column_id", "BIGINT DEFAULT " ++ toString (0 : Int)),
   ("shard", "BIGINT DEFAULT " ++ toString (-1 : Int)),
   ("num_shards", "BIGINT DEFAULT " ++ toString (0 : Int)),
   ("key_metainfo", "TEXT DEFAULT '[]'"),
   ("userid", "integer DEFAULT " ++ toString MAPD_ROOT_USER_ID)]

/-- The tests of `Catalog::updateTableDescriptorSchema`, one after the other:
a column that is not among `cols`, the names read at the start, is added. -/
def updateTableDescriptorSchema.alter (cols : List String) :
    List (String × String) → TablesSchema → Result Unit × TablesSchema
  | [], db => (.ok (), db)
  | (name, decl) :: rest, db =>
    if cols.contains name then updateTableDescriptorSchema.alter cols rest db
    else
      match db.alterAdd name decl with
      | (.error e, db) => (.error e, db)
      | (.ok _, db) => updateTableDescriptorSchema.alter cols rest db

/-- `Catalog::updateTableDescriptorSchema` on the schema of `mapd_tables`: the
names of the columns are read once, the missing columns are added in a
transaction, which an exception rolls back before it is raised again. -/
def updateTableDescriptorSchema (db : TablesSchema) : Result Unit × TablesSchema :=
  let begun := db.query "BEGIN TRANSACTION"
  let db := begun.query "PRAGMA TABLE_INFO(mapd_tables)"
  let cols := db.mapd_tables_info
  match updateTableDescriptorSchema.alter cols updateTableDescriptorSchema.columns db with
  | (.error e, db) =>
    (.error e, { mapd_tables_info := begun.mapd_tables_info,
                 statements := db.statements ++ ["ROLLBACK TRANSACTION"] })
  | (.ok _, db) => (.ok (), db.query "END TRANSACTION")

end Catalog

/-! ## Renaming tables -/

namespace CatalogStore

/-- `UPDATE mapd_tables SET name = ? WHERE tableid = ?`, with `name text
unique`: the statement fails when it would leave more than one row with the
name. -/
def renameTable (st : CatalogStore) (tableId : Int) (newTableName : String) :
    Result CatalogStore :=
  let rows := st.mapd_tables.map
    (fun row => if row.tableid = tableId then { row with name := newTableName } else row)
  if (rows.filter (fun row => decide (row.name = newTableName))).length > 1 then
    .error (uniqueConstraintFailed "mapd_tables.name")
  else .ok { st with mapd_tables := rows }

end CatalogStore

namespace Catalog

/-- `Catalog::renamePhysicalTable`: the name of the row of the table changes in
the store; the descriptor found under the upper-cased old name, which both
table maps point to, takes the new name and moves to the key of the
upper-cased new name in the by-name map. -/
def renamePhysicalTable (cat : Catalog) (td : TableDescriptor) (newTableName : String) :
    Result Unit × Catalog :=
  match cat.sqliteConnector_.renameTable td.tableId newTableName with
  | .error e => (.error e, cat)
  | .ok st =>
    let cat := { cat with sqliteConnector_ := st }
    match mapFind cat.tableDescriptorMap_ (to_upper td.tableName) with
    | none => (.error .check_failed, cat)
    | some changeTd =>
      let cat := cat.updateTableDescriptor changeTd.tableId
        (fun t => { t with tableName := newTableName })
      let changeTd := { changeTd with tableName := newTableName }
      let byName := mapErase cat.tableDescriptorMap_ (to_upper td.tableName)
      let byName := mapAssign byName (to_upper newTableName) changeTd
      (.ok (), { cat with tableDescriptorMap_ := byName })

/-- The loop of `Catalog::renameTable` over the physical tables of a logical
table; `i` is the loop index. -/
def renameTable.loop (newTableName : String) : List Int → Nat → Catalog → Result Unit × Catalog
  | [], _, cat => (.ok (), cat)
  | physical_tb_id :: rest, i, cat =>
    match cat.getMetadataForTable physical_tb_id with
    | none => (.error .check_failed, cat)
    | some phys_td =>
      match cat.renamePhysicalTable phys_td
          (generatePhysicalTableName newTableName (Int.ofNat i + 1)) with
      | (.error e, cat) => (.error e, cat)
      | (.ok _, cat) => renameTable.loop newTableName rest (i + 1) cat

/-- `Catalog::renameTable`: the physical tables of a logical table are renamed
first, then the table itself.  The pointer `td` is the table id; the last call
reads the descriptor that the by-id map holds for it then, and the argument
when it holds none. -/
def renameTable (cat : Catalog) (td : TableDescriptor) (newTableName : String) :
    Result Unit × Catalog :=
  let renamed : Result Unit × Catalog :=
    match mapFind cat.logicalToPhysicalTableMapById_ td.tableId with
    | some physicalTables =>
      if physicalTables.isEmpty then (.error .check_failed, cat)
      else renameTable.loop newTableName physicalTables 0 cat
    | none => (.ok (), cat)
  match renamed with
  | (.error e, cat) => (.error e, cat)
  | (.ok _, cat) =>
    cat.renamePhysicalTable ((cat.getMetadataForTable td.tableId).getD td) newTableName

/-- The names that `renameTable` gives: those of the physical tables of the
table, in their order, and the new name of the table. -/
def renameTable.names (cat : Catalog) (td : TableDescriptor) (newTableName : String) :
    List String :=
  match mapFind cat.logicalToPhysicalTableMapById_ td.tableId with
  | some physicalTables =>
    (List.range physicalTables.length).map
      (fun i => generatePhysicalTableName newTableName (Int.ofNat i + 1)) ++ [newTableName]
  | none => [newTableName]

/-- The by-name table map and the by-id table map hold the same descriptors:
a descriptor found in one is found in the other, by name under its upper-cased
name and by id under its id. -/
def tablesAgree (cat : Catalog) : Prop :=
  (∀ name t, mapFind cat.tableDescriptorMap_ name = some t →
    name = to_upper t.tableName ∧ mapFind cat.tableDescriptorMapById_ t.tableId = some t) ∧
  (∀ id t, mapFind cat.tableDescriptorMapById_ id = some t →
    id = t.tableId ∧ mapFind cat.tableDescriptorMap_ (to_upper t.tableName) = some t)

end Catalog

/-! ## Write guards (`write_lock` of `Catalog.cpp`) -/

/-- Modelled from the spec: the state of a `mapd_shared_mutex`: the thread that
holds it exclusively, if any, and the threads that share it. -/
structure SharedMutex where
  exclusive : Option Nat
  shared : List Nat
  deriving DecidableEq, Repr

/-- Modelled from the spec: the exclusive acquisition of the mutex by the
thread `tid`, as the constructor of `std::unique_lock` makes it; `none` stands
for a call that blocks. -/
def SharedMutex.lock (m : SharedMutex) (tid : Nat) : Option SharedMutex :=
  if m.exclusive = none ∧ m.shared = [] then some { m with exclusive := some tid }
  else none

/-- Modelled from the spec: the release of the mutex by the destructor of
`std::unique_lock`. -/
def SharedMutex.unlock (m : SharedMutex) : SharedMutex :=
  { m with exclusive := none }

/-- The members of a catalog object that a guard works on: its name, the
thread recorded in `thread_holding_write_lock` (`none` is the id of no thread)
and `sharedMutex_`. -/
structure LockedCatalog where
  name : String
  thread_holding_write_lock : Option Nat
  sharedMutex_ : SharedMutex
  deriving DecidableEq, Repr

/-- The catalog objects that a guard can reach: the catalog it is created on
and `SysCatalog::instance()`. -/
structure Catalogs where
  catalog : LockedCatalog
  sysCatalog : LockedCatalog
  deriving DecidableEq, Repr

/-- A pointer to one of the two catalog objects. -/
inductive CatalogRef where
  | catalog
  | sysCatalog
  deriving DecidableEq, Repr

/-- The object a pointer points to. -/
def Catalogs.get (w : Catalogs) : CatalogRef → LockedCatalog
  | .catalog => w.catalog
  | .sysCatalog => w.sysCatalog

/-- The object a pointer points to is replaced. -/
def Catalogs.set (w : Catalogs) (ref : CatalogRef) (c : LockedCatalog) : Catalogs :=
  match ref with
  | .catalog => { w with catalog := c }
  | .sysCatalog => { w with sysCatalog := c }

/-- The members of a guard `write_lock<T>`: the catalog it was created on,
the catalog whose mutex `lock` owns, if it owns one, and `holds_lock`. -/
structure write_lock where
  catalog : CatalogRef
  lock : Option CatalogRef
  holds_lock : Bool
  deriving DecidableEq, Repr

/-- `write_lock::lock_catalog` run by the thread `tid`; `none` stands for a
call that blocks. -/
def write_lock.lock_catalog (g : write_lock) (w : Catalogs) (tid : Nat) (cat : CatalogRef) :
    Option (write_lock × Catalogs) :=
  if (w.get cat).thread_holding_write_lock ≠ some tid then
    match (w.get cat).sharedMutex_.lock tid with
    | none => none
    | some m =>
      some ({ g with lock := some cat, holds_lock := true },
        w.set cat { w.get cat with sharedMutex_ := m, thread_holding_write_lock := some tid })
  else some (g, w)

/-- The constructor `write_lock(const T* cat)` run by the thread `tid`. -/
def write_lock.new (w : Catalogs) (tid : Nat) (cat : CatalogRef) :
    Option (write_lock × Catalogs) :=
  let g : write_lock := { catalog := cat, lock := none, holds_lock := false }
  if (w.get cat).name = MAPD_SYSTEM_DB then g.lock_catalog w tid .sysCatalog
  else g.lock_catalog w tid cat

/-- The destructor `~write_lock()`: its body, and then the destructor of the
member `lock`, which releases the mutex it owns. -/
def write_lock.destroy (g : write_lock) (w : Catalogs) : Catalogs :=
  let w :=
    if g.holds_lock then
      if (w.get g.catalog).name = MAPD_SYSTEM_DB then
        w.set .sysCatalog { w.sysCatalog with thread_holding_write_lock := none }
      else w.set g.catalog { w.get g.catalog with thread_holding_write_lock := none }
    else w
  match g.lock with
  | some cat => w.set cat { w.get cat with sharedMutex_ := (w.get cat).sharedMutex_.unlock }
  | none => w

/-- A properly nested sequence of guards of one thread on one catalog: no
guard, two sequences one after the other, or a sequence inside the scope of a
guard. -/
inductive Guards where
  | none
  | seq (first second : Guards)
  | scope (body : Guards)
  deriving DecidableEq, Repr

/-- The sequence is run by the thread `tid` on the catalog `cat`: a scope
creates its guard, runs its body and destroys the guard.  The result is the
`holds_lock` of the guards in the order of their creation, and `none` when a
guard blocks. -/
def Guards.run (tid : Nat) (cat : CatalogRef) : Guards → Catalogs → Option (List Bool × Catalogs)
  | .none, w => some ([], w)
  | .seq first second, w =>
    match Guards.run tid cat first w with
    | Option.none => Option.none
    | some (held1, w) =>
      match Guards.run tid cat second w with
      | Option.none => Option.none
      | some (held2, w) => some (held1 ++ held2, w)
  | .scope body, w =>
    match write_lock.new w tid cat with
    | Option.none => Option.none
    | some (g, w) =>
      match Guards.run tid cat body w with
      | Option.none => Option.none
      | some (held, w) => some (g.holds_lock :: held, g.destroy w)

/-- The number of guards of the sequence. -/
def Guards.count : Guards → Nat
  | .none => 0
  | .seq first second => first.count + second.count
  | .scope body => body.count + 1

namespace Fragmenter_Namespace

variable {β δ : Type}

/-- The rows of the row loop of a task that starts at `rbegin`, `for (r =
rbegin; r < min(rbegin + segsz, nrow); r++)`. -/
def updateColumn.segment (segsz nrow rbegin : Nat) : List Nat :=
  List.range' rbegin (min (rbegin + segsz) nrow - rbegin)

/-- The tasks that the dispatch loop of `updateColumn` creates when none of
them raises, `for (rbegin = 0, c = 0; rbegin < nrow; ++c, rbegin += segsz)`:
the start `rbegin` and the slot `c` of each, within `fuel` rounds. -/
def updateColumn.tasks (nrow segsz : Nat) : Nat → Nat → Nat → List (Nat × Nat)
  | 0, _, _ => []
  | fuel + 1, rbegin, c =>
    if rbegin < nrow then (rbegin, c) :: updateColumn.tasks nrow segsz fuel (rbegin + segsz) (c + 1)
    else []

/-- The tasks of a list, each given by its start and its slot, run one after
the other up to the first that does not return. -/
def updateColumn.runTasks (acc : Accessors β δ) (td : TableDescriptor) (cd : ColumnDescriptor)
    (shard_ : Int) (chunk_key : ChunkKey) (fragOffsets : List Nat)
    (rhsValues : List ScalarTargetValue) (rhsType : SQLTypeInfo) (segsz : Nat) :
    List (Nat × Nat) → UpdelState β δ → StatArrays → Result Unit × UpdelState β δ × StatArrays
  | [], s, st => (.ok (), s, st)
  | (rbegin, c) :: rest, s, st =>
    match updateColumn.task acc td cd shard_ chunk_key fragOffsets rhsValues rhsType segsz
        rbegin c s st with
    | (.error e, s, st) => (.error e, s, st)
    | (.ok _, s, st) =>
      updateColumn.runTasks acc td cd shard_ chunk_key fragOffsets rhsValues rhsType segsz
        rest s st

/-- The `double` right-hand values of the rows `rows` of an update, in their
order. -/
def doubleValues (rhsValues : List ScalarTargetValue) (rows : List Nat) : List Double :=
  rows.filterMap (fun r =>
    match rhsValues.get? (if 1 = rhsValues.length then 0 else r) with
    | some (.double v) => some v
    | _ => none)

end Fragmenter_Namespace

namespace Fragmenter_Namespace

variable {β δ : Type}

/-- The tasks of a list, each given by its start and its slot, created one
after the other, whether or not the ones before raised an exception: the
result is the exception each task ended with, if any, in the order of the
tasks.  A failed check ends the process. -/
def updateColumn.spawn (acc : Accessors β δ) (td : TableDescriptor) (cd : ColumnDescriptor)
    (shard_ : Int) (chunk_key : ChunkKey) (fragOffsets : List Nat)
    (rhsValues : List ScalarTargetValue) (rhsType : SQLTypeInfo) (segsz : Nat) :
    List (Nat × Nat) → UpdelState β δ → StatArrays →
      Result (List (Option String)) × UpdelState β δ × StatArrays
  | [], s, st => (.ok [], s, st)
  | (rbegin, c) :: rest, s, st =>
    match updateColumn.task acc td cd shard_ chunk_key fragOffsets rhsValues rhsType segsz
        rbegin c s st with
    | (.error .check_failed, s, st) => (.error .check_failed, s, st)
    | (r, s, st) =>
      match updateColumn.spawn acc td cd shard_ chunk_key fragOffsets rhsValues rhsType segsz
          rest s st with
      | (.error e, s, st) => (.error e, s, st)
      | (.ok threads, s, st) => (.ok (updateColumn.raised r :: threads), s, st)

end Fragmenter_Namespace

/-! ## Example states -/

/-- A table descriptor with the given id, name and persistence level and no columns. -/
def exampleTable (tableId : Int) (tableName : String) (level : MemoryLevel) :
    TableDescriptor :=
  { tableId := tableId, tableName := tableName, userId := 0, nColumns := 0,
    isView := false, viewSQL := "", fragments := "", fragType := 0,
    maxFragRows := 32000000, maxChunkSize := 1073741824, fragPageSize := 2097152,
    maxRows := 4611686018427387904, partitions := "", keyMetainfo := "[]",
    shardedColumnId := 0, shard := -1, nShards := 0, persistenceLevel := level,
    hasDeletedCol := false, columnIdBySpi_ := [] }

/-- An empty persistent store. -/
def emptyStore : CatalogStore :=
  { mapd_tables := [], mapd_columns := [], mapd_dictionaries := [], mapd_views := [],
    mapd_logical_to_physical := [] }

/-- A catalog of database 1 holding the logical table 1 with the shards 2 and 3,
and the unsharded table 4. -/
def shardedCatalog : Catalog :=
  { basePath_ := "/data", currentDB_ := { dbId := 1, dbName := "d1", dbOwner := 0 },
    tableDescriptorMap_ :=
      [("T", exampleTable 1 "t" .DISK_LEVEL), ("T_SHARD_#1", exampleTable 2 "t_shard_#1" .DISK_LEVEL),
       ("T_SHARD_#2", exampleTable 3 "t_shard_#2" .DISK_LEVEL), ("U", exampleTable 4 "u" .DISK_LEVEL)],
    tableDescriptorMapById_ :=
      [(1, exampleTable 1 "t" .DISK_LEVEL), (2, exampleTable 2 "t_shard_#1" .DISK_LEVEL),
       (3, exampleTable 3 "t_shard_#2" .DISK_LEVEL), (4, exampleTable 4 "u" .DISK_LEVEL)],
    columnDescriptorMap_ := [], columnDescriptorMapById_ := [],
    dictDescriptorMapByRef_ := [], logicalToPhysicalTableMapById_ := [(1, [2, 3])],
    deletedColumnPerTable_ := [], nextTempTableId_ := 1073741824,
    nextTempDictId_ := 1073741824, sqliteConnector_ := emptyStore }

/-- The catalog of the system database, with id 1 and no tables. -/
def systemCatalog : Catalog :=
  { basePath_ := "/data", currentDB_ := ⟨1, "mapd", 0⟩,
    tableDescriptorMap_ := [], tableDescriptorMapById_ := [],
    columnDescriptorMap_ := [], columnDescriptorMapById_ := [],
    dictDescriptorMapByRef_ := [], logicalToPhysicalTableMapById_ := [],
    deletedColumnPerTable_ := [], nextTempTableId_ := 1073741824,
    nextTempDictId_ := 1073741824, sqliteConnector_ := emptyStore }

/-- The table with id 5 of database 1, owned by user 7, as a privilege object
carrying the given privilege mask. -/
def tableFive (privs : Nat) : DBObject :=
  { objectName_ := "t5", objectType_ := .TableDBObjectType,
    objectKey_ := { permissionType := .TableDBObjectType, dbId := 1, objectId := 5 },
    objectPrivs_ := ⟨privs⟩, ownerId_ := 7 }

/-- Database 1 as a privilege object carrying ALL on DATABASE. -/
def allOnDatabaseOne : DBObject :=
  (DBObject.ofDatabase ⟨1, "mapd", 0⟩).setPrivileges AccessPrivileges.ALL_DATABASE

/-- The persistent store of `analystSys`. -/
def analystStore : SysStore :=
  { mapd_users := [⟨0, "mapd", "hash0", true⟩, ⟨7, "alice", "hash7", false⟩],
    mapd_databases := [⟨1, "mapd", 0⟩],
    mapd_roles := [("analyst", "alice")],
    mapd_object_permissions := [⟨"analyst", false, .TableDBObjectType, 1, 5, 4, 7, "t5"⟩],
    mapd_privileges := [] }

/-- A system catalog with privileges on in which the role `analyst`, granted
to the user alice, holds the privilege with mask 4 on table 5 of database 1:
one record, one persisted row and one reverse-lookup descriptor. -/
def analystSys : SysCatalog :=
  { check_privileges_ := true, currentDB_ := ⟨1, "mapd", 0⟩,
    roleMap_ := [("ANALYST", ⟨"analyst", false, [((tableFive 4).objectKey_, tableFive 4)]⟩)],
    userRoleMap_ := [(7, ⟨7, "alice", ["ANALYST"], [((tableFive 4).objectKey_, tableFive 4)]⟩)],
    objectDescriptorMap_ :=
      [((1, .TableDBObjectType, 5), ⟨"analyst", false, .TableDBObjectType, 1, 5, ⟨4⟩, 7, "t5"⟩)],
    sqliteConnector_ := analystStore,
    mapd_cat_map_ := [("mapd", systemCatalog)] }

/-- A system catalog in legacy mode (privileges off) with the users mapd and
bob, the databases mapd and d2, and no legacy privilege row. -/
def legacySys : SysCatalog :=
  { check_privileges_ := false, currentDB_ := ⟨1, "mapd", 0⟩,
    roleMap_ := [], userRoleMap_ := [], objectDescriptorMap_ := [],
    sqliteConnector_ :=
      { mapd_users := [⟨0, "mapd", "hash0", true⟩, ⟨8, "bob", "hash8", false⟩],
        mapd_databases := [⟨1, "mapd", 0⟩, ⟨2, "d2", 0⟩],
        mapd_roles := [], mapd_object_permissions := [], mapd_privileges := [] },
    mapd_cat_map_ := [] }

/-- A password check that accepts exactly the password `secret`. -/
def exampleCheckpw (passwd _hash : String) : Int := if passwd = "secret" then 0 else 1

/-- A storage manager in which shard 3 is at epoch 9 and every other table at epoch 7. -/
def splitEpochs : DataMgr := { epoch := fun _ t => if t = 3 then 9 else 7 }

/-- A dictionary-encoded text column of the given name, not yet placed in a table. -/
def textColumn (name : String) : ColumnDescriptor :=
  { ColumnDescriptor.new false with
    columnName := name,
    columnType := { SQLTypeInfo.ofType .kTEXT false with
                    compression := .kENCODING_DICT, comp_param := 32 } }

/-- The column `name` of the table `cities` (table 1, column 1), encoded with
dictionary 1. -/
def citiesName : ColumnDescriptor :=
  { textColumn "name" with
    tableId := 1, columnId := 1,
    columnType := { SQLTypeInfo.ofType .kTEXT false with
                    compression := .kENCODING_DICT, comp_param := 1, size := 4 } }

/-- Dictionary 1 of database 1, with the given reference count. -/
def citiesDict (refcount : Int) : DictDescriptor :=
  { dictRef := ⟨1, 1⟩, dictName := "cities_name_dict1", dictNBits := 32, dictIsShared := false,
    refcount := refcount, dictFolderPath := "/data/mapd_data/DB_1_DICT_1", dictIsTemp := false }

/-- A catalog of database 1 holding the table `cities` with its column `name`,
whose dictionary has two references. -/
def citiesCatalog : Catalog :=
  { basePath_ := "/data", currentDB_ := { dbId := 1, dbName := "d1", dbOwner := 0 },
    tableDescriptorMap_ := [("CITIES", exampleTable 1 "cities" .DISK_LEVEL)],
    tableDescriptorMapById_ := [(1, exampleTable 1 "cities" .DISK_LEVEL)],
    columnDescriptorMap_ := [((1, "NAME"), citiesName)],
    columnDescriptorMapById_ := [((1, 1), citiesName)],
    dictDescriptorMapByRef_ := [(⟨1, 1⟩, citiesDict 2)],
    logicalToPhysicalTableMapById_ := [],
    deletedColumnPerTable_ := [], nextTempTableId_ := 1073741824,
    nextTempDictId_ := 1073741824,
    sqliteConnector_ :=
      { mapd_tables := [⟨1, "cities", 0, 2, false, 0, -1, 0⟩],
        mapd_columns := [⟨1, 1, "name", .kENCODING_DICT, 1⟩, ⟨1, 2, "rowid", .kENCODING_NONE, 0⟩],
        mapd_dictionaries := [⟨1, "cities_name_dict1", 32, false, 2⟩],
        mapd_views := [], mapd_logical_to_physical := [] } }

/-- The columns of the table `people`: an integer column and two
dictionary-encoded text columns. -/
def peopleColumns : List ColumnDescriptor :=
  [{ ColumnDescriptor.new false with
     columnName := "age", columnType := SQLTypeInfo.ofType .kINT false },
   textColumn "city", textColumn "nick"]

/-- The declaration `SHARED DICTIONARY (city) REFERENCES cities(name)`. -/
def cityShares : SharedDictionaryDef := ⟨"city", "cities", "name"⟩

/-- A reference-path compression that leaves every declaration as it is. -/
def keepReference (shared_dict_def : SharedDictionaryDef) (_ : List SharedDictionaryDef) :
    SharedDictionaryDef := shared_dict_def

/-- The table `people` with two shards, sharded on its second column. -/
def shardedPeople : TableDescriptor :=
  { exampleTable 0 "people" .DISK_LEVEL with nShards := 2, shardedColumnId := 2 }

/-- The catalog with the table `cities` after `addColumn` of the text column
`motto`: the change is pending in the roll list. -/
def pendingMotto : Catalog :=
  (citiesCatalog.addColumn (exampleTable 1 "cities" .DISK_LEVEL) (textColumn "motto")).2

namespace Fragmenter_Namespace

/-- An example buffer: the values stored at the element offsets, the bounds
and the null flag of its encoder, and whether it was marked as updated. -/
structure CellBuffer where
  cells : List (Nat × Int)
  min : Int
  max : Int
  has_nulls : Bool
  updated : Bool
  deriving DecidableEq, Repr

/-- An example of the functions of `Accessors`, on `CellBuffer` and on string
dictionaries held as the list of their strings: a value is stored as it is,
a value for a decimal column scaled by the power of ten between the two scales
and wrapped to 64 bits, and null as the least `int64_t`; the encoder widens
its bounds by a value that is not null. -/
def cellAccessors : Accessors CellBuffer (List String) where
  put_scalar_int64 := fun b roffs lctype v _ otype =>
    let scale : Int := match otype with | some t => t.scale | none => 0
    let stored :=
      if lctype.is_decimal then toInt64 (v * 10 ^ (lctype.scale - scale).toNat) else v
    .ok { b with cells := mapAssign b.cells roffs stored }
  put_scalar_double := fun b roffs _ v _ => .ok { b with cells := mapAssign b.cells roffs v }
  put_scalar_float := fun b roffs _ v _ => .ok { b with cells := mapAssign b.cells roffs v }
  put_scalar_int32 := fun b roffs _ v _ => .ok { b with cells := mapAssign b.cells roffs v }
  put_null := fun b roffs _ _ => .ok { b with cells := mapAssign b.cells roffs INT64_MIN }
  get_scalar_int64 := fun b roffs _ => (mapFind b.cells roffs).getD 0
  decimal_to_double := fun t v => v * Double.one / 10 ^ t.scale.toNat
  atof := fun str => (str.toInt?.getD 0) * Double.one
  StringToDatum_timeval := fun str _ =>
    match str.toInt? with
    | some t => .ok t
    | none => .error (.runtime_error ("Invalid time string " ++ str))
  getString := fun d i =>
    match d.get? i.toNat with
    | some str => .ok str
    | none => .error .check_failed
  getOrAdd := fun d str =>
    if d.contains str then (Int.ofNat (d.indexOf str), d)
    else (Int.ofNat d.length, d ++ [str])
  setUpdated := fun b => { b with updated := true }
  updateStats_int64 := fun b v is_null =>
    if is_null then { b with has_nulls := true }
    else { b with min := Min.min b.min v, max := Max.max b.max v }
  updateStats_double := fun b v is_null =>
    if is_null then { b with has_nulls := true }
    else { b with min := Min.min b.min v, max := Max.max b.max v }
  getMetadata := fun b m =>
    { m with chunkStats := { min := b.min, max := b.max, has_nulls := b.has_nulls } }

/-- The column `a` of the table `t1` (table 1, column 1), of type `BIGINT`. -/
def t1A : ColumnDescriptor :=
  { ColumnDescriptor.new false with
    tableId := 1, columnId := 1, columnName := "a",
    columnType := SQLTypeInfo.ofType .kBIGINT false }

/-- The column `d` of the table `t1` (table 1, column 2), of type
`DECIMAL(18, 2)`. -/
def t1D : ColumnDescriptor :=
  { ColumnDescriptor.new false with
    tableId := 1, columnId := 2, columnName := "d",
    columnType := { SQLTypeInfo.ofType .kDECIMAL false with dimension := 18, scale := 2 } }

/-- The metadata of a chunk of three values between 0 and 9. -/
def threeValues (ti : SQLTypeInfo) : ChunkMetadata :=
  { sqlType := ti, numBytes := 24, numElements := 3,
    chunkStats := { min := 0, max := 9, has_nulls := false } }

/-- Fragment 0 of the table `t1`, with three rows. -/
def t1Fragment : FragmentInfo :=
  { fragmentId := 0, shadowNumTuples := 3, physicalNumTuples := 3,
    shadowChunkMetadataMap := [(1, threeValues t1A.columnType), (2, threeValues t1D.columnType)],
    chunkMetadataMap := [(1, threeValues t1A.columnType), (2, threeValues t1D.columnType)] }

/-- A state with the durable table `t1` of database 1, its columns `a` and
`d`, and its one fragment. -/
def t1State : UpdelState CellBuffer (List String) :=
  { catalog :=
      { basePath_ := "/data", currentDB_ := { dbId := 1, dbName := "d1", dbOwner := 0 },
        tableDescriptorMap_ := [("T1", exampleTable 1 "t1" .DISK_LEVEL)],
        tableDescriptorMapById_ := [(1, exampleTable 1 "t1" .DISK_LEVEL)],
        columnDescriptorMap_ := [((1, "A"), t1A), ((1, "D"), t1D)],
        columnDescriptorMapById_ := [((1, 1), t1A), ((1, 2), t1D)],
        dictDescriptorMapByRef_ := [],
        logicalToPhysicalTableMapById_ := [],
        deletedColumnPerTable_ := [], nextTempTableId_ := 1073741824,
        nextTempDictId_ := 1073741824,
        sqliteConnector_ :=
          { mapd_tables := [], mapd_columns := [], mapd_dictionaries := [], mapd_views := [],
            mapd_logical_to_physical := [] } },
    fragmenters := fun _ => { fragmentInfoVec_ := [t1Fragment], shard_ := -1 },
    buffers := fun _ =>
      { cells := [(0, 1), (1, 2), (2, 3)], min := 0, max := 9, has_nulls := false,
        updated := false },
    stringDicts := fun _ => [],
    calls := [] }

/-- The update of the spec's scenario: the rows 0, 1 and 2 of fragment 0 of
the column `a` get the values 5, -1 and 100, with `cpu_threads` workers. -/
def t1Update (cpu_threads : Nat) :
    Result (Option Summary) × UpdelState CellBuffer (List String) × UpdelRoll :=
  updateColumn cellAccessors cpu_threads t1State (exampleTable 1 "t1" .DISK_LEVEL) t1A 0
    [0, 1, 2] [.int64 5, .int64 (-1), .int64 100] (SQLTypeInfo.ofType .kBIGINT false)
    .CPU_LEVEL (UpdelRoll.new 0 .DISK_LEVEL)

/-- The update of the column `d` of `t1`, a `DECIMAL(18, 2)`, with three
values of type `DECIMAL(18, 0)`, the last of which overflows. -/
def t1Overflow (cpu_threads : Nat) :
    Result (Option Summary) × UpdelState CellBuffer (List String) × UpdelRoll :=
  updateColumn cellAccessors cpu_threads t1State (exampleTable 1 "t1" .DISK_LEVEL) t1D 0
    [0, 1, 2] [.int64 1, .int64 2, .int64 2305843009213693952]
    { SQLTypeInfo.ofType .kDECIMAL false with dimension := 18, scale := 0 }
    .CPU_LEVEL (UpdelRoll.new 0 .DISK_LEVEL)

/-- The update of row 0 of fragment 0 of the column `a` of `t1`, a `BIGINT`,
with the value `2^53 + 1`. -/
def t1Rounded (cpu_threads : Nat) :
    Result (Option Summary) × UpdelState CellBuffer (List String) × UpdelRoll :=
  updateColumn cellAccessors cpu_threads t1State (exampleTable 1 "t1" .DISK_LEVEL) t1A 0
    [0] [.int64 9007199254740993] (SQLTypeInfo.ofType .kBIGINT false)
    .CPU_LEVEL (UpdelRoll.new 0 .DISK_LEVEL)

end Fragmenter_Namespace

/-- A catalog of database 1 holding the tables `a` and `B`. -/
def twoTables : Catalog :=
  { basePath_ := "/data", currentDB_ := { dbId := 1, dbName := "d1", dbOwner := 0 },
    tableDescriptorMap_ :=
      [("A", exampleTable 1 "a" .DISK_LEVEL), ("B", exampleTable 2 "B" .DISK_LEVEL)],
    tableDescriptorMapById_ :=
      [(1, exampleTable 1 "a" .DISK_LEVEL), (2, exampleTable 2 "B" .DISK_LEVEL)],
    columnDescriptorMap_ := [], columnDescriptorMapById_ := [],
    dictDescriptorMapByRef_ := [], logicalToPhysicalTableMapById_ := [],
    deletedColumnPerTable_ := [], nextTempTableId_ := 1073741824,
    nextTempDictId_ := 1073741824,
    sqliteConnector_ :=
      { mapd_tables := [⟨1, "a", 0, 0, false, 0, -1, 0⟩, ⟨2, "B", 0, 0, false, 0, -1, 0⟩],
        mapd_columns := [], mapd_dictionaries := [], mapd_views := [],
        mapd_logical_to_physical := [] } }

/-- A catalog of the given name and the system catalog, with no guard alive. -/
def freeCatalogs (name : String) : Catalogs :=
  { catalog := { name := name, thread_holding_write_lock := none, sharedMutex_ := ⟨none, []⟩ },
    sysCatalog :=
      { name := MAPD_SYSTEM_DB, thread_holding_write_lock := none,
        sharedMutex_ := ⟨none, []⟩ } }

/-- The schema of `mapd_tables` of an old store, with the columns `shard` and
`userid` of the six migrated columns, and no statement run. -/
def oldSchema : TablesSchema :=
  { mapd_tables_info :=
      ["tableid", "name", "userid", "ncolumns", "isview", "fragments", "shard"],
    statements := [] }

namespace Fragmenter_Namespace

/-- The column `f` of the table `t2` (table 2, column 1), of type `DOUBLE`. -/
def t2F : ColumnDescriptor :=
  { ColumnDescriptor.new false with
    tableId := 2, columnId := 1, columnName := "f",
    columnType := SQLTypeInfo.ofType .kDOUBLE false }

/-- The column `s` of the table `t2` (table 2, column 2), a text column
encoded with dictionary 1. -/
def t2S : ColumnDescriptor :=
  { ColumnDescriptor.new false with
    tableId := 2, columnId := 2, columnName := "s",
    columnType := { SQLTypeInfo.ofType .kTEXT false with
                    compression := .kENCODING_DICT, comp_param := 1, size := 4 } }

/-- The type of a text column encoded with dictionary 2. -/
def textOfDict2 : SQLTypeInfo :=
  { SQLTypeInfo.ofType .kTEXT false with
    compression := .kENCODING_DICT, comp_param := 2, size := 4 }

/-- Fragment 0 of the table `t2`, with three rows. -/
def t2Fragment : FragmentInfo :=
  { fragmentId := 0, shadowNumTuples := 3, physicalNumTuples := 3,
    shadowChunkMetadataMap := [(1, threeValues t2F.columnType), (2, threeValues t2S.columnType)],
    chunkMetadataMap := [(1, threeValues t2F.columnType), (2, threeValues t2S.columnType)] }

/-- A state with the durable table `t2` of database 1, its columns `f` and
`s`, its one fragment, and the dictionaries 1, with the string `y`, and 2, with
the strings `x` and `y`. -/
def t2State : UpdelState CellBuffer (List String) :=
  { catalog :=
      { basePath_ := "/data", currentDB_ := { dbId := 1, dbName := "d1", dbOwner := 0 },
        tableDescriptorMap_ := [("T2", exampleTable 2 "t2" .DISK_LEVEL)],
        tableDescriptorMapById_ := [(2, exampleTable 2 "t2" .DISK_LEVEL)],
        columnDescriptorMap_ := [((2, "F"), t2F), ((2, "S"), t2S)],
        columnDescriptorMapById_ := [((2, 1), t2F), ((2, 2), t2S)],
        dictDescriptorMapByRef_ :=
          [(⟨1, 1⟩, { citiesDict 1 with dictName := "t2_s_dict1" }),
           (⟨1, 2⟩, { citiesDict 1 with
              dictRef := ⟨1, 2⟩, dictName := "t3_s_dict2",
              dictFolderPath := "/data/mapd_data/DB_1_DICT_2" })],
        logicalToPhysicalTableMapById_ := [],
        deletedColumnPerTable_ := [], nextTempTableId_ := 1073741824,
        nextTempDictId_ := 1073741824,
        sqliteConnector_ :=
          { mapd_tables := [], mapd_columns := [], mapd_dictionaries := [], mapd_views := [],
            mapd_logical_to_physical := [] } },
    fragmenters := fun _ => { fragmentInfoVec_ := [t2Fragment], shard_ := -1 },
    buffers := fun _ =>
      { cells := [(0, 1), (1, 2), (2, 3)], min := 0, max := 9, has_nulls := false,
        updated := false },
    stringDicts := fun k => if k = 1 then ["y"] else if k = 2 then ["x", "y"] else [],
    calls := [] }

/-- The update of the rows 0, 1 and 2 of fragment 0 of the column `f` of `t2`
with the values -1, -2 and -3, with `cpu_threads` workers. -/
def t2Negative (cpu_threads : Nat) :
    Result (Option Summary) × UpdelState CellBuffer (List String) × UpdelRoll :=
  updateColumn cellAccessors cpu_threads t2State (exampleTable 2 "t2" .DISK_LEVEL) t2F 0
    [0, 1, 2] [.double (-Double.one), .double (-2 * Double.one), .double (-3 * Double.one)]
    (SQLTypeInfo.ofType .kDOUBLE false) .CPU_LEVEL (UpdelRoll.new 0 .DISK_LEVEL)

/-- The update of row 0 of fragment 0 of the column `s` of `t2` with the
string that a column of dictionary 2 holds under the index 1. -/
def t2Copy (cpu_threads : Nat) :
    Result (Option Summary) × UpdelState CellBuffer (List String) × UpdelRoll :=
  updateColumn cellAccessors cpu_threads t2State (exampleTable 2 "t2" .DISK_LEVEL) t2S 0
    [0] [.int64 1] textOfDict2 .CPU_LEVEL (UpdelRoll.new 0 .DISK_LEVEL)

/-- The update of row 0 of fragment 0 of the column `s` of `t2` with null. -/
def t2Null (cpu_threads : Nat) :
    Result (Option Summary) × UpdelState CellBuffer (List String) × UpdelRoll :=
  updateColumn cellAccessors cpu_threads t2State (exampleTable 2 "t2" .DISK_LEVEL) t2S 0
    [0] [.string none] (SQLTypeInfo.ofType .kTEXT false) .CPU_LEVEL
    (UpdelRoll.new 0 .DISK_LEVEL)

end Fragmenter_Namespace

/-- Database 2 as a privilege object carrying ALL on DATABASE. -/
def allOnDatabaseTwo : DBObject :=
  (DBObject.ofDatabase ⟨2, "d2", 0⟩).setPrivileges AccessPrivileges.ALL_DATABASE

/-- The tables of database 1 as a privilege object carrying the given
privilege mask: the Table-type key of the database. -/
def tablesOfOne (privs : Nat) : DBObject :=
  { objectName_ := "mapd", objectType_ := .DatabaseDBObjectType,
    objectKey_ := { permissionType := .TableDBObjectType, dbId := 1, objectId := -1 },
    objectPrivs_ := ⟨privs⟩, ownerId_ := 0 }

/-- A system catalog with the databases mapd (1) and d2 (2) in which the role
`analyst` holds the privilege with mask 4 on the tables of database 1: one
record, one persisted row and one reverse-lookup descriptor, all under the
Table-type key of database 1. -/
def readerSys : SysCatalog :=
  { check_privileges_ := true, currentDB_ := ⟨1, "mapd", 0⟩,
    roleMap_ := [("ANALYST", ⟨"analyst", false, [((tablesOfOne 4).objectKey_, tablesOfOne 4)]⟩)],
    userRoleMap_ := [],
    objectDescriptorMap_ :=
      [((1, .TableDBObjectType, -1),
        ⟨"analyst", false, .TableDBObjectType, 1, -1, ⟨4⟩, 0, "mapd"⟩)],
    sqliteConnector_ :=
      { mapd_users := [⟨0, "mapd", "hash0", true⟩],
        mapd_databases := [⟨1, "mapd", 0⟩, ⟨2, "d2", 0⟩],
        mapd_roles := [],
        mapd_object_permissions := [⟨"analyst", false, .TableDBObjectType, 1, -1, 4, 0, "mapd"⟩],
        mapd_privileges := [] },
    mapd_cat_map_ := [("mapd", systemCatalog)] }

/-! # Theorems -/

/-! ## Association lists -/

theorem mapFind_mapAssign_self {κ ν : Type} [DecidableEq κ] (m : List (κ × ν)) (k : κ) (v : ν) :
    mapFind (mapAssign m k v) k = some v := by
  induction m with
  | nil => simp [mapAssign, mapFind]
  | cons e rest ih =>
    obtain ⟨k', v'⟩ := e
    by_cases h : k' = k
    · simp [mapAssign, mapFind, h]
    · simp [mapAssign, mapFind, h, ih]

theorem mapFind_mapAssign_ne {κ ν : Type} [DecidableEq κ] (m : List (κ × ν)) (k k' : κ) (v : ν)
    (h : k' ≠ k) : mapFind (mapAssign m k v) k' = mapFind m k' := by
  induction m with
  | nil => simp [mapAssign, mapFind, Ne.symm h]
  | cons e rest ih =>
    obtain ⟨k₀, v₀⟩ := e
    by_cases h₀ : k₀ = k
    · subst h₀
      simp [mapAssign, mapFind, Ne.symm h]
    · by_cases h₁ : k₀ = k'
      · subst h₁
        simp [mapAssign, mapFind, h₀]
      · simp [mapAssign, mapFind, h₀, h₁, ih]

theorem mapFind_mapErase_self {κ ν : Type} [DecidableEq κ] (m : List (κ × ν)) (k : κ) :
    mapFind (mapErase m k) k = none := by
  induction m with
  | nil => simp [mapErase, mapFind]
  | cons e rest ih =>
    obtain ⟨k', v'⟩ := e
    by_cases h : k' = k
    · simpa [mapErase, List.filter_cons, h] using ih
    · have ih' : mapFind (List.filter (fun e => !decide (e.1 = k)) rest) k = none := ih
      simp [mapErase, List.filter_cons, h, mapFind, ih']

theorem mapFind_mapErase_ne {κ ν : Type} [DecidableEq κ] (m : List (κ × ν)) (k k' : κ)
    (h : k' ≠ k) : mapFind (mapErase m k) k' = mapFind m k' := by
  induction m with
  | nil => simp [mapErase, mapFind]
  | cons e rest ih =>
    obtain ⟨k₀, v₀⟩ := e
    have ih' : mapFind (List.filter (fun e => !decide (e.1 = k)) rest) k' = mapFind rest k' := ih
    by_cases h₀ : k₀ = k
    · subst h₀
      simp [mapErase, List.filter_cons, mapFind, Ne.symm h, ih']
    · simp [mapErase, List.filter_cons, h₀, mapFind, ih']

/-- A lookup in a filtered map: the entry is found when its key passes the filter. -/
theorem mapFind_filter_key {κ ν : Type} [DecidableEq κ] (m : List (κ × ν)) (p : κ → Bool)
    (k : κ) :
    mapFind (m.filter (fun e => p e.1)) k = if p k then mapFind m k else none := by
  induction m with
  | nil => simp [mapFind]
  | cons e rest ih =>
    obtain ⟨k₀, v₀⟩ := e
    by_cases h₀ : k₀ = k
    · subst h₀
      by_cases hp : p k₀ = true
      · simp [List.filter_cons, hp, mapFind]
      · simp only [Bool.not_eq_true] at hp
        simp [List.filter_cons, hp, mapFind, ih]
    · by_cases hp : p k₀ = true
      · simp [List.filter_cons, hp, mapFind, h₀, ih]
      · simp only [Bool.not_eq_true] at hp
        simp [List.filter_cons, hp, mapFind, h₀, ih]

/-! ## Privilege masks -/

theorem AccessPrivileges.remove_self (p : AccessPrivileges) :
    (p.remove p).hasAny = false := by
  simp [AccessPrivileges.remove, AccessPrivileges.hasAny]

theorem AccessPrivileges.NONE_add (p : AccessPrivileges) : AccessPrivileges.NONE.add p = p := by
  simp [AccessPrivileges.add, AccessPrivileges.NONE]

/-! ## Role records -/

namespace Role

theorem findDbObject_grantPrivileges_self (rl : Role) (o : DBObject) :
    ∃ rec, (rl.grantPrivileges o).findDbObject o.objectKey_ = some rec ∧
      rec.objectPrivs_ = (rl.privilegesOn o.objectKey_).add o.objectPrivs_ ∧
      rec.objectKey_ = (match rl.findDbObject o.objectKey_ with
        | some r0 => r0.objectKey_ | Option.none => o.objectKey_) := by
  unfold grantPrivileges privilegesOn
  cases h : rl.findDbObject o.objectKey_ with
  | none =>
    refine ⟨o, ?_, ?_, rfl⟩
    · simp [findDbObject, mapFind_mapAssign_self]
    · simp [AccessPrivileges.NONE_add]
  | some r0 =>
    refine ⟨r0.grantPrivileges o, ?_, ?_, rfl⟩
    · simp [findDbObject, mapFind_mapAssign_self]
    · simp [DBObject.grantPrivileges]

theorem findDbObject_grantPrivileges_ne (rl : Role) (o : DBObject) (k : DBObjectKey)
    (h : k ≠ o.objectKey_) :
    (rl.grantPrivileges o).findDbObject k = rl.findDbObject k := by
  unfold grantPrivileges
  cases rl.findDbObject o.objectKey_ <;> simp [findDbObject, mapFind_mapAssign_ne _ _ _ _ h]

@[simp] theorem userPrivateRole_grantPrivileges (rl : Role) (o : DBObject) :
    (rl.grantPrivileges o).userPrivateRole_ = rl.userPrivateRole_ := by
  unfold grantPrivileges
  cases rl.findDbObject o.objectKey_ <;> rfl

@[simp] theorem roleName_grantPrivileges (rl : Role) (o : DBObject) :
    (rl.grantPrivileges o).roleName_ = rl.roleName_ := by
  unfold grantPrivileges
  cases rl.findDbObject o.objectKey_ <;> rfl

theorem getPrivileges_resetPrivileges (rl : Role) (o : DBObject) :
    rl.getPrivileges o.resetPrivileges =
      { o with objectPrivs_ := rl.privilegesOn o.objectKey_ } := by
  unfold getPrivileges privilegesOn
  simp only [DBObject.resetPrivileges]
  cases rl.findDbObject o.objectKey_ with
  | none => rfl
  | some r0 => simp [DBObject.grantPrivileges, AccessPrivileges.NONE_add]

theorem privilegesOn_grantPrivileges_self (rl : Role) (o : DBObject) :
    (rl.grantPrivileges o).privilegesOn o.objectKey_ =
      (rl.privilegesOn o.objectKey_).add o.objectPrivs_ := by
  obtain ⟨rec, hrec, hp, _⟩ := findDbObject_grantPrivileges_self rl o
  simp [privilegesOn, hrec, hp]

theorem privilegesOn_grantPrivileges_ne (rl : Role) (o : DBObject) (k : DBObjectKey)
    (h : k ≠ o.objectKey_) : (rl.grantPrivileges o).privilegesOn k = rl.privilegesOn k := by
  unfold privilegesOn
  rw [findDbObject_grantPrivileges_ne rl o k h]

theorem findDbObject_revokeAllOnDatabase (rl : Role) (dbId : Int) (k : DBObjectKey) :
    (rl.revokeAllOnDatabase dbId).findDbObject k =
      if k.dbId = dbId then Option.none else rl.findDbObject k := by
  unfold revokeAllOnDatabase findDbObject
  have := mapFind_filter_key rl.dbObjectMap_ (fun key => !decide (key.dbId = dbId)) k
  simp only at this
  rw [this]
  by_cases h : k.dbId = dbId <;> simp [h]

/-- Revoking what the role holds on a key, when it holds nothing beyond the
revoked privileges, erases the record and returns nothing. -/
theorem revokePrivileges_within (rl : Role) (o : DBObject)
    (h : (rl.privilegesOn o.objectKey_).remove o.objectPrivs_ = AccessPrivileges.NONE) :
    (rl.revokePrivileges o).2 = Option.none ∧
      (rl.revokePrivileges o).1.findDbObject o.objectKey_ = Option.none ∧
      (rl.revokePrivileges o).1.userPrivateRole_ = rl.userPrivateRole_ := by
  unfold revokePrivileges
  cases hf : rl.findDbObject o.objectKey_ with
  | none => exact ⟨rfl, hf, rfl⟩
  | some r0 =>
    have hp : r0.objectPrivs_.remove o.objectPrivs_ = AccessPrivileges.NONE := by
      simpa [privilegesOn, hf] using h
    simp [DBObject.revokePrivileges, hp, AccessPrivileges.hasAny, AccessPrivileges.NONE,
      findDbObject, mapFind_mapErase_self]

end Role

/-! ## The reverse-lookup map -/

namespace SysCatalog

theorem overwritePrivileges_fst (k : ObjectDescriptorKey) (r : String) (p : AccessPrivileges)
    (e : ObjectDescriptorKey × ObjectRoleDescriptor) : (overwritePrivileges k r p e).1 = e.1 := by
  unfold overwritePrivileges; split <;> rfl

theorem overwritePrivileges_roleName (k : ObjectDescriptorKey) (r : String)
    (p : AccessPrivileges) (e : ObjectDescriptorKey × ObjectRoleDescriptor) :
    (overwritePrivileges k r p e).2.roleName = e.2.roleName := by
  unfold overwritePrivileges; split <;> rfl

theorem overwritePrivileges_key (k : ObjectDescriptorKey) (r : String) (p : AccessPrivileges)
    (e : ObjectDescriptorKey × ObjectRoleDescriptor) :
    (overwritePrivileges k r p e).2.key = e.2.key := by
  unfold overwritePrivileges; split <;> rfl

theorem overwritePrivileges_of_not (k : ObjectDescriptorKey) (r : String)
    (p : AccessPrivileges) (e : ObjectDescriptorKey × ObjectRoleDescriptor)
    (h : ¬ (e.1 = k ∧ e.2.roleName = r)) : overwritePrivileges k r p e = e := by
  unfold overwritePrivileges; rw [if_neg h]

theorem overwritePrivileges_privs (k : ObjectDescriptorKey) (r : String)
    (p : AccessPrivileges) (e : ObjectDescriptorKey × ObjectRoleDescriptor)
    (h : e.1 = k ∧ e.2.roleName = r) : (overwritePrivileges k r p e).2.privs = p := by
  unfold overwritePrivileges; rw [if_pos h]

theorem mem_getMetadataForObject (s : SysCatalog) (d : Int) (t : DBObjectType) (oid : Int)
    (od : ObjectRoleDescriptor) :
    od ∈ s.getMetadataForObject d t oid ↔ ((d, t, oid), od) ∈ s.objectDescriptorMap_ := by
  unfold getMetadataForObject
  simp only [List.mem_map, List.mem_filter, decide_eq_true_eq]
  constructor
  · rintro ⟨e, ⟨he, hk⟩, rfl⟩
    obtain ⟨k, v⟩ := e
    simp only at hk
    subst hk
    exact he
  · intro h
    exact ⟨((d, t, oid), od), ⟨h, rfl⟩, rfl⟩

/-- Updating the descriptors of one object leaves the descriptors stored under
every other key as they were. -/
theorem getMetadataForObject_update_ne (s : SysCatalog) (r : String) (o : DBObject)
    (roleType : Bool) (cat : Catalog) (d : Int) (t : DBObjectType) (oid : Int)
    (hdb : o.objectKey_.dbId = cat.currentDB_.dbId)
    (hk : (d, t, oid) ≠ (o.objectKey_.dbId, o.objectKey_.permissionType, o.objectKey_.objectId)) :
    (s.updateObjectDescriptorMap r o roleType cat).getMetadataForObject d t oid =
      s.getMetadataForObject d t oid := by
  have hmap : ∀ m : List (ObjectDescriptorKey × ObjectRoleDescriptor),
      (m.map (overwritePrivileges (cat.currentDB_.dbId, o.objectKey_.permissionType,
            o.objectKey_.objectId) r o.objectPrivs_)).filter
        (fun e => decide (e.1 = (d, t, oid))) =
      m.filter (fun e => decide (e.1 = (d, t, oid))) := by
    intro m
    induction m with
    | nil => rfl
    | cons e rest ih =>
      rw [List.map_cons, List.filter_cons, List.filter_cons, overwritePrivileges_fst, ih]
      by_cases he : e.1 = (d, t, oid)
      · have hne : ¬ (e.1 = (cat.currentDB_.dbId, o.objectKey_.permissionType,
            o.objectKey_.objectId) ∧ e.2.roleName = r) := by
          rintro ⟨h1, _⟩
          apply hk
          rw [← he, h1, hdb]
        rw [overwritePrivileges_of_not _ _ _ _ hne]
      · simp only [he, decide_False, Bool.false_eq_true, if_false]
  unfold updateObjectDescriptorMap getMetadataForObject
  simp only
  split
  · rw [hmap]
  · rw [List.filter_append, hmap]
    have hnk : ¬ ((o.objectKey_.dbId, o.objectKey_.permissionType, o.objectKey_.objectId) =
        (d, t, oid)) := fun h => hk h.symm
    have : List.filter (fun e : ObjectDescriptorKey × ObjectRoleDescriptor =>
        decide (e.1 = (d, t, oid)))
        [(ObjectRoleDescriptor.key ⟨r, roleType, o.objectKey_.permissionType, o.objectKey_.dbId,
            o.objectKey_.objectId, o.objectPrivs_, o.ownerId_, o.objectName_⟩,
          ⟨r, roleType, o.objectKey_.permissionType, o.objectKey_.dbId,
            o.objectKey_.objectId, o.objectPrivs_, o.ownerId_, o.objectName_⟩)] = [] := by
      rw [List.filter_cons]
      simp only [ObjectRoleDescriptor.key, hnk, decide_False, Bool.false_eq_true, if_false,
        List.filter_nil]
    rw [this, List.append_nil]

/-- After the update the object's key holds a descriptor of the role with the
object's privileges. -/
theorem getMetadataForObject_update_self (s : SysCatalog) (r : String) (o : DBObject)
    (roleType : Bool) (cat : Catalog) (hdb : o.objectKey_.dbId = cat.currentDB_.dbId) :
    ∃ od ∈ (s.updateObjectDescriptorMap r o roleType cat).getMetadataForObject
        o.objectKey_.dbId o.objectKey_.permissionType o.objectKey_.objectId,
      od.roleName = r ∧ od.privs = o.objectPrivs_ := by
  simp only [mem_getMetadataForObject]
  unfold updateObjectDescriptorMap
  simp only
  split
  · rename_i hp
    obtain ⟨e, he, hke⟩ := List.any_eq_true.mp hp
    simp only [Bool.and_eq_true, decide_eq_true_eq] at hke
    refine ⟨(overwritePrivileges (cat.currentDB_.dbId, o.objectKey_.permissionType,
      o.objectKey_.objectId) r o.objectPrivs_ e).2, ?_, ?_, ?_⟩
    · have h1 : ((o.objectKey_.dbId, o.objectKey_.permissionType, o.objectKey_.objectId),
          (overwritePrivileges (cat.currentDB_.dbId, o.objectKey_.permissionType,
            o.objectKey_.objectId) r o.objectPrivs_ e).2) =
          overwritePrivileges (cat.currentDB_.dbId, o.objectKey_.permissionType,
            o.objectKey_.objectId) r o.objectPrivs_ e := by
        apply Prod.ext
        · rw [overwritePrivileges_fst, hke.1, hdb]
        · rfl
      rw [h1]
      exact List.mem_map_of_mem _ he
    · rw [overwritePrivileges_roleName]; exact hke.2
    · exact overwritePrivileges_privs _ _ _ _ hke
  · refine ⟨⟨r, roleType, o.objectKey_.permissionType, o.objectKey_.dbId,
      o.objectKey_.objectId, o.objectPrivs_, o.ownerId_, o.objectName_⟩, ?_, rfl, rfl⟩
    apply List.mem_append_right
    exact List.mem_singleton.mpr rfl

/-- The update touches only descriptors of the named role. -/
theorem mem_update_of_ne_role (s : SysCatalog) (r : String) (o : DBObject)
    (roleType : Bool) (cat : Catalog) (e : ObjectDescriptorKey × ObjectRoleDescriptor)
    (hr : e.2.roleName ≠ r) :
    e ∈ (s.updateObjectDescriptorMap r o roleType cat).objectDescriptorMap_ ↔
      e ∈ s.objectDescriptorMap_ := by
  have hmap : e ∈ s.objectDescriptorMap_.map (overwritePrivileges (cat.currentDB_.dbId,
        o.objectKey_.permissionType, o.objectKey_.objectId) r o.objectPrivs_) ↔
      e ∈ s.objectDescriptorMap_ := by
    simp only [List.mem_map]
    constructor
    · rintro ⟨e', he', heq⟩
      by_cases hc : e'.1 = (cat.currentDB_.dbId, o.objectKey_.permissionType,
          o.objectKey_.objectId) ∧ e'.2.roleName = r
      · exfalso; apply hr; rw [← heq, overwritePrivileges_roleName]; exact hc.2
      · rw [overwritePrivileges_of_not _ _ _ _ hc] at heq
        rw [← heq]; exact he'
    · intro he
      refine ⟨e, he, overwritePrivileges_of_not _ _ _ _ ?_⟩
      rintro ⟨_, h⟩; exact hr h
  unfold updateObjectDescriptorMap
  simp only
  split
  · exact hmap
  · simp only [List.mem_append, hmap, List.mem_singleton]
    constructor
    · rintro (h | h)
      · exact h
      · exfalso; apply hr; rw [h]
    · exact Or.inl

/-- The update keeps every key equal to the key spelled by its descriptor. -/
theorem DescriptorMapWF_update (s : SysCatalog) (r : String) (o : DBObject)
    (roleType : Bool) (cat : Catalog) (h : s.DescriptorMapWF) :
    (s.updateObjectDescriptorMap r o roleType cat).DescriptorMapWF := by
  have hmap : ∀ e ∈ s.objectDescriptorMap_.map (overwritePrivileges (cat.currentDB_.dbId,
        o.objectKey_.permissionType, o.objectKey_.objectId) r o.objectPrivs_),
      e.1 = e.2.key := by
    intro e he
    obtain ⟨e', he', heq⟩ := List.mem_map.mp he
    rw [← heq, overwritePrivileges_fst, overwritePrivileges_key]
    exact h e' he'
  unfold updateObjectDescriptorMap DescriptorMapWF
  simp only
  split
  · exact hmap
  · intro e he
    rcases List.mem_append.mp he with h1 | h1
    · exact hmap e h1
    · rw [List.mem_singleton.mp h1]

/-- After the deletion no descriptor of the role is left under the object's key. -/
theorem getMetadataForObject_delete (s : SysCatalog) (r : String) (o : DBObject)
    (cat : Catalog) :
    ∀ od ∈ (s.deleteObjectDescriptorMap r o cat).getMetadataForObject cat.currentDB_.dbId
        o.objectKey_.permissionType o.objectKey_.objectId, od.roleName ≠ r := by
  intro od hod
  rw [mem_getMetadataForObject] at hod
  unfold deleteObjectDescriptorMap at hod
  simp only [List.mem_filter, Bool.not_eq_true', Bool.and_eq_false_imp, decide_eq_true_eq,
    decide_eq_false_iff_not, true_implies] at hod
  exact hod.2

end SysCatalog

/-! ## Persisted privilege rows -/

theorem mem_insertOrUpdateObjectPrivileges (st : SysStore) (r : String) (userRole : Bool)
    (o : DBObject) (row : ObjectPermissionRow) :
    row ∈ (insertOrUpdateObjectPrivileges st r userRole o).mapd_object_permissions ↔
      (row ∈ st.mapd_object_permissions ∧
        ¬ (row.roleName = r ∧ row.objectPermissionsType = o.objectKey_.permissionType ∧
          row.dbId = o.objectKey_.dbId ∧ row.objectId = o.objectKey_.objectId)) ∨
      row = ⟨r, userRole, o.objectKey_.permissionType, o.objectKey_.dbId,
        o.objectKey_.objectId, o.objectPrivs_.privileges, o.ownerId_, o.objectName_⟩ := by
  unfold insertOrUpdateObjectPrivileges
  simp only [List.mem_append, List.mem_filter, List.mem_singleton, Bool.not_eq_true',
    Bool.and_eq_false_imp, decide_eq_true_eq, decide_eq_false_iff_not, Bool.and_eq_true]
  constructor
  · rintro (⟨h1, h2⟩ | h)
    · left
      refine ⟨h1, ?_⟩
      rintro ⟨a, b, c, d⟩
      exact h2 ⟨⟨a, b⟩, c⟩ d
    · right; exact h
  · rintro (⟨h1, h2⟩ | h)
    · left
      refine ⟨h1, ?_⟩
      rintro ⟨⟨a, b⟩, c⟩ d
      exact h2 ⟨a, b, c, d⟩
    · right; exact h

/-! ## Single grants -/

namespace SysCatalog

/-- The state a single grant of `o` to the role `rl`, named `r`, leaves behind. -/
theorem grantDBObjectPrivileges_single (n : Nat) (s : SysCatalog) (r : String) (o : DBObject)
    (cat : Catalog) (rl : Role) (hall : o.isAllOnDatabase = false) (hroot : r ≠ MAPD_ROOT_USER)
    (hrole : s.getMetadataForRole r = some rl) :
    grantDBObjectPrivileges_unsafe.go (n + 1) s r o cat =
      (.ok (o.setPrivileges ((rl.privilegesOn o.objectKey_).add o.objectPrivs_)),
        SysCatalog.updateObjectDescriptorMap
          { s with
            roleMap_ := mapAssign s.roleMap_ (to_upper r) (rl.grantPrivileges o)
            sqliteConnector_ := insertOrUpdateObjectPrivileges s.sqliteConnector_ r
              rl.userPrivateRole_
              (o.setPrivileges ((rl.privilegesOn o.objectKey_).add o.objectPrivs_)) }
          r (o.setPrivileges ((rl.privilegesOn o.objectKey_).add o.objectPrivs_))
          rl.userPrivateRole_ cat) := by
  have hobj : (rl.grantPrivileges o).getPrivileges o.resetPrivileges =
      o.setPrivileges ((rl.privilegesOn o.objectKey_).add o.objectPrivs_) := by
    rw [Role.getPrivileges_resetPrivileges]
    have := Role.privilegesOn_grantPrivileges_self rl o
    simp only [DBObject.resetPrivileges, DBObject.setPrivileges] at *
    rw [this]
  simp only [ grantDBObjectPrivileges_unsafe.go, DBObject.loadKey, hall, hroot, hrole,
    Bool.false_eq_true, if_false, hobj, Role.userPrivateRole_grantPrivileges]

@[simp] theorem updateObjectDescriptorMap_roleMap (s : SysCatalog) (r : String) (o : DBObject)
    (roleType : Bool) (cat : Catalog) :
    (s.updateObjectDescriptorMap r o roleType cat).roleMap_ = s.roleMap_ := by
  unfold updateObjectDescriptorMap; simp only; split <;> rfl

@[simp] theorem updateObjectDescriptorMap_store (s : SysCatalog) (r : String) (o : DBObject)
    (roleType : Bool) (cat : Catalog) :
    (s.updateObjectDescriptorMap r o roleType cat).sqliteConnector_ = s.sqliteConnector_ := by
  unfold updateObjectDescriptorMap; simp only; split <;> rfl

/-- A grant that is not ALL on DATABASE does not nest: its result does not
depend on the bound. -/
theorem grantDBObjectPrivileges_depth (n m : Nat) (s : SysCatalog) (r : String) (t : DBObject)
    (cat : Catalog) (ht : t.isAllOnDatabase = false) :
    grantDBObjectPrivileges_unsafe.go (n + 1) s r t cat =
      grantDBObjectPrivileges_unsafe.go (m + 1) s r t cat := by
  simp only [ grantDBObjectPrivileges_unsafe.go, DBObject.loadKey, ht, Bool.false_eq_true,
    if_false]

/-- What a single grant does: the role's record for the object's key gains the
privileges, the persisted row of that key is written, the reverse lookup holds
a descriptor of the role under that key, and nothing else changes. -/
theorem grantDBObjectPrivileges_single_effect (n : Nat) (s : SysCatalog) (r : String)
    (o : DBObject) (cat : Catalog) (rl : Role) (hall : o.isAllOnDatabase = false)
    (hroot : r ≠ MAPD_ROOT_USER) (hrole : s.getMetadataForRole r = some rl)
    (hdb : o.objectKey_.dbId = cat.currentDB_.dbId) :
    ∃ s', grantDBObjectPrivileges_unsafe.go (n + 1) s r o cat =
        (.ok (o.setPrivileges ((rl.privilegesOn o.objectKey_).add o.objectPrivs_)), s') ∧
      s'.getMetadataForRole r = some (rl.grantPrivileges o) ∧
      (∃ od ∈ s'.getMetadataForObject o.objectKey_.dbId o.objectKey_.permissionType
          o.objectKey_.objectId,
        od.roleName = r ∧ od.privs = (rl.privilegesOn o.objectKey_).add o.objectPrivs_) ∧
      (∀ d t oid, (d, t, oid) ≠ (o.objectKey_.dbId, o.objectKey_.permissionType,
          o.objectKey_.objectId) →
        s'.getMetadataForObject d t oid = s.getMetadataForObject d t oid) ∧
      (∀ row, row ∈ s'.sqliteConnector_.mapd_object_permissions ↔
        (row ∈ s.sqliteConnector_.mapd_object_permissions ∧
          ¬ (row.roleName = r ∧ row.objectPermissionsType = o.objectKey_.permissionType ∧
            row.dbId = o.objectKey_.dbId ∧ row.objectId = o.objectKey_.objectId)) ∨
        row = ⟨r, rl.userPrivateRole_, o.objectKey_.permissionType, o.objectKey_.dbId,
          o.objectKey_.objectId, ((rl.privilegesOn o.objectKey_).add o.objectPrivs_).privileges,
          o.ownerId_, o.objectName_⟩) ∧
      (s.DescriptorMapWF → s'.DescriptorMapWF) := by
  refine ⟨_, grantDBObjectPrivileges_single n s r o cat rl hall hroot hrole, ?_, ?_, ?_, ?_, ?_⟩
  · simp [getMetadataForRole, mapFind_mapAssign_self]
  · exact getMetadataForObject_update_self _ r
      (o.setPrivileges ((rl.privilegesOn o.objectKey_).add o.objectPrivs_)) _ cat hdb
  · intro d t oid hk
    exact getMetadataForObject_update_ne _ r
      (o.setPrivileges ((rl.privilegesOn o.objectKey_).add o.objectPrivs_)) _ cat d t oid hdb hk
  · intro row
    rw [updateObjectDescriptorMap_store]
    exact mem_insertOrUpdateObjectPrivileges s.sqliteConnector_ r rl.userPrivateRole_
      (o.setPrivileges ((rl.privilegesOn o.objectKey_).add o.objectPrivs_)) row
  · intro hwf
    exact DescriptorMapWF_update _ r _ _ cat hwf

/-- The ALL-on-DATABASE branch of the grant. -/
theorem grantDBObjectPrivileges_all_branch (n : Nat) (s : SysCatalog) (r : String)
    (o : DBObject) (cat : Catalog) (hall : o.isAllOnDatabase = true) :
    grantDBObjectPrivileges_unsafe.go (n + 1) s r o cat =
      (match grantAllOnDatabase_unsafe ( grantDBObjectPrivileges_unsafe.go n) s r o cat with
        | (.error e, s) => (.error e, s)
        | (.ok _, s) => (.ok o, s)) := by
  rw [ grantDBObjectPrivileges_unsafe.go]
  simp only [DBObject.loadKey, hall, if_true]

/-- Three successful grants make `grantAllOnDatabase_unsafe` succeed with the
state of the last one. -/
theorem grantAllOnDatabase_three
    (grant : SysCatalog → String → DBObject → Catalog → Result DBObject × SysCatalog)
    (s s1 s2 s3 : SysCatalog) (r : String) (o : DBObject)
    (cat : Catalog) (o1 o2 o3 : DBObject)
    (hg1 : grant s r
      ((o.setPrivileges AccessPrivileges.ALL_TABLE).setPermissionType .TableDBObjectType) cat =
        (.ok o1, s1))
    (hg2 : grant s1 r
      ((o1.setPrivileges AccessPrivileges.ALL_VIEW).setPermissionType .ViewDBObjectType) cat =
        (.ok o2, s2))
    (hg3 : grant s2 r
      ((o2.setPrivileges AccessPrivileges.ALL_DASHBOARD).setPermissionType
        .DashboardDBObjectType) cat = (.ok o3, s3)) :
    grantAllOnDatabase_unsafe grant s r o cat = (.ok (), s3) := by
  unfold grantAllOnDatabase_unsafe
  simp only [hg1, hg2, hg3]

/-- The ALL-on-DATABASE grant is the three single grants in a row. -/
theorem grantDBObjectPrivileges_compose (s s1 s2 s3 : SysCatalog) (r : String) (o : DBObject)
    (cat : Catalog) (o1 o2 o3 : DBObject) (hall : o.isAllOnDatabase = true)
    (hg1 : grantDBObjectPrivileges_unsafe.go 1 s r
      ((o.setPrivileges AccessPrivileges.ALL_TABLE).setPermissionType .TableDBObjectType) cat =
        (.ok o1, s1))
    (hg2 : grantDBObjectPrivileges_unsafe.go 1 s1 r
      ((o1.setPrivileges AccessPrivileges.ALL_VIEW).setPermissionType .ViewDBObjectType) cat =
        (.ok o2, s2))
    (hg3 : grantDBObjectPrivileges_unsafe.go 1 s2 r
      ((o2.setPrivileges AccessPrivileges.ALL_DASHBOARD).setPermissionType
        .DashboardDBObjectType) cat = (.ok o3, s3)) :
    grantDBObjectPrivileges_unsafe s r o cat = (.ok o, s3) := by
  have h := grantDBObjectPrivileges_all_branch 1 s r o cat hall
  rw [grantAllOnDatabase_three _ s s1 s2 s3 r o cat o1 o2 o3 hg1 hg2 hg3] at h
  exact h

theorem execInTransaction_ok {α : Type} (f : SysCatalog → Result α × SysCatalog)
    (s s' : SysCatalog) (a : α) (h : f s = (.ok a, s')) :
    execInTransaction f s = (.ok a, s') := by
  unfold execInTransaction; rw [h]

/-- The ALL-on-DATABASE grant succeeds for an existing non-root role, keeps
the role in the role map and keeps the reverse-lookup map well formed. -/
theorem grantDBObjectPrivileges_all_ok (s : SysCatalog) (r : String) (o : DBObject)
    (cat : Catalog) (rl : Role) (hroot : r ≠ MAPD_ROOT_USER)
    (hrole : s.getMetadataForRole r = some rl) (hall : o.isAllOnDatabase = true)
    (hdb : o.objectKey_.dbId = cat.currentDB_.dbId) :
    ∃ s3 rl3, grantDBObjectPrivileges_unsafe s r o cat = (.ok o, s3) ∧
      s3.getMetadataForRole r = some rl3 ∧ (s.DescriptorMapWF → s3.DescriptorMapWF) := by
  have hn1 : ((o.setPrivileges AccessPrivileges.ALL_TABLE).setPermissionType
      .TableDBObjectType).isAllOnDatabase = false := by
    simp [DBObject.isAllOnDatabase, DBObject.setPermissionType]
  obtain ⟨s1, hg1, hr1, -, -, -, hw1⟩ :=
    grantDBObjectPrivileges_single_effect 0 s r _ cat rl hn1 hroot hrole hdb
  have hn2 : ∀ o1 : DBObject, ((o1.setPrivileges AccessPrivileges.ALL_VIEW).setPermissionType
      .ViewDBObjectType).isAllOnDatabase = false := by
    intro o1; simp [DBObject.isAllOnDatabase, DBObject.setPermissionType]
  obtain ⟨s2, hg2, hr2, -, -, -, hw2⟩ :=
    grantDBObjectPrivileges_single_effect 0 s1 r _ cat _ (hn2 _) hroot hr1 hdb
  have hn3 : ∀ o2 : DBObject,
      ((o2.setPrivileges AccessPrivileges.ALL_DASHBOARD).setPermissionType
        .DashboardDBObjectType).isAllOnDatabase = false := by
    intro o2; simp [DBObject.isAllOnDatabase, DBObject.setPermissionType]
  obtain ⟨s3, hg3, hr3, -, -, -, hw3⟩ :=
    grantDBObjectPrivileges_single_effect 0 s2 r _ cat _ (hn3 _) hroot hr2 hdb
  exact ⟨s3, _, grantDBObjectPrivileges_compose s s1 s2 s3 r o cat _ _ _ hall hg1 hg2 hg3, hr3,
    fun h => hw3 (hw2 (hw1 h))⟩

/-- The ALL-on-DATABASE branch of the revocation. -/
theorem revokeDBObjectPrivileges_all (s : SysCatalog) (r : String) (o : DBObject)
    (cat : Catalog) (rl : Role) (hroot : r ≠ MAPD_ROOT_USER)
    (hrole : s.getMetadataForRole r = some rl) (hall : o.isAllOnDatabase = true) :
    revokeDBObjectPrivileges_unsafe s r o cat =
      (.ok (), revokeAllOnDatabase_unsafe s r o.objectKey_.dbId rl) := by
  simp only [ revokeDBObjectPrivileges_unsafe, hroot, if_false, hrole, DBObject.loadKey, hall,
    if_true]

/-- The revocation of what is all the role holds on the object. -/
theorem revokeDBObjectPrivileges_within (s : SysCatalog) (r : String) (o : DBObject)
    (cat : Catalog) (rl : Role) (hroot : r ≠ MAPD_ROOT_USER)
    (hrole : s.getMetadataForRole r = some rl) (hall : o.isAllOnDatabase = false)
    (h : (rl.privilegesOn o.objectKey_).remove o.objectPrivs_ = AccessPrivileges.NONE) :
    revokeDBObjectPrivileges_unsafe s r o cat =
      (.ok (), SysCatalog.deleteObjectDescriptorMap
        { s with
          roleMap_ := mapAssign s.roleMap_ (to_upper r) (rl.revokePrivileges o).1
          sqliteConnector_ := deleteObjectPrivileges s.sqliteConnector_ r
            (rl.revokePrivileges o).1.userPrivateRole_ o }
        r o cat) := by
  obtain ⟨h1, -, -⟩ := Role.revokePrivileges_within rl o h
  have hsplit : rl.revokePrivileges o = ((rl.revokePrivileges o).1, Option.none) := by
    rw [← h1]
  simp only [ revokeDBObjectPrivileges_unsafe, hroot, if_false, hrole, DBObject.loadKey, hall,
    Bool.false_eq_true]
  rw [hsplit]

@[simp] theorem deleteObjectDescriptorMap_roleMap (s : SysCatalog) (r : String) (o : DBObject)
    (cat : Catalog) : (s.deleteObjectDescriptorMap r o cat).roleMap_ = s.roleMap_ := rfl

/-- C1, amended: for an existing non-root role `r` and an object `o` of the
catalog's database carrying the privileges `P`, where `P` is ALL on DATABASE
or every privilege `r` already holds on `o` is among `P`: `grantDBObjectPrivileges`
followed by `revokeDBObjectPrivileges` of `o` both complete, afterwards
`getMetadataForObject` lists no descriptor of `r` under the key of `o`, `r`
holds no record for that key, and the check of `P` on `o` through `r` is
denied. -/
theorem grant_then_revoke (s : SysCatalog) (r : String) (o : DBObject) (cat : Catalog)
    (rl : Role) (hroot : r ≠ MAPD_ROOT_USER) (hrole : s.getMetadataForRole r = some rl)
    (hwf : s.DescriptorMapWF) (hdb : o.objectKey_.dbId = cat.currentDB_.dbId)
    (hprior : o.isAllOnDatabase = true ∨
      (rl.privilegesOn o.objectKey_).add o.objectPrivs_ = o.objectPrivs_) :
    ∃ o' s1 s2 rl2, s.grantDBObjectPrivileges r o cat = (.ok o', s1) ∧
      s1.revokeDBObjectPrivileges r o cat = (.ok (), s2) ∧
      (∀ od ∈ s2.getMetadataForObject o.objectKey_.dbId o.objectKey_.permissionType
        o.objectKey_.objectId, od.roleName ≠ r) ∧
      s2.getMetadataForRole r = some rl2 ∧ rl2.findDbObject o.objectKey_ = Option.none ∧
      rl2.checkPrivileges o = false := by
  by_cases hall : o.isAllOnDatabase = true
  · obtain ⟨s3, rl3, hg, hr3, hw3⟩ :=
      grantDBObjectPrivileges_all_ok s r o cat rl hroot hrole hall hdb
    have hrev := revokeDBObjectPrivileges_all s3 r o cat rl3 hroot hr3 hall
    have hfind : (rl3.revokeAllOnDatabase o.objectKey_.dbId).findDbObject o.objectKey_ =
        Option.none := by
      rw [Role.findDbObject_revokeAllOnDatabase]; simp
    refine ⟨o, s3, _, _, execInTransaction_ok _ s s3 o hg,
      execInTransaction_ok _ s3 _ () hrev, ?_, ?_, hfind, ?_⟩
    · intro od hod hr
      rw [mem_getMetadataForObject] at hod
      simp only [ revokeAllOnDatabase_unsafe, List.mem_filter, Bool.not_eq_true',
        Bool.and_eq_false_imp, decide_eq_true_eq, decide_eq_false_iff_not] at hod
      have hkey := hw3 hwf _ hod.1
      simp only [ObjectRoleDescriptor.key, Prod.mk.injEq] at hkey
      exact hod.2 hr hkey.1.symm
    · simp [getMetadataForRole, revokeAllOnDatabase_unsafe, mapFind_mapAssign_self]
    · simp [Role.checkPrivileges, hfind]
  · have hall' : o.isAllOnDatabase = false := by simpa using hall
    have hadd : (rl.privilegesOn o.objectKey_).add o.objectPrivs_ = o.objectPrivs_ := by
      rcases hprior with h | h
      · exact absurd h hall
      · exact h
    have hg := grantDBObjectPrivileges_single 1 s r o cat rl hall' hroot hrole
    have hr1 : getMetadataForRole
        (SysCatalog.updateObjectDescriptorMap
          { s with
            roleMap_ := mapAssign s.roleMap_ (to_upper r) (rl.grantPrivileges o)
            sqliteConnector_ := insertOrUpdateObjectPrivileges s.sqliteConnector_ r
              rl.userPrivateRole_
              (o.setPrivileges ((rl.privilegesOn o.objectKey_).add o.objectPrivs_)) }
          r (o.setPrivileges ((rl.privilegesOn o.objectKey_).add o.objectPrivs_))
          rl.userPrivateRole_ cat) r = some (rl.grantPrivileges o) := by
      simp [getMetadataForRole, mapFind_mapAssign_self]
    have hrem : ((rl.grantPrivileges o).privilegesOn o.objectKey_).remove o.objectPrivs_ =
        AccessPrivileges.NONE := by
      rw [Role.privilegesOn_grantPrivileges_self, hadd]
      simp [AccessPrivileges.remove, AccessPrivileges.NONE]
    have hrev := revokeDBObjectPrivileges_within _ r o cat _ hroot hr1 hall' hrem
    obtain ⟨-, hfind, -⟩ := Role.revokePrivileges_within (rl.grantPrivileges o) o hrem
    refine ⟨_, _, _, _, execInTransaction_ok _ s _ _ hg, execInTransaction_ok _ _ _ () hrev,
      ?_, ?_, hfind, ?_⟩
    · rw [hdb]
      exact getMetadataForObject_delete _ r o cat
    · simp [getMetadataForRole, mapFind_mapAssign_self]
    · simp [Role.checkPrivileges, hfind]

/-- The ALL-on-DATABASE grant through the catalog of the database granted on:
for an existing non-root role `r` and a database `d` that is the database of
the catalog, `grantDBObjectPrivileges_unsafe` called with a Database-type
object of `d` carrying the ALL database privilege performs exactly three
single grants, in this order: ALL_TABLE on the Table-type key of `d`, ALL_VIEW
on the View-type key, ALL_DASHBOARD on the Dashboard-type key.  The role gains
or updates a record, a persisted row and a reverse-lookup descriptor under
exactly these three keys; no record, row or descriptor of Database type is
written. -/
theorem grantDBObjectPrivileges_all_on_database (s : SysCatalog) (r : String) (o : DBObject)
    (cat : Catalog) (rl : Role) (hroot : r ≠ MAPD_ROOT_USER)
    (hrole : s.getMetadataForRole r = some rl) (hall : o.isAllOnDatabase = true)
    (hdb : o.objectKey_.dbId = cat.currentDB_.dbId) :
    ∃ o1 s1 o2 s2 o3 s3 rl3,
      grantDBObjectPrivileges_unsafe s r
        ((o.setPrivileges AccessPrivileges.ALL_TABLE).setPermissionType .TableDBObjectType)
        cat = (.ok o1, s1) ∧
      grantDBObjectPrivileges_unsafe s1 r
        ((o1.setPrivileges AccessPrivileges.ALL_VIEW).setPermissionType .ViewDBObjectType)
        cat = (.ok o2, s2) ∧
      grantDBObjectPrivileges_unsafe s2 r
        ((o2.setPrivileges AccessPrivileges.ALL_DASHBOARD).setPermissionType
          .DashboardDBObjectType) cat = (.ok o3, s3) ∧
      grantDBObjectPrivileges_unsafe s r o cat = (.ok o, s3) ∧
      s3.getMetadataForRole r = some rl3 ∧
      (rl3.privilegesOn ⟨.TableDBObjectType, o.objectKey_.dbId, o.objectKey_.objectId⟩ =
          (rl.privilegesOn ⟨.TableDBObjectType, o.objectKey_.dbId, o.objectKey_.objectId⟩).add
            AccessPrivileges.ALL_TABLE ∧
        rl3.privilegesOn ⟨.ViewDBObjectType, o.objectKey_.dbId, o.objectKey_.objectId⟩ =
          (rl.privilegesOn ⟨.ViewDBObjectType, o.objectKey_.dbId, o.objectKey_.objectId⟩).add
            AccessPrivileges.ALL_VIEW ∧
        rl3.privilegesOn ⟨.DashboardDBObjectType, o.objectKey_.dbId, o.objectKey_.objectId⟩ =
          (rl.privilegesOn
            ⟨.DashboardDBObjectType, o.objectKey_.dbId, o.objectKey_.objectId⟩).add
            AccessPrivileges.ALL_DASHBOARD) ∧
      (∀ k : DBObjectKey,
        ¬ (k.dbId = o.objectKey_.dbId ∧ k.objectId = o.objectKey_.objectId ∧
          (k.permissionType = .TableDBObjectType ∨ k.permissionType = .ViewDBObjectType ∨
            k.permissionType = .DashboardDBObjectType)) →
        rl3.findDbObject k = rl.findDbObject k) ∧
      ((∃ od ∈ s3.getMetadataForObject o.objectKey_.dbId .TableDBObjectType
            o.objectKey_.objectId,
          od.roleName = r ∧ od.privs = rl3.privilegesOn
            ⟨.TableDBObjectType, o.objectKey_.dbId, o.objectKey_.objectId⟩) ∧
        (∃ od ∈ s3.getMetadataForObject o.objectKey_.dbId .ViewDBObjectType
            o.objectKey_.objectId,
          od.roleName = r ∧ od.privs = rl3.privilegesOn
            ⟨.ViewDBObjectType, o.objectKey_.dbId, o.objectKey_.objectId⟩) ∧
        (∃ od ∈ s3.getMetadataForObject o.objectKey_.dbId .DashboardDBObjectType
            o.objectKey_.objectId,
          od.roleName = r ∧ od.privs = rl3.privilegesOn
            ⟨.DashboardDBObjectType, o.objectKey_.dbId, o.objectKey_.objectId⟩)) ∧
      (∀ d t oid,
        ¬ (d = o.objectKey_.dbId ∧ oid = o.objectKey_.objectId ∧
          (t = .TableDBObjectType ∨ t = .ViewDBObjectType ∨ t = .DashboardDBObjectType)) →
        s3.getMetadataForObject d t oid = s.getMetadataForObject d t oid) ∧
      ((∃ row ∈ s3.sqliteConnector_.mapd_object_permissions, row.roleName = r ∧
          row.objectPermissionsType = .TableDBObjectType ∧ row.dbId = o.objectKey_.dbId ∧
          row.objectId = o.objectKey_.objectId) ∧
        (∃ row ∈ s3.sqliteConnector_.mapd_object_permissions, row.roleName = r ∧
          row.objectPermissionsType = .ViewDBObjectType ∧ row.dbId = o.objectKey_.dbId ∧
          row.objectId = o.objectKey_.objectId) ∧
        (∃ row ∈ s3.sqliteConnector_.mapd_object_permissions, row.roleName = r ∧
          row.objectPermissionsType = .DashboardDBObjectType ∧ row.dbId = o.objectKey_.dbId ∧
          row.objectId = o.objectKey_.objectId)) ∧
      (∀ row : ObjectPermissionRow,
        ¬ (row.roleName = r ∧ row.dbId = o.objectKey_.dbId ∧
          row.objectId = o.objectKey_.objectId ∧
          (row.objectPermissionsType = .TableDBObjectType ∨
            row.objectPermissionsType = .ViewDBObjectType ∨
            row.objectPermissionsType = .DashboardDBObjectType)) →
        (row ∈ s3.sqliteConnector_.mapd_object_permissions ↔
          row ∈ s.sqliteConnector_.mapd_object_permissions)) ∧
      ((∀ k : DBObjectKey, k.permissionType = .DatabaseDBObjectType →
          rl3.findDbObject k = rl.findDbObject k) ∧
        (∀ d oid, s3.getMetadataForObject d .DatabaseDBObjectType oid =
          s.getMetadataForObject d .DatabaseDBObjectType oid) ∧
        (∀ row : ObjectPermissionRow, row.objectPermissionsType = .DatabaseDBObjectType →
          (row ∈ s3.sqliteConnector_.mapd_object_permissions ↔
            row ∈ s.sqliteConnector_.mapd_object_permissions))) := by
  -- the three objects that `grantAllOnDatabase_unsafe` builds
  obtain ⟨oname, otype, ⟨opt, d, oid⟩, oprivs, oowner⟩ := o
  simp only at hdb
  set t1 : DBObject := ⟨oname, otype, ⟨.TableDBObjectType, d, oid⟩,
    AccessPrivileges.ALL_TABLE, oowner⟩ with ht1
  set t2 : DBObject := ⟨oname, otype, ⟨.ViewDBObjectType, d, oid⟩,
    AccessPrivileges.ALL_VIEW, oowner⟩ with ht2
  set t3 : DBObject := ⟨oname, otype, ⟨.DashboardDBObjectType, d, oid⟩,
    AccessPrivileges.ALL_DASHBOARD, oowner⟩ with ht3
  have hn1 : t1.isAllOnDatabase = false := by simp [DBObject.isAllOnDatabase, ht1]
  have hn2 : t2.isAllOnDatabase = false := by simp [DBObject.isAllOnDatabase, ht2]
  have hn3 : t3.isAllOnDatabase = false := by simp [DBObject.isAllOnDatabase, ht3]
  obtain ⟨s1, hg1, hr1, hd1, hk1, hrow1, -⟩ :=
    grantDBObjectPrivileges_single_effect 1 s r t1 cat rl hn1 hroot hrole hdb
  obtain ⟨s2, hg2, hr2, hd2, hk2, hrow2, -⟩ :=
    grantDBObjectPrivileges_single_effect 1 s1 r t2 cat _ hn2 hroot hr1 hdb
  obtain ⟨s3, hg3, hr3, hd3, hk3, hrow3, -⟩ :=
    grantDBObjectPrivileges_single_effect 1 s2 r t3 cat _ hn3 hroot hr2 hdb
  have hmain : grantDBObjectPrivileges_unsafe s r
      ⟨oname, otype, ⟨opt, d, oid⟩, oprivs, oowner⟩ cat =
      (.ok ⟨oname, otype, ⟨opt, d, oid⟩, oprivs, oowner⟩, s3) :=
    grantDBObjectPrivileges_compose s s1 s2 s3 r _ cat _ _ _ hall
      ((grantDBObjectPrivileges_depth 0 1 s r t1 cat hn1).trans hg1)
      ((grantDBObjectPrivileges_depth 0 1 s1 r t2 cat hn2).trans hg2)
      ((grantDBObjectPrivileges_depth 0 1 s2 r t3 cat hn3).trans hg3)
  have kTV : (⟨.TableDBObjectType, d, oid⟩ : DBObjectKey) ≠ t2.objectKey_ := by
    simp [ht2]
  have kTD : (⟨.TableDBObjectType, d, oid⟩ : DBObjectKey) ≠ t3.objectKey_ := by
    simp [ht3]
  have kVD : (⟨.ViewDBObjectType, d, oid⟩ : DBObjectKey) ≠ t3.objectKey_ := by
    simp [ht3]
  have kVT : (⟨.ViewDBObjectType, d, oid⟩ : DBObjectKey) ≠ t1.objectKey_ := by
    simp [ht1]
  have kDT : (⟨.DashboardDBObjectType, d, oid⟩ : DBObjectKey) ≠ t1.objectKey_ := by
    simp [ht1]
  have kDV : (⟨.DashboardDBObjectType, d, oid⟩ : DBObjectKey) ≠ t2.objectKey_ := by
    simp [ht2]
  have pT : (((rl.grantPrivileges t1).grantPrivileges t2).grantPrivileges t3).privilegesOn
      ⟨.TableDBObjectType, d, oid⟩ =
      (rl.privilegesOn ⟨.TableDBObjectType, d, oid⟩).add AccessPrivileges.ALL_TABLE := by
    rw [Role.privilegesOn_grantPrivileges_ne _ _ _ kTD,
      Role.privilegesOn_grantPrivileges_ne _ _ _ kTV]
    exact Role.privilegesOn_grantPrivileges_self rl t1
  have pV : (((rl.grantPrivileges t1).grantPrivileges t2).grantPrivileges t3).privilegesOn
      ⟨.ViewDBObjectType, d, oid⟩ =
      (rl.privilegesOn ⟨.ViewDBObjectType, d, oid⟩).add AccessPrivileges.ALL_VIEW := by
    rw [Role.privilegesOn_grantPrivileges_ne _ _ _ kVD]
    have := Role.privilegesOn_grantPrivileges_self (rl.grantPrivileges t1) t2
    rw [Role.privilegesOn_grantPrivileges_ne _ _ _ kVT] at this
    exact this
  have pD : (((rl.grantPrivileges t1).grantPrivileges t2).grantPrivileges t3).privilegesOn
      ⟨.DashboardDBObjectType, d, oid⟩ =
      (rl.privilegesOn ⟨.DashboardDBObjectType, d, oid⟩).add
        AccessPrivileges.ALL_DASHBOARD := by
    have := Role.privilegesOn_grantPrivileges_self
      ((rl.grantPrivileges t1).grantPrivileges t2) t3
    rw [Role.privilegesOn_grantPrivileges_ne _ _ _ kDV,
      Role.privilegesOn_grantPrivileges_ne _ _ _ kDT] at this
    exact this
  have hrec : ∀ k : DBObjectKey,
      ¬ (k.dbId = d ∧ k.objectId = oid ∧
        (k.permissionType = .TableDBObjectType ∨ k.permissionType = .ViewDBObjectType ∨
          k.permissionType = .DashboardDBObjectType)) →
      (((rl.grantPrivileges t1).grantPrivileges t2).grantPrivileges t3).findDbObject k =
        rl.findDbObject k := by
    intro k hk
    have h1 : k ≠ t1.objectKey_ := by
      rintro rfl; exact hk ⟨rfl, rfl, Or.inl rfl⟩
    have h2 : k ≠ t2.objectKey_ := by
      rintro rfl; exact hk ⟨rfl, rfl, Or.inr (Or.inl rfl)⟩
    have h3 : k ≠ t3.objectKey_ := by
      rintro rfl; exact hk ⟨rfl, rfl, Or.inr (Or.inr rfl)⟩
    rw [Role.findDbObject_grantPrivileges_ne _ _ _ h3,
      Role.findDbObject_grantPrivileges_ne _ _ _ h2,
      Role.findDbObject_grantPrivileges_ne _ _ _ h1]
  have hdesc : ∀ dd t oo,
      ¬ (dd = d ∧ oo = oid ∧
        (t = .TableDBObjectType ∨ t = .ViewDBObjectType ∨ t = .DashboardDBObjectType)) →
      s3.getMetadataForObject dd t oo = s.getMetadataForObject dd t oo := by
    intro dd t oo hk
    have h1 : (dd, t, oo) ≠ (t1.objectKey_.dbId, t1.objectKey_.permissionType,
        t1.objectKey_.objectId) := by
      intro h; simp only [ht1, Prod.mk.injEq] at h
      exact hk ⟨h.1, h.2.2, Or.inl h.2.1⟩
    have h2 : (dd, t, oo) ≠ (t2.objectKey_.dbId, t2.objectKey_.permissionType,
        t2.objectKey_.objectId) := by
      intro h; simp only [ht2, Prod.mk.injEq] at h
      exact hk ⟨h.1, h.2.2, Or.inr (Or.inl h.2.1)⟩
    have h3 : (dd, t, oo) ≠ (t3.objectKey_.dbId, t3.objectKey_.permissionType,
        t3.objectKey_.objectId) := by
      intro h; simp only [ht3, Prod.mk.injEq] at h
      exact hk ⟨h.1, h.2.2, Or.inr (Or.inr h.2.1)⟩
    rw [hk3 dd t oo h3, hk2 dd t oo h2, hk1 dd t oo h1]
  have hrows : ∀ row : ObjectPermissionRow,
      ¬ (row.roleName = r ∧ row.dbId = d ∧ row.objectId = oid ∧
        (row.objectPermissionsType = .TableDBObjectType ∨
          row.objectPermissionsType = .ViewDBObjectType ∨
          row.objectPermissionsType = .DashboardDBObjectType)) →
      (row ∈ s3.sqliteConnector_.mapd_object_permissions ↔
        row ∈ s.sqliteConnector_.mapd_object_permissions) := by
    intro row hrow
    rw [hrow3 row, hrow2 row, hrow1 row]
    constructor
    · rintro (⟨(⟨(⟨h, -⟩ | h), -⟩ | h), -⟩ | h)
      · exact h
      · exfalso; apply hrow; rw [h]; exact ⟨rfl, rfl, rfl, Or.inl rfl⟩
      · exfalso; apply hrow; rw [h]; exact ⟨rfl, rfl, rfl, Or.inr (Or.inl rfl)⟩
      · exfalso; apply hrow; rw [h]; exact ⟨rfl, rfl, rfl, Or.inr (Or.inr rfl)⟩
    · intro h
      refine Or.inl ⟨Or.inl ⟨Or.inl ⟨h, ?_⟩, ?_⟩, ?_⟩
      · rintro ⟨a, b, c, e⟩; exact hrow ⟨a, c, e, Or.inl b⟩
      · rintro ⟨a, b, c, e⟩; exact hrow ⟨a, c, e, Or.inr (Or.inl b)⟩
      · rintro ⟨a, b, c, e⟩; exact hrow ⟨a, c, e, Or.inr (Or.inr b)⟩
  refine ⟨_, s1, _, s2, _, s3, _, hg1, hg2, hg3, hmain, hr3, ⟨pT, pV, pD⟩, hrec,
    ⟨?_, ?_, ?_⟩, hdesc, ⟨?_, ?_, ?_⟩, hrows, ⟨?_, ?_, ?_⟩⟩
  · -- the Table descriptor, written by the first grant and kept by the others
    obtain ⟨od, hod, hrn, hpv⟩ := hd1
    refine ⟨od, ?_, hrn, ?_⟩
    · have h2 := hk2 d .TableDBObjectType oid (by simp [ht2])
      have h3 := hk3 d .TableDBObjectType oid (by simp [ht3])
      rw [h3, h2]; exact hod
    · rw [pT]; exact hpv
  · obtain ⟨od, hod, hrn, hpv⟩ := hd2
    refine ⟨od, ?_, hrn, ?_⟩
    · have h3 := hk3 d .ViewDBObjectType oid (by simp [ht3])
      rw [h3]; exact hod
    · rw [pV, hpv, Role.privilegesOn_grantPrivileges_ne _ _ _ kVT]
  · obtain ⟨od, hod, hrn, hpv⟩ := hd3
    refine ⟨od, hod, hrn, ?_⟩
    rw [pD, hpv, Role.privilegesOn_grantPrivileges_ne _ _ _ kDV,
      Role.privilegesOn_grantPrivileges_ne _ _ _ kDT]
  · refine ⟨_, (hrow3 _).mpr (Or.inl ⟨(hrow2 _).mpr (Or.inl ⟨(hrow1 _).mpr (Or.inr rfl), ?_⟩),
      ?_⟩), rfl, rfl, rfl, rfl⟩
    · simp [ht2]
    · simp [ht3]
  · refine ⟨_, (hrow3 _).mpr (Or.inl ⟨(hrow2 _).mpr (Or.inr rfl), ?_⟩), rfl, rfl, rfl, rfl⟩
    simp [ht3]
  · exact ⟨_, (hrow3 _).mpr (Or.inr rfl), rfl, rfl, rfl, rfl⟩
  · intro k hk
    apply hrec
    rintro ⟨-, -, h | h | h⟩ <;> rw [hk] at h <;> cases h
  · intro dd oo
    apply hdesc
    rintro ⟨-, -, h | h | h⟩ <;> cases h
  · intro row hk
    apply hrows
    rintro ⟨-, -, -, h | h | h⟩ <;> rw [hk] at h <;> cases h

/-- Counterexample to C1 as stated: the role `analyst` holds the privilege with
mask 4 on table 5; after the privilege with mask 8 on that table is granted to
it and revoked from it, both calls having completed, the reverse lookup of the
table still lists a descriptor of `analyst`. -/
theorem grant_then_revoke_counterexample :
    (analystSys.getMetadataForRole "analyst").isSome = true ∧ "analyst" ≠ MAPD_ROOT_USER ∧
    (analystSys.grantDBObjectPrivileges "analyst" (tableFive 8) systemCatalog).1 =
      .ok (tableFive 12) ∧
    ((analystSys.grantDBObjectPrivileges "analyst" (tableFive 8)
      systemCatalog).2.revokeDBObjectPrivileges "analyst" (tableFive 8) systemCatalog).1 =
      .ok () ∧
    ∃ od ∈ ((analystSys.grantDBObjectPrivileges "analyst" (tableFive 8)
        systemCatalog).2.revokeDBObjectPrivileges "analyst" (tableFive 8)
        systemCatalog).2.getMetadataForObject 1 .TableDBObjectType 5,
      od.roleName = "analyst" := by
  decide

/-- Witness for C1, amended: the role `analyst` holds the privilege with mask 4
on table 5 and is granted, then revoked, the mask 12 on it. -/
theorem grant_then_revoke_witness :
    ∃ o' s1 s2 rl2, analystSys.grantDBObjectPrivileges "analyst" (tableFive 12) systemCatalog =
        (.ok o', s1) ∧
      s1.revokeDBObjectPrivileges "analyst" (tableFive 12) systemCatalog = (.ok (), s2) ∧
      (∀ od ∈ s2.getMetadataForObject 1 .TableDBObjectType 5, od.roleName ≠ "analyst") ∧
      s2.getMetadataForRole "analyst" = some rl2 ∧
      rl2.findDbObject (tableFive 12).objectKey_ = Option.none ∧
      rl2.checkPrivileges (tableFive 12) = false :=
  grant_then_revoke analystSys "analyst" (tableFive 12) systemCatalog
    ⟨"analyst", false, [((tableFive 4).objectKey_, tableFive 4)]⟩
    (by decide) (by decide) (by intro e he; revert e; decide) (by decide)
    (Or.inr (by decide))

/-- ALL on DATABASE of database 1 granted to the role `analyst` through the
catalog of database 1. -/
theorem grantDBObjectPrivileges_all_on_database_witness :
    ∃ s3, grantDBObjectPrivileges_unsafe analystSys "analyst" allOnDatabaseOne
        systemCatalog = (.ok allOnDatabaseOne, s3) ∧
      (∃ od ∈ s3.getMetadataForObject 1 .TableDBObjectType (-1), od.roleName = "analyst") ∧
      (∃ od ∈ s3.getMetadataForObject 1 .ViewDBObjectType (-1), od.roleName = "analyst") ∧
      (∃ od ∈ s3.getMetadataForObject 1 .DashboardDBObjectType (-1),
        od.roleName = "analyst") ∧
      s3.getMetadataForObject 1 .DatabaseDBObjectType (-1) =
        analystSys.getMetadataForObject 1 .DatabaseDBObjectType (-1) := by
  obtain ⟨o1, s1, o2, s2, o3, s3, rl3, -, -, -, hmain, -, -, -, ⟨⟨od1, h1, hn1, -⟩,
      ⟨od2, h2, hn2, -⟩, ⟨od3, h3, hn3, -⟩⟩, -, -, -, -, hdb, -⟩ :=
    grantDBObjectPrivileges_all_on_database analystSys "analyst" allOnDatabaseOne systemCatalog
      ⟨"analyst", false, [((tableFive 4).objectKey_, tableFive 4)]⟩
      (by decide) (by decide) (by decide) (by decide)
  exact ⟨s3, hmain, ⟨od1, h1, hn1⟩, ⟨od2, h2, hn2⟩, ⟨od3, h3, hn3⟩, hdb 1 (-1)⟩

/-- Counterexample to C3 as stated: the role `analyst` holds a privilege on the
individual table 5 of database 1; revoking ALL on DATABASE of database 1 from
it removes the record, the persisted row and the reverse-lookup descriptor of
that table. -/
theorem revoke_all_on_database_counterexample :
    (analystSys.getMetadataForRole "analyst").isSome = true ∧ "analyst" ≠ MAPD_ROOT_USER ∧
    analystSys.getMetadataForObject 1 .TableDBObjectType 5 ≠ [] ∧
    ( revokeDBObjectPrivileges_unsafe analystSys "analyst" allOnDatabaseOne systemCatalog).1 =
      .ok () ∧
    ( revokeDBObjectPrivileges_unsafe analystSys "analyst" allOnDatabaseOne
      systemCatalog).2.getMetadataForObject 1 .TableDBObjectType 5 = [] ∧
    ( revokeDBObjectPrivileges_unsafe analystSys "analyst" allOnDatabaseOne
      systemCatalog).2.sqliteConnector_.mapd_object_permissions = [] := by
  decide

/-- C3, amended: for an existing non-root role `r` and a database `d`,
`revokeDBObjectPrivileges_unsafe` called with ALL on DATABASE for `d` completes
and removes every record, persisted row and reverse-lookup descriptor that `r`
holds in database `d`, of any type and on any object; the records, rows and
descriptors of `r` in other databases and those of other roles are unchanged. -/
theorem revoke_all_on_database (s : SysCatalog) (r : String) (o : DBObject) (cat : Catalog)
    (rl : Role) (hroot : r ≠ MAPD_ROOT_USER) (hrole : s.getMetadataForRole r = some rl)
    (hall : o.isAllOnDatabase = true) :
    ∃ s' rl', revokeDBObjectPrivileges_unsafe s r o cat = (.ok (), s') ∧
      s'.getMetadataForRole r = some rl' ∧
      (∀ k : DBObjectKey, rl'.findDbObject k =
        if k.dbId = o.objectKey_.dbId then Option.none else rl.findDbObject k) ∧
      (∀ row, row ∈ s'.sqliteConnector_.mapd_object_permissions ↔
        row ∈ s.sqliteConnector_.mapd_object_permissions ∧
          ¬ (row.roleName = r ∧ row.dbId = o.objectKey_.dbId)) ∧
      (∀ e, e ∈ s'.objectDescriptorMap_ ↔
        e ∈ s.objectDescriptorMap_ ∧ ¬ (e.2.roleName = r ∧ e.2.dbId = o.objectKey_.dbId)) ∧
      (∀ key, key ≠ to_upper r → mapFind s'.roleMap_ key = mapFind s.roleMap_ key) ∧
      s'.userRoleMap_ = s.userRoleMap_ := by
  refine ⟨ revokeAllOnDatabase_unsafe s r o.objectKey_.dbId rl,
    rl.revokeAllOnDatabase o.objectKey_.dbId,
    revokeDBObjectPrivileges_all s r o cat rl hroot hrole hall, ?_, ?_, ?_, ?_, ?_, rfl⟩
  · simp [getMetadataForRole, revokeAllOnDatabase_unsafe, mapFind_mapAssign_self]
  · intro k
    exact Role.findDbObject_revokeAllOnDatabase rl _ k
  · intro row
    simp only [ revokeAllOnDatabase_unsafe, List.mem_filter, Bool.not_eq_true',
      Bool.and_eq_false_imp, decide_eq_true_eq, decide_eq_false_iff_not, not_and]
  · intro e
    simp only [ revokeAllOnDatabase_unsafe, List.mem_filter, Bool.not_eq_true',
      Bool.and_eq_false_imp, decide_eq_true_eq, decide_eq_false_iff_not, not_and]
  · intro key hkey
    simp only [ revokeAllOnDatabase_unsafe]
    exact mapFind_mapAssign_ne _ _ _ _ hkey

/-- Witness for C3, amended: ALL on DATABASE of database 1 revoked from the
role `analyst`. -/
theorem revoke_all_on_database_witness :
    ∃ s' rl', revokeDBObjectPrivileges_unsafe analystSys "analyst" allOnDatabaseOne
        systemCatalog = (.ok (), s') ∧
      s'.getMetadataForRole "analyst" = some rl' ∧
      (∀ k : DBObjectKey, rl'.findDbObject k =
        if k.dbId = 1 then Option.none
        else Role.findDbObject ⟨"analyst", false, [((tableFive 4).objectKey_, tableFive 4)]⟩ k) ∧
      (∀ row, row ∈ s'.sqliteConnector_.mapd_object_permissions ↔
        row ∈ analystSys.sqliteConnector_.mapd_object_permissions ∧
          ¬ (row.roleName = "analyst" ∧ row.dbId = 1)) ∧
      (∀ e, e ∈ s'.objectDescriptorMap_ ↔
        e ∈ analystSys.objectDescriptorMap_ ∧ ¬ (e.2.roleName = "analyst" ∧ e.2.dbId = 1)) ∧
      (∀ key, key ≠ to_upper "analyst" →
        mapFind s'.roleMap_ key = mapFind analystSys.roleMap_ key) ∧
      s'.userRoleMap_ = analystSys.userRoleMap_ :=
  revoke_all_on_database analystSys "analyst" allOnDatabaseOne systemCatalog
    ⟨"analyst", false, [((tableFive 4).objectKey_, tableFive 4)]⟩
    (by decide) (by decide) (by decide)

/-- C4, the code at the failing input: `dropRole` of the role `analyst`
completes, the role is no longer found and its persisted membership and grant
rows are deleted, but the reverse lookup of table 5 still lists the descriptor
of `analyst`. -/
theorem dropRole_keeps_descriptors :
    (analystSys.dropRole "analyst").1 = .ok () ∧
    (analystSys.dropRole "analyst").2.getMetadataForRole "analyst" = Option.none ∧
    (analystSys.dropRole "analyst").2.sqliteConnector_.mapd_roles = [] ∧
    (analystSys.dropRole "analyst").2.sqliteConnector_.mapd_object_permissions = [] ∧
    ((analystSys.dropRole "analyst").2.getMetadataForObject 1 .TableDBObjectType 5).map
      (fun od => od.roleName) = ["analyst"] := by
  decide

/-- C5: for a login request that names an existing database, in which the
stored hash passes the `CHECK` of the password check: if the user name is
unknown, or `check_password` is set and the password check fails, or privileges
are off and the legacy `checkPrivileges` denies insert access to the database,
then `login` raises the error "Invalid credentials.", returns no catalog and
leaves the registry of catalog instances as it was. -/
theorem login_invalid_credentials (bcrypt_checkpw : String → String → Int)
    (mkCatalog : DBMetadata → Catalog) (s : SysCatalog) (dbname username password : String)
    (check_password : Bool) (db_meta : DBMetadata)
    (hdb : s.getMetadataForDB dbname = some db_meta)
    (hcheck : ∀ u, s.getMetadataForUser username = some u →
      0 ≤ bcrypt_checkpw password u.passwd_hash)
    (h : s.getMetadataForUser username = Option.none ∨
      (∃ u, s.getMetadataForUser username = some u ∧ check_password = true ∧
        checkPasswordForUser bcrypt_checkpw password u = .ok false) ∨
      (∃ u, s.getMetadataForUser username = some u ∧ s.arePrivilegesOn = false ∧
        s.checkPrivileges u db_meta ⟨false, false, true⟩ = false)) :
    login bcrypt_checkpw mkCatalog s dbname username password check_password =
      (.error (.runtime_error "Invalid credentials."), s) := by
  unfold login
  rw [hdb]
  rcases h with h | ⟨u, hu, hc, hp⟩ | ⟨u, hu, hoff, hdeny⟩
  · simp only [h]
  · simp only [hu, hc, if_true, hp]
  · simp only [hu]
    have hnn := hcheck u hu
    by_cases hc : check_password = true
    · simp only [hc, if_true]
      unfold checkPasswordForUser
      simp only [not_lt.mpr hnn, if_false]
      by_cases hz : bcrypt_checkpw password u.passwd_hash = 0
      · simp [hz, hoff, hdeny]
      · simp [hz]
    · simp [hc, hoff, hdeny]

/-- Witness for C5: in legacy mode the user bob, who has no privilege row for
database d2, logs in with the right password. -/
theorem login_invalid_credentials_witness :
    login exampleCheckpw (fun db => { systemCatalog with currentDB_ := db }) legacySys
        "d2" "bob" "secret" true =
      (.error (.runtime_error "Invalid credentials."), legacySys) :=
  login_invalid_credentials exampleCheckpw _ legacySys "d2" "bob" "secret" true ⟨2, "d2", 0⟩
    (by decide) (by intro u _; unfold exampleCheckpw; split <;> decide)
    (Or.inr (Or.inr ⟨⟨8, "bob", "hash8", false, false⟩, by decide, by decide, by decide⟩))

/-- C6: `createRole(n)` for a non-private role raises an error when a user
named `n` exists, and `createUser(n, ...)` with privileges on raises an error
when a role named `n` exists; in both cases the state of the system catalog,
with its role map, user-role map, reverse-lookup map and persisted rows, is
unchanged, so no user or role is created. -/
theorem create_name_conflict (hash_with_bcrypt : String → String) (s : SysCatalog)
    (n passwd : String) (issuper : Bool) :
    ((s.getMetadataForUser n).isSome = true →
      s.createRole n false = (.error (.runtime_error ("Role name " ++ n ++
        " is same as one of user names. Role and user names should be unique.")), s)) ∧
    (s.arePrivilegesOn = true → (s.getMetadataForRole n).isSome = true →
      ∃ msg, createUser hash_with_bcrypt s n passwd issuper =
        (.error (.runtime_error msg), s)) := by
  constructor
  · intro hu
    simp [createRole, execInTransaction, createRole_unsafe, hu]
  · intro hon hr
    by_cases hu : (s.getMetadataForUser n).isSome = true
    · exact ⟨"User " ++ n ++ " already exists.", by simp [createUser, hu]⟩
    · exact ⟨"User name " ++ n ++
        " is same as one of role names. User and role names should be unique.",
        by simp [createUser, hu, hon, hr]⟩

/-- Witness for C6: `alice` is a user and `analyst` a role of the example
state; creating a role `alice` or a user `analyst` fails and changes nothing. -/
theorem create_name_conflict_witness :
    analystSys.createRole "alice" false = (.error (.runtime_error ("Role name " ++ "alice" ++
        " is same as one of user names. Role and user names should be unique.")), analystSys) ∧
    ∃ msg, createUser (fun p => p) analystSys "analyst" "pw" false =
      (.error (.runtime_error msg), analystSys) :=
  ⟨(create_name_conflict (fun p => p) analystSys "alice" "pw" false).1 (by decide),
   (create_name_conflict (fun p => p) analystSys "analyst" "pw" false).2 (by decide)
     (by decide)⟩

/-- C7: `verifyDBObjectOwnership(u, o, catalog)` returns true if and only if
`u` has an entry in the user-role map and that role's lookup of the loaded key
of `o` finds a record whose owner is `u.userId`; otherwise it returns false. -/
theorem verifyDBObjectOwnership_iff (s : SysCatalog) (user : UserMetadata) (object : DBObject)
    (catalog : Catalog) :
    (s.verifyDBObjectOwnership user object catalog = true ↔
      ∃ rl, s.getMetadataForUserRole user.userId = some rl ∧
        ∃ found_object, rl.findDbObject (object.loadKey catalog).objectKey_ =
          some found_object ∧ found_object.ownerId_ = user.userId) ∧
    (s.verifyDBObjectOwnership user object catalog = false ↔
      ¬ ∃ rl, s.getMetadataForUserRole user.userId = some rl ∧
        ∃ found_object, rl.findDbObject (object.loadKey catalog).objectKey_ =
          some found_object ∧ found_object.ownerId_ = user.userId) := by
  have key : s.verifyDBObjectOwnership user object catalog = true ↔
      ∃ rl, s.getMetadataForUserRole user.userId = some rl ∧
        ∃ found_object, rl.findDbObject (object.loadKey catalog).objectKey_ =
          some found_object ∧ found_object.ownerId_ = user.userId := by
    unfold verifyDBObjectOwnership
    cases hrl : s.getMetadataForUserRole user.userId with
    | none => simp
    | some rl =>
      cases hf : rl.findDbObject (object.loadKey catalog).objectKey_ with
      | none => simp [hf]
      | some found => simp [hf]
  refine ⟨key, ?_⟩
  rw [← key]
  simp

end SysCatalog


/-! ## Machine integers -/

theorem toInt32_of_isInt32 {x : Int} (h : isInt32 x) : toInt32 x = x := by
  unfold isInt32 at h; unfold toInt32; omega

theorem isInt32_toInt32 (x : Int) : isInt32 (toInt32 x) := by
  unfold isInt32 toInt32; omega

theorem toInt32_toSizeT {x : Int} (h : isInt32 x) : toInt32 (toSizeT x) = x := by
  unfold isInt32 at h; unfold toInt32 toSizeT; omega

theorem toSizeT_inj {x y : Int} (hx : isInt32 x) (hy : isInt32 y)
    (h : toSizeT x = toSizeT y) : x = y := by
  unfold isInt32 at hx hy; unfold toSizeT at h; omega

theorem DataMgr.isInt32_getTableEpoch (dm : DataMgr) (d t : Int) :
    isInt32 (dm.getTableEpoch d t) := isInt32_toInt32 _

/-! ## Table epochs -/

namespace Catalog

/-- After the first shard, the loop answers the running epoch when every
remaining shard agrees with it. -/
theorem getTableEpoch.loop_agree (cat : Catalog) (dm : DataMgr) (db : Int) (c : Int)
    (hc : isInt32 c) :
    ∀ (l : List Int) (i : Nat), i ≠ 0 →
      (∀ p ∈ l, (cat.getMetadataForTable p).isSome) →
      (∀ p ∈ l, dm.getTableEpoch db p = c) →
      getTableEpoch.loop cat dm db l i (toSizeT c) = .ok c := by
  intro l
  induction l with
  | nil => intro i _ _ _; simp [getTableEpoch.loop, toInt32_toSizeT hc]
  | cons p rest ih =>
    intro i hi hex hall
    have hp := hex p (List.mem_cons_self _ _)
    obtain ⟨td, htd⟩ := Option.isSome_iff_exists.mp hp
    have hpe := hall p (List.mem_cons_self _ _)
    simp only [getTableEpoch.loop, htd, hi, if_false, hpe, ne_eq, not_true_eq_false]
    exact ih (i + 1) (Nat.succ_ne_zero i)
      (fun q hq => hex q (List.mem_cons_of_mem _ hq))
      (fun q hq => hall q (List.mem_cons_of_mem _ hq))

/-- After the first shard, the loop answers -1 when some remaining shard
disagrees with the running epoch. -/
theorem getTableEpoch.loop_disagree (cat : Catalog) (dm : DataMgr) (db : Int) (c : Int)
    (hc : isInt32 c) :
    ∀ (l : List Int) (i : Nat), i ≠ 0 →
      (∀ p ∈ l, (cat.getMetadataForTable p).isSome) →
      (∃ p ∈ l, dm.getTableEpoch db p ≠ c) →
      getTableEpoch.loop cat dm db l i (toSizeT c) = .ok (-1) := by
  intro l
  induction l with
  | nil => intro i _ _ h; obtain ⟨p, hp, _⟩ := h; cases hp
  | cons p rest ih =>
    intro i hi hex hdis
    have hp := hex p (List.mem_cons_self _ _)
    obtain ⟨td, htd⟩ := Option.isSome_iff_exists.mp hp
    by_cases hpe : dm.getTableEpoch db p = c
    · simp only [getTableEpoch.loop, htd, hi, if_false, hpe, ne_eq, not_true_eq_false]
      apply ih (i + 1) (Nat.succ_ne_zero i) (fun q hq => hex q (List.mem_cons_of_mem _ hq))
      obtain ⟨q, hq, hqe⟩ := hdis
      rcases List.mem_cons.mp hq with rfl | hq'
      · exact absurd hpe hqe
      · exact ⟨q, hq', hqe⟩
    · have hne : toSizeT c ≠ toSizeT (dm.getTableEpoch db p) := fun h =>
        hpe (toSizeT_inj hc (dm.isInt32_getTableEpoch db p) h).symm
      simp [getTableEpoch.loop, htd, hi, hne]

/-- The shard loop of `setTableEpoch` succeeds when every shard has a
descriptor, sets the epoch of each shard and leaves every other epoch alone. -/
theorem setTableEpoch.loop_spec (cat : Catalog) (db e : Int) :
    ∀ (l : List Int) (dm : DataMgr),
      (∀ p ∈ l, (cat.getMetadataForTable p).isSome) →
      ∃ dm', setTableEpoch.loop cat db e l dm = .ok dm' ∧
        ∀ d t, dm'.epoch d t = if d = db ∧ t ∈ l then e else dm.epoch d t := by
  intro l
  induction l with
  | nil => intro dm _; exact ⟨dm, rfl, by simp⟩
  | cons p rest ih =>
    intro dm hex
    have hp := hex p (List.mem_cons_self _ _)
    obtain ⟨td, htd⟩ := Option.isSome_iff_exists.mp hp
    obtain ⟨dm', hrun, hep⟩ :=
      ih (dm.setTableEpoch db p e) (fun q hq => hex q (List.mem_cons_of_mem _ hq))
    refine ⟨dm', ?_, ?_⟩
    · simp only [setTableEpoch.loop, removeChunks, htd]
      exact hrun
    · intro d t
      rw [hep d t]
      simp only [DataMgr.setTableEpoch, List.mem_cons]
      by_cases hd : d = db <;> by_cases ht : t = p <;> by_cases hr : t ∈ rest <;> simp [hd, ht, hr]

/-- C8: for a logical table with a non-empty list of physical shards, each with
a table descriptor, `getTableEpoch` returns -1 if some two shards have different
epochs in the storage manager and the common epoch if all shards have the same
epoch; for a table with no shard list it returns the storage manager's epoch of
that table. -/
theorem getTableEpoch_shards (cat : Catalog) (dataMgr_ : DataMgr) (db_id table_id : Int)
    (hwf : ∀ shards, mapFind cat.logicalToPhysicalTableMapById_ table_id = some shards →
      shards ≠ [] ∧ ∀ p ∈ shards, (cat.getMetadataForTable p).isSome) :
    (∀ shards, mapFind cat.logicalToPhysicalTableMapById_ table_id = some shards →
      ((∃ p ∈ shards, ∃ q ∈ shards,
          dataMgr_.getTableEpoch db_id p ≠ dataMgr_.getTableEpoch db_id q) →
        cat.getTableEpoch dataMgr_ db_id table_id = .ok (-1)) ∧
      (∀ e, (∀ p ∈ shards, dataMgr_.getTableEpoch db_id p = e) →
        cat.getTableEpoch dataMgr_ db_id table_id = .ok e)) ∧
    (mapFind cat.logicalToPhysicalTableMapById_ table_id = none →
      cat.getTableEpoch dataMgr_ db_id table_id =
        .ok (dataMgr_.getTableEpoch db_id table_id)) := by
  refine ⟨?_, ?_⟩
  · intro shards hfind
    obtain ⟨hne, hex⟩ := hwf shards hfind
    cases shards with
    | nil => exact absurd rfl hne
    | cons p0 rest =>
      have hp0 := hex p0 (List.mem_cons_self _ _)
      obtain ⟨td, htd⟩ := Option.isSome_iff_exists.mp hp0
      have hrest : ∀ q ∈ rest, (cat.getMetadataForTable q).isSome :=
        fun q hq => hex q (List.mem_cons_of_mem _ hq)
      have hunfold : cat.getTableEpoch dataMgr_ db_id table_id =
          getTableEpoch.loop cat dataMgr_ db_id rest 1
            (toSizeT (dataMgr_.getTableEpoch db_id p0)) := by
        simp [getTableEpoch, hfind, getTableEpoch.loop, htd]
      have hc := dataMgr_.isInt32_getTableEpoch db_id p0
      refine ⟨?_, ?_⟩
      · rintro ⟨p, hp, q, hq, hpq⟩
        rw [hunfold]
        apply getTableEpoch.loop_disagree cat dataMgr_ db_id _ hc rest 1 (by decide) hrest
        by_cases h1 : dataMgr_.getTableEpoch db_id p = dataMgr_.getTableEpoch db_id p0
        · by_cases h2 : dataMgr_.getTableEpoch db_id q = dataMgr_.getTableEpoch db_id p0
          · exact absurd (h1.trans h2.symm) hpq
          · rcases List.mem_cons.mp hq with rfl | hq'
            · exact absurd rfl h2
            · exact ⟨q, hq', h2⟩
        · rcases List.mem_cons.mp hp with rfl | hp'
          · exact absurd rfl h1
          · exact ⟨p, hp', h1⟩
      · intro e hall
        rw [hunfold, hall p0 (List.mem_cons_self _ _)]
        have he : isInt32 e := by
          rw [← hall p0 (List.mem_cons_self _ _)]; exact hc
        exact getTableEpoch.loop_agree cat dataMgr_ db_id e he rest 1 (by decide) hrest
          (fun q hq => hall q (List.mem_cons_of_mem _ hq))
  · intro hnone
    simp [getTableEpoch, hnone]

/-- Witness for C8: in the example catalog the shards 2 and 3 of table 1 are at
epochs 7 and 9, so the table epoch is -1, and the unsharded table 4 is at the
storage manager's epoch 7. -/
theorem getTableEpoch_shards_witness :
    shardedCatalog.getTableEpoch splitEpochs 1 1 = .ok (-1) ∧
    shardedCatalog.getTableEpoch splitEpochs 1 4 = .ok 7 :=
  ⟨((getTableEpoch_shards shardedCatalog splitEpochs 1 1
      (by intro shards h
          have h' : shards = [2, 3] := by
            have : mapFind shardedCatalog.logicalToPhysicalTableMapById_ 1 = some [2, 3] := by
              decide
            rw [this] at h; exact (Option.some.inj h).symm
          subst h'; decide)).1 [2, 3] (by decide)).1
      ⟨2, by decide, 3, by decide, by decide⟩,
   (getTableEpoch_shards shardedCatalog splitEpochs 1 4
      (by intro shards h
          have : mapFind shardedCatalog.logicalToPhysicalTableMapById_ 4 = none := by decide
          rw [this] at h; cases h)).2 (by decide)⟩

/-- C9: for an existing table `t` (sharded or not) and an `int` epoch `e`,
`setTableEpoch(db, t, e)` completes, afterwards the storage manager holds epoch
`e` for `t` and for every physical shard of `t`, and `getTableEpoch(db, t)`
returns `e`. -/
theorem setTableEpoch_roundtrip (cat : Catalog) (dataMgr_ : DataMgr)
    (db_id table_id new_epoch : Int) (he : isInt32 new_epoch)
    (ht : (cat.getMetadataForTable table_id).isSome)
    (hwf : ∀ shards, mapFind cat.logicalToPhysicalTableMapById_ table_id = some shards →
      shards ≠ [] ∧ ∀ p ∈ shards, (cat.getMetadataForTable p).isSome) :
    ∃ dm', cat.setTableEpoch dataMgr_ db_id table_id new_epoch = .ok dm' ∧
      dm'.getTableEpoch db_id table_id = new_epoch ∧
      (∀ shards, mapFind cat.logicalToPhysicalTableMapById_ table_id = some shards →
        ∀ p ∈ shards, dm'.getTableEpoch db_id p = new_epoch) ∧
      cat.getTableEpoch dm' db_id table_id = .ok new_epoch := by
  obtain ⟨td, htd⟩ := Option.isSome_iff_exists.mp ht
  cases hfind : mapFind cat.logicalToPhysicalTableMapById_ table_id with
  | none =>
    refine ⟨dataMgr_.setTableEpoch db_id table_id new_epoch, ?_, ?_, ?_, ?_⟩
    · simp [setTableEpoch, removeChunks, htd, hfind]
    · simp [DataMgr.getTableEpoch, DataMgr.setTableEpoch, toInt32_of_isInt32 he]
    · intro shards h; cases h
    · simp [getTableEpoch, hfind, DataMgr.getTableEpoch, DataMgr.setTableEpoch,
        toInt32_of_isInt32 he]
  | some shards =>
    obtain ⟨hne, hex⟩ := hwf shards hfind
    obtain ⟨dm', hrun, hep⟩ := setTableEpoch.loop_spec cat db_id new_epoch shards
      (dataMgr_.setTableEpoch db_id table_id new_epoch) hex
    have hempty : shards.isEmpty = false := by
      cases shards with
      | nil => exact absurd rfl hne
      | cons _ _ => rfl
    have hshard : ∀ p ∈ shards, dm'.getTableEpoch db_id p = new_epoch := by
      intro p hp
      simp [DataMgr.getTableEpoch, hep, hp, toInt32_of_isInt32 he]
    refine ⟨dm', ?_, ?_, ?_, ?_⟩
    · simp [setTableEpoch, removeChunks, htd, hfind, hempty, hrun]
    · simp only [DataMgr.getTableEpoch, hep, DataMgr.setTableEpoch]
      by_cases hm : table_id ∈ shards <;> simp [hm, toInt32_of_isInt32 he]
    · intro shards' h
      cases h
      exact hshard
    · exact ((getTableEpoch_shards cat dm' db_id table_id hwf).1 shards hfind).2
        new_epoch hshard

/-- Witness for C9: setting epoch 12 on the sharded table 1 of the example
catalog makes `getTableEpoch` return 12. -/
theorem setTableEpoch_roundtrip_witness :
    ∃ dm', shardedCatalog.setTableEpoch splitEpochs 1 1 12 = .ok dm' ∧
      dm'.getTableEpoch 1 1 = 12 ∧
      (∀ shards, mapFind shardedCatalog.logicalToPhysicalTableMapById_ 1 = some shards →
        ∀ p ∈ shards, dm'.getTableEpoch 1 p = 12) ∧
      shardedCatalog.getTableEpoch dm' 1 1 = .ok 12 :=
  setTableEpoch_roundtrip shardedCatalog splitEpochs 1 1 12 (by decide) (by decide)
    (by intro shards h
        have h' : shards = [2, 3] := by
          have : mapFind shardedCatalog.logicalToPhysicalTableMapById_ 1 = some [2, 3] := by
            decide
          rw [this] at h; exact (Option.some.inj h).symm
        subst h'; decide)

end Catalog

/-! ## Creating and dropping tables -/

theorem mapAssign_of_fresh {κ ν : Type} [DecidableEq κ] (m : List (κ × ν)) (k : κ) (v : ν)
    (h : ∀ e ∈ m, e.1 ≠ k) : mapAssign m k v = m ++ [(k, v)] := by
  induction m with
  | nil => rfl
  | cons e rest ih =>
    obtain ⟨k', v'⟩ := e
    have h' : k' ≠ k := h (k', v') (List.mem_cons_self _ _)
    have hrest : ∀ e ∈ rest, e.1 ≠ k := fun e he => h e (List.mem_cons_of_mem _ he)
    simp [mapAssign, h', ih hrest]

theorem length_mapAssign_le {κ ν : Type} [DecidableEq κ] (m : List (κ × ν)) (k : κ) (v : ν) :
    (mapAssign m k v).length ≤ m.length + 1 := by
  induction m with
  | nil => simp [mapAssign]
  | cons e rest ih =>
    obtain ⟨k', v'⟩ := e
    by_cases h : k' = k
    · simp [mapAssign, h]
    · simp [mapAssign, h]
      omega

theorem length_mapAssign_of_found {κ ν : Type} [DecidableEq κ] (m : List (κ × ν)) (k : κ)
    (v v' : ν) (h : mapFind m k = some v') : (mapAssign m k v).length = m.length := by
  induction m with
  | nil => simp [mapFind] at h
  | cons e rest ih =>
    obtain ⟨k₀, v₀⟩ := e
    by_cases h₀ : k₀ = k
    · simp [mapAssign, h₀]
    · simp only [mapFind, h₀, if_false] at h
      simp [mapAssign, h₀, ih h]

/-- Every dictionary id of the store is below the id of the next row. -/
theorem CatalogStore.lt_nextDictId (st : CatalogStore) (row : DictRow)
    (h : row ∈ st.mapd_dictionaries) : row.dictid < st.nextDictId := by
  have key : ∀ (rows : List DictRow) (acc : Int),
      acc ≤ rows.foldl (fun acc r => max acc r.dictid) acc ∧
      ∀ r ∈ rows, r.dictid ≤ rows.foldl (fun acc r => max acc r.dictid) acc := by
    intro rows
    induction rows with
    | nil => intro acc; simp
    | cons r rest ih =>
      intro acc
      obtain ⟨h1, h2⟩ := ih (max acc r.dictid)
      refine ⟨le_trans (le_max_left _ _) h1, ?_⟩
      intro r' hr'
      rcases List.mem_cons.mp hr' with rfl | hr'
      · exact le_trans (le_max_right _ _) h1
      · exact h2 r' hr'
  unfold CatalogStore.nextDictId
  cases hrows : st.mapd_dictionaries with
  | nil => rw [hrows] at h; simp at h
  | cons r rest =>
    rw [hrows] at h
    simp only
    obtain ⟨h1, h2⟩ := key rest r.dictid
    rcases List.mem_cons.mp h with rfl | h
    · omega
    · have := h2 row h
      omega

namespace Catalog

/-- The physical columns that `expandGeoColumn` appends are not encoded. -/
theorem expandGeoColumn_spec (cd : ColumnDescriptor) (columns columns' : List ColumnDescriptor)
    (h : expandGeoColumn cd columns = .ok columns') :
    ∃ phys, columns' = columns ++ phys ∧
      ∀ c ∈ phys, c.columnType.compression = .kENCODING_NONE := by
  unfold expandGeoColumn at h
  simp only at h
  split at h
  · split at h
    · split at h
      · injection h with h
        exact ⟨_, h.symm, by simp [physicalColumn, arrayOf, SQLTypeInfo.ofType]⟩
      · split at h
        · injection h with h
          exact ⟨_, h.symm, by simp [physicalColumn, arrayOf, SQLTypeInfo.ofType]⟩
        · cases h
    · injection h with h
      exact ⟨_, h.symm, by simp [physicalColumn, arrayOf, SQLTypeInfo.ofType]⟩
    · injection h with h
      exact ⟨_, h.symm, by simp [physicalColumn, arrayOf, SQLTypeInfo.ofType]⟩
    · injection h with h
      exact ⟨_, h.symm, by simp [physicalColumn, arrayOf, SQLTypeInfo.ofType]⟩
    · cases h
  · injection h with h
    exact ⟨[], by simp [h], by simp⟩

/-- The columns that the first loop of `createTable` hands on: those of the
statement that satisfy a test which only dictionary-encoded columns pass are
handed on in order, and no other column passes it. -/
theorem createTable.expand_filter (p : ColumnDescriptor → Bool)
    (hp : ∀ c, p c = true → c.columnType.compression = .kENCODING_DICT)
    (cols columns : List ColumnDescriptor) (names : List String)
    (columns' : List ColumnDescriptor) (names' : List String)
    (h : createTable.expand cols columns names = .ok (columns', names')) :
    columns'.filter p = columns.filter p ++ cols.filter p := by
  induction cols generalizing columns names with
  | nil =>
    simp only [createTable.expand] at h
    injection h with h
    injection h with h1 h2
    simp [h1]
  | cons cd cols ih =>
    simp only [createTable.expand] at h
    split at h
    · cases h
    · split at h
      · split at h
        · cases h
        · rename_i cs hcs
          obtain ⟨phys, rfl, hphys⟩ := expandGeoColumn_spec _ _ _ hcs
          rw [ih _ _ h]
          have : phys.filter p = [] := by
            rw [List.filter_eq_nil_iff]
            intro c hc hpc
            have := hp c hpc
            rw [hphys c hc] at this
            cases this
          by_cases hc : p cd = true
          · simp [List.filter_append, List.filter_cons, this, hc]
          · simp [List.filter_append, List.filter_cons, this, hc]
      · rw [ih _ _ h]
        by_cases hc : p cd = true
        · simp [List.filter_append, List.filter_cons, hc]
        · simp [List.filter_append, List.filter_cons, hc]

end Catalog

namespace Catalog

/-- A referencing column of the declaration takes the type of the foreign
column, and the dictionary of that column gains a reference. -/
theorem createTable.columnDictionary_declared
    (crp : SharedDictionaryDef → List SharedDictionaryDef → SharedDictionaryDef)
    (sd : SharedDictionaryDef) (isLogicalTable : Bool) (td : TableDescriptor)
    (cd : ColumnDescriptor) (cds : List ColumnDescriptor) (dds : List DictDescriptor)
    (cat : Catalog) (ftd : TableDescriptor) (fcd : ColumnDescriptor) (D : DictDescriptor)
    (hdecl : sd.declares cd = true) (hother : sd.foreign_table ≠ td.tableName)
    (hft : cat.getMetadataForTableByName sd.foreign_table = some ftd)
    (hfc : cat.getMetadataForColumn ftd.tableId sd.foreign_column = some fcd)
    (hD : mapFind cat.dictDescriptorMapByRef_
      ⟨cat.currentDB_.dbId, fcd.columnType.comp_param⟩ = some D)
    (hn : 1 ≤ D.refcount) :
    createTable.columnDictionary crp [sd] isLogicalTable td cd cds dds cat =
      (.ok ({ cd with columnType := fcd.columnType }, dds),
        { cat with
          dictDescriptorMapByRef_ := mapAssign cat.dictDescriptorMapByRef_
            ⟨cat.currentDB_.dbId, fcd.columnType.comp_param⟩
            { D with refcount := D.refcount + 1 },
          sqliteConnector_ := cat.sqliteConnector_.addRefcount fcd.columnType.comp_param 1 }) := by
  simp only [SharedDictionaryDef.declares, Bool.and_eq_true, decide_eq_true_eq] at hdecl
  obtain ⟨hname, hdict⟩ := hdecl
  have hlt : ¬ D.refcount < 1 := by omega
  simp [createTable.columnDictionary, hdict, setColumnSharedDictionary,
    setColumnSharedDictionary.loop, hname, hother, addReferenceToForeignDict, hft, hfc, hD, hlt]

/-- A dictionary-encoded column that the declaration does not name gets a new
dictionary, whose id is the next id of the store. -/
theorem createTable.columnDictionary_leftOut
    (crp : SharedDictionaryDef → List SharedDictionaryDef → SharedDictionaryDef)
    (sd : SharedDictionaryDef) (td : TableDescriptor)
    (cd cd' : ColumnDescriptor) (cds : List ColumnDescriptor) (dds dds' : List DictDescriptor)
    (cat cat' : Catalog) (hout : sd.leavesOut cd = true)
    (h : createTable.columnDictionary crp [sd] true td cd cds dds cat =
      (.ok (cd', dds'), cat')) :
    cd'.columnName = cd.columnName ∧
    cd'.columnType.compression = .kENCODING_DICT ∧
    cd'.columnType.comp_param = cat.sqliteConnector_.nextDictId ∧
    (∃ dd, dds' = dds ++ [dd] ∧ dd.dictRef.dictId = cat.sqliteConnector_.nextDictId) ∧
    ∃ row, cat' = { cat with sqliteConnector_ := { cat.sqliteConnector_ with
      mapd_dictionaries := cat.sqliteConnector_.mapd_dictionaries ++ [row] } } := by
  simp only [SharedDictionaryDef.leavesOut, Bool.and_eq_true, decide_eq_true_eq,
    Bool.not_eq_true', decide_eq_false_iff_not] at hout
  obtain ⟨hname, hdict⟩ := hout
  simp only [createTable.columnDictionary, hdict, setColumnSharedDictionary,
    setColumnSharedDictionary.loop, hname, if_true, if_false, setColumnDictionary] at h
  split at h
  · cases h
  · split at h
    · cases h
    · injection h with h1 h2
      injection h1 with h1
      injection h1 with h1 h3
      subst h1 h2 h3
      refine ⟨rfl, ?_, rfl, ⟨_, rfl, rfl⟩, ⟨_, rfl⟩⟩
      simp only
      split <;> first | rfl | exact hdict

/-- A column that is not dictionary-encoded is left as it is. -/
theorem createTable.columnDictionary_plain
    (crp : SharedDictionaryDef → List SharedDictionaryDef → SharedDictionaryDef)
    (defs : List SharedDictionaryDef) (isLogicalTable : Bool) (td : TableDescriptor)
    (cd : ColumnDescriptor) (cds : List ColumnDescriptor) (dds : List DictDescriptor)
    (cat : Catalog) (hplain : cd.columnType.compression ≠ .kENCODING_DICT) :
    createTable.columnDictionary crp defs isLogicalTable td cd cds dds cat =
      (.ok (cd, dds), cat) := by
  simp [createTable.columnDictionary, hplain]

end Catalog

theorem CatalogStore.insertColumn_dictionaries (st st' : CatalogStore) (tableId colId : Int)
    (cd : ColumnDescriptor) (h : st.insertColumn tableId colId cd = .ok st') :
    st'.mapd_dictionaries = st.mapd_dictionaries := by
  unfold CatalogStore.insertColumn at h
  split at h
  · cases h
  · split at h
    · cases h
    · injection h with h
      subst h
      rfl

namespace Catalog

/-- One round of the column loop of `createTable`, for a declaration that
refers to a column of another table whose dictionary `D` is registered: the
maps of tables and columns are untouched, the column gets the id `colId`, and
either it is the referencing column and `D` gains a reference, or it gets a
dictionary of its own with a new id, or it has no dictionary. -/
theorem createTable.diskColumn_spec
    (crp : SharedDictionaryDef → List SharedDictionaryDef → SharedDictionaryDef)
    (names : List String) (sd : SharedDictionaryDef) (td ftd : TableDescriptor)
    (fcd : ColumnDescriptor) (cd : ColumnDescriptor) (colId : Int) (spi : List Int)
    (cds : List ColumnDescriptor) (dds : List DictDescriptor) (cat : Catalog)
    (D : DictDescriptor) (colId' : Int) (spi' : List Int) (cd' : ColumnDescriptor)
    (dds' : List DictDescriptor) (cat' : Catalog)
    (hother : sd.foreign_table ≠ td.tableName)
    (hfdict : fcd.columnType.compression = .kENCODING_DICT)
    (hft : cat.getMetadataForTableByName sd.foreign_table = some ftd)
    (hfc : cat.getMetadataForColumn ftd.tableId sd.foreign_column = some fcd)
    (hD : mapFind cat.dictDescriptorMapByRef_
      ⟨cat.currentDB_.dbId, fcd.columnType.comp_param⟩ = some D)
    (hn : 1 ≤ D.refcount)
    (hstore : ∃ row ∈ cat.sqliteConnector_.mapd_dictionaries,
      row.dictid = fcd.columnType.comp_param)
    (hrun : createTable.diskColumn crp names [sd] true td cd colId spi cds dds cat =
      (.ok (colId', spi', cd', dds'), cat')) :
    colId' = colId ∧ cd'.tableId = td.tableId ∧ cd'.columnId = colId ∧
    cd'.columnName = cd.columnName ∧
    cat' = { cat with dictDescriptorMapByRef_ := cat'.dictDescriptorMapByRef_,
                      sqliteConnector_ := cat'.sqliteConnector_ } ∧
    (∃ row ∈ cat'.sqliteConnector_.mapd_dictionaries,
      row.dictid = fcd.columnType.comp_param) ∧
    ((sd.declares cd = true ∧ sd.leavesOut cd = false ∧
        cd'.refersTo fcd.columnType.comp_param = true ∧ dds' = dds ∧
        cat'.dictDescriptorMapByRef_ = mapAssign cat.dictDescriptorMapByRef_
          ⟨cat.currentDB_.dbId, fcd.columnType.comp_param⟩
          { D with refcount := D.refcount + 1 } ∧
        cat'.sqliteConnector_.mapd_dictionaries.length =
          cat.sqliteConnector_.mapd_dictionaries.length) ∨
     (sd.declares cd = false ∧ sd.leavesOut cd = true ∧
        cd'.refersTo fcd.columnType.comp_param = false ∧
        (∃ dd, dds' = dds ++ [dd] ∧ dd.dictRef.dictId ≠ fcd.columnType.comp_param) ∧
        cat'.dictDescriptorMapByRef_ = cat.dictDescriptorMapByRef_ ∧
        cat'.sqliteConnector_.mapd_dictionaries.length =
          cat.sqliteConnector_.mapd_dictionaries.length + 1) ∨
     (sd.declares cd = false ∧ sd.leavesOut cd = false ∧
        cd'.refersTo fcd.columnType.comp_param = false ∧ dds' = dds ∧
        cat'.dictDescriptorMapByRef_ = cat.dictDescriptorMapByRef_ ∧
        cat'.sqliteConnector_.mapd_dictionaries.length =
          cat.sqliteConnector_.mapd_dictionaries.length)) := by
  have hgap : ∀ (b : Bool) (c : Int), (if b then c + g_test_against_columnId_gap else c) = c := by
    intro b c
    split <;> simp [g_test_against_columnId_gap]
  obtain ⟨row, hrow, hrowid⟩ := hstore
  by_cases hdict : cd.columnType.compression = .kENCODING_DICT
  · by_cases hname : cd.columnName = sd.column
    · -- the referencing column
      have hdecl : sd.declares cd = true := by simp [SharedDictionaryDef.declares, hname, hdict]
      have hout : sd.leavesOut cd = false := by simp [SharedDictionaryDef.leavesOut, hname]
      unfold createTable.diskColumn at hrun
      simp only at hrun
      rw [createTable.columnDictionary_declared crp sd true { td with columnIdBySpi_ := spi }
        cd cds dds cat ftd fcd D hdecl hother hft hfc hD hn] at hrun
      simp only [hgap] at hrun
      split at hrun
      · cases hrun
      · rename_i st hst
        have hdicts := CatalogStore.insertColumn_dictionaries _ _ _ _ _ hst
        injection hrun with h1 h2
        injection h1 with h1
        injection h1 with h1 h3
        injection h3 with h3 h4
        injection h4 with h4 h5
        subst h1 h2 h4 h5
        refine ⟨rfl, rfl, rfl, rfl, rfl, ?_, Or.inl ⟨hdecl, hout, ?_, rfl, rfl, ?_⟩⟩
        · simp only [hdicts, CatalogStore.addRefcount, List.mem_map]
          refine ⟨_, ⟨row, hrow, rfl⟩, ?_⟩
          split <;> simpa using hrowid
        · simp [ColumnDescriptor.refersTo, hfdict]
        · simp [hdicts, CatalogStore.addRefcount]
    · -- a column with a dictionary of its own
      have hdecl : sd.declares cd = false := by simp [SharedDictionaryDef.declares, hname]
      have hout : sd.leavesOut cd = true := by simp [SharedDictionaryDef.leavesOut, hname, hdict]
      unfold createTable.diskColumn at hrun
      simp only at hrun
      split at hrun
      · cases hrun
      · rename_i cd1 dds1 cat1 hstep
        obtain ⟨hn1, hc1, hp1, ⟨dd, hdd, hddid⟩, row1, hcat1⟩ :=
          createTable.columnDictionary_leftOut crp sd _ cd cd1 cds dds dds1 cat cat1 hout hstep
        simp only [hgap] at hrun
        split at hrun
        · cases hrun
        · rename_i st hst
          have hdicts := CatalogStore.insertColumn_dictionaries _ _ _ _ _ hst
          injection hrun with h1 h2
          injection h1 with h1
          injection h1 with h1 h3
          injection h3 with h3 h4
          injection h4 with h4 h5
          subst h1 h2 h4 h5 hcat1
          have hlt := CatalogStore.lt_nextDictId cat.sqliteConnector_ row hrow
          have hne : cat.sqliteConnector_.nextDictId ≠ fcd.columnType.comp_param := by omega
          refine ⟨rfl, rfl, rfl, hn1, rfl, ?_, Or.inr (Or.inl ⟨hdecl, hout, ?_, ⟨dd, hdd, ?_⟩, rfl, ?_⟩)⟩
          · exact ⟨row, by simp [hdicts, hrow], hrowid⟩
          · simp [ColumnDescriptor.refersTo, hp1, hne]
          · rw [hddid]; exact hne
          · simp [hdicts]
  · -- a column without dictionary
    have hdecl : sd.declares cd = false := by simp [SharedDictionaryDef.declares, hdict]
    have hout : sd.leavesOut cd = false := by simp [SharedDictionaryDef.leavesOut, hdict]
    unfold createTable.diskColumn at hrun
    simp only at hrun
    rw [createTable.columnDictionary_plain crp [sd] true _ cd cds dds cat hdict] at hrun
    simp only [hgap] at hrun
    split at hrun
    · cases hrun
    · rename_i st hst
      have hdicts := CatalogStore.insertColumn_dictionaries _ _ _ _ _ hst
      injection hrun with h1 h2
      injection h1 with h1
      injection h1 with h1 h3
      injection h3 with h3 h4
      injection h4 with h4 h5
      subst h1 h2 h4 h5
      refine ⟨rfl, rfl, rfl, rfl, rfl, ?_, Or.inr (Or.inr ⟨hdecl, hout, ?_, rfl, rfl, ?_⟩)⟩
      · exact ⟨row, by simp [hdicts, hrow], hrowid⟩
      · simp [ColumnDescriptor.refersTo, hdict]
      · simp [hdicts]

end Catalog

namespace Catalog

/-- The column loop of `createTable`, for a declaration that refers to a
column of another table whose dictionary `D` is registered: `D` gains one
reference per referencing column, the other dictionary-encoded columns get one
new dictionary each, with an id other than that of `D`, and the new column
descriptors that refer to `D` are those of the referencing columns. -/
theorem createTable.diskColumns_spec
    (crp : SharedDictionaryDef → List SharedDictionaryDef → SharedDictionaryDef)
    (names : List String) (sd : SharedDictionaryDef) (td ftd : TableDescriptor)
    (fcd : ColumnDescriptor)
    (hother : sd.foreign_table ≠ td.tableName)
    (hfdict : fcd.columnType.compression = .kENCODING_DICT)
    (columns : List ColumnDescriptor) :
    ∀ (colId : Int) (spi : List Int) (cds : List ColumnDescriptor) (dds : List DictDescriptor)
      (cat : Catalog) (D : DictDescriptor) (spi' : List Int) (cds' : List ColumnDescriptor)
      (dds' : List DictDescriptor) (cat' : Catalog),
      cat.getMetadataForTableByName sd.foreign_table = some ftd →
      cat.getMetadataForColumn ftd.tableId sd.foreign_column = some fcd →
      mapFind cat.dictDescriptorMapByRef_
        ⟨cat.currentDB_.dbId, fcd.columnType.comp_param⟩ = some D →
      1 ≤ D.refcount →
      (∃ row ∈ cat.sqliteConnector_.mapd_dictionaries,
        row.dictid = fcd.columnType.comp_param) →
      createTable.diskColumns crp names [sd] true td columns colId spi cds dds cat =
        (.ok (spi', cds', dds'), cat') →
      cat' = { cat with dictDescriptorMapByRef_ := cat'.dictDescriptorMapByRef_,
                        sqliteConnector_ := cat'.sqliteConnector_ } ∧
      mapFind cat'.dictDescriptorMapByRef_
          ⟨cat.currentDB_.dbId, fcd.columnType.comp_param⟩ =
        some { D with refcount := D.refcount + ((columns.filter sd.declares).length : Int) } ∧
      cat'.dictDescriptorMapByRef_.length = cat.dictDescriptorMapByRef_.length ∧
      cat'.sqliteConnector_.mapd_dictionaries.length =
        cat.sqliteConnector_.mapd_dictionaries.length + (columns.filter sd.leavesOut).length ∧
      (∃ newcds, cds' = cds ++ newcds ∧
        (newcds.filter (fun c => c.refersTo fcd.columnType.comp_param)).map
            (fun c => c.columnName) =
          (columns.filter sd.declares).map (fun c => c.columnName) ∧
        (∀ c ∈ newcds, c.tableId = td.tableId ∧ colId ≤ c.columnId) ∧
        newcds.Pairwise (fun a b => a.columnId < b.columnId)) ∧
      (∃ newdds, dds' = dds ++ newdds ∧
        newdds.length = (columns.filter sd.leavesOut).length ∧
        ∀ dd ∈ newdds, dd.dictRef.dictId ≠ fcd.columnType.comp_param) := by
  induction columns with
  | nil =>
    intro colId spi cds dds cat D spi' cds' dds' cat' _ _ hD _ _ hrun
    simp only [createTable.diskColumns] at hrun
    injection hrun with h1 h2
    injection h1 with h1
    injection h1 with h1 h3
    injection h3 with h3 h4
    subst h1 h2 h3 h4
    refine ⟨rfl, ?_, rfl, by simp, ⟨[], by simp⟩, ⟨[], by simp⟩⟩
    rw [hD]
    simp
  | cons cd rest ih =>
    intro colId spi cds dds cat D spi' cds' dds' cat' hft hfc hD hn hstore hrun
    simp only [createTable.diskColumns] at hrun
    split at hrun
    · cases hrun
    · rename_i colId1 spi1 cd1 dds1 cat1 hstep
      obtain ⟨hcol, htab, hcid, hcname, hsame, hstore1, hcases⟩ :=
        createTable.diskColumn_spec crp names sd td ftd fcd cd colId spi cds dds cat D
          colId1 spi1 cd1 dds1 cat1 hother hfdict hft hfc hD hn hstore hstep
      have hdb : cat1.currentDB_ = cat.currentDB_ := by rw [hsame]
      have hft1 : cat1.getMetadataForTableByName sd.foreign_table = some ftd := by
        rw [hsame]; exact hft
      have hfc1 : cat1.getMetadataForColumn ftd.tableId sd.foreign_column = some fcd := by
        rw [hsame]; exact hfc
      rcases hcases with ⟨hdecl, hout, hrefers, hdds, hdicts, hlen⟩ |
        ⟨hdecl, hout, hrefers, ⟨dd, hdds, hddid⟩, hdicts, hlen⟩ |
        ⟨hdecl, hout, hrefers, hdds, hdicts, hlen⟩
      · have hD1 : mapFind cat1.dictDescriptorMapByRef_
            ⟨cat1.currentDB_.dbId, fcd.columnType.comp_param⟩ =
            some { D with refcount := D.refcount + 1 } := by
          rw [hdicts, hdb, mapFind_mapAssign_self]
        obtain ⟨h1, h2, h3, h4, ⟨newcds, h5, h6, h7, h8⟩, ⟨newdds, h9, h10, h11⟩⟩ :=
          ih (colId1 + 1) spi1 (cds ++ [cd1]) dds1 cat1 _ spi' cds' dds' cat' hft1 hfc1 hD1
            (by simp only; omega) hstore1 hrun
        refine ⟨?_, ?_, ?_, ?_, ⟨cd1 :: newcds, ?_, ?_, ?_, ?_⟩, ⟨newdds, ?_, ?_, h11⟩⟩
        · rw [h1, hsame]
        · rw [hdb] at h2
          rw [h2]
          simp only [List.filter_cons, hdecl, if_true, List.length_cons, Nat.cast_add,
            Nat.cast_one]
          congr 2
          omega
        · rw [h3, hdicts]
          exact length_mapAssign_of_found _ _ _ _ hD
        · rw [h4, hlen]
          simp [List.filter_cons, hout]
        · rw [h5]; simp
        · simp [List.filter_cons, hrefers, hdecl, h6, hcname]
        · intro c hc
          rcases List.mem_cons.mp hc with rfl | hc
          · exact ⟨htab, by omega⟩
          · have := h7 c hc
            exact ⟨this.1, by omega⟩
        · rw [List.pairwise_cons]
          refine ⟨?_, h8⟩
          intro c hc
          have := (h7 c hc).2
          omega
        · rw [h9, hdds]
        · rw [h10]; simp [List.filter_cons, hout]
      · have hD1 : mapFind cat1.dictDescriptorMapByRef_
            ⟨cat1.currentDB_.dbId, fcd.columnType.comp_param⟩ = some D := by
          rw [hdicts, hdb, hD]
        obtain ⟨h1, h2, h3, h4, ⟨newcds, h5, h6, h7, h8⟩, ⟨newdds, h9, h10, h11⟩⟩ :=
          ih (colId1 + 1) spi1 (cds ++ [cd1]) dds1 cat1 _ spi' cds' dds' cat' hft1 hfc1 hD1
            hn hstore1 hrun
        refine ⟨?_, ?_, ?_, ?_, ⟨cd1 :: newcds, ?_, ?_, ?_, ?_⟩, ⟨dd :: newdds, ?_, ?_, ?_⟩⟩
        · rw [h1, hsame]
        · rw [hdb] at h2
          rw [h2]
          simp [List.filter_cons, hdecl]
        · rw [h3, hdicts]
        · rw [h4, hlen]
          simp [List.filter_cons, hout]
          omega
        · rw [h5]; simp
        · simp [List.filter_cons, hrefers, hdecl, h6]
        · intro c hc
          rcases List.mem_cons.mp hc with rfl | hc
          · exact ⟨htab, by omega⟩
          · have := h7 c hc
            exact ⟨this.1, by omega⟩
        · rw [List.pairwise_cons]
          refine ⟨?_, h8⟩
          intro c hc
          have := (h7 c hc).2
          omega
        · rw [h9, hdds]; simp
        · simp [h10, List.filter_cons, hout]
        · intro d hd
          rcases List.mem_cons.mp hd with rfl | hd
          · exact hddid
          · exact h11 d hd
      · have hD1 : mapFind cat1.dictDescriptorMapByRef_
            ⟨cat1.currentDB_.dbId, fcd.columnType.comp_param⟩ = some D := by
          rw [hdicts, hdb, hD]
        obtain ⟨h1, h2, h3, h4, ⟨newcds, h5, h6, h7, h8⟩, ⟨newdds, h9, h10, h11⟩⟩ :=
          ih (colId1 + 1) spi1 (cds ++ [cd1]) dds1 cat1 _ spi' cds' dds' cat' hft1 hfc1 hD1
            hn hstore1 hrun
        refine ⟨?_, ?_, ?_, ?_, ⟨cd1 :: newcds, ?_, ?_, ?_, ?_⟩, ⟨newdds, ?_, ?_, h11⟩⟩
        · rw [h1, hsame]
        · rw [hdb] at h2
          rw [h2]
          simp [List.filter_cons, hdecl]
        · rw [h3, hdicts]
        · rw [h4, hlen]
          simp [List.filter_cons, hout]
        · rw [h5]; simp
        · simp [List.filter_cons, hrefers, hdecl, h6]
        · intro c hc
          rcases List.mem_cons.mp hc with rfl | hc
          · exact ⟨htab, by omega⟩
          · have := h7 c hc
            exact ⟨this.1, by omega⟩
        · rw [List.pairwise_cons]
          refine ⟨?_, h8⟩
          intro c hc
          have := (h7 c hc).2
          omega
        · rw [h9, hdds]
        · rw [h10]; simp [List.filter_cons, hout]

end Catalog

namespace Catalog

/-- The column loop of `addTableToMap` appends the descriptors to the by-id map
when their keys are new and distinct, and leaves the dictionaries alone. -/
theorem addTableToMap.columns_appended (new_td : TableDescriptor) (cds : List ColumnDescriptor) :
    ∀ (cat cat' : Catalog),
      (∀ e ∈ cat.columnDescriptorMapById_, ∀ c ∈ cds, e.1 ≠ (c.tableId, c.columnId)) →
      cds.Pairwise (fun a b => (a.tableId, a.columnId) ≠ (b.tableId, b.columnId)) →
      addTableToMap.columns new_td cds cat = .ok cat' →
      cat'.columnDescriptorMapById_ =
        cat.columnDescriptorMapById_ ++ cds.map (fun c => ((c.tableId, c.columnId), c)) ∧
      cat'.dictDescriptorMapByRef_ = cat.dictDescriptorMapByRef_ ∧
      cat'.currentDB_ = cat.currentDB_ ∧
      cat'.logicalToPhysicalTableMapById_ = cat.logicalToPhysicalTableMapById_ ∧
      cat'.sqliteConnector_ = cat.sqliteConnector_ := by
  induction cds with
  | nil =>
    intro cat cat' _ _ h
    simp only [addTableToMap.columns] at h
    injection h with h
    subst h
    simp
  | cons cd rest ih =>
    intro cat cat' hfresh hpair h
    rw [List.pairwise_cons] at hpair
    have hkey : ∀ e ∈ cat.columnDescriptorMapById_, e.1 ≠ (cd.tableId, cd.columnId) :=
      fun e he => hfresh e he cd (List.mem_cons_self _ _)
    have hassign := mapAssign_of_fresh cat.columnDescriptorMapById_ (cd.tableId, cd.columnId) cd hkey
    have hnext : ∀ (c1 : Catalog),
        c1.columnDescriptorMapById_ =
          mapAssign cat.columnDescriptorMapById_ (cd.tableId, cd.columnId) cd →
        ∀ e ∈ c1.columnDescriptorMapById_, ∀ c ∈ rest, e.1 ≠ (c.tableId, c.columnId) := by
      intro c1 hc1 e he c hc
      rw [hc1, hassign] at he
      rcases List.mem_append.mp he with he | he
      · exact hfresh e he c (List.mem_cons_of_mem _ hc)
      · simp only [List.mem_singleton] at he
        subst he
        exact hpair.1 c hc
    simp only [addTableToMap.columns] at h
    split at h
    · split at h
      · simp only [setDeletedColumnUnlocked] at h
        split at h
        · cases h
        · rename_i cat1 hc1
          split at hc1
          · cases hc1
          · injection hc1 with hc1
            subst hc1
            obtain ⟨h1, h2, h3, h4, h5⟩ := ih _ cat' (hnext _ rfl) hpair.2 h
            refine ⟨?_, h2, h3, h4, h5⟩
            rw [h1]
            simp [hassign]
      · cases h
    · obtain ⟨h1, h2, h3, h4, h5⟩ := ih _ cat' (hnext _ rfl) hpair.2 h
      refine ⟨?_, h2, h3, h4, h5⟩
      rw [h1]
      simp [hassign]

/-- The dictionary loop of `addTableToMap` registers at most one dictionary per
entry of the list and, when no id of the list is `dictId`, leaves the
dictionary `dictId` as it is. -/
theorem addTableToMap.dicts_registered (dictId : Int) (dds : List DictDescriptor) :
    ∀ (cat : Catalog), (∀ dd ∈ dds, dd.dictRef.dictId ≠ dictId) →
      mapFind (addTableToMap.dicts dds cat).dictDescriptorMapByRef_
          ⟨cat.currentDB_.dbId, dictId⟩ =
        mapFind cat.dictDescriptorMapByRef_ ⟨cat.currentDB_.dbId, dictId⟩ ∧
      (addTableToMap.dicts dds cat).dictDescriptorMapByRef_.length ≤
        cat.dictDescriptorMapByRef_.length + dds.length ∧
      (addTableToMap.dicts dds cat).columnDescriptorMapById_ = cat.columnDescriptorMapById_ ∧
      (addTableToMap.dicts dds cat).currentDB_ = cat.currentDB_ ∧
      (addTableToMap.dicts dds cat).logicalToPhysicalTableMapById_ =
        cat.logicalToPhysicalTableMapById_ ∧
      (addTableToMap.dicts dds cat).sqliteConnector_ = cat.sqliteConnector_ := by
  induction dds with
  | nil =>
    intro cat _
    simp [addTableToMap.dicts]
  | cons dd rest ih =>
    intro cat hne
    have hdd : dd.dictRef.dictId ≠ dictId := hne dd (List.mem_cons_self _ _)
    have hrest : ∀ d ∈ rest, d.dictRef.dictId ≠ dictId :=
      fun d hd => hne d (List.mem_cons_of_mem _ hd)
    simp only [addTableToMap.dicts]
    split
    · obtain ⟨h1, h2, h3, h4, h5, h6⟩ := ih cat hrest
      refine ⟨h1, ?_, h3, h4, h5, h6⟩
      simp only [List.length_cons]
      omega
    · obtain ⟨h1, h2, h3, h4, h5, h6⟩ := ih { cat with
        dictDescriptorMapByRef_ := mapAssign cat.dictDescriptorMapByRef_
          ⟨cat.currentDB_.dbId, dd.dictRef.dictId⟩ dd } hrest
      refine ⟨?_, ?_, h3, h4, h5, h6⟩
      · rw [h1]
        apply mapFind_mapAssign_ne
        intro hk
        injection hk with _ hk
        exact hdd hk.symm
      · have := length_mapAssign_le cat.dictDescriptorMapByRef_
          ⟨cat.currentDB_.dbId, dd.dictRef.dictId⟩ dd
        simp only [List.length_cons]
        simp only at h2
        omega

end Catalog

namespace Catalog

/-- The column loop of `removeTableFromMap` takes from the dictionary `dictId`
one reference per column of the table that is encoded with it, and keeps it
registered as long as a reference is left. -/
theorem removeTableFromMap.columns_released (tableId dictId : Int) (hid : dictId ≠ 0)
    (entries : List ((Int × Int) × ColumnDescriptor)) :
    ∀ (cat cat' : Catalog) (D : DictDescriptor),
      removeTableFromMap.columns tableId entries cat = .ok cat' →
      mapFind cat.dictDescriptorMapByRef_ ⟨cat.currentDB_.dbId, dictId⟩ = some D →
      1 ≤ D.refcount - ((entries.filter
        (fun e => decide (e.1.1 = tableId) && e.2.refersTo dictId)).length : Int) →
      mapFind cat'.dictDescriptorMapByRef_ ⟨cat.currentDB_.dbId, dictId⟩ =
        some { D with refcount := D.refcount - ((entries.filter
          (fun e => decide (e.1.1 = tableId) && e.2.refersTo dictId)).length : Int) } ∧
      cat'.currentDB_ = cat.currentDB_ := by
  induction entries with
  | nil =>
    intro cat cat' D h hD _
    simp only [removeTableFromMap.columns] at h
    injection h with h
    subst h
    simp [hD]
  | cons e rest ih =>
    intro cat cat' D h hD hn
    obtain ⟨key, cd⟩ := e
    simp only [removeTableFromMap.columns] at h
    split at h
    · rename_i htab
      have htab' : ¬ key.1 = tableId := fun hk => htab hk.symm
      simp only [List.filter_cons, htab', decide_False, Bool.false_and] at hn ⊢
      exact ih cat cat' D h hD hn
    · rename_i htab
      have htab' : key.1 = tableId := by
        by_contra hk
        exact htab (fun hk' => hk hk'.symm)
      split at h
      · rename_i hdict
        by_cases hsame : cd.columnType.comp_param = dictId
        · -- a column encoded with the dictionary
          have hrefers : cd.refersTo dictId = true := by
            simp [ColumnDescriptor.refersTo, hdict.1, hsame]
          simp only [List.filter_cons, htab', decide_True, Bool.true_and, hrefers, if_true,
            List.length_cons, Nat.cast_add, Nat.cast_one] at hn ⊢
          rw [hsame, hD] at h
          simp only at h
          have h1 : ¬ D.refcount < 1 := by omega
          have h2 : ¬ D.refcount - 1 = 0 := by omega
          simp only [h1, h2, if_false] at h
          obtain ⟨h3, h4⟩ := ih _ cat' { D with refcount := D.refcount - 1 } h
            (by simp only; exact mapFind_mapAssign_self _ _ _) (by simp only; omega)
          refine ⟨?_, h4⟩
          simp only at h3
          rw [h3]
          congr 2
          omega
        · -- a column encoded with another dictionary
          have hrefers : cd.refersTo dictId = false := by
            simp [ColumnDescriptor.refersTo, hsame]
          have hkey : (⟨cat.currentDB_.dbId, dictId⟩ : DictRef) ≠
              ⟨cat.currentDB_.dbId, cd.columnType.comp_param⟩ := by
            intro hk
            injection hk with _ hk
            exact hsame hk.symm
          simp only [List.filter_cons, htab', decide_True, Bool.true_and, hrefers] at hn ⊢
          split at h
          · cases h
          · rename_i dd hdd
            split at h
            · cases h
            · split at h
              · obtain ⟨h3, h4⟩ := ih _ cat' D h
                  (by simp only; rw [mapFind_mapErase_ne _ _ _ hkey]; exact hD) hn
                exact ⟨h3, h4⟩
              · obtain ⟨h3, h4⟩ := ih _ cat' D h
                  (by simp only; rw [mapFind_mapAssign_ne _ _ _ _ hkey]; exact hD) hn
                exact ⟨h3, h4⟩
      · -- a column without dictionary
        rename_i hdict
        have hrefers : cd.refersTo dictId = false := by
          simp only [ColumnDescriptor.refersTo, Bool.and_eq_false_iff, decide_eq_false_iff_not]
          by_cases hc : cd.columnType.compression = .kENCODING_DICT
          · right
            intro hp
            exact hdict ⟨hc, by rw [hp]; exact hid⟩
          · left; exact hc
        simp only [List.filter_cons, htab', decide_True, Bool.true_and, hrefers] at hn ⊢
        obtain ⟨h3, h4⟩ := ih _ cat' D h hD hn
        exact ⟨h3, h4⟩

/-- `removeTableFromMap` takes from the dictionary `dictId` one reference per
column of the table that is encoded with it. -/
theorem removeTableFromMap_spec (cat cat' : Catalog) (tableName : String)
    (tableId dictId : Int) (D : DictDescriptor) (hid : dictId ≠ 0)
    (hD : mapFind cat.dictDescriptorMapByRef_ ⟨cat.currentDB_.dbId, dictId⟩ = some D)
    (hn : 1 ≤ D.refcount - ((cat.columnsReferring tableId dictId).length : Int))
    (h : cat.removeTableFromMap tableName tableId = (.ok (), cat')) :
    mapFind cat'.dictDescriptorMapByRef_ ⟨cat.currentDB_.dbId, dictId⟩ =
      some { D with refcount :=
        D.refcount - ((cat.columnsReferring tableId dictId).length : Int) } ∧
    cat'.currentDB_ = cat.currentDB_ := by
  simp only [columnsReferring, List.length_map] at hn ⊢
  unfold removeTableFromMap at h
  split at h
  · cases h
  · simp only at h
    split at h
    · cases h
    · rename_i cat1 hc1
      split at h
      · cases h
      · rename_i cat2 hc2
        injection h with _ h
        subst h
        split at hc1
        · split at hc1
          · cases hc1
          · injection hc1 with hc1
            subst hc1
            have key := removeTableFromMap.columns_released tableId dictId hid _ _ cat2 D hc2 hD hn
            exact key
        · injection hc1 with hc1
          subst hc1
          have key := removeTableFromMap.columns_released tableId dictId hid _ _ cat2 D hc2 hD hn
          exact key

/-- `doDropTable` changes the persistent store and nothing of the in-memory
maps of the catalog. -/
theorem doDropTable_maps (s s' : SysCatalog) (cat cat' : Catalog) (td : TableDescriptor)
    (h : cat.doDropTable s td = (.ok (), s', cat')) :
    cat' = { cat with sqliteConnector_ := cat'.sqliteConnector_ } := by
  unfold doDropTable at h
  simp only at h
  split at h
  · split at h
    · cases h
    · injection h with _ h
      injection h with _ h
      subst h
      rfl
  · injection h with _ h
    injection h with _ h
    subst h
    rfl

end Catalog

theorem CatalogStore.insertTable_dictionaries (st st' : CatalogStore) (td : TableDescriptor)
    (h : st.insertTable td = .ok st') : st'.mapd_dictionaries = st.mapd_dictionaries := by
  unfold CatalogStore.insertTable at h
  split at h
  · cases h
  · injection h with h
    subst h
    rfl

namespace Catalog

/-- The part of `createTable` before `addTableToMap`, for a durable table and
a declaration that refers to a column of another table whose dictionary `D`
is registered. -/
theorem createTable.build_spec
    (crp : SharedDictionaryDef → List SharedDictionaryDef → SharedDictionaryDef)
    (cat : Catalog) (td : TableDescriptor) (columns : List ColumnDescriptor)
    (names : List String) (sd : SharedDictionaryDef) (ftd : TableDescriptor)
    (fcd : ColumnDescriptor) (D : DictDescriptor) (td1 : TableDescriptor)
    (cds : List ColumnDescriptor) (dds : List DictDescriptor) (cat1 : Catalog)
    (hrun : createTable.build crp cat td columns names [sd] true = (.ok (td1, cds, dds), cat1))
    (hdur : td.persistenceLevel = .DISK_LEVEL)
    (hother : sd.foreign_table ≠ td.tableName)
    (hfdict : fcd.columnType.compression = .kENCODING_DICT)
    (hft : cat.getMetadataForTableByName sd.foreign_table = some ftd)
    (hfc : cat.getMetadataForColumn ftd.tableId sd.foreign_column = some fcd)
    (hD : mapFind cat.dictDescriptorMapByRef_
      ⟨cat.currentDB_.dbId, fcd.columnType.comp_param⟩ = some D)
    (hn : 1 ≤ D.refcount)
    (hstore : ∃ row ∈ cat.sqliteConnector_.mapd_dictionaries,
      row.dictid = fcd.columnType.comp_param) :
    td1.tableName = td.tableName ∧
    cat1 = { cat with dictDescriptorMapByRef_ := cat1.dictDescriptorMapByRef_,
                      sqliteConnector_ := cat1.sqliteConnector_ } ∧
    mapFind cat1.dictDescriptorMapByRef_
        ⟨cat.currentDB_.dbId, fcd.columnType.comp_param⟩ =
      some { D with refcount := D.refcount + ((columns.filter sd.declares).length : Int) } ∧
    cat1.dictDescriptorMapByRef_.length = cat.dictDescriptorMapByRef_.length ∧
    cat1.sqliteConnector_.mapd_dictionaries.length =
      cat.sqliteConnector_.mapd_dictionaries.length + (columns.filter sd.leavesOut).length ∧
    (cds.filter (fun c => c.refersTo fcd.columnType.comp_param)).map (fun c => c.columnName) =
      (columns.filter sd.declares).map (fun c => c.columnName) ∧
    (∀ c ∈ cds, c.tableId = td1.tableId) ∧
    cds.Pairwise (fun a b => a.columnId < b.columnId) ∧
    dds.length = (columns.filter sd.leavesOut).length ∧
    ∀ dd ∈ dds, dd.dictRef.dictId ≠ fcd.columnType.comp_param := by
  unfold createTable.build at hrun
  simp only at hrun
  rw [if_pos hdur] at hrun
  split at hrun
  · cases hrun
  · rename_i st hst
    have hdicts := CatalogStore.insertTable_dictionaries _ _ _ hst
    split at hrun
    · cases hrun
    · rename_i tableId htid
      split at hrun
      · cases hrun
      · rename_i spi' cds' dds' cat' hloop
        have hstore0 : ∃ row ∈ st.mapd_dictionaries, row.dictid = fcd.columnType.comp_param := by
          rw [hdicts]; exact hstore
        obtain ⟨h1, h2, h3, h4, ⟨newcds, h5, h6, h7, h8⟩, ⟨newdds, h9, h10, h11⟩⟩ :=
          createTable.diskColumns_spec crp names sd { td with tableId := tableId } ftd fcd
            hother hfdict columns 1 _ [] [] { cat with sqliteConnector_ := st } D spi' cds' dds'
            cat' hft hfc hD hn hstore0 hloop
        simp only [List.nil_append] at h5 h9
        subst h5 h9
        have key : td1.tableName = td.tableName ∧ td1.tableId = tableId ∧ cds = cds' ∧
            dds = dds' ∧ cat1.dictDescriptorMapByRef_ = cat'.dictDescriptorMapByRef_ ∧
            cat1.sqliteConnector_.mapd_dictionaries = cat'.sqliteConnector_.mapd_dictionaries ∧
            cat1 = { cat' with sqliteConnector_ := cat1.sqliteConnector_ } := by
          split at hrun
          · injection hrun with h1 h2
            injection h1 with h1
            injection h1 with h1 h3
            injection h3 with h3 h4
            subst h1 h2 h3 h4
            exact ⟨rfl, rfl, rfl, rfl, rfl, rfl, rfl⟩
          · injection hrun with h1 h2
            injection h1 with h1
            injection h1 with h1 h3
            injection h3 with h3 h4
            subst h1 h2 h3 h4
            exact ⟨rfl, rfl, rfl, rfl, rfl, rfl, rfl⟩
        obtain ⟨k1, k2, k3, k4, k5, k6, k7⟩ := key
        subst k3 k4
        refine ⟨k1, ?_, ?_, ?_, ?_, h6, ?_, h8, h10, h11⟩
        · rw [k7, h1]
        · rw [k5]; exact h2
        · rw [k5]; exact h3
        · rw [k6, h4, hdicts]
        · intro c hc
          rw [k2]
          exact (h7 c hc).1

end Catalog

/-- Only dictionary-encoded columns are referencing columns of a declaration. -/
theorem SharedDictionaryDef.declares_dict (sd : SharedDictionaryDef) (c : ColumnDescriptor)
    (h : sd.declares c = true) : c.columnType.compression = .kENCODING_DICT := by
  simp only [SharedDictionaryDef.declares, Bool.and_eq_true, decide_eq_true_eq] at h
  exact h.2

/-- Only dictionary-encoded columns get a dictionary of their own. -/
theorem SharedDictionaryDef.leavesOut_dict (sd : SharedDictionaryDef) (c : ColumnDescriptor)
    (h : sd.leavesOut c = true) : c.columnType.compression = .kENCODING_DICT := by
  simp only [SharedDictionaryDef.leavesOut, Bool.and_eq_true, decide_eq_true_eq] at h
  exact h.2

namespace Catalog

/-- The columns that `createTable` works on, seen through a test that only
dictionary-encoded columns pass: they are those of the statement. -/
theorem createTable.columns_filter (p : ColumnDescriptor → Bool)
    (hp : ∀ c, p c = true → c.columnType.compression = .kENCODING_DICT)
    (cols columns : List ColumnDescriptor) (names : List String) (hasDeletedCol : Bool)
    (h : createTable.expand cols [] [] = .ok (columns, names)) :
    (if hasDeletedCol = true then columns ++ [createTable.rowid] ++ [createTable.deleted]
      else columns ++ [createTable.rowid]).filter p = cols.filter p := by
  have h1 : p createTable.rowid = false := by
    by_contra hc
    simp only [Bool.not_eq_false] at hc
    have := hp _ hc
    simp [createTable.rowid, SQLTypeInfo.ofType] at this
  have h2 : p createTable.deleted = false := by
    by_contra hc
    simp only [Bool.not_eq_false] at hc
    have := hp _ hc
    simp [createTable.deleted, SQLTypeInfo.ofType] at this
  have h3 := createTable.expand_filter p hp cols [] [] columns names h
  simp only [List.filter_nil, List.nil_append] at h3
  split <;> simp [List.filter_append, List.filter_cons, h1, h2, h3]

/-- `createTable` of a durable table with a declaration that refers to a
column of another table whose dictionary `D` is registered: `D` gains one
reference per referencing column, the column descriptors of the new table that
are encoded with `D` are those of the referencing columns, and dictionaries are
added for the other dictionary-encoded columns only. -/
theorem createTable_shared_spec
    (crp : SharedDictionaryDef → List SharedDictionaryDef → SharedDictionaryDef)
    (cat : Catalog) (td : TableDescriptor) (cols : List ColumnDescriptor)
    (sd : SharedDictionaryDef) (ftd : TableDescriptor) (fcd : ColumnDescriptor)
    (D : DictDescriptor) (td1 : TableDescriptor) (cat1 : Catalog)
    (hdur : td.persistenceLevel = .DISK_LEVEL)
    (hother : sd.foreign_table ≠ td.tableName)
    (hfdict : fcd.columnType.compression = .kENCODING_DICT)
    (hft : cat.getMetadataForTableByName sd.foreign_table = some ftd)
    (hfc : cat.getMetadataForColumn ftd.tableId sd.foreign_column = some fcd)
    (hD : mapFind cat.dictDescriptorMapByRef_
      ⟨cat.currentDB_.dbId, fcd.columnType.comp_param⟩ = some D)
    (hn : 1 ≤ D.refcount)
    (hstore : ∃ row ∈ cat.sqliteConnector_.mapd_dictionaries,
      row.dictid = fcd.columnType.comp_param)
    (hcreate : cat.createTable crp td cols [sd] true = (.ok td1, cat1))
    (hfresh : ∀ e ∈ cat.columnDescriptorMapById_, e.1.1 ≠ td1.tableId) :
    td1.tableName = td.tableName ∧
    cat1.currentDB_ = cat.currentDB_ ∧
    cat1.logicalToPhysicalTableMapById_ = cat.logicalToPhysicalTableMapById_ ∧
    mapFind cat1.dictDescriptorMapByRef_
        ⟨cat.currentDB_.dbId, fcd.columnType.comp_param⟩ =
      some { D with refcount := D.refcount + ((cols.filter sd.declares).length : Int) } ∧
    (cat1.columnsReferring td1.tableId fcd.columnType.comp_param).map (fun c => c.columnName) =
      (cols.filter sd.declares).map (fun c => c.columnName) ∧
    cat1.sqliteConnector_.mapd_dictionaries.length =
      cat.sqliteConnector_.mapd_dictionaries.length + (cols.filter sd.leavesOut).length ∧
    cat1.dictDescriptorMapByRef_.length ≤
      cat.dictDescriptorMapByRef_.length + (cols.filter sd.leavesOut).length := by
  unfold createTable at hcreate
  split at hcreate
  · cases hcreate
  · rename_i columns names hexp
    have hf1 := createTable.columns_filter sd.declares sd.declares_dict cols columns names
      td.hasDeletedCol hexp
    have hf2 := createTable.columns_filter sd.leavesOut sd.leavesOut_dict cols columns names
      td.hasDeletedCol hexp
    simp only at hcreate
    split at hcreate
    · cases hcreate
    · rename_i td' cds dds cat' hbuild
      split at hcreate
      · cases hcreate
      · rename_i cat'' hadd
        injection hcreate with h1 h2
        injection h1 with h1
        subst h1 h2
        obtain ⟨b0, b1, b2, b3, b4, b5, b6, b7, b8, b9⟩ :=
          createTable.build_spec crp cat _ _ _ sd ftd fcd D td' cds dds cat' hbuild hdur hother
            hfdict hft hfc hD hn hstore
        rw [hf1] at b2 b5
        rw [hf2] at b4 b8
        unfold addTableToMap at hadd
        simp only at hadd
        split at hadd
        · cases hadd
        · rename_i catc hcols
          injection hadd with hadd
          subst hadd
          have hbyid : cat'.columnDescriptorMapById_ = cat.columnDescriptorMapById_ := by
            rw [b1]
          have hdb : cat'.currentDB_ = cat.currentDB_ := by rw [b1]
          have hl2p : cat'.logicalToPhysicalTableMapById_ =
              cat.logicalToPhysicalTableMapById_ := by rw [b1]
          obtain ⟨c1, c2, c3, c4, c5⟩ := addTableToMap.columns_appended _ cds _ catc
            (by
              intro e he c hc hk
              simp only [hbyid] at he
              apply hfresh e he
              rw [hk, b6 c hc])
            (by
              refine b7.imp ?_
              intro a b hab hk
              injection hk with _ hk
              omega)
            hcols
          simp only at c1 c2 c3 c4 c5
          obtain ⟨d1, d2, d3, d4, d5, d6⟩ :=
            addTableToMap.dicts_registered fcd.columnType.comp_param dds catc b9
          refine ⟨b0, ?_, ?_, ?_, ?_, ?_, ?_⟩
          · rw [d4, c3, hdb]
          · rw [d5, c4, hl2p]
          · rw [c3, hdb] at d1
            rw [d1, c2, b2]
          · rw [← b5]
            simp only [columnsReferring, d3, c1, hbyid, List.filter_append, List.map_append]
            have hold : cat.columnDescriptorMapById_.filter
                (fun e => decide (e.1.1 = td'.tableId) &&
                  e.2.refersTo fcd.columnType.comp_param) = [] := by
              rw [List.filter_eq_nil_iff]
              intro e he
              simp [hfresh e he]
            rw [hold]
            simp only [List.map_nil, List.nil_append, List.filter_map, List.map_map]
            congr 1
            apply List.filter_congr
            intro c hc
            simp [b6 c hc]
          · rw [d6, c5, b4]
          · rw [c2, b3, b8] at d2
            exact d2

end Catalog

namespace Catalog

/-- `dropTable` of a table without shards takes from the dictionary `dictId`
one reference per column of the table that is encoded with it. -/
theorem dropTable_unsharded_spec (s s2 : SysCatalog) (cat cat2 : Catalog)
    (td : TableDescriptor) (dictId : Int) (D : DictDescriptor) (hid : dictId ≠ 0)
    (hdrop : cat.dropTable s td = (.ok (), s2, cat2))
    (hunsharded : mapFind cat.logicalToPhysicalTableMapById_ td.tableId = none)
    (hD : mapFind cat.dictDescriptorMapByRef_ ⟨cat.currentDB_.dbId, dictId⟩ = some D)
    (hn : 1 ≤ D.refcount - ((cat.columnsReferring td.tableId dictId).length : Int)) :
    mapFind cat2.dictDescriptorMapByRef_ ⟨cat.currentDB_.dbId, dictId⟩ =
      some { D with refcount :=
        D.refcount - ((cat.columnsReferring td.tableId dictId).length : Int) } ∧
    cat2.currentDB_ = cat.currentDB_ := by
  unfold dropTable at hdrop
  simp only at hdrop
  split at hdrop
  · cases hdrop
  · rename_i s' cat' hbody
    injection hdrop with _ hdrop
    injection hdrop with _ hdrop
    subst hdrop
    simp only [dropTable.body, hunsharded, dropTable.one] at hbody
    split at hbody
    · cases hbody
    · rename_i s1 cat1 hdo
      split at hbody
      · cases hbody
      · rename_i catr hrem
        injection hbody with _ hbody
        injection hbody with _ hbody
        subst hbody
        have hmaps := doDropTable_maps s s1 cat cat1 td hdo
        have hdicts : cat1.dictDescriptorMapByRef_ = cat.dictDescriptorMapByRef_ := by rw [hmaps]
        have hdb : cat1.currentDB_ = cat.currentDB_ := by rw [hmaps]
        have hcols : cat1.columnsReferring td.tableId dictId =
            cat.columnsReferring td.tableId dictId := by
          unfold columnsReferring
          rw [hmaps]
        have key := removeTableFromMap_spec cat1 _ td.tableName td.tableId dictId D hid
          (by rw [hdicts, hdb]; exact hD) (by rw [hcols]; exact hn) hrem
        rw [hcols, hdb] at key
        exact key

end Catalog

namespace Catalog

/-- C10: let `D` be a registered dictionary with reference count at least 1,
recorded in the store under an id other than 0, that encodes the column `fcd`
of a table other than the one created.  Whenever `createTable` of a durable
table, created as a logical table of its own, with exactly one dictionary-encoded
column named by the one declaration `sd` sharing the dictionary of `fcd`,
returns, `D` is registered with its count raised by one, the one column
descriptor of the new table encoded with `D` is that of the declared column,
and dictionaries were added, in the store and in memory, for the other
dictionary-encoded columns only.  Whenever `dropTable` of the created table,
which has no shards, then returns, `D` is registered again exactly as before. -/
theorem createTable_dropTable_shared_dictionary
    (compress_reference_path :
      SharedDictionaryDef → List SharedDictionaryDef → SharedDictionaryDef)
    (s s2 : SysCatalog) (cat cat1 cat2 : Catalog) (td td1 ftd : TableDescriptor)
    (cols : List ColumnDescriptor) (sd : SharedDictionaryDef) (fcd : ColumnDescriptor)
    (D : DictDescriptor)
    (hD : cat.getMetadataForDict fcd.columnType.comp_param = some D)
    (hn : 1 ≤ D.refcount)
    (hid : fcd.columnType.comp_param ≠ 0)
    (hstore : ∃ row ∈ cat.sqliteConnector_.mapd_dictionaries,
      row.dictid = fcd.columnType.comp_param)
    (hft : cat.getMetadataForTableByName sd.foreign_table = some ftd)
    (hfc : cat.getMetadataForColumn ftd.tableId sd.foreign_column = some fcd)
    (hfdict : fcd.columnType.compression = .kENCODING_DICT)
    (hother : sd.foreign_table ≠ td.tableName)
    (hdur : td.persistenceLevel = .DISK_LEVEL)
    (hone : (cols.filter sd.declares).length = 1)
    (hcreate : cat.createTable compress_reference_path td cols [sd] true = (.ok td1, cat1))
    (hfresh : ∀ e ∈ cat.columnDescriptorMapById_, e.1.1 ≠ td1.tableId)
    (hunsharded : mapFind cat.logicalToPhysicalTableMapById_ td1.tableId = none)
    (hdrop : cat1.dropTable s td1 = (.ok (), s2, cat2)) :
    cat1.getMetadataForDict fcd.columnType.comp_param =
      some { D with refcount := D.refcount + 1 } ∧
    (cat1.columnsReferring td1.tableId fcd.columnType.comp_param).map
      (fun c => c.columnName) = [sd.column] ∧
    cat1.sqliteConnector_.mapd_dictionaries.length =
      cat.sqliteConnector_.mapd_dictionaries.length + (cols.filter sd.leavesOut).length ∧
    cat1.dictDescriptorMapByRef_.length ≤
      cat.dictDescriptorMapByRef_.length + (cols.filter sd.leavesOut).length ∧
    cat2.getMetadataForDict fcd.columnType.comp_param = some D := by
  unfold getMetadataForDict at hD ⊢
  obtain ⟨_, hdb, hl2p, hdict, hcols, hrows, hlen⟩ :=
    createTable_shared_spec compress_reference_path cat td cols sd ftd fcd D td1 cat1 hdur
      hother hfdict hft hfc hD hn hstore hcreate hfresh
  rw [hone] at hdict
  have hnames : (cols.filter sd.declares).map (fun c => c.columnName) = [sd.column] := by
    cases hfil : cols.filter sd.declares with
    | nil => rw [hfil] at hone; simp at hone
    | cons c rest =>
      rw [hfil] at hone
      have hrest : rest = [] := by
        cases rest with
        | nil => rfl
        | cons _ _ => simp at hone
      subst hrest
      have hc : c ∈ cols.filter sd.declares := by rw [hfil]; simp
      have hdecl := (List.mem_filter.mp hc).2
      simp only [SharedDictionaryDef.declares, Bool.and_eq_true, decide_eq_true_eq] at hdecl
      simp [hdecl.1]
  rw [hnames] at hcols
  have hcount : (cat1.columnsReferring td1.tableId fcd.columnType.comp_param).length = 1 := by
    have := congrArg List.length hcols
    simpa using this
  obtain ⟨hback, hdb2⟩ := dropTable_unsharded_spec s s2 cat1 cat2 td1 fcd.columnType.comp_param
    { D with refcount := D.refcount + 1 } hid hdrop (by rw [hl2p]; exact hunsharded)
    (by rw [hdb]; exact hdict)
    (by rw [hcount]; simp only [Nat.cast_one]; omega)
  refine ⟨by rw [hdb]; exact hdict, hcols, hrows, hlen, ?_⟩
  rw [hdb2, hback, hcount]
  cases D
  simp

/-- C10 on the catalog with the table `cities`: the table `people`, whose
column `city` shares the dictionary of `cities.name`, is created and dropped,
and the reference count of that dictionary goes from 2 to 3 and back. -/
theorem createTable_dropTable_shared_dictionary_witness :
    ((citiesCatalog.createTable keepReference (exampleTable 0 "people" .DISK_LEVEL)
        peopleColumns [cityShares] true).2.getMetadataForDict 1 = some (citiesDict 3)) ∧
    ((citiesCatalog.createTable keepReference (exampleTable 0 "people" .DISK_LEVEL)
        peopleColumns [cityShares] true).2.dropTable analystSys
        { exampleTable 2 "people" .DISK_LEVEL with
          nColumns := 4, columnIdBySpi_ := [1, 2, 3, 4] }).2.2.getMetadataForDict 1 =
      some (citiesDict 2) :=
  have h := createTable_dropTable_shared_dictionary keepReference analystSys
    ((citiesCatalog.createTable keepReference (exampleTable 0 "people" .DISK_LEVEL)
        peopleColumns [cityShares] true).2.dropTable analystSys
        { exampleTable 2 "people" .DISK_LEVEL with
          nColumns := 4, columnIdBySpi_ := [1, 2, 3, 4] }).2.1
    citiesCatalog
    (citiesCatalog.createTable keepReference (exampleTable 0 "people" .DISK_LEVEL)
        peopleColumns [cityShares] true).2
    ((citiesCatalog.createTable keepReference (exampleTable 0 "people" .DISK_LEVEL)
        peopleColumns [cityShares] true).2.dropTable analystSys
        { exampleTable 2 "people" .DISK_LEVEL with
          nColumns := 4, columnIdBySpi_ := [1, 2, 3, 4] }).2.2
    (exampleTable 0 "people" .DISK_LEVEL)
    { exampleTable 2 "people" .DISK_LEVEL with nColumns := 4, columnIdBySpi_ := [1, 2, 3, 4] }
    (exampleTable 1 "cities" .DISK_LEVEL) peopleColumns cityShares citiesName (citiesDict 2)
    (by decide) (by decide) (by decide) (by decide) (by decide) (by decide) (by decide)
    (by decide) (by decide) (by decide) (by decide) (by decide) (by decide) (by decide)
  ⟨h.1, h.2.2.2.2⟩

end Catalog

/-! ## The invariant of the dictionary map -/

theorem mem_mapAssign {κ ν : Type} [DecidableEq κ] (m : List (κ × ν)) (k : κ) (v : ν)
    (e : κ × ν) (h : e ∈ mapAssign m k v) : e ∈ m ∨ e = (k, v) := by
  induction m with
  | nil =>
    simp only [mapAssign, List.mem_singleton] at h
    exact Or.inr h
  | cons e₀ rest ih =>
    obtain ⟨k₀, v₀⟩ := e₀
    by_cases h₀ : k₀ = k
    · simp only [mapAssign, h₀, if_true, List.mem_cons] at h
      rcases h with h | h
      · exact Or.inr h
      · exact Or.inl (List.mem_cons_of_mem _ h)
    · simp only [mapAssign, h₀, if_false, List.mem_cons] at h
      rcases h with h | h
      · exact Or.inl (by rw [h]; exact List.mem_cons_self _ _)
      · rcases ih h with h | h
        · exact Or.inl (List.mem_cons_of_mem _ h)
        · exact Or.inr h

theorem mem_mapErase {κ ν : Type} [DecidableEq κ] (m : List (κ × ν)) (k : κ)
    (e : κ × ν) (h : e ∈ mapErase m k) : e ∈ m :=
  (List.mem_filter.mp h).1

theorem mem_of_mapFind {κ ν : Type} [DecidableEq κ] (m : List (κ × ν)) (k : κ) (v : ν)
    (h : mapFind m k = some v) : (k, v) ∈ m := by
  induction m with
  | nil => simp [mapFind] at h
  | cons e₀ rest ih =>
    obtain ⟨k₀, v₀⟩ := e₀
    by_cases h₀ : k₀ = k
    · simp only [mapFind, h₀, if_true, Option.some.injEq] at h
      rw [h₀, h]
      exact List.mem_cons_self _ _
    · simp only [mapFind, h₀, if_false] at h
      exact List.mem_cons_of_mem _ (ih h)

/-- Erasing a key and assigning it again: the lookups are those of the
assignment alone. -/
theorem mapFind_mapAssign_mapErase {κ ν : Type} [DecidableEq κ] (m : List (κ × ν)) (k k' : κ)
    (v : ν) : mapFind (mapAssign (mapErase m k) k v) k' = mapFind (mapAssign m k v) k' := by
  by_cases h : k' = k
  · subst h
    rw [mapFind_mapAssign_self, mapFind_mapAssign_self]
  · rw [mapFind_mapAssign_ne _ _ _ _ h, mapFind_mapAssign_ne _ _ _ _ h,
      mapFind_mapErase_ne _ _ _ h]

/-- Assigning to a key the value it has changes no lookup. -/
theorem mapFind_mapAssign_same {κ ν : Type} [DecidableEq κ] (m : List (κ × ν)) (k k' : κ)
    (v : ν) (h : mapFind m k = some v) : mapFind (mapAssign m k v) k' = mapFind m k' := by
  by_cases hk : k' = k
  · subst hk
    rw [mapFind_mapAssign_self, h]
  · exact mapFind_mapAssign_ne _ _ _ _ hk

namespace Catalog

/-- The dictionary loop of `addTableToMap` keeps every reference count at 1 or
more when the dictionaries added have such counts. -/
theorem addTableToMap.dicts_counts (dds : List DictDescriptor) :
    ∀ (cat : Catalog), (∀ e ∈ cat.dictDescriptorMapByRef_, 1 ≤ e.2.refcount) →
      (∀ dd ∈ dds, 1 ≤ dd.refcount) →
      ∀ e ∈ (addTableToMap.dicts dds cat).dictDescriptorMapByRef_, 1 ≤ e.2.refcount := by
  induction dds with
  | nil =>
    intro cat hinv _
    simpa [addTableToMap.dicts] using hinv
  | cons dd rest ih =>
    intro cat hinv hdds
    have hdd := hdds dd (List.mem_cons_self _ _)
    have hrest : ∀ d ∈ rest, 1 ≤ d.refcount := fun d hd => hdds d (List.mem_cons_of_mem _ hd)
    simp only [addTableToMap.dicts]
    split
    · exact ih cat hinv hrest
    · apply ih _ _ hrest
      intro e he
      rcases mem_mapAssign _ _ _ _ he with he | he
      · exact hinv e he
      · rw [he]; exact hdd

/-- The column loop of `addTableToMap` leaves the dictionary map alone. -/
theorem addTableToMap.columns_dicts (new_td : TableDescriptor) (cds : List ColumnDescriptor) :
    ∀ (cat cat' : Catalog), addTableToMap.columns new_td cds cat = .ok cat' →
      cat'.dictDescriptorMapByRef_ = cat.dictDescriptorMapByRef_ ∧
      cat'.currentDB_ = cat.currentDB_ ∧
      cat'.logicalToPhysicalTableMapById_ = cat.logicalToPhysicalTableMapById_ ∧
      cat'.sqliteConnector_ = cat.sqliteConnector_ ∧
      cat'.tableDescriptorMap_ = cat.tableDescriptorMap_ := by
  induction cds with
  | nil =>
    intro cat cat' h
    simp only [addTableToMap.columns] at h
    injection h with h
    subst h
    simp
  | cons cd rest ih =>
    intro cat cat' h
    simp only [addTableToMap.columns] at h
    split at h
    · split at h
      · simp only [setDeletedColumnUnlocked] at h
        split at h
        · cases h
        · rename_i cat1 hc1
          split at hc1
          · cases hc1
          · injection hc1 with hc1
            subst hc1
            have key := ih _ cat' h
            exact key
      · cases h
    · have key := ih _ cat' h
      exact key

/-- The column loop of `removeTableFromMap` keeps every reference count of a
registered dictionary at 1 or more. -/
theorem removeTableFromMap.columns_counts (tableId : Int)
    (entries : List ((Int × Int) × ColumnDescriptor)) :
    ∀ (cat cat' : Catalog), removeTableFromMap.columns tableId entries cat = .ok cat' →
      (∀ e ∈ cat.dictDescriptorMapByRef_, 1 ≤ e.2.refcount) →
      ∀ e ∈ cat'.dictDescriptorMapByRef_, 1 ≤ e.2.refcount := by
  induction entries with
  | nil =>
    intro cat cat' h hinv
    simp only [removeTableFromMap.columns] at h
    injection h with h
    subst h
    exact hinv
  | cons e rest ih =>
    intro cat cat' h hinv
    obtain ⟨key, cd⟩ := e
    simp only [removeTableFromMap.columns] at h
    split at h
    · exact ih cat cat' h hinv
    · split at h
      · split at h
        · cases h
        · rename_i dd hdd
          split at h
          · cases h
          · rename_i hge
            split at h
            · rename_i hzero
              apply ih _ cat' h
              intro e he
              exact hinv e (mem_mapErase _ _ _ he)
            · rename_i hzero
              apply ih _ cat' h
              intro e he
              rcases mem_mapAssign _ _ _ _ he with he | he
              · exact hinv e he
              · rw [he]
                simp only at hzero ⊢
                omega
      · have key := ih _ cat' h
        exact key hinv

end Catalog

namespace Catalog

/-- The column loop of `removeTableFromMap`, seen from one dictionary id other
than 0: a dictionary that is not registered is referred to by no column of
the table and stays unregistered; a registered dictionary with count at least
1 loses one reference per column of the table encoded with it, has at least
that many, and is unregistered exactly when none is left. -/
theorem removeTableFromMap.columns_exact (tableId dictId : Int) (hid : dictId ≠ 0)
    (entries : List ((Int × Int) × ColumnDescriptor)) :
    ∀ (cat cat' : Catalog), removeTableFromMap.columns tableId entries cat = .ok cat' →
      cat'.currentDB_ = cat.currentDB_ ∧
      (mapFind cat.dictDescriptorMapByRef_ ⟨cat.currentDB_.dbId, dictId⟩ = none →
        (entries.filter (fun e => decide (e.1.1 = tableId) && e.2.refersTo dictId)).length = 0 ∧
        mapFind cat'.dictDescriptorMapByRef_ ⟨cat.currentDB_.dbId, dictId⟩ = none) ∧
      ∀ dd, mapFind cat.dictDescriptorMapByRef_ ⟨cat.currentDB_.dbId, dictId⟩ = some dd →
        1 ≤ dd.refcount →
        ((entries.filter
            (fun e => decide (e.1.1 = tableId) && e.2.refersTo dictId)).length : Int) ≤
          dd.refcount ∧
        (((entries.filter
            (fun e => decide (e.1.1 = tableId) && e.2.refersTo dictId)).length : Int) =
          dd.refcount →
          mapFind cat'.dictDescriptorMapByRef_ ⟨cat.currentDB_.dbId, dictId⟩ = none) ∧
        (((entries.filter
            (fun e => decide (e.1.1 = tableId) && e.2.refersTo dictId)).length : Int) <
          dd.refcount →
          mapFind cat'.dictDescriptorMapByRef_ ⟨cat.currentDB_.dbId, dictId⟩ =
            some { dd with refcount := dd.refcount - ((entries.filter
              (fun e => decide (e.1.1 = tableId) && e.2.refersTo dictId)).length : Int) }) := by
  induction entries with
  | nil =>
    intro cat cat' h
    simp only [removeTableFromMap.columns] at h
    injection h with h
    subst h
    refine ⟨rfl, fun hnone => ⟨rfl, hnone⟩, ?_⟩
    intro dd hdd hge
    simp only [List.filter_nil, List.length_nil, Nat.cast_zero, sub_zero]
    exact ⟨by omega, fun h0 => by omega, fun _ => hdd⟩
  | cons e rest ih =>
    intro cat cat' h
    obtain ⟨key, cd⟩ := e
    simp only [removeTableFromMap.columns] at h
    split at h
    · rename_i htab
      have htab' : ¬ key.1 = tableId := fun hk => htab hk.symm
      simp only [List.filter_cons, htab', decide_False, Bool.false_and]
      exact ih cat cat' h
    · rename_i htab
      have htab' : key.1 = tableId := by
        by_contra hk
        exact htab (fun hk' => hk hk'.symm)
      split at h
      · rename_i hdict
        by_cases hsame : cd.columnType.comp_param = dictId
        · -- a column encoded with the dictionary
          have hrefers : cd.refersTo dictId = true := by
            simp [ColumnDescriptor.refersTo, hdict.1, hsame]
          simp only [List.filter_cons, htab', decide_True, Bool.true_and, hrefers, if_true,
            List.length_cons, Nat.cast_add, Nat.cast_one]
          rw [hsame] at h
          split at h
          · cases h
          · rename_i dd0 hdd0
            split at h
            · cases h
            · rename_i hge0
              split at h
              · -- the last reference: the dictionary is erased
                rename_i hzero
                have key1 := ih _ cat' h
                obtain ⟨k1, k2, _⟩ := key1
                simp only at k1 k2 hzero
                obtain ⟨k3, k4⟩ := k2 (mapFind_mapErase_self _ _)
                refine ⟨k1, fun hnone => ?_, ?_⟩
                · rw [hdd0] at hnone
                  cases hnone
                · intro dd hdd hge
                  rw [hdd0] at hdd
                  injection hdd with hdd
                  subst hdd
                  rw [k3]
                  simp only [Nat.cast_zero, zero_add]
                  exact ⟨by omega, fun _ => k4, fun hlt => by omega⟩
              · -- references are left: the count is lowered
                rename_i hzero
                have key1 := ih _ cat' h
                obtain ⟨k1, _, k2⟩ := key1
                simp only at k1 k2 hzero
                have hge1 : (1 : Int) ≤ dd0.refcount - 1 := by omega
                obtain ⟨k3, k4, k5⟩ := k2 { dd0 with refcount := dd0.refcount - 1 }
                  (mapFind_mapAssign_self _ _ _) hge1
                simp only at k3 k4 k5
                refine ⟨k1, fun hnone => ?_, ?_⟩
                · rw [hdd0] at hnone
                  cases hnone
                · intro dd hdd hge
                  rw [hdd0] at hdd
                  injection hdd with hdd
                  subst hdd
                  refine ⟨by omega, fun heq => k4 (by omega), fun hlt => ?_⟩
                  rw [k5 (by omega)]
                  congr 2
                  omega
        · -- a column encoded with another dictionary
          have hrefers : cd.refersTo dictId = false := by
            simp [ColumnDescriptor.refersTo, hsame]
          have hkey : (⟨cat.currentDB_.dbId, dictId⟩ : DictRef) ≠
              ⟨cat.currentDB_.dbId, cd.columnType.comp_param⟩ := by
            intro hk
            injection hk with _ hk
            exact hsame hk.symm
          simp only [List.filter_cons, htab', decide_True, Bool.true_and, hrefers]
          split at h
          · cases h
          · rename_i dd hdd
            split at h
            · cases h
            · split at h
              · have key1 := ih _ cat' h
                simp only [mapFind_mapErase_ne _ _ _ hkey] at key1
                exact key1
              · have key1 := ih _ cat' h
                simp only [mapFind_mapAssign_ne _ _ _ _ hkey] at key1
                exact key1
      · -- a column without dictionary
        rename_i hdict
        have hrefers : cd.refersTo dictId = false := by
          simp only [ColumnDescriptor.refersTo, Bool.and_eq_false_iff, decide_eq_false_iff_not]
          by_cases hc : cd.columnType.compression = .kENCODING_DICT
          · right
            intro hp
            exact hdict ⟨hc, by rw [hp]; exact hid⟩
          · left; exact hc
        simp only [List.filter_cons, htab', decide_True, Bool.true_and, hrefers]
        have key1 := ih _ cat' h
        exact key1

end Catalog

namespace Catalog

/-- The loop of `doTruncateTable` keeps every reference count at 1 or more,
and, when every dictionary is registered under the reference it carries,
changes no lookup in the dictionary map. -/
theorem doTruncateTable.columns_lookups (td : TableDescriptor)
    (entries : List ((Int × Int) × ColumnDescriptor)) :
    ∀ (cat cat' : Catalog), doTruncateTable.columns td entries cat = (.ok (), cat') →
      ((∀ e ∈ cat.dictDescriptorMapByRef_, 1 ≤ e.2.refcount) →
        ∀ e ∈ cat'.dictDescriptorMapByRef_, 1 ≤ e.2.refcount) ∧
      ((∀ e ∈ cat.dictDescriptorMapByRef_, e.2.dictRef = e.1) →
        (∀ e ∈ cat'.dictDescriptorMapByRef_, e.2.dictRef = e.1) ∧
        ∀ dictRef, mapFind cat'.dictDescriptorMapByRef_ dictRef =
          mapFind cat.dictDescriptorMapByRef_ dictRef) := by
  induction entries with
  | nil =>
    intro cat cat' h
    simp only [doTruncateTable.columns] at h
    injection h with _ h
    subst h
    exact ⟨fun hinv => hinv, fun hwf => ⟨hwf, fun _ => rfl⟩⟩
  | cons e rest ih =>
    intro cat cat' h
    obtain ⟨key, cd⟩ := e
    simp only [doTruncateTable.columns] at h
    split at h
    · exact ih cat cat' h
    · split at h
      · split at h
        · cases h
        · rename_i dd hdd
          split at h
          · cases h
          · rename_i hge
            have hmem := mem_of_mapFind _ _ _ hdd
            have heta : (⟨dd.dictRef, dd.dictName, dd.dictNBits, dd.dictIsShared, dd.refcount,
                dd.dictFolderPath, dd.dictIsTemp⟩ : DictDescriptor) = dd := by
              cases dd
              rfl
            rw [heta] at h
            obtain ⟨k1, k2⟩ := ih _ cat' h
            simp only at k1 k2
            refine ⟨fun hinv => k1 ?_, fun hwf => ?_⟩
            · intro e he
              rcases mem_mapAssign _ _ _ _ he with he | he
              · exact hinv e (mem_mapErase _ _ _ he)
              · rw [he]
                have hcount := hinv _ hmem
                exact hcount
            · have hkey : dd.dictRef = ⟨cat.currentDB_.dbId, cd.columnType.comp_param⟩ :=
                hwf _ hmem
              obtain ⟨k3, k4⟩ := k2 (by
                intro e he
                rcases mem_mapAssign _ _ _ _ he with he | he
                · exact hwf e (mem_mapErase _ _ _ he)
                · rw [he])
              refine ⟨k3, fun dictRef => ?_⟩
              rw [k4, hkey, mapFind_mapAssign_mapErase]
              apply mapFind_mapAssign_same
              rw [hdd]
      · exact ih cat cat' h

/-- `addReferenceToForeignDict` keeps every reference count at 1 or more. -/
theorem addReferenceToForeignDict_counts (cat cat' : Catalog) (cd cd' : ColumnDescriptor)
    (sd : SharedDictionaryDef)
    (h : cat.addReferenceToForeignDict cd sd = (.ok cd', cat'))
    (hinv : ∀ e ∈ cat.dictDescriptorMapByRef_, 1 ≤ e.2.refcount) :
    ∀ e ∈ cat'.dictDescriptorMapByRef_, 1 ≤ e.2.refcount := by
  unfold addReferenceToForeignDict at h
  split at h
  · cases h
  · split at h
    · cases h
    · simp only at h
      split at h
      · cases h
      · rename_i dd hdd
        split at h
        · cases h
        · rename_i hge
          injection h with _ h
          subst h
          intro e he
          rcases mem_mapAssign _ _ _ _ he with he | he
          · exact hinv e he
          · rw [he]
            simp only
            omega

/-- `removeTableFromMap` leaves the database of the catalog and hands the
dictionary map to its column loop as it is. -/
theorem removeTableFromMap_columns (cat cat' : Catalog) (tableName : String) (tableId : Int)
    (h : cat.removeTableFromMap tableName tableId = (.ok (), cat')) :
    ∃ cat0 : Catalog, cat0.currentDB_ = cat.currentDB_ ∧
      cat0.dictDescriptorMapByRef_ = cat.dictDescriptorMapByRef_ ∧
      removeTableFromMap.columns tableId cat.columnDescriptorMapById_ cat0 = .ok cat' := by
  unfold removeTableFromMap at h
  split at h
  · cases h
  · simp only at h
    split at h
    · cases h
    · rename_i cat1 hc1
      split at h
      · cases h
      · rename_i cat2 hc2
        injection h with _ h
        subst h
        split at hc1
        · split at hc1
          · cases hc1
          · injection hc1 with hc1
            subst hc1
            refine ⟨_, ?_, ?_, hc2⟩ <;> rfl
        · injection hc1 with hc1
          subst hc1
          refine ⟨_, ?_, ?_, hc2⟩ <;> rfl

end Catalog

namespace Catalog

/-- C15: for a column named `c` whose type passes the `CHECK` of the POINT
case (a POINT column is compressed as GEOINT with parameter 32 or not at all),
`expandGeoColumn` returns the given list followed by physical columns whose
names are, in order, `c_coords` for POINT; `c_coords`, `c_bounds` for
LINESTRING; `c_coords`, `c_ring_sizes`, `c_bounds`, `c_render_group` for
POLYGON; `c_coords`, `c_ring_sizes`, `c_poly_rings`, `c_bounds`,
`c_render_group` for MULTIPOLYGON; and none for any other type.  The appended
descriptors are the same for every column of that name and type and every
list. -/
theorem expandGeoColumn_physical_columns (cd : ColumnDescriptor)
    (columns : List ColumnDescriptor)
    (hcheck : cd.columnType.type = .kPOINT →
      (cd.columnType.compression = .kENCODING_GEOINT ∧ cd.columnType.comp_param = 32) ∨
        cd.columnType.compression = .kENCODING_NONE) :
    ∃ phys : List ColumnDescriptor,
      expandGeoColumn cd columns = .ok (columns ++ phys) ∧
      phys.map (fun c => c.columnName) =
        (match cd.columnType.type with
          | .kPOINT => [cd.columnName ++ "_coords"]
          | .kLINESTRING => [cd.columnName ++ "_coords", cd.columnName ++ "_bounds"]
          | .kPOLYGON =>
            [cd.columnName ++ "_coords", cd.columnName ++ "_ring_sizes",
             cd.columnName ++ "_bounds", cd.columnName ++ "_render_group"]
          | .kMULTIPOLYGON =>
            [cd.columnName ++ "_coords", cd.columnName ++ "_ring_sizes",
             cd.columnName ++ "_poly_rings", cd.columnName ++ "_bounds",
             cd.columnName ++ "_render_group"]
          | _ => []) ∧
      (∀ c ∈ phys, c.isGeoPhyCol = true) ∧
      ∀ (cd' : ColumnDescriptor) (columns' : List ColumnDescriptor),
        cd'.columnName = cd.columnName → cd'.columnType = cd.columnType →
          expandGeoColumn cd' columns' = .ok (columns' ++ phys) := by
  cases htype : cd.columnType.type
  case kPOINT =>
    rcases hcheck htype with ⟨h1, h2⟩ | h1
    · refine ⟨[physicalColumn (cd.columnName ++ "_coords")
        { arrayOf .kTINYINT with size := 2 * 4 }], ?_, rfl, ?_, ?_⟩
      · simp [expandGeoColumn, htype, IS_GEO, h1, h2]
      · simp [physicalColumn, ColumnDescriptor.new]
      · intro cd' columns' hn ht
        simp [expandGeoColumn, ht, hn, htype, IS_GEO, h1, h2]
    · refine ⟨[physicalColumn (cd.columnName ++ "_coords")
        { arrayOf .kTINYINT with size := 2 * 8 }], ?_, rfl, ?_, ?_⟩
      · simp [expandGeoColumn, htype, IS_GEO, h1]
      · simp [physicalColumn, ColumnDescriptor.new]
      · intro cd' columns' hn ht
        simp [expandGeoColumn, ht, hn, htype, IS_GEO, h1]
  case kLINESTRING =>
    refine ⟨[physicalColumn (cd.columnName ++ "_coords") (arrayOf .kTINYINT),
      physicalColumn (cd.columnName ++ "_bounds") { arrayOf .kDOUBLE with size := 4 * 8 }],
      ?_, rfl, ?_, ?_⟩
    · simp [expandGeoColumn, htype, IS_GEO]
    · simp [physicalColumn, ColumnDescriptor.new]
    · intro cd' columns' hn ht
      simp [expandGeoColumn, ht, hn, htype, IS_GEO]
  case kPOLYGON =>
    refine ⟨[physicalColumn (cd.columnName ++ "_coords") (arrayOf .kTINYINT),
      physicalColumn (cd.columnName ++ "_ring_sizes") (arrayOf .kINT),
      physicalColumn (cd.columnName ++ "_bounds") { arrayOf .kDOUBLE with size := 4 * 8 },
      physicalColumn (cd.columnName ++ "_render_group") (SQLTypeInfo.ofType .kINT true)],
      ?_, rfl, ?_, ?_⟩
    · simp [expandGeoColumn, htype, IS_GEO]
    · simp [physicalColumn, ColumnDescriptor.new]
    · intro cd' columns' hn ht
      simp [expandGeoColumn, ht, hn, htype, IS_GEO]
  case kMULTIPOLYGON =>
    refine ⟨[physicalColumn (cd.columnName ++ "_coords") (arrayOf .kTINYINT),
      physicalColumn (cd.columnName ++ "_ring_sizes") (arrayOf .kINT),
      physicalColumn (cd.columnName ++ "_poly_rings") (arrayOf .kINT),
      physicalColumn (cd.columnName ++ "_bounds") { arrayOf .kDOUBLE with size := 4 * 8 },
      physicalColumn (cd.columnName ++ "_render_group") (SQLTypeInfo.ofType .kINT true)],
      ?_, rfl, ?_, ?_⟩
    · simp [expandGeoColumn, htype, IS_GEO]
    · simp [physicalColumn, ColumnDescriptor.new]
    · intro cd' columns' hn ht
      simp [expandGeoColumn, ht, hn, htype, IS_GEO]
  all_goals
    refine ⟨[], ?_, rfl, by simp, ?_⟩
    · simp [expandGeoColumn, htype, IS_GEO]
    · intro cd' columns' hn ht
      simp [expandGeoColumn, ht, htype, IS_GEO]

/-- C15 on a POINT column named `loc`, compressed as GEOINT with parameter 32,
appended to a list holding one column. -/
theorem expandGeoColumn_physical_columns_witness :
    ∃ phys : List ColumnDescriptor,
      expandGeoColumn
        { textColumn "loc" with
          columnType := { SQLTypeInfo.ofType .kPOINT false with
                          compression := .kENCODING_GEOINT, comp_param := 32 } }
        [textColumn "city"] = .ok ([textColumn "city"] ++ phys) ∧
      phys.map (fun c => c.columnName) = ["loc_coords"] :=
  have h := expandGeoColumn_physical_columns
    { textColumn "loc" with
      columnType := { SQLTypeInfo.ofType .kPOINT false with
                      compression := .kENCODING_GEOINT, comp_param := 32 } }
    [textColumn "city"] (by decide)
  h.elim (fun phys hp => ⟨phys, hp.1, hp.2.1⟩)

end Catalog

namespace Catalog

/-- C12: for every dictionary-encoded string column with a positive dictionary
id, of a table that has a descriptor, `delDictionary` returns after removing
the folder of the dictionary and taking the dictionary out of the map,
whatever its reference count: no count is decremented, and a dictionary that
other columns still refer to is unregistered as well. -/
theorem delDictionary_unregisters (cat : Catalog) (cd : ColumnDescriptor)
    (td : TableDescriptor)
    (hstring : (cd.columnType.is_string || cd.columnType.is_string_array) = true)
    (hdict : cd.columnType.compression = .kENCODING_DICT)
    (hpos : cd.columnType.comp_param > 0)
    (htd : mapFind cat.tableDescriptorMapById_ cd.tableId = some td) :
    (cat.delDictionary cd).1 =
      .ok (some (cat.basePath_ ++ "/mapd_data/DB_" ++ toString cat.currentDB_.dbId ++
        "_DICT_" ++ toString cd.columnType.comp_param)) ∧
    (cat.delDictionary cd).2.getMetadataForDict cd.columnType.comp_param = none ∧
    ∀ dictId, dictId ≠ cd.columnType.comp_param →
      (cat.delDictionary cd).2.getMetadataForDict dictId = cat.getMetadataForDict dictId := by
  have h : cat.delDictionary cd =
      (.ok (some (cat.basePath_ ++ "/mapd_data/DB_" ++ toString cat.currentDB_.dbId ++
        "_DICT_" ++ toString cd.columnType.comp_param)),
        { cat with
          sqliteConnector_ := { cat.sqliteConnector_ with
            mapd_dictionaries := cat.sqliteConnector_.mapd_dictionaries.filter
              (fun row => !decide (row.name = td.tableName ++ "_" ++ cd.columnName ++ "_dict" ++
                toString cd.columnType.comp_param)) },
          dictDescriptorMapByRef_ := mapErase cat.dictDescriptorMapByRef_
            ⟨cat.currentDB_.dbId, cd.columnType.comp_param⟩ }) := by
    simp only [delDictionary, hstring, hdict, hpos, htd, decide_True, Bool.not_true,
      if_false, Bool.false_eq_true]
  rw [h]
  refine ⟨rfl, ?_, ?_⟩
  · simp only [getMetadataForDict]
    exact mapFind_mapErase_self _ _
  · intro dictId hne
    simp only [getMetadataForDict]
    apply mapFind_mapErase_ne
    intro hk
    injection hk with _ hk
    exact hne hk

/-- C12 on the catalog with the table `cities`: the dictionary of the column
`name` has two references, and after `delDictionary` it is not registered. -/
theorem delDictionary_unregisters_witness :
    citiesCatalog.getMetadataForDict 1 = some (citiesDict 2) ∧
    (citiesCatalog.delDictionary citiesName).1 = .ok (some "/data/mapd_data/DB_1_DICT_1") ∧
    (citiesCatalog.delDictionary citiesName).2.getMetadataForDict 1 = none :=
  have h := delDictionary_unregisters citiesCatalog citiesName
    (exampleTable 1 "cities" .DISK_LEVEL) (by decide) (by decide) (by decide) (by decide)
  ⟨by decide, h.1, h.2.1⟩

end Catalog

namespace Catalog

/-- C13: in a catalog in which every registered dictionary has a reference
count of at least 1, this is so again after every returning call of
`addTableToMap` with dictionaries of count 1, of `addReferenceToForeignDict`,
of `removeTableFromMap` and of `doTruncateTable`.  `removeTableFromMap` takes
from a registered dictionary with an id other than 0 one reference per column
of the table encoded with it and unregisters it exactly when the count
reaches 0; `doTruncateTable` changes no lookup in the dictionary map when
every dictionary is registered under the reference it carries. -/
theorem dictionary_refcount_invariant (cat : Catalog)
    (hinv : ∀ e ∈ cat.dictDescriptorMapByRef_, 1 ≤ e.2.refcount) :
    (∀ (td : TableDescriptor) (columns : List ColumnDescriptor) (dicts : List DictDescriptor)
        (cat' : Catalog),
      (∀ dd ∈ dicts, dd.refcount = 1) → cat.addTableToMap td columns dicts = .ok cat' →
      ∀ e ∈ cat'.dictDescriptorMapByRef_, 1 ≤ e.2.refcount) ∧
    (∀ (cd cd' : ColumnDescriptor) (sd : SharedDictionaryDef) (cat' : Catalog),
      cat.addReferenceToForeignDict cd sd = (.ok cd', cat') →
      ∀ e ∈ cat'.dictDescriptorMapByRef_, 1 ≤ e.2.refcount) ∧
    (∀ (tableName : String) (tableId : Int) (cat' : Catalog),
      cat.removeTableFromMap tableName tableId = (.ok (), cat') →
      (∀ e ∈ cat'.dictDescriptorMapByRef_, 1 ≤ e.2.refcount) ∧
      ∀ (dictId : Int) (dd : DictDescriptor), dictId ≠ 0 →
        cat.getMetadataForDict dictId = some dd →
        (cat'.getMetadataForDict dictId = none ↔
          dd.refcount - ((cat.columnsReferring tableId dictId).length : Int) = 0) ∧
        (dd.refcount - ((cat.columnsReferring tableId dictId).length : Int) ≠ 0 →
          cat'.getMetadataForDict dictId = some { dd with refcount :=
            dd.refcount - ((cat.columnsReferring tableId dictId).length : Int) })) ∧
    (∀ (td : TableDescriptor) (cat' : Catalog),
      cat.doTruncateTable td = (.ok (), cat') →
      (∀ e ∈ cat'.dictDescriptorMapByRef_, 1 ≤ e.2.refcount) ∧
      ((∀ e ∈ cat.dictDescriptorMapByRef_, e.2.dictRef = e.1) →
        ∀ dictRef, mapFind cat'.dictDescriptorMapByRef_ dictRef =
          mapFind cat.dictDescriptorMapByRef_ dictRef)) := by
  refine ⟨?_, ?_, ?_, ?_⟩
  · intro td columns dicts cat' hdicts h
    unfold addTableToMap at h
    simp only at h
    split at h
    · cases h
    · rename_i catc hcols
      injection h with h
      subst h
      obtain ⟨c1, _⟩ := addTableToMap.columns_dicts _ _ _ _ hcols
      apply addTableToMap.dicts_counts
      · rw [c1]
        exact hinv
      · intro dd hdd
        rw [hdicts dd hdd]
  · intro cd cd' sd cat' h
    exact addReferenceToForeignDict_counts cat cat' cd cd' sd h hinv
  · intro tableName tableId cat' h
    obtain ⟨cat0, h0, h1, hloop⟩ := removeTableFromMap_columns cat cat' tableName tableId h
    refine ⟨removeTableFromMap.columns_counts _ _ _ _ hloop (by rw [h1]; exact hinv), ?_⟩
    intro dictId dd hid hdd
    obtain ⟨k1, _, k2⟩ := removeTableFromMap.columns_exact tableId dictId hid _ _ _ hloop
    have hge : 1 ≤ dd.refcount := hinv _ (mem_of_mapFind _ _ _ hdd)
    unfold getMetadataForDict at hdd
    obtain ⟨k3, k4, k5⟩ := k2 dd (by rw [h0, h1]; exact hdd) hge
    simp only [getMetadataForDict, columnsReferring, List.length_map, k1]
    rw [h0] at k4 k5 ⊢
    refine ⟨⟨fun hnone => ?_, fun hz => k4 (by omega)⟩, fun hnz => k5 (by omega)⟩
    by_contra hnz
    rw [k5 (by omega)] at hnone
    cases hnone
  · intro td cat' h
    obtain ⟨k1, k2⟩ := doTruncateTable.columns_lookups td _ cat cat' h
    exact ⟨k1 hinv, fun hwf => (k2 hwf).2⟩

/-- C13 on the catalog with the table `cities`, whose dictionary has two
references: a third is added with count 3, and removing the table leaves the
dictionary registered with count 1. -/
theorem dictionary_refcount_invariant_witness :
    (citiesCatalog.addReferenceToForeignDict (textColumn "city") cityShares).2.getMetadataForDict 1 =
      some (citiesDict 3) ∧
    (∀ e ∈ (citiesCatalog.addReferenceToForeignDict (textColumn "city")
        cityShares).2.dictDescriptorMapByRef_, 1 ≤ e.2.refcount) ∧
    (citiesCatalog.removeTableFromMap "cities" 1).2.getMetadataForDict 1 =
      some (citiesDict 1) ∧
    (∀ dictRef, mapFind (citiesCatalog.doTruncateTable
        (exampleTable 1 "cities" .DISK_LEVEL)).2.dictDescriptorMapByRef_ dictRef =
      mapFind citiesCatalog.dictDescriptorMapByRef_ dictRef) :=
  have h := dictionary_refcount_invariant citiesCatalog (by decide)
  ⟨by decide,
   h.2.1 (textColumn "city") { textColumn "city" with columnType := citiesName.columnType }
     cityShares _ (by decide),
   ((h.2.2.1 "cities" 1 _ (by decide)).2 1 (citiesDict 2) (by decide) (by decide)).2 (by decide),
   (h.2.2.2 (exampleTable 1 "cities" .DISK_LEVEL) _ (by decide)).2 (by decide)⟩

end Catalog

/-! ## Logical and physical tables -/

namespace Catalog

theorem addReferenceToForeignDict_shards {cat cat' : Catalog} {cd : ColumnDescriptor}
    {sd : SharedDictionaryDef} {r : Result ColumnDescriptor}
    (h : cat.addReferenceToForeignDict cd sd = (r, cat')) :
    cat'.logicalToPhysicalTableMapById_ = cat.logicalToPhysicalTableMapById_ := by
  unfold addReferenceToForeignDict at h
  split at h
  · injection h with _ h; subst h; rfl
  · split at h
    · injection h with _ h; subst h; rfl
    · simp only at h
      split at h
      · injection h with _ h; subst h; rfl
      · split at h
        · injection h with _ h; subst h; rfl
        · injection h with _ h; subst h; rfl

theorem setColumnSharedDictionary.loop_shards
    (crp : SharedDictionaryDef → List SharedDictionaryDef → SharedDictionaryDef)
    (all_defs : List SharedDictionaryDef) (cd : ColumnDescriptor)
    (cdd : List ColumnDescriptor) (dds : List DictDescriptor) (td : TableDescriptor)
    (defs : List SharedDictionaryDef) :
    ∀ (cat cat' : Catalog) (r : Result (Bool × ColumnDescriptor × List DictDescriptor)),
      setColumnSharedDictionary.loop crp all_defs cd cdd dds td defs cat = (r, cat') →
      cat'.logicalToPhysicalTableMapById_ = cat.logicalToPhysicalTableMapById_ := by
  induction defs with
  | nil =>
    intro cat cat' r h
    simp only [setColumnSharedDictionary.loop] at h
    injection h with _ h
    subst h
    rfl
  | cons sd rest ih =>
    intro cat cat' r h
    simp only [setColumnSharedDictionary.loop] at h
    split at h
    · split at h
      · split at h
        · injection h with _ h; subst h; rfl
        · split at h
          · injection h with _ h; subst h; rfl
          · split at h
            · split at h
              · injection h with _ h; subst h; rfl
              · injection h with _ h; subst h; rfl
            · split at h
              · injection h with _ h
                subst h
                apply addReferenceToForeignDict_shards
                assumption
              · injection h with _ h
                subst h
                apply addReferenceToForeignDict_shards
                assumption
      · split at h
        · injection h with _ h
          subst h
          apply addReferenceToForeignDict_shards
          assumption
        · injection h with _ h
          subst h
          apply addReferenceToForeignDict_shards
          assumption
    · exact ih _ _ _ h

theorem setColumnDictionary_shards {cat cat' : Catalog} {cd : ColumnDescriptor}
    {dds : List DictDescriptor} {td : TableDescriptor} {isLogicalTable : Bool}
    {r : Result (ColumnDescriptor × List DictDescriptor)}
    (h : cat.setColumnDictionary cd dds td isLogicalTable = (r, cat')) :
    cat'.logicalToPhysicalTableMapById_ = cat.logicalToPhysicalTableMapById_ := by
  unfold setColumnDictionary at h
  simp only at h
  split at h
  · split at h
    · injection h with _ h; subst h; rfl
    · split at h
      · injection h with _ h; subst h; rfl
      · injection h with _ h; subst h; rfl
  · injection h with _ h; subst h; rfl

end Catalog

namespace Catalog

theorem createTable.columnDictionary_shards
    {crp : SharedDictionaryDef → List SharedDictionaryDef → SharedDictionaryDef}
    {defs : List SharedDictionaryDef} {isLogicalTable : Bool} {td : TableDescriptor}
    {cd : ColumnDescriptor} {cds : List ColumnDescriptor} {dds : List DictDescriptor}
    {cat cat' : Catalog} {r : Result (ColumnDescriptor × List DictDescriptor)}
    (h : createTable.columnDictionary crp defs isLogicalTable td cd cds dds cat = (r, cat')) :
    cat'.logicalToPhysicalTableMapById_ = cat.logicalToPhysicalTableMapById_ := by
  unfold createTable.columnDictionary at h
  split at h
  · split at h
    · rename_i heq
      have key := setColumnSharedDictionary.loop_shards _ _ _ _ _ _ _ _ _ _ heq
      injection h with _ h
      subst h
      exact key
    · rename_i heq
      have key := setColumnSharedDictionary.loop_shards _ _ _ _ _ _ _ _ _ _ heq
      injection h with _ h
      subst h
      exact key
    · rename_i heq
      have key := setColumnSharedDictionary.loop_shards _ _ _ _ _ _ _ _ _ _ heq
      rw [setColumnDictionary_shards h]
      exact key
  · injection h with _ h; subst h; rfl

theorem createTable.diskColumn_shards
    {crp : SharedDictionaryDef → List SharedDictionaryDef → SharedDictionaryDef}
    {names : List String} {defs : List SharedDictionaryDef} {isLogicalTable : Bool}
    {td : TableDescriptor} {cd : ColumnDescriptor} {colId : Int} {spi : List Int}
    {cds : List ColumnDescriptor} {dds : List DictDescriptor} {cat cat' : Catalog}
    {r : Result (Int × List Int × ColumnDescriptor × List DictDescriptor)}
    (h : createTable.diskColumn crp names defs isLogicalTable td cd colId spi cds dds cat =
      (r, cat')) :
    cat'.logicalToPhysicalTableMapById_ = cat.logicalToPhysicalTableMapById_ := by
  unfold createTable.diskColumn at h
  simp only at h
  split at h
  · rename_i heq
    have key := createTable.columnDictionary_shards heq
    injection h with _ h
    subst h
    exact key
  · rename_i heq
    have key := createTable.columnDictionary_shards heq
    split at h
    · injection h with _ h
      subst h
      exact key
    · injection h with _ h
      subst h
      exact key

theorem createTable.diskColumns_shards
    (crp : SharedDictionaryDef → List SharedDictionaryDef → SharedDictionaryDef)
    (names : List String) (defs : List SharedDictionaryDef) (isLogicalTable : Bool)
    (td : TableDescriptor) (columns : List ColumnDescriptor) :
    ∀ (colId : Int) (spi : List Int) (cds : List ColumnDescriptor) (dds : List DictDescriptor)
      (cat cat' : Catalog) (r : Result (List Int × List ColumnDescriptor × List DictDescriptor)),
      createTable.diskColumns crp names defs isLogicalTable td columns colId spi cds dds cat =
        (r, cat') →
      cat'.logicalToPhysicalTableMapById_ = cat.logicalToPhysicalTableMapById_ := by
  induction columns with
  | nil =>
    intro colId spi cds dds cat cat' r h
    simp only [createTable.diskColumns] at h
    injection h with _ h; subst h; rfl
  | cons cd rest ih =>
    intro colId spi cds dds cat cat' r h
    simp only [createTable.diskColumns] at h
    split at h
    · rename_i heq
      have key := createTable.diskColumn_shards heq
      injection h with _ h
      subst h
      exact key
    · rename_i heq
      have key := createTable.diskColumn_shards heq
      rw [ih _ _ _ _ _ _ _ h]
      exact key

theorem createTable.tempColumns_shards (td : TableDescriptor) (columns : List ColumnDescriptor) :
    ∀ (colId : Int) (cds : List ColumnDescriptor) (dds : List DictDescriptor)
      (cat cat' : Catalog) (r : Result (List ColumnDescriptor × List DictDescriptor)),
      createTable.tempColumns td columns colId cds dds cat = (r, cat') →
      cat'.logicalToPhysicalTableMapById_ = cat.logicalToPhysicalTableMapById_ := by
  induction columns with
  | nil =>
    intro colId cds dds cat cat' r h
    simp only [createTable.tempColumns] at h
    injection h with _ h; subst h; rfl
  | cons cd rest ih =>
    intro colId cds dds cat cat' r h
    simp only [createTable.tempColumns] at h
    split at h
    · injection h with _ h; subst h; rfl
    · split at h
      · rw [ih _ _ _ _ _ _ h]
      · rw [ih _ _ _ _ _ _ h]

theorem createTable.build_shards
    {crp : SharedDictionaryDef → List SharedDictionaryDef → SharedDictionaryDef}
    {cat cat' : Catalog} {td : TableDescriptor} {columns : List ColumnDescriptor}
    {names : List String} {defs : List SharedDictionaryDef} {isLogicalTable : Bool}
    {r : Result (TableDescriptor × List ColumnDescriptor × List DictDescriptor)}
    (h : createTable.build crp cat td columns names defs isLogicalTable = (r, cat')) :
    cat'.logicalToPhysicalTableMapById_ = cat.logicalToPhysicalTableMapById_ := by
  unfold createTable.build at h
  simp only at h
  split at h
  · split at h
    · injection h with _ h; subst h; rfl
    · split at h
      · injection h with _ h; subst h; rfl
      · split at h
        · rename_i heq
          have key := createTable.diskColumns_shards _ _ _ _ _ _ _ _ _ _ _ _ _ heq
          injection h with _ h
          subst h
          exact key
        · rename_i heq
          have key := createTable.diskColumns_shards _ _ _ _ _ _ _ _ _ _ _ _ _ heq
          split at h
          · injection h with _ h; subst h; exact key
          · injection h with _ h; subst h; exact key
  · split at h
    · rename_i heq
      have key := createTable.tempColumns_shards _ _ _ _ _ _ _ _ heq
      injection h with _ h
      subst h
      exact key
    · rename_i heq
      have key := createTable.tempColumns_shards _ _ _ _ _ _ _ _ heq
      injection h with _ h
      subst h
      exact key

theorem addTableToMap.dicts_shards (dds : List DictDescriptor) :
    ∀ (cat : Catalog), (addTableToMap.dicts dds cat).logicalToPhysicalTableMapById_ =
      cat.logicalToPhysicalTableMapById_ := by
  induction dds with
  | nil => intro cat; rfl
  | cons dd rest ih =>
    intro cat
    simp only [addTableToMap.dicts]
    split
    · exact ih cat
    · rw [ih]

/-- `createTable` leaves the map of logical and physical tables as it is. -/
theorem createTable_shards
    {crp : SharedDictionaryDef → List SharedDictionaryDef → SharedDictionaryDef}
    {cat cat' : Catalog} {td : TableDescriptor} {cols : List ColumnDescriptor}
    {defs : List SharedDictionaryDef} {isLogicalTable : Bool} {r : Result TableDescriptor}
    (h : cat.createTable crp td cols defs isLogicalTable = (r, cat')) :
    cat'.logicalToPhysicalTableMapById_ = cat.logicalToPhysicalTableMapById_ := by
  unfold createTable at h
  split at h
  · injection h with _ h; subst h; rfl
  · simp only at h
    split at h
    · rename_i heq
      have key := createTable.build_shards heq
      injection h with _ h
      subst h
      exact key
    · rename_i heq
      have key := createTable.build_shards heq
      split at h
      · injection h with _ h; subst h; exact key
      · rename_i cat2 hadd
        injection h with _ h
        subst h
        unfold addTableToMap at hadd
        simp only at hadd
        split at hadd
        · cases hadd
        · rename_i catc hcols
          injection hadd with hadd
          subst hadd
          rw [addTableToMap.dicts_shards, (addTableToMap.columns_dicts _ _ _ _ hcols).2.2.1]
          exact key

end Catalog

namespace Catalog

/-- The loop of `getLogicalTableId` on an id that no shard list holds. -/
theorem getLogicalTableId.loop_absent (p : Int) (m : List (Int × List Int))
    (h : ∀ e ∈ m, p ∉ e.2) : getLogicalTableId.loop p m = p := by
  induction m with
  | nil => rfl
  | cons l rest ih =>
    have hl : p ∉ l.2 := h l (List.mem_cons_self _ _)
    have hany : (l.2.any fun tid => decide (p = tid)) = false := by
      rw [List.any_eq_false]
      intro tid htid hp
      simp only [decide_eq_true_eq] at hp
      subst hp
      exact hl htid
    simp only [getLogicalTableId.loop, hany]
    exact ih (fun e he => h e (List.mem_cons_of_mem _ he))

/-- The loop of `getLogicalTableId` on an id of a shard list, when no earlier
list holds the id. -/
theorem getLogicalTableId.loop_found (p : Int) (m : List (Int × List Int)) :
    m.Pairwise (fun a b => ∀ q ∈ a.2, q ∉ b.2) →
    ∀ e ∈ m, p ∈ e.2 → getLogicalTableId.loop p m = e.1 := by
  induction m with
  | nil => intro _ e he; cases he
  | cons l rest ih =>
    intro hpair e he hp
    rw [List.pairwise_cons] at hpair
    rcases List.mem_cons.mp he with rfl | he
    · have hany : (e.2.any fun tid => decide (p = tid)) = true := by
        rw [List.any_eq_true]
        exact ⟨p, hp, by simp⟩
      simp only [getLogicalTableId.loop, hany, if_true]
    · have hl : p ∉ l.2 := fun hpl => hpair.1 e he p hpl hp
      have hany : (l.2.any fun tid => decide (p = tid)) = false := by
        rw [List.any_eq_false]
        intro tid htid hq
        simp only [decide_eq_true_eq] at hq
        subst hq
        exact hl htid
      simp only [getLogicalTableId.loop, hany]
      exact ih hpair.2 e he hp

/-- The shard loop of `createShardedTable` leaves the map of logical and
physical tables as it is and collects one id per shard number. -/
theorem createShardedTable.shards_spec
    (crp : SharedDictionaryDef → List SharedDictionaryDef → SharedDictionaryDef)
    (td : TableDescriptor) (cols : List ColumnDescriptor) (defs : List SharedDictionaryDef)
    (numbers : List Int) :
    ∀ (ps ps' : List Int) (cat cat' : Catalog),
      createShardedTable.shards crp td cols defs numbers ps cat = (.ok ps', cat') →
      cat'.logicalToPhysicalTableMapById_ = cat.logicalToPhysicalTableMapById_ ∧
      ps'.length = ps.length + numbers.length := by
  induction numbers with
  | nil =>
    intro ps ps' cat cat' h
    simp only [createShardedTable.shards] at h
    injection h with h1 h2
    injection h1 with h1
    subst h1 h2
    simp
  | cons i rest ih =>
    intro ps ps' cat cat' h
    simp only [createShardedTable.shards] at h
    split at h
    · cases h
    · rename_i tdp cat1 hcreate
      have key := createTable_shards hcreate
      obtain ⟨k1, k2⟩ := ih _ _ _ _ h
      refine ⟨by rw [k1, key], ?_⟩
      rw [k2]
      simp only [List.length_append, List.length_cons, List.length_nil]
      omega

theorem updateLogicalToPhysicalTableMap_shards {cat cat' : Catalog} {logical_tb_id : Int}
    {r : Result Unit} (h : cat.updateLogicalToPhysicalTableMap logical_tb_id = (r, cat')) :
    cat'.logicalToPhysicalTableMapById_ = cat.logicalToPhysicalTableMapById_ := by
  unfold updateLogicalToPhysicalTableMap at h
  split at h
  · injection h with _ h; subst h; rfl
  · split at h
    · injection h with _ h; subst h; rfl
    · injection h with _ h; subst h; rfl

/-- `createShardedTable` with physical tables registers their ids as the shard
list of the logical table, after the lists that were registered. -/
theorem createShardedTable_shards
    (crp : SharedDictionaryDef → List SharedDictionaryDef → SharedDictionaryDef)
    (cat cat' : Catalog) (td : TableDescriptor) (cols : List ColumnDescriptor)
    (defs : List SharedDictionaryDef) (L : Int) (ps : List Int)
    (h : cat.createShardedTable crp td cols defs = (.ok (L, ps), cat')) :
    ps.length = td.nShards.toNat ∧
    (ps ≠ [] → cat'.logicalToPhysicalTableMapById_ =
      cat.logicalToPhysicalTableMapById_ ++ [(L, ps)]) := by
  unfold createShardedTable at h
  split at h
  · cases h
  · split at h
    · cases h
    · rename_i tdl cat1 hlogical
      have key1 := createTable_shards hlogical
      simp only at h
      split at h
      · cases h
      · rename_i ps1 cat2 hshards
        obtain ⟨k1, k2⟩ := createShardedTable.shards_spec _ _ _ _ _ _ _ _ _ hshards
        simp only [List.length_nil, List.length_map, List.length_range, zero_add] at k2
        split at h
        · rename_i hempty
          injection h with h1 h2
          injection h1 with h1
          injection h1 with h1 h3
          subst h1 h2 h3
          refine ⟨k2, fun hne => ?_⟩
          simp only [List.isEmpty_iff] at hempty
          exact absurd hempty hne
        · split at h
          · cases h
          · split at h
            · cases h
            · rename_i hupd
              have key2 := updateLogicalToPhysicalTableMap_shards hupd
              injection h with h1 h2
              injection h1 with h1
              injection h1 with h1 h3
              subst h1 h2 h3
              refine ⟨k2, fun _ => ?_⟩
              rw [key2]
              simp only
              rw [k1, key1]

/-- C14: in a catalog whose shard lists are pairwise disjoint,
`getLogicalTableId` returns the logical id for every id of its shard list and
returns its argument for every id that no shard list holds; and after a
returning `createShardedTable` with at least one shard, whose created physical
ids no shard list registered before holds, there are as many created physical
ids as shards and each of them resolves to the created logical id. -/
theorem getLogicalTableId_resolves (cat : Catalog)
    (hdisjoint : cat.logicalToPhysicalTableMapById_.Pairwise (fun a b => ∀ q ∈ a.2, q ∉ b.2)) :
    (∀ e ∈ cat.logicalToPhysicalTableMapById_, ∀ p ∈ e.2, cat.getLogicalTableId p = e.1) ∧
    (∀ p, (∀ e ∈ cat.logicalToPhysicalTableMapById_, p ∉ e.2) → cat.getLogicalTableId p = p) ∧
    (∀ (crp : SharedDictionaryDef → List SharedDictionaryDef → SharedDictionaryDef)
        (td : TableDescriptor) (cols : List ColumnDescriptor) (defs : List SharedDictionaryDef)
        (L : Int) (ps : List Int) (cat' : Catalog),
      1 ≤ td.nShards →
      cat.createShardedTable crp td cols defs = (.ok (L, ps), cat') →
      (∀ e ∈ cat.logicalToPhysicalTableMapById_, ∀ p ∈ ps, p ∉ e.2) →
      (ps.length : Int) = td.nShards ∧ ∀ p ∈ ps, cat'.getLogicalTableId p = L) := by
  refine ⟨?_, ?_, ?_⟩
  · intro e he p hp
    exact getLogicalTableId.loop_found p _ hdisjoint e he hp
  · intro p hp
    exact getLogicalTableId.loop_absent p _ hp
  · intro crp td cols defs L ps cat' hN h hfresh
    obtain ⟨k1, k2⟩ := createShardedTable_shards crp cat cat' td cols defs L ps h
    have hlen : (ps.length : Int) = td.nShards := by
      rw [k1]
      omega
    refine ⟨hlen, ?_⟩
    have hne : ps ≠ [] := by
      intro hnil
      rw [hnil] at hlen
      simp at hlen
      omega
    intro p hp
    unfold getLogicalTableId
    rw [k2 hne]
    have hgo : ∀ (m : List (Int × List Int)), (∀ e ∈ m, p ∉ e.2) →
        getLogicalTableId.loop p (m ++ [(L, ps)]) = L := by
      intro m
      induction m with
      | nil =>
        intro _
        have hany : (ps.any fun tid => decide (p = tid)) = true := by
          rw [List.any_eq_true]
          exact ⟨p, hp, by simp⟩
        simp [getLogicalTableId.loop, hany]
      | cons l rest ih =>
        intro hm
        have hl : p ∉ l.2 := hm l (List.mem_cons_self _ _)
        have hany : (l.2.any fun tid => decide (p = tid)) = false := by
          rw [List.any_eq_false]
          intro tid htid hq
          simp only [decide_eq_true_eq] at hq
          subst hq
          exact hl htid
        simp only [List.cons_append, getLogicalTableId.loop, hany]
        exact ih (fun e he => hm e (List.mem_cons_of_mem _ he))
    exact hgo _ (fun e he => hfresh e he p hp)

/-- C14 on the catalog with the logical table 1 and its shards 2 and 3, and on
the creation of the table `people` with two shards in the catalog with the
table `cities`. -/
theorem getLogicalTableId_resolves_witness :
    shardedCatalog.getLogicalTableId 2 = 1 ∧ shardedCatalog.getLogicalTableId 3 = 1 ∧
    shardedCatalog.getLogicalTableId 4 = 4 ∧
    (citiesCatalog.createShardedTable keepReference shardedPeople peopleColumns
      [cityShares]).1 = .ok (2, [3, 4]) ∧
    (citiesCatalog.createShardedTable keepReference shardedPeople peopleColumns
      [cityShares]).2.getLogicalTableId 3 = 2 ∧
    (citiesCatalog.createShardedTable keepReference shardedPeople peopleColumns
      [cityShares]).2.getLogicalTableId 4 = 2 :=
  have h1 := getLogicalTableId_resolves shardedCatalog (by decide)
  have h2 := getLogicalTableId_resolves citiesCatalog (by decide)
  have h3 := h2.2.2 keepReference shardedPeople peopleColumns [cityShares] 2 [3, 4]
    (citiesCatalog.createShardedTable keepReference shardedPeople peopleColumns [cityShares]).2
    (by decide) (by decide) (by decide)
  ⟨h1.1 (1, [2, 3]) (by decide) 2 (by decide), h1.1 (1, [2, 3]) (by decide) 3 (by decide),
   h1.2.1 4 (by decide), by decide, h3.2 3 (by decide), h3.2 4 (by decide)⟩

end Catalog

/-! ## Shared dictionaries of sharded tables -/

namespace Catalog

/-- A dictionary-encoded column that the declaration does not name gets a
dictionary whose id is 0, for a shard, or the next id of the store; only the
store of the catalog changes, and it keeps its dictionary rows. -/
theorem createTable.columnDictionary_leftOut_any
    (crp : SharedDictionaryDef → List SharedDictionaryDef → SharedDictionaryDef)
    (sd : SharedDictionaryDef) (isLogicalTable : Bool) (td : TableDescriptor)
    (cd cd' : ColumnDescriptor) (cds : List ColumnDescriptor) (dds dds' : List DictDescriptor)
    (cat cat' : Catalog) (hout : sd.leavesOut cd = true)
    (h : createTable.columnDictionary crp [sd] isLogicalTable td cd cds dds cat =
      (.ok (cd', dds'), cat')) :
    (∃ dd, dds' = dds ++ [dd] ∧
      (dd.dictRef.dictId = 0 ∨ dd.dictRef.dictId = cat.sqliteConnector_.nextDictId)) ∧
    cat' = { cat with sqliteConnector_ := cat'.sqliteConnector_ } ∧
    ∀ row ∈ cat.sqliteConnector_.mapd_dictionaries,
      row ∈ cat'.sqliteConnector_.mapd_dictionaries := by
  cases isLogicalTable
  · simp only [SharedDictionaryDef.leavesOut, Bool.and_eq_true, decide_eq_true_eq,
      Bool.not_eq_true', decide_eq_false_iff_not] at hout
    obtain ⟨hname, hdict⟩ := hout
    simp only [createTable.columnDictionary, hdict, setColumnSharedDictionary,
      setColumnSharedDictionary.loop, hname, if_true, if_false, setColumnDictionary,
      Bool.false_eq_true] at h
    injection h with h1 h2
    injection h1 with h1
    injection h1 with h1 h3
    subst h1 h2 h3
    exact ⟨⟨_, rfl, Or.inl rfl⟩, rfl, fun _ hrow => hrow⟩
  · obtain ⟨_, _, _, ⟨dd, hdd, hddid⟩, row1, hcat1⟩ :=
      createTable.columnDictionary_leftOut crp sd td cd cd' cds dds dds' cat cat' hout h
    subst hcat1
    exact ⟨⟨dd, hdd, Or.inr hddid⟩, rfl, fun row hrow => by simp [hrow]⟩

/-- One round of the column loop of `createTable`, for a table or a shard and
a declaration that refers to a column of another table whose dictionary `D`
is registered: the maps of tables and columns are untouched, and either the
column is the referencing column and `D` gains a reference, or the dictionary
map stays as it is and a dictionary added to the list has the id 0 or an id
other than that of `D`. -/
theorem createTable.diskColumn_shared
    (crp : SharedDictionaryDef → List SharedDictionaryDef → SharedDictionaryDef)
    (names : List String) (sd : SharedDictionaryDef) (isLogicalTable : Bool)
    (td ftd : TableDescriptor)
    (fcd : ColumnDescriptor) (cd : ColumnDescriptor) (colId : Int) (spi : List Int)
    (cds : List ColumnDescriptor) (dds : List DictDescriptor) (cat : Catalog)
    (D : DictDescriptor) (colId' : Int) (spi' : List Int) (cd' : ColumnDescriptor)
    (dds' : List DictDescriptor) (cat' : Catalog)
    (hrun : createTable.diskColumn crp names [sd] isLogicalTable td cd colId spi cds dds cat =
      (.ok (colId', spi', cd', dds'), cat'))
    (hother : sd.foreign_table ≠ td.tableName)
    (hft : cat.getMetadataForTableByName sd.foreign_table = some ftd)
    (hfc : cat.getMetadataForColumn ftd.tableId sd.foreign_column = some fcd)
    (hD : mapFind cat.dictDescriptorMapByRef_
      ⟨cat.currentDB_.dbId, fcd.columnType.comp_param⟩ = some D)
    (hn : 1 ≤ D.refcount)
    (hstore : ∃ row ∈ cat.sqliteConnector_.mapd_dictionaries,
      row.dictid = fcd.columnType.comp_param) :
    cd'.tableId = td.tableId ∧
    cat' = { cat with dictDescriptorMapByRef_ := cat'.dictDescriptorMapByRef_,
                      sqliteConnector_ := cat'.sqliteConnector_ } ∧
    (∃ row ∈ cat'.sqliteConnector_.mapd_dictionaries,
      row.dictid = fcd.columnType.comp_param) ∧
    ((sd.declares cd = true ∧ dds' = dds ∧
        cat'.dictDescriptorMapByRef_ = mapAssign cat.dictDescriptorMapByRef_
          ⟨cat.currentDB_.dbId, fcd.columnType.comp_param⟩
          { D with refcount := D.refcount + 1 }) ∨
     (sd.declares cd = false ∧
        cat'.dictDescriptorMapByRef_ = cat.dictDescriptorMapByRef_ ∧
        (dds' = dds ∨ ∃ dd, dds' = dds ++ [dd] ∧
          (dd.dictRef.dictId = 0 ∨ dd.dictRef.dictId ≠ fcd.columnType.comp_param)))) := by
  have hgap : ∀ (b : Bool) (c : Int), (if b then c + g_test_against_columnId_gap else c) = c := by
    intro b c
    split <;> simp [g_test_against_columnId_gap]
  obtain ⟨row, hrow, hrowid⟩ := hstore
  by_cases hdict : cd.columnType.compression = .kENCODING_DICT
  · by_cases hname : cd.columnName = sd.column
    · -- the referencing column
      have hdecl : sd.declares cd = true := by simp [SharedDictionaryDef.declares, hname, hdict]
      unfold createTable.diskColumn at hrun
      simp only at hrun
      rw [createTable.columnDictionary_declared crp sd isLogicalTable
        { td with columnIdBySpi_ := spi } cd cds dds cat ftd fcd D hdecl hother hft hfc hD hn]
        at hrun
      simp only [hgap] at hrun
      split at hrun
      · cases hrun
      · rename_i st hst
        have hdicts := CatalogStore.insertColumn_dictionaries _ _ _ _ _ hst
        injection hrun with h1 h2
        injection h1 with h1
        injection h1 with h1 h3
        injection h3 with h3 h4
        injection h4 with h4 h5
        subst h1 h2 h4 h5
        refine ⟨rfl, rfl, ?_, Or.inl ⟨hdecl, rfl, rfl⟩⟩
        simp only [hdicts, CatalogStore.addRefcount, List.mem_map]
        refine ⟨_, ⟨row, hrow, rfl⟩, ?_⟩
        split <;> simpa using hrowid
    · -- a column with a dictionary of its own
      have hdecl : sd.declares cd = false := by simp [SharedDictionaryDef.declares, hname]
      have hout : sd.leavesOut cd = true := by simp [SharedDictionaryDef.leavesOut, hname, hdict]
      unfold createTable.diskColumn at hrun
      simp only at hrun
      split at hrun
      · cases hrun
      · rename_i cd1 dds1 cat1 hstep
        obtain ⟨⟨dd, hdd, hddid⟩, hcat1, hrows⟩ :=
          createTable.columnDictionary_leftOut_any crp sd isLogicalTable _ cd cd1 cds dds dds1
            cat cat1 hout hstep
        simp only [hgap] at hrun
        split at hrun
        · cases hrun
        · rename_i st hst
          have hdicts := CatalogStore.insertColumn_dictionaries _ _ _ _ _ hst
          injection hrun with h1 h2
          injection h1 with h1
          injection h1 with h1 h3
          injection h3 with h3 h4
          injection h4 with h4 h5
          subst h1 h2 h4 h5
          have hlt := CatalogStore.lt_nextDictId cat.sqliteConnector_ row hrow
          have hne : cat.sqliteConnector_.nextDictId ≠ fcd.columnType.comp_param := by omega
          refine ⟨rfl, ?_, ?_, Or.inr ⟨hdecl, ?_, Or.inr ⟨dd, hdd, ?_⟩⟩⟩
          · rw [hcat1]
          · exact ⟨row, by rw [hdicts]; exact hrows row hrow, hrowid⟩
          · rw [hcat1]
          · rcases hddid with h0 | h1
            · exact Or.inl h0
            · exact Or.inr (by rw [h1]; exact hne)
  · -- a column without dictionary
    have hdecl : sd.declares cd = false := by simp [SharedDictionaryDef.declares, hdict]
    unfold createTable.diskColumn at hrun
    simp only at hrun
    rw [createTable.columnDictionary_plain crp [sd] isLogicalTable _ cd cds dds cat hdict] at hrun
    simp only [hgap] at hrun
    split at hrun
    · cases hrun
    · rename_i st hst
      have hdicts := CatalogStore.insertColumn_dictionaries _ _ _ _ _ hst
      injection hrun with h1 h2
      injection h1 with h1
      injection h1 with h1 h3
      injection h3 with h3 h4
      injection h4 with h4 h5
      subst h1 h2 h4 h5
      refine ⟨rfl, rfl, ?_, Or.inr ⟨hdecl, rfl, Or.inl rfl⟩⟩
      exact ⟨row, by simp [hdicts, hrow], hrowid⟩

end Catalog

namespace Catalog

/-- The column loop of `createTable`, for a table or a shard and a declaration
that refers to a column of another table whose dictionary `D` is registered:
`D` gains one reference per referencing column, the new column descriptors
carry the id of the table, and the dictionaries added to the list have the id
0 or an id other than that of `D`. -/
theorem createTable.diskColumns_shared
    (crp : SharedDictionaryDef → List SharedDictionaryDef → SharedDictionaryDef)
    (names : List String) (sd : SharedDictionaryDef) (isLogicalTable : Bool)
    (td ftd : TableDescriptor) (fcd : ColumnDescriptor)
    (hother : sd.foreign_table ≠ td.tableName)
    (columns : List ColumnDescriptor) :
    ∀ (colId : Int) (spi : List Int) (cds : List ColumnDescriptor) (dds : List DictDescriptor)
      (cat : Catalog) (D : DictDescriptor) (spi' : List Int) (cds' : List ColumnDescriptor)
      (dds' : List DictDescriptor) (cat' : Catalog),
      createTable.diskColumns crp names [sd] isLogicalTable td columns colId spi cds dds cat =
        (.ok (spi', cds', dds'), cat') →
      cat.getMetadataForTableByName sd.foreign_table = some ftd →
      cat.getMetadataForColumn ftd.tableId sd.foreign_column = some fcd →
      mapFind cat.dictDescriptorMapByRef_
        ⟨cat.currentDB_.dbId, fcd.columnType.comp_param⟩ = some D →
      1 ≤ D.refcount →
      (∃ row ∈ cat.sqliteConnector_.mapd_dictionaries,
        row.dictid = fcd.columnType.comp_param) →
      cat' = { cat with dictDescriptorMapByRef_ := cat'.dictDescriptorMapByRef_,
                        sqliteConnector_ := cat'.sqliteConnector_ } ∧
      mapFind cat'.dictDescriptorMapByRef_
          ⟨cat.currentDB_.dbId, fcd.columnType.comp_param⟩ =
        some { D with refcount := D.refcount + ((columns.filter sd.declares).length : Int) } ∧
      (∃ row ∈ cat'.sqliteConnector_.mapd_dictionaries,
        row.dictid = fcd.columnType.comp_param) ∧
      (∃ newcds, cds' = cds ++ newcds ∧ ∀ c ∈ newcds, c.tableId = td.tableId) ∧
      (∃ newdds, dds' = dds ++ newdds ∧
        ∀ dd ∈ newdds, dd.dictRef.dictId = 0 ∨ dd.dictRef.dictId ≠ fcd.columnType.comp_param) := by
  induction columns with
  | nil =>
    intro colId spi cds dds cat D spi' cds' dds' cat' hrun _ _ hD _ hstore
    simp only [createTable.diskColumns] at hrun
    injection hrun with h1 h2
    injection h1 with h1
    injection h1 with h1 h3
    injection h3 with h3 h4
    subst h1 h2 h3 h4
    refine ⟨rfl, ?_, hstore, ⟨[], by simp⟩, ⟨[], by simp⟩⟩
    rw [hD]
    simp
  | cons cd rest ih =>
    intro colId spi cds dds cat D spi' cds' dds' cat' hrun hft hfc hD hn hstore
    simp only [createTable.diskColumns] at hrun
    split at hrun
    · cases hrun
    · rename_i colId1 spi1 cd1 dds1 cat1 hstep
      obtain ⟨htab, hsame, hstore1, hcases⟩ :=
        createTable.diskColumn_shared crp names sd isLogicalTable td ftd fcd cd colId spi cds
          dds cat D colId1 spi1 cd1 dds1 cat1 hstep hother hft hfc hD hn hstore
      have hdb : cat1.currentDB_ = cat.currentDB_ := by rw [hsame]
      have hft1 : cat1.getMetadataForTableByName sd.foreign_table = some ftd := by
        rw [hsame]; exact hft
      have hfc1 : cat1.getMetadataForColumn ftd.tableId sd.foreign_column = some fcd := by
        rw [hsame]; exact hfc
      rcases hcases with ⟨hdecl, hdds, hdicts⟩ | ⟨hdecl, hdicts, hdds⟩
      · have hD1 : mapFind cat1.dictDescriptorMapByRef_
            ⟨cat1.currentDB_.dbId, fcd.columnType.comp_param⟩ =
            some { D with refcount := D.refcount + 1 } := by
          rw [hdicts, hdb, mapFind_mapAssign_self]
        obtain ⟨h1, h2, h3, ⟨newcds, h5, h7⟩, ⟨newdds, h9, h11⟩⟩ :=
          ih (colId1 + 1) spi1 (cds ++ [cd1]) dds1 cat1 _ spi' cds' dds' cat' hrun hft1 hfc1 hD1
            (by simp only; omega) hstore1
        refine ⟨?_, ?_, h3, ⟨cd1 :: newcds, ?_, ?_⟩, ⟨newdds, ?_, h11⟩⟩
        · rw [h1, hsame]
        · rw [hdb] at h2
          rw [h2]
          simp only [List.filter_cons, hdecl, if_true, List.length_cons, Nat.cast_add,
            Nat.cast_one]
          congr 2
          omega
        · rw [h5]; simp
        · intro c hc
          rcases List.mem_cons.mp hc with rfl | hc
          · exact htab
          · exact h7 c hc
        · rw [h9, hdds]
      · have hD1 : mapFind cat1.dictDescriptorMapByRef_
            ⟨cat1.currentDB_.dbId, fcd.columnType.comp_param⟩ = some D := by
          rw [hdicts, hdb, hD]
        obtain ⟨h1, h2, h3, ⟨newcds, h5, h7⟩, ⟨newdds, h9, h11⟩⟩ :=
          ih (colId1 + 1) spi1 (cds ++ [cd1]) dds1 cat1 _ spi' cds' dds' cat' hrun hft1 hfc1 hD1
            hn hstore1
        have hcds : cds' = cds ++ cd1 :: newcds := by rw [h5]; simp
        have hmem : ∀ c ∈ cd1 :: newcds, c.tableId = td.tableId := by
          intro c hc
          rcases List.mem_cons.mp hc with rfl | hc
          · exact htab
          · exact h7 c hc
        have hcount : mapFind cat'.dictDescriptorMapByRef_
            ⟨cat.currentDB_.dbId, fcd.columnType.comp_param⟩ =
            some { D with refcount :=
              D.refcount + (((cd :: rest).filter sd.declares).length : Int) } := by
          rw [hdb] at h2
          rw [h2]
          simp [List.filter_cons, hdecl]
        rcases hdds with hdds | ⟨dd, hdds, hddid⟩
        · exact ⟨by rw [h1, hsame], hcount, h3, ⟨_, hcds, hmem⟩, ⟨newdds, by rw [h9, hdds], h11⟩⟩
        · refine ⟨by rw [h1, hsame], hcount, h3, ⟨_, hcds, hmem⟩,
            ⟨dd :: newdds, by rw [h9, hdds]; simp, ?_⟩⟩
          intro d hd
          rcases List.mem_cons.mp hd with rfl | hd
          · exact hddid
          · exact h11 d hd

/-- The part of `createTable` before `addTableToMap`, for a durable table or
shard and a declaration that refers to a column of another table whose
dictionary `D` is registered. -/
theorem createTable.build_shared
    (crp : SharedDictionaryDef → List SharedDictionaryDef → SharedDictionaryDef)
    (cat : Catalog) (td : TableDescriptor) (columns : List ColumnDescriptor)
    (names : List String) (sd : SharedDictionaryDef) (isLogicalTable : Bool)
    (ftd : TableDescriptor)
    (fcd : ColumnDescriptor) (D : DictDescriptor) (td1 : TableDescriptor)
    (cds : List ColumnDescriptor) (dds : List DictDescriptor) (cat1 : Catalog)
    (hrun : createTable.build crp cat td columns names [sd] isLogicalTable =
      (.ok (td1, cds, dds), cat1))
    (hdur : td.persistenceLevel = .DISK_LEVEL)
    (hother : sd.foreign_table ≠ td.tableName)
    (hft : cat.getMetadataForTableByName sd.foreign_table = some ftd)
    (hfc : cat.getMetadataForColumn ftd.tableId sd.foreign_column = some fcd)
    (hD : mapFind cat.dictDescriptorMapByRef_
      ⟨cat.currentDB_.dbId, fcd.columnType.comp_param⟩ = some D)
    (hn : 1 ≤ D.refcount)
    (hstore : ∃ row ∈ cat.sqliteConnector_.mapd_dictionaries,
      row.dictid = fcd.columnType.comp_param) :
    td1.tableName = td.tableName ∧
    cat1 = { cat with dictDescriptorMapByRef_ := cat1.dictDescriptorMapByRef_,
                      sqliteConnector_ := cat1.sqliteConnector_ } ∧
    mapFind cat1.dictDescriptorMapByRef_
        ⟨cat.currentDB_.dbId, fcd.columnType.comp_param⟩ =
      some { D with refcount := D.refcount + ((columns.filter sd.declares).length : Int) } ∧
    (∃ row ∈ cat1.sqliteConnector_.mapd_dictionaries,
      row.dictid = fcd.columnType.comp_param) ∧
    (∀ c ∈ cds, c.tableId = td1.tableId) ∧
    ∀ dd ∈ dds, dd.dictRef.dictId = 0 ∨ dd.dictRef.dictId ≠ fcd.columnType.comp_param := by
  unfold createTable.build at hrun
  simp only at hrun
  rw [if_pos hdur] at hrun
  split at hrun
  · cases hrun
  · rename_i st hst
    have hdicts := CatalogStore.insertTable_dictionaries _ _ _ hst
    split at hrun
    · cases hrun
    · rename_i tableId htid
      split at hrun
      · cases hrun
      · rename_i spi' cds' dds' cat' hloop
        have hstore0 : ∃ row ∈ st.mapd_dictionaries, row.dictid = fcd.columnType.comp_param := by
          rw [hdicts]; exact hstore
        obtain ⟨h1, h2, h3, ⟨newcds, h5, h7⟩, ⟨newdds, h9, h11⟩⟩ :=
          createTable.diskColumns_shared crp names sd isLogicalTable
            { td with tableId := tableId } ftd fcd
            hother columns 1 _ [] [] { cat with sqliteConnector_ := st } D spi' cds' dds'
            cat' hloop hft hfc hD hn hstore0
        simp only [List.nil_append] at h5 h9
        subst h5 h9
        have key : td1.tableName = td.tableName ∧ td1.tableId = tableId ∧ cds = cds' ∧
            dds = dds' ∧ cat1.dictDescriptorMapByRef_ = cat'.dictDescriptorMapByRef_ ∧
            cat1.sqliteConnector_.mapd_dictionaries = cat'.sqliteConnector_.mapd_dictionaries ∧
            cat1 = { cat' with sqliteConnector_ := cat1.sqliteConnector_ } := by
          split at hrun
          · injection hrun with h1 h2
            injection h1 with h1
            injection h1 with h1 h3
            injection h3 with h3 h4
            subst h1 h2 h3 h4
            exact ⟨rfl, rfl, rfl, rfl, rfl, rfl, rfl⟩
          · injection hrun with h1 h2
            injection h1 with h1
            injection h1 with h1 h3
            injection h3 with h3 h4
            subst h1 h2 h3 h4
            exact ⟨rfl, rfl, rfl, rfl, rfl, rfl, rfl⟩
        obtain ⟨k1, k2, k3, k4, k5, k6, k7⟩ := key
        subst k3 k4
        refine ⟨k1, ?_, ?_, ?_, ?_, h11⟩
        · rw [k7, h1]
        · rw [k5]; exact h2
        · rw [k6]; exact h3
        · intro c hc
          rw [k2]
          exact h7 c hc

end Catalog

namespace Catalog

/-- The column loop of `addTableToMap` changes no lookup in the by-name column
map under a table id that none of the added columns carries. -/
theorem addTableToMap.columns_lookup (new_td : TableDescriptor) (cds : List ColumnDescriptor)
    (key : Int × String) :
    ∀ (cat cat' : Catalog), addTableToMap.columns new_td cds cat = .ok cat' →
      (∀ c ∈ cds, c.tableId ≠ key.1) →
      mapFind cat'.columnDescriptorMap_ key = mapFind cat.columnDescriptorMap_ key := by
  induction cds with
  | nil =>
    intro cat cat' h _
    simp only [addTableToMap.columns] at h
    injection h with h
    subst h
    rfl
  | cons cd rest ih =>
    intro cat cat' h hne
    have hcd : key ≠ (cd.tableId, to_upper cd.columnName) := by
      intro hk
      exact hne cd (List.mem_cons_self _ _) (by rw [hk])
    have hrest : ∀ c ∈ rest, c.tableId ≠ key.1 := fun c hc => hne c (List.mem_cons_of_mem _ hc)
    simp only [addTableToMap.columns] at h
    split at h
    · split at h
      · simp only [setDeletedColumnUnlocked] at h
        split at h
        · cases h
        · rename_i cat1 hc1
          split at hc1
          · cases hc1
          · injection hc1 with hc1
            subst hc1
            have key1 := ih _ cat' h hrest
            rw [key1]
            exact mapFind_mapAssign_ne _ _ _ _ hcd
      · cases h
    · have key1 := ih _ cat' h hrest
      rw [key1]
      exact mapFind_mapAssign_ne _ _ _ _ hcd

/-- The dictionary loop of `addTableToMap` changes the dictionary map only,
and leaves the dictionary `dictId` as it is when every dictionary of the list
has the id 0 or another id. -/
theorem addTableToMap.dicts_frame (dictId : Int) (dds : List DictDescriptor) :
    ∀ (cat : Catalog),
      (addTableToMap.dicts dds cat).tableDescriptorMap_ = cat.tableDescriptorMap_ ∧
      (addTableToMap.dicts dds cat).columnDescriptorMap_ = cat.columnDescriptorMap_ ∧
      (addTableToMap.dicts dds cat).currentDB_ = cat.currentDB_ ∧
      (addTableToMap.dicts dds cat).sqliteConnector_ = cat.sqliteConnector_ ∧
      ((∀ dd ∈ dds, dd.dictRef.dictId = 0 ∨ dd.dictRef.dictId ≠ dictId) →
        mapFind (addTableToMap.dicts dds cat).dictDescriptorMapByRef_
            ⟨cat.currentDB_.dbId, dictId⟩ =
          mapFind cat.dictDescriptorMapByRef_ ⟨cat.currentDB_.dbId, dictId⟩) := by
  induction dds with
  | nil =>
    intro cat
    simp [addTableToMap.dicts]
  | cons dd rest ih =>
    intro cat
    simp only [addTableToMap.dicts]
    split
    · rename_i hzero
      obtain ⟨h1, h2, h3, h4, h5⟩ := ih cat
      exact ⟨h1, h2, h3, h4, fun hne => h5 (fun d hd => hne d (List.mem_cons_of_mem _ hd))⟩
    · rename_i hzero
      obtain ⟨h1, h2, h3, h4, h5⟩ := ih { cat with
        dictDescriptorMapByRef_ := mapAssign cat.dictDescriptorMapByRef_
          ⟨cat.currentDB_.dbId, dd.dictRef.dictId⟩ dd }
      refine ⟨h1, h2, h3, h4, fun hne => ?_⟩
      rw [h5 (fun d hd => hne d (List.mem_cons_of_mem _ hd))]
      apply mapFind_mapAssign_ne
      intro hk
      injection hk with _ hk
      rcases hne dd (List.mem_cons_self _ _) with h0 | h0
      · exact hzero h0
      · exact h0 hk.symm

/-- `createTable` of a durable table or shard with a declaration that refers
to a column of another table, by name and by id, whose dictionary `D` is
registered: `D` gains one reference per referencing column, and the foreign
table, the foreign column and the row of `D` in the store are found as
before. -/
theorem createTable_shared_step
    (crp : SharedDictionaryDef → List SharedDictionaryDef → SharedDictionaryDef)
    (cat : Catalog) (td : TableDescriptor) (cols : List ColumnDescriptor)
    (sd : SharedDictionaryDef) (isLogicalTable : Bool) (ftd : TableDescriptor)
    (fcd : ColumnDescriptor) (D : DictDescriptor) (td1 : TableDescriptor) (cat1 : Catalog)
    (hcreate : cat.createTable crp td cols [sd] isLogicalTable = (.ok td1, cat1))
    (hdur : td.persistenceLevel = .DISK_LEVEL)
    (hupper : to_upper sd.foreign_table ≠ to_upper td.tableName)
    (hfid : ftd.tableId ≠ td1.tableId)
    (hft : cat.getMetadataForTableByName sd.foreign_table = some ftd)
    (hfc : cat.getMetadataForColumn ftd.tableId sd.foreign_column = some fcd)
    (hD : mapFind cat.dictDescriptorMapByRef_
      ⟨cat.currentDB_.dbId, fcd.columnType.comp_param⟩ = some D)
    (hn : 1 ≤ D.refcount)
    (hstore : ∃ row ∈ cat.sqliteConnector_.mapd_dictionaries,
      row.dictid = fcd.columnType.comp_param) :
    cat1.currentDB_ = cat.currentDB_ ∧
    cat1.getMetadataForTableByName sd.foreign_table = some ftd ∧
    cat1.getMetadataForColumn ftd.tableId sd.foreign_column = some fcd ∧
    mapFind cat1.dictDescriptorMapByRef_
        ⟨cat.currentDB_.dbId, fcd.columnType.comp_param⟩ =
      some { D with refcount := D.refcount + ((cols.filter sd.declares).length : Int) } ∧
    (∃ row ∈ cat1.sqliteConnector_.mapd_dictionaries,
      row.dictid = fcd.columnType.comp_param) := by
  have hother : sd.foreign_table ≠ td.tableName := by
    intro heq
    exact hupper (by rw [heq])
  unfold createTable at hcreate
  split at hcreate
  · cases hcreate
  · rename_i columns names hexp
    have hf1 := createTable.columns_filter sd.declares sd.declares_dict cols columns names
      td.hasDeletedCol hexp
    simp only at hcreate
    split at hcreate
    · cases hcreate
    · rename_i td' cds dds cat' hbuild
      split at hcreate
      · cases hcreate
      · rename_i cat'' hadd
        injection hcreate with h1 h2
        injection h1 with h1
        subst h1 h2
        obtain ⟨b0, b1, b2, b3, b4, b5⟩ :=
          createTable.build_shared crp cat _ _ _ sd isLogicalTable ftd fcd D td' cds dds cat'
            hbuild hdur hother hft hfc hD hn hstore
        rw [hf1] at b2
        simp only at b0
        unfold addTableToMap at hadd
        simp only at hadd
        split at hadd
        · cases hadd
        · rename_i catc hcols
          injection hadd with hadd
          subst hadd
          have hdb : cat'.currentDB_ = cat.currentDB_ := by rw [b1]
          have hbyname : cat'.columnDescriptorMap_ = cat.columnDescriptorMap_ := by rw [b1]
          have htables : cat'.tableDescriptorMap_ = cat.tableDescriptorMap_ := by rw [b1]
          obtain ⟨c1, c2, _, c4, c5⟩ := addTableToMap.columns_dicts _ _ _ _ hcols
          have c6 := addTableToMap.columns_lookup _ cds
            (ftd.tableId, to_upper sd.foreign_column) _ _ hcols
            (by
              intro c hc hk
              simp only at hk
              exact hfid (by rw [← hk, b4 c hc]))
          simp only at c1 c2 c4 c5 c6
          obtain ⟨d1, d2, d3, d4, d5⟩ :=
            addTableToMap.dicts_frame fcd.columnType.comp_param dds catc
          refine ⟨?_, ?_, ?_, ?_, ?_⟩
          · rw [d3, c2, hdb]
          · unfold getMetadataForTableByName at hft ⊢
            rw [d1, c5, mapFind_mapAssign_ne _ _ _ _ (by rw [b0]; exact hupper), htables]
            exact hft
          · unfold getMetadataForColumn at hfc ⊢
            rw [d2, c6, hbyname]
            exact hfc
          · have d5' := d5 b5
            rw [c2, hdb] at d5'
            rw [d5', c1, b2]
          · rw [d4, c4]
            exact b3

end Catalog

namespace Catalog


/-- The shard loop of `createShardedTable` keeps the ids it was given. -/
theorem createShardedTable.shards_keeps
    (crp : SharedDictionaryDef → List SharedDictionaryDef → SharedDictionaryDef)
    (td : TableDescriptor) (cols : List ColumnDescriptor) (defs : List SharedDictionaryDef)
    (numbers : List Int) :
    ∀ (ps ps' : List Int) (cat cat' : Catalog),
      createShardedTable.shards crp td cols defs numbers ps cat = (.ok ps', cat') →
      ∀ p ∈ ps, p ∈ ps' := by
  induction numbers with
  | nil =>
    intro ps ps' cat cat' h
    simp only [createShardedTable.shards] at h
    injection h with h1 h2
    injection h1 with h1
    subst h1
    exact fun p hp => hp
  | cons i rest ih =>
    intro ps ps' cat cat' h
    simp only [createShardedTable.shards] at h
    split at h
    · cases h
    · intro p hp
      exact ih _ _ _ _ h p (List.mem_append_left _ hp)

theorem DictDescriptor.refcount_twice (D : DictDescriptor) (a b c : Int) (h : a + b = c) :
    ({ ({ D with refcount := D.refcount + a } : DictDescriptor) with
        refcount := ({ D with refcount := D.refcount + a } : DictDescriptor).refcount + b } :
      DictDescriptor) = { D with refcount := D.refcount + c } := by
  cases D
  simp only [DictDescriptor.mk.injEq, true_and, and_true]
  omega

/-- The shard loop of `createShardedTable` for a durable table with the one
declaration `sd`, which refers to a column of another table whose dictionary
`D` is registered: every created shard adds one reference to `D` per
referencing column. -/
theorem createShardedTable.shards_shared
    (crp : SharedDictionaryDef → List SharedDictionaryDef → SharedDictionaryDef)
    (td : TableDescriptor) (cols : List ColumnDescriptor) (sd : SharedDictionaryDef)
    (ftd : TableDescriptor) (fcd : ColumnDescriptor)
    (hdur : td.persistenceLevel = .DISK_LEVEL) (numbers : List Int) :
    ∀ (ps ps' : List Int) (cat cat' : Catalog) (D : DictDescriptor),
      createShardedTable.shards crp td cols [sd] numbers ps cat = (.ok ps', cat') →
      (∀ i ∈ numbers,
        to_upper sd.foreign_table ≠ to_upper (generatePhysicalTableName td.tableName i)) →
      ftd.tableId ∉ ps' →
      cat.getMetadataForTableByName sd.foreign_table = some ftd →
      cat.getMetadataForColumn ftd.tableId sd.foreign_column = some fcd →
      mapFind cat.dictDescriptorMapByRef_
        ⟨cat.currentDB_.dbId, fcd.columnType.comp_param⟩ = some D →
      1 ≤ D.refcount →
      (∃ row ∈ cat.sqliteConnector_.mapd_dictionaries,
        row.dictid = fcd.columnType.comp_param) →
      cat'.currentDB_ = cat.currentDB_ ∧
      mapFind cat'.dictDescriptorMapByRef_
          ⟨cat.currentDB_.dbId, fcd.columnType.comp_param⟩ =
        some { D with refcount := D.refcount +
          (numbers.length : Int) * ((cols.filter sd.declares).length : Int) } := by
  induction numbers with
  | nil =>
    intro ps ps' cat cat' D h _ _ _ _ hD _ _
    simp only [createShardedTable.shards] at h
    injection h with h1 h2
    subst h2
    refine ⟨rfl, ?_⟩
    rw [hD]
    cases D
    simp
  | cons i rest ih =>
    intro ps ps' cat cat' D h hnames hfid hft hfc hD hn hstore
    simp only [createShardedTable.shards] at h
    split at h
    · cases h
    · rename_i tdp cat1 hcreate
      have hmem : tdp.tableId ∈ ps' :=
        createShardedTable.shards_keeps _ _ _ _ _ _ _ _ _ h tdp.tableId (by simp)
      have hne : ftd.tableId ≠ tdp.tableId := by
        intro heq
        exact hfid (by rw [heq]; exact hmem)
      obtain ⟨s1, s2, s3, s4, s5⟩ :=
        createTable_shared_step crp cat _ cols sd false ftd fcd D tdp cat1 hcreate hdur
          (hnames i (List.mem_cons_self _ _)) hne hft hfc hD hn hstore
      rw [← s1] at s4
      have hn1 : 1 ≤ ({ D with refcount := D.refcount +
          ((cols.filter sd.declares).length : Int) } : DictDescriptor).refcount := by
        simp only
        omega
      obtain ⟨k1, k2⟩ := ih _ _ _ _ _ h
        (fun j hj => hnames j (List.mem_cons_of_mem _ hj)) hfid s2 s3 s4 hn1 s5
      refine ⟨by rw [k1, s1], ?_⟩
      rw [← s1, k2]
      apply congrArg
      apply DictDescriptor.refcount_twice
      simp only [List.length_cons, Nat.cast_add, Nat.cast_one]
      ring

theorem updateLogicalToPhysicalTableMap_dicts {cat cat' : Catalog} {logical_tb_id : Int}
    {r : Result Unit} (h : cat.updateLogicalToPhysicalTableMap logical_tb_id = (r, cat')) :
    cat'.dictDescriptorMapByRef_ = cat.dictDescriptorMapByRef_ ∧
    cat'.currentDB_ = cat.currentDB_ := by
  unfold updateLogicalToPhysicalTableMap at h
  split at h
  · injection h with _ h; subst h; exact ⟨rfl, rfl⟩
  · split at h
    · injection h with _ h; subst h; exact ⟨rfl, rfl⟩
    · injection h with _ h; subst h; exact ⟨rfl, rfl⟩

/-- `createShardedTable` of a durable table with the one declaration `sd`,
which refers to a column of another table whose dictionary `D` is registered:
the logical table and every shard add one reference to `D` per referencing
column. -/
theorem createShardedTable_shared
    (crp : SharedDictionaryDef → List SharedDictionaryDef → SharedDictionaryDef)
    (cat cat' : Catalog) (td ftd : TableDescriptor) (cols : List ColumnDescriptor)
    (sd : SharedDictionaryDef) (fcd : ColumnDescriptor) (D : DictDescriptor) (L : Int)
    (ps : List Int)
    (hrun : cat.createShardedTable crp td cols [sd] = (.ok (L, ps), cat'))
    (hdur : td.persistenceLevel = .DISK_LEVEL)
    (hlogical : to_upper sd.foreign_table ≠ to_upper td.tableName)
    (hnames : ∀ k : Nat, k < td.nShards.toNat →
      to_upper sd.foreign_table ≠
        to_upper (generatePhysicalTableName td.tableName (Int.ofNat k + 1)))
    (hforeign : ftd.tableId ≠ L ∧ ftd.tableId ∉ ps)
    (hft : cat.getMetadataForTableByName sd.foreign_table = some ftd)
    (hfc : cat.getMetadataForColumn ftd.tableId sd.foreign_column = some fcd)
    (hD : mapFind cat.dictDescriptorMapByRef_
      ⟨cat.currentDB_.dbId, fcd.columnType.comp_param⟩ = some D)
    (hn : 1 ≤ D.refcount)
    (hstore : ∃ row ∈ cat.sqliteConnector_.mapd_dictionaries,
      row.dictid = fcd.columnType.comp_param) :
    cat'.currentDB_ = cat.currentDB_ ∧
    mapFind cat'.dictDescriptorMapByRef_
        ⟨cat.currentDB_.dbId, fcd.columnType.comp_param⟩ =
      some { D with refcount := D.refcount +
        ((td.nShards.toNat : Int) + 1) * ((cols.filter sd.declares).length : Int) } := by
  unfold createShardedTable at hrun
  split at hrun
  · cases hrun
  · split at hrun
    · cases hrun
    · rename_i tdl cat1 hcreate
      simp only at hrun
      split at hrun
      · cases hrun
      · rename_i ps1 cat2 hshards
        have hnum : ∀ i ∈ (List.range td.nShards.toNat).map (fun (k : Nat) => Int.ofNat k + 1),
            to_upper sd.foreign_table ≠
              to_upper (generatePhysicalTableName td.tableName i) := by
          intro i hi
          obtain ⟨k, hk0, hk⟩ := List.mem_map.mp hi
          rw [← hk]
          exact hnames k (List.mem_range.mp hk0)
        have hlen : (((List.range td.nShards.toNat).map
            (fun (k : Nat) => Int.ofNat k + 1)).length : Int) = (td.nShards.toNat : Int) := by
          simp
        have finish : ftd.tableId ≠ tdl.tableId → ftd.tableId ∉ ps1 →
            cat2.currentDB_ = cat.currentDB_ ∧
            mapFind cat2.dictDescriptorMapByRef_
                ⟨cat.currentDB_.dbId, fcd.columnType.comp_param⟩ =
              some { D with refcount := D.refcount +
                ((td.nShards.toNat : Int) + 1) * ((cols.filter sd.declares).length : Int) } := by
          intro hL hps
          obtain ⟨s1, s2, s3, s4, s5⟩ :=
            createTable_shared_step crp cat td cols sd true ftd fcd D tdl cat1 hcreate hdur
              hlogical hL hft hfc hD hn hstore
          rw [← s1] at s4
          have hn1 : 1 ≤ ({ D with refcount := D.refcount +
              ((cols.filter sd.declares).length : Int) } : DictDescriptor).refcount := by
            simp only
            omega
          obtain ⟨k1, k2⟩ := createShardedTable.shards_shared crp td cols sd ftd fcd hdur _ _ _
            _ _ _ hshards hnum hps s2 s3 s4 hn1 s5
          refine ⟨by rw [k1, s1], ?_⟩
          rw [← s1, k2]
          apply congrArg
          apply DictDescriptor.refcount_twice
          rw [hlen]
          ring
        split at hrun
        · injection hrun with h1 h2
          injection h1 with h1
          injection h1 with h1 h3
          subst h1 h2 h3
          exact finish hforeign.1 hforeign.2
        · split at hrun
          · cases hrun
          · split at hrun
            · cases hrun
            · rename_i hupd
              obtain ⟨u1, u2⟩ := updateLogicalToPhysicalTableMap_dicts hupd
              injection hrun with h1 h2
              injection h1 with h1
              injection h1 with h1 h3
              subst h1 h2 h3
              obtain ⟨f1, f2⟩ := finish hforeign.1 hforeign.2
              simp only at u1 u2
              exact ⟨by rw [u2, f1], by rw [u1, f2]⟩


/-- C11, amended: let `D` be a registered dictionary with reference count at
least 1, recorded in the store, that encodes the column `fcd` of a table
`ftd` other than the tables created.  Whenever `createShardedTable` of a
durable table with `N ≥ 1` shards and exactly one column named by the one
declaration `sd` sharing the dictionary of `fcd` returns, `D` is registered
with its count raised by `N + 1`: one reference for the logical table and
one for each of the `N` physical tables. -/
theorem createShardedTable_shared_dictionary
    (compress_reference_path :
      SharedDictionaryDef → List SharedDictionaryDef → SharedDictionaryDef)
    (cat cat' : Catalog) (td ftd : TableDescriptor) (cols : List ColumnDescriptor)
    (sd : SharedDictionaryDef) (fcd : ColumnDescriptor) (D : DictDescriptor) (L : Int)
    (ps : List Int)
    (hD : cat.getMetadataForDict fcd.columnType.comp_param = some D)
    (hn : 1 ≤ D.refcount)
    (hN : 1 ≤ td.nShards)
    (hstore : ∃ row ∈ cat.sqliteConnector_.mapd_dictionaries,
      row.dictid = fcd.columnType.comp_param)
    (hft : cat.getMetadataForTableByName sd.foreign_table = some ftd)
    (hfc : cat.getMetadataForColumn ftd.tableId sd.foreign_column = some fcd)
    (hdur : td.persistenceLevel = .DISK_LEVEL)
    (hone : (cols.filter sd.declares).length = 1)
    (hlogical : to_upper sd.foreign_table ≠ to_upper td.tableName)
    (hnames : ∀ k : Nat, k < td.nShards.toNat →
      to_upper sd.foreign_table ≠
        to_upper (generatePhysicalTableName td.tableName (Int.ofNat k + 1)))
    (hrun : cat.createShardedTable compress_reference_path td cols [sd] = (.ok (L, ps), cat'))
    (hforeign : ftd.tableId ≠ L ∧ ftd.tableId ∉ ps) :
    cat'.getMetadataForDict fcd.columnType.comp_param =
      some { D with refcount := D.refcount + td.nShards + 1 } := by
  unfold getMetadataForDict at hD ⊢
  obtain ⟨k1, k2⟩ := createShardedTable_shared compress_reference_path cat cat' td ftd cols sd
    fcd D L ps hrun hdur hlogical hnames hforeign hft hfc hD hn hstore
  rw [k1, k2, hone]
  have hnat : ((td.nShards.toNat : Nat) : Int) = td.nShards := Int.toNat_of_nonneg (by omega)
  rw [hnat]
  apply congrArg
  cases D
  simp only [DictDescriptor.mk.injEq, true_and, and_true]
  push_cast
  ring

/-- C11 on the catalog with the table `cities`: the table `people` with two
shards, whose column `city` shares the dictionary of `cities.name`, is
created, and the reference count of that dictionary goes from 2 to 5. -/
theorem createShardedTable_shared_dictionary_witness :
    (citiesCatalog.createShardedTable keepReference shardedPeople peopleColumns
      [cityShares]).2.getMetadataForDict 1 = some (citiesDict 5) :=
  createShardedTable_shared_dictionary keepReference citiesCatalog
    (citiesCatalog.createShardedTable keepReference shardedPeople peopleColumns [cityShares]).2
    shardedPeople (exampleTable 1 "cities" .DISK_LEVEL) peopleColumns cityShares citiesName
    (citiesDict 2) 2 [3, 4]
    (by decide) (by decide) (by decide) (by decide) (by decide) (by decide) (by decide)
    (by decide) (by decide) (by decide) (by decide) (by decide)

/-- C11 as stated fails on the catalog with the table `cities`, whose
dictionary has the reference count 2: `createShardedTable` of the durable
table `people` with two shards and the one column `city` declared to share
the dictionary of `cities.name` returns and leaves the count at 5, not at 3. -/
theorem createShardedTable_shared_dictionary_counterexample :
    citiesCatalog.getMetadataForDict 1 = some (citiesDict 2) ∧
    shardedPeople.nShards = 2 ∧
    (peopleColumns.filter cityShares.declares).length = 1 ∧
    (citiesCatalog.createShardedTable keepReference shardedPeople peopleColumns
      [cityShares]).1 = .ok (2, [3, 4]) ∧
    (citiesCatalog.createShardedTable keepReference shardedPeople peopleColumns
      [cityShares]).2.getMetadataForDict 1 = some (citiesDict 5) ∧
    (citiesCatalog.createShardedTable keepReference shardedPeople peopleColumns
      [cityShares]).2.getMetadataForDict 1 ≠ some (citiesDict (2 + 1)) := by
  decide

end Catalog

theorem fresh_of_mapFind_none {κ ν : Type} [DecidableEq κ] (m : List (κ × ν)) (k : κ)
    (h : mapFind m k = none) : ∀ e ∈ m, e.1 ≠ k := by
  induction m with
  | nil => intro e he; simp at he
  | cons e rest ih =>
    obtain ⟨k', v'⟩ := e
    simp only [mapFind] at h
    split at h
    · cases h
    · rename_i hne
      intro e he
      rcases List.mem_cons.mp he with rfl | he
      · exact hne
      · exact ih h e he

theorem mapErase_mapAssign_fresh {κ ν : Type} [DecidableEq κ] (m : List (κ × ν)) (k : κ)
    (v : ν) (h : ∀ e ∈ m, e.1 ≠ k) : mapErase (mapAssign m k v) k = m := by
  rw [mapAssign_of_fresh m k v h]
  unfold mapErase
  rw [List.filter_append]
  have h1 : m.filter (fun e => !decide (e.1 = k)) = m := by
    apply List.filter_eq_self.mpr
    intro e he
    simp [h e he]
  rw [h1]
  simp

/-- Every column id of a table in the store is below the id of its next column. -/
theorem CatalogStore.lt_nextColumnId (st : CatalogStore) (tableId c : Int) (row : ColumnRow)
    (h : row ∈ st.mapd_columns) (ht : row.tableid = tableId)
    (hnext : st.nextColumnId tableId = some c) : row.columnid < c := by
  have key : ∀ (ids : List Int) (acc : Int),
      acc ≤ ids.foldl max acc ∧ ∀ i ∈ ids, i ≤ ids.foldl max acc := by
    intro ids
    induction ids with
    | nil => intro acc; simp
    | cons i rest ih =>
      intro acc
      obtain ⟨h1, h2⟩ := ih (max acc i)
      refine ⟨le_trans (le_max_left _ _) h1, ?_⟩
      intro j hj
      rcases List.mem_cons.mp hj with rfl | hj
      · exact le_trans (le_max_right _ _) h1
      · exact h2 j hj
  have hmem : row.columnid ∈
      (st.mapd_columns.filter (fun row => decide (row.tableid = tableId))).map
        (fun row => row.columnid) := by
    apply List.mem_map.mpr
    exact ⟨row, List.mem_filter.mpr ⟨h, by simp [ht]⟩, rfl⟩
  unfold CatalogStore.nextColumnId at hnext
  split at hnext
  · cases hnext
  · rename_i i rest hids
    injection hnext with hnext
    rw [hids] at hmem
    obtain ⟨h1, h2⟩ := key rest i
    rcases List.mem_cons.mp hmem with heq | hmem
    · omega
    · have := h2 _ hmem
      omega

/-- The next dictionary id of a store with positive dictionary ids is positive. -/
theorem CatalogStore.nextDictId_pos (st : CatalogStore)
    (h : ∀ row ∈ st.mapd_dictionaries, 0 < row.dictid) : 0 < st.nextDictId := by
  cases hrows : st.mapd_dictionaries with
  | nil => simp [CatalogStore.nextDictId, hrows]
  | cons r rest =>
    have h1 := CatalogStore.lt_nextDictId st r (by rw [hrows]; simp)
    have h2 := h r (by rw [hrows]; simp)
    omega

/-- The column id selected after the insertion of a column and the update of
the column count is the id the column was inserted with. -/
theorem CatalogStore.selectColumnId_insertColumn (st st' : CatalogStore) (tableId colId : Int)
    (cd : ColumnDescriptor) (h : st.insertColumn tableId colId cd = .ok st') :
    (st'.addNColumns tableId).selectColumnId tableId cd.columnName = some colId ∧
    (st'.addNColumns tableId).mapd_dictionaries = st.mapd_dictionaries := by
  unfold CatalogStore.insertColumn at h
  split at h
  · cases h
  · split at h
    · cases h
    · rename_i _ hname
      injection h with h
      subst h
      refine ⟨?_, rfl⟩
      simp only [CatalogStore.selectColumnId, CatalogStore.addNColumns]
      rw [List.find?_append]
      have hnone : st.mapd_columns.find?
          (fun row => decide (row.tableid = tableId) && decide (row.name = cd.columnName)) =
          none := by
        rw [List.find?_eq_none]
        intro row hrow hp
        apply hname
        rw [List.any_eq_true]
        exact ⟨row, hrow, hp⟩
      rw [hnone]
      simp

namespace Catalog

/-- A returning `addDictionary` registers a dictionary under the next
dictionary id of the store, which becomes the `comp_param` of the column; the
column keeps its name, table, type and encoding, and the store keeps its
columns. -/
theorem addDictionary_spec (cat cat1 : Catalog) (cd cd' : ColumnDescriptor) (ref : DictRef)
    (h : cat.addDictionary cd = (.ok (cd', ref), cat1)) :
    (∃ dd st, cat1 = { cat with
        sqliteConnector_ := st,
        dictDescriptorMapByRef_ := mapAssign cat.dictDescriptorMapByRef_
          ⟨cat.currentDB_.dbId, cat.sqliteConnector_.nextDictId⟩ dd } ∧
      st.mapd_columns = cat.sqliteConnector_.mapd_columns) ∧
    cd'.columnName = cd.columnName ∧ cd'.tableId = cd.tableId ∧
    cd'.columnType.comp_param = cat.sqliteConnector_.nextDictId ∧
    cd'.columnType.type = cd.columnType.type ∧
    cd'.columnType.subtype = cd.columnType.subtype ∧
    cd'.columnType.compression = cd.columnType.compression := by
  unfold addDictionary at h
  split at h
  · cases h
  · rename_i td htd
    split at h
    · cases h
    · rename_i cd1 dds cat' hset
      unfold setColumnDictionary at hset
      simp only [if_true, List.nil_append] at hset
      split at hset
      · cases hset
      · split at hset
        · cases hset
        · injection hset with h1 h2
          injection h1 with h1
          injection h1 with h1 h3
          subst h1 h2 h3
          simp only [List.getLast?_singleton] at h
          split at h
          · cases h
          · injection h with h1 h2
            injection h1 with h1
            injection h1 with h1 h3
            subst h1 h2
            refine ⟨⟨_, _, rfl, rfl⟩, rfl, rfl, rfl, ?_, ?_, ?_⟩
            · simp only
              split <;> rfl
            · simp only
              split <;> rfl
            · simp only
              split <;> rfl

end Catalog

namespace Catalog

theorem mapFind_map_isSome {κ ν : Type} [DecidableEq κ] (m : List (κ × ν))
    (g : κ × ν → κ × ν) (hg : ∀ e, (g e).1 = e.1) (k : κ) :
    (mapFind (m.map g) k).isSome = (mapFind m k).isSome := by
  induction m with
  | nil => rfl
  | cons e rest ih =>
    have h1 := hg e
    obtain ⟨k', v'⟩ := e
    cases hge : g (k', v') with
    | mk k'' v'' =>
      rw [hge] at h1
      simp only at h1
      subst h1
      simp only [List.map_cons, hge, mapFind]
      split
      · rfl
      · exact ih

/-- `roll(false)` with one pending added column `n` whose table has a
descriptor: the call returns, `n` is erased from both column maps, the roll
list is cleared, and the dictionary under the `comp_param` of `n` is erased
when `n` is a dictionary-encoded string column with a positive `comp_param`. -/
theorem roll_backward_added (c : Catalog) (n : ColumnDescriptor)
    (hpending : c.columnDescriptorsForRoll = [(none, some n)])
    (htd : (mapFind c.tableDescriptorMapById_ n.tableId).isSome = true) :
    (∃ folders, (c.roll false).1 = .ok folders) ∧
    (c.roll false).2.columnDescriptorMap_ =
      mapErase c.columnDescriptorMap_ (n.tableId, to_upper n.columnName) ∧
    (c.roll false).2.columnDescriptorMapById_ =
      mapErase c.columnDescriptorMapById_ (n.tableId, n.columnId) ∧
    (c.roll false).2.columnDescriptorsForRoll = [] ∧
    (c.roll false).2.currentDB_ = c.currentDB_ ∧
    (c.roll false).2.dictDescriptorMapByRef_ =
      (if (n.columnType.is_string || n.columnType.is_string_array) = true ∧
          n.columnType.compression = .kENCODING_DICT ∧ n.columnType.comp_param > 0 then
        mapErase c.dictDescriptorMapByRef_ ⟨c.currentDB_.dbId, n.columnType.comp_param⟩
      else c.dictDescriptorMapByRef_) := by
  cases htd' : mapFind c.tableDescriptorMapById_ n.tableId with
  | none => rw [htd'] at htd; cases htd
  | some t =>
    unfold roll
    rw [hpending]
    simp only [roll.loop, roll.one, htd', Bool.false_eq_true, if_false, if_true,
      ne_eq, decide_True]
    unfold delDictionary
    by_cases h1 : (n.columnType.is_string || n.columnType.is_string_array) = true
    · by_cases h2 : n.columnType.compression = .kENCODING_DICT
      · by_cases h3 : n.columnType.comp_param > 0
        · simp [h1, h2, h3, htd']
        · simp [h1, h2, h3]
      · simp [h1, h2]
    · simp [h1]

end Catalog

namespace Catalog

theorem CatalogStore.nextColumnId_congr (st st' : CatalogStore) (tableId : Int)
    (h : st'.mapd_columns = st.mapd_columns) :
    st'.nextColumnId tableId = st.nextColumnId tableId := by
  unfold CatalogStore.nextColumnId
  rw [h]

/-- A returning `addColumn`: the column keeps its name, type and encoding and
gets the id of the table and the next column id of the table in the store;
its descriptor is assigned in both column maps and appended to the roll list;
a dictionary is registered, under the next dictionary id of the store, exactly
for a dictionary-encoded column, whose `comp_param` becomes that id. -/
theorem addColumn_spec (cat cat1 : Catalog) (td : TableDescriptor) (cd cd' : ColumnDescriptor)
    (h : cat.addColumn td cd = (.ok cd', cat1)) :
    cd'.tableId = td.tableId ∧ cd'.columnName = cd.columnName ∧
    cd'.columnType.type = cd.columnType.type ∧
    cd'.columnType.subtype = cd.columnType.subtype ∧
    cd'.columnType.compression = cd.columnType.compression ∧
    cat.sqliteConnector_.nextColumnId td.tableId = some cd'.columnId ∧
    cat1.columnDescriptorMap_ =
      mapAssign cat.columnDescriptorMap_ (td.tableId, to_upper cd.columnName) cd' ∧
    cat1.columnDescriptorMapById_ =
      mapAssign cat.columnDescriptorMapById_ (td.tableId, cd'.columnId) cd' ∧
    cat1.columnDescriptorsForRoll = cat.columnDescriptorsForRoll ++ [(none, some cd')] ∧
    cat1.currentDB_ = cat.currentDB_ ∧
    (mapFind cat1.tableDescriptorMapById_ td.tableId).isSome = true ∧
    (cd.columnType.compression = .kENCODING_DICT →
      cd'.columnType.comp_param = cat.sqliteConnector_.nextDictId ∧
      ∃ dd, cat1.dictDescriptorMapByRef_ = mapAssign cat.dictDescriptorMapByRef_
        ⟨cat.currentDB_.dbId, cat.sqliteConnector_.nextDictId⟩ dd) ∧
    (cd.columnType.compression ≠ .kENCODING_DICT →
      cat1.dictDescriptorMapByRef_ = cat.dictDescriptorMapByRef_) := by
  have tail : ∀ (c0 : Catalog) (cd0 : ColumnDescriptor),
      (match c0.sqliteConnector_.nextColumnId td.tableId with
        | none => (.error .check_failed, c0)
        | some colId =>
          match c0.sqliteConnector_.insertColumn td.tableId colId cd0 with
          | .error e => (.error e, c0)
          | .ok st =>
            let st := st.addNColumns td.tableId
            match st.selectColumnId td.tableId cd0.columnName with
            | none => (.error .check_failed, { c0 with sqliteConnector_ := st })
            | some columnId =>
              let cd : ColumnDescriptor := { cd0 with columnId := columnId }
              match mapFind c0.tableDescriptorMapById_ td.tableId with
              | none => (.error .check_failed, { c0 with sqliteConnector_ := st })
              | some _ =>
                let cat := c0.updateTableDescriptor td.tableId
                  (fun t => { t with nColumns := t.nColumns + 1 })
                let byName :=
                  mapAssign cat.columnDescriptorMap_ (cd.tableId, to_upper cd.columnName) cd
                let byId := mapAssign cat.columnDescriptorMapById_ (cd.tableId, cd.columnId) cd
                let pending := cat.columnDescriptorsForRoll ++ [(none, some cd)]
                ((.ok cd, { cat with
                  sqliteConnector_ := st, columnDescriptorMap_ := byName,
                  columnDescriptorMapById_ := byId, columnDescriptorsForRoll := pending }) :
                  Result ColumnDescriptor × Catalog)) = (.ok cd', cat1) →
      cd'.tableId = cd0.tableId ∧ cd'.columnName = cd0.columnName ∧
      cd'.columnType = cd0.columnType ∧
      c0.sqliteConnector_.nextColumnId td.tableId = some cd'.columnId ∧
      cat1.columnDescriptorMap_ =
        mapAssign c0.columnDescriptorMap_ (cd0.tableId, to_upper cd0.columnName) cd' ∧
      cat1.columnDescriptorMapById_ =
        mapAssign c0.columnDescriptorMapById_ (cd0.tableId, cd'.columnId) cd' ∧
      cat1.columnDescriptorsForRoll = c0.columnDescriptorsForRoll ++ [(none, some cd')] ∧
      cat1.currentDB_ = c0.currentDB_ ∧
      (mapFind cat1.tableDescriptorMapById_ td.tableId).isSome = true ∧
      cat1.dictDescriptorMapByRef_ = c0.dictDescriptorMapByRef_ := by
    intro c0 cd0 h0
    split at h0
    · cases h0
    · rename_i colId hnext
      split at h0
      · cases h0
      · rename_i st hins
        obtain ⟨hsel, _⟩ :=
          CatalogStore.selectColumnId_insertColumn _ _ _ _ _ hins
        simp only [hsel] at h0
        split at h0
        · cases h0
        · rename_i t ht
          injection h0 with h1 h2
          injection h1 with h1
          subst h1 h2
          refine ⟨rfl, rfl, rfl, hnext, rfl, rfl, rfl, rfl, ?_, rfl⟩
          simp only [updateTableDescriptor]
          rw [mapFind_map_isSome _ _ (by intro e; split <;> rfl), ht]
          rfl
  unfold addColumn at h
  simp only at h
  by_cases hdict : cd.columnType.compression = .kENCODING_DICT
  · simp only [hdict, if_true] at h
    split at h
    · cases h
    · rename_i cd1 c1 hwith
      split at hwith
      · cases hwith
      · rename_i cd2 ref c2 hadd
        injection hwith with h1 h2
        injection h1 with h1
        subst h1 h2
        obtain ⟨⟨dd, st, a1, a1'⟩, a2, a3, a4, a5, a6, a7⟩ :=
          addDictionary_spec _ _ _ _ _ hadd
        obtain ⟨t1, t2, t3, t4, t5, t6, t7, t8, t9, t10⟩ := tail _ _ h
        simp only at a2 a3 a5 a6 a7
        have hc : c2.sqliteConnector_.mapd_columns = cat.sqliteConnector_.mapd_columns := by
          rw [a1]; exact a1'
        have hn := CatalogStore.nextColumnId_congr _ _ td.tableId hc
        have hbyname : c2.columnDescriptorMap_ = cat.columnDescriptorMap_ := by rw [a1]
        have hbyid : c2.columnDescriptorMapById_ = cat.columnDescriptorMapById_ := by rw [a1]
        have hroll : c2.columnDescriptorsForRoll = cat.columnDescriptorsForRoll := by rw [a1]
        have hdb : c2.currentDB_ = cat.currentDB_ := by rw [a1]
        have hdicts : c2.dictDescriptorMapByRef_ = mapAssign cat.dictDescriptorMapByRef_
            ⟨cat.currentDB_.dbId, cat.sqliteConnector_.nextDictId⟩ dd := by rw [a1]
        refine ⟨by rw [t1, a3], by rw [t2, a2], by rw [t3, a5], by rw [t3, a6],
          by rw [t3, a7], by rw [← hn]; exact t4, ?_, ?_, by rw [t7, hroll],
          by rw [t8, hdb], t9, ?_, ?_⟩
        · rw [t5, hbyname, a3, a2]
        · rw [t6, hbyid, a3]
        · intro _
          exact ⟨by rw [t3, a4], dd, by rw [t10, hdicts]⟩
        · intro hne
          exact absurd hdict hne
  · simp only [hdict, if_false] at h
    obtain ⟨t1, t2, t3, t4, t5, t6, t7, t8, t9, t10⟩ := tail _ _ h
    refine ⟨t1, t2, by rw [t3], by rw [t3], by rw [t3], t4, t5, t6, t7, t8, t9, ?_, ?_⟩
    · intro hd
      exact absurd hd hdict
    · intro _
      exact t10

end Catalog

namespace Catalog

/-- C16, amended: let no column change be pending, let the column `cd` not be
found by name in the table `td`, let every column of `td` in the by-id map have
its row in the store, let every registered dictionary have its row in the
store, with a positive id, and let `cd`, if dictionary-encoded, be a string or
string-array column.  Whenever `addColumn td cd` returns, `roll(false)`
returns, the by-name column map, the by-id column map and the dictionary map
are as before `addColumn`, the roll list is empty, the new column is found
neither by name nor by id, and the dictionary registered for a
dictionary-encoded column is unregistered. -/
theorem addColumn_roll_backward (cat cat1 : Catalog) (td : TableDescriptor)
    (cd cd' : ColumnDescriptor)
    (hpending : cat.columnDescriptorsForRoll = [])
    (hnew : cat.getMetadataForColumn td.tableId cd.columnName = none)
    (hcols : ∀ e ∈ cat.columnDescriptorMapById_, e.1.1 = td.tableId →
      ∃ row ∈ cat.sqliteConnector_.mapd_columns,
        row.tableid = td.tableId ∧ row.columnid = e.1.2)
    (hrows : ∀ row ∈ cat.sqliteConnector_.mapd_dictionaries, 0 < row.dictid)
    (hdicts : ∀ e ∈ cat.dictDescriptorMapByRef_,
      ∃ row ∈ cat.sqliteConnector_.mapd_dictionaries, row.dictid = e.1.dictId)
    (hstring : cd.columnType.compression = .kENCODING_DICT →
      (cd.columnType.is_string || cd.columnType.is_string_array) = true)
    (hadd : cat.addColumn td cd = (.ok cd', cat1)) :
    (∃ folders, (cat1.roll false).1 = .ok folders) ∧
    (cat1.roll false).2.columnDescriptorMap_ = cat.columnDescriptorMap_ ∧
    (cat1.roll false).2.columnDescriptorMapById_ = cat.columnDescriptorMapById_ ∧
    (cat1.roll false).2.dictDescriptorMapByRef_ = cat.dictDescriptorMapByRef_ ∧
    (cat1.roll false).2.columnDescriptorsForRoll = [] ∧
    (cat1.roll false).2.getMetadataForColumn td.tableId cd.columnName = none ∧
    mapFind (cat1.roll false).2.columnDescriptorMapById_ (td.tableId, cd'.columnId) = none ∧
    (cd.columnType.compression = .kENCODING_DICT →
      (cat1.getMetadataForDict cd'.columnType.comp_param).isSome = true ∧
      (cat1.roll false).2.getMetadataForDict cd'.columnType.comp_param = none) := by
  obtain ⟨s1, s2, s3, s4, s5, s6, s7, s8, s9, s10, s11, s12, s13⟩ :=
    addColumn_spec cat cat1 td cd cd' hadd
  rw [hpending, List.nil_append] at s9
  obtain ⟨r1, r2, r3, r4, r5, r6⟩ := roll_backward_added cat1 cd' s9 (by rw [s1]; exact s11)
  unfold getMetadataForColumn at hnew
  have hfname : ∀ e ∈ cat.columnDescriptorMap_, e.1 ≠ (td.tableId, to_upper cd.columnName) :=
    fresh_of_mapFind_none _ _ hnew
  have hfid : ∀ e ∈ cat.columnDescriptorMapById_, e.1 ≠ (td.tableId, cd'.columnId) := by
    intro e he heq
    obtain ⟨row, hrow, ht, hc⟩ := hcols e he (by rw [heq])
    have := CatalogStore.lt_nextColumnId _ _ _ row hrow ht s6
    rw [hc, heq] at this
    simp only at this
    omega
  have hbyname : (cat1.roll false).2.columnDescriptorMap_ = cat.columnDescriptorMap_ := by
    rw [r2, s7, s1, s2]
    exact mapErase_mapAssign_fresh _ _ _ hfname
  have hbyid : (cat1.roll false).2.columnDescriptorMapById_ = cat.columnDescriptorMapById_ := by
    rw [r3, s8, s1]
    exact mapErase_mapAssign_fresh _ _ _ hfid
  have hstr : (cd'.columnType.is_string || cd'.columnType.is_string_array) =
      (cd.columnType.is_string || cd.columnType.is_string_array) := by
    simp only [SQLTypeInfo.is_string, SQLTypeInfo.is_string_array, s3, s4]
  have hfdict : ∀ e ∈ cat.dictDescriptorMapByRef_,
      e.1 ≠ ⟨cat.currentDB_.dbId, cat.sqliteConnector_.nextDictId⟩ := by
    intro e he heq
    obtain ⟨row, hrow, hid⟩ := hdicts e he
    have := CatalogStore.lt_nextDictId _ row hrow
    rw [hid, heq] at this
    simp only at this
    omega
  have hpos := CatalogStore.nextDictId_pos _ hrows
  have hdict : (cat1.roll false).2.dictDescriptorMapByRef_ = cat.dictDescriptorMapByRef_ := by
    rw [r6]
    by_cases hd : cd.columnType.compression = .kENCODING_DICT
    · obtain ⟨d1, dd, d2⟩ := s12 hd
      rw [if_pos ⟨by rw [hstr]; exact hstring hd, by rw [s5]; exact hd, by rw [d1]; exact hpos⟩,
        d1, d2, s10]
      exact mapErase_mapAssign_fresh _ _ _ hfdict
    · rw [if_neg (by rw [s5]; exact fun h => hd h.2.1)]
      exact s13 hd
  refine ⟨r1, hbyname, hbyid, hdict, r4, ?_, ?_, ?_⟩
  · unfold getMetadataForColumn
    rw [hbyname]
    exact hnew
  · rw [hbyid]
    cases hfind : mapFind cat.columnDescriptorMapById_ (td.tableId, cd'.columnId) with
    | none => rfl
    | some v => exact absurd rfl (hfid _ (mem_of_mapFind _ _ _ hfind))
  · intro hd
    obtain ⟨d1, dd, d2⟩ := s12 hd
    unfold getMetadataForDict
    refine ⟨?_, ?_⟩
    · rw [d2, s10, d1, mapFind_mapAssign_self]
      rfl
    · rw [hdict, r5, s10, d1]
      cases hfind : mapFind cat.dictDescriptorMapByRef_
          ⟨cat.currentDB_.dbId, cat.sqliteConnector_.nextDictId⟩ with
      | none => rfl
      | some v => exact absurd rfl (hfdict _ (mem_of_mapFind _ _ _ hfind))

end Catalog

namespace Catalog

/-- C16 on the catalog with the table `cities`: the text column `motto` is
added, with dictionary 2, and `roll(false)` returns with the column maps and
the dictionary map of the catalog as they were. -/
theorem addColumn_roll_backward_witness :
    (pendingMotto.getMetadataForDict 2).isSome = true ∧
    (pendingMotto.roll false).2.columnDescriptorMap_ = citiesCatalog.columnDescriptorMap_ ∧
    (pendingMotto.roll false).2.columnDescriptorMapById_ =
      citiesCatalog.columnDescriptorMapById_ ∧
    (pendingMotto.roll false).2.dictDescriptorMapByRef_ =
      citiesCatalog.dictDescriptorMapByRef_ ∧
    (pendingMotto.roll false).2.columnDescriptorsForRoll = [] :=
  have h := addColumn_roll_backward citiesCatalog pendingMotto
    (exampleTable 1 "cities" .DISK_LEVEL) (textColumn "motto")
    { textColumn "motto" with
      tableId := 1, columnId := 3,
      columnType := { SQLTypeInfo.ofType .kTEXT false with
                      compression := .kENCODING_DICT, comp_param := 2, size := 4 } }
    (by decide) (by decide) (by decide) (by decide) (by decide) (by decide) (by decide)
  ⟨(h.2.2.2.2.2.2.2 (by decide)).1, h.2.1, h.2.2.1, h.2.2.2.1, h.2.2.2.2.1⟩

/-- C16 as stated fails in the catalog with the table `cities` in which the
added column `motto` is pending: `addColumn` of the new text column `nick`
followed by `roll(false)` returns, and the column `motto`, found by name and
by id before `addColumn`, is found no more, and its dictionary 2, registered
before `addColumn`, is unregistered. -/
theorem addColumn_roll_backward_counterexample :
    pendingMotto.getMetadataForColumn 1 "nick" = none ∧
    (∃ cd', (pendingMotto.addColumn (exampleTable 1 "cities" .DISK_LEVEL)
      (textColumn "nick")).1 = .ok cd') ∧
    (∃ folders, ((pendingMotto.addColumn (exampleTable 1 "cities" .DISK_LEVEL)
      (textColumn "nick")).2.roll false).1 = .ok folders) ∧
    (pendingMotto.getMetadataForColumn 1 "motto").isSome = true ∧
    ((pendingMotto.addColumn (exampleTable 1 "cities" .DISK_LEVEL)
      (textColumn "nick")).2.roll false).2.getMetadataForColumn 1 "motto" = none ∧
    ((pendingMotto.addColumn (exampleTable 1 "cities" .DISK_LEVEL)
      (textColumn "nick")).2.roll false).2.columnDescriptorMap_ ≠
        pendingMotto.columnDescriptorMap_ ∧
    ((pendingMotto.addColumn (exampleTable 1 "cities" .DISK_LEVEL)
      (textColumn "nick")).2.roll false).2.columnDescriptorMapById_ ≠
        pendingMotto.columnDescriptorMapById_ ∧
    (pendingMotto.getMetadataForDict 2).isSome = true ∧
    ((pendingMotto.addColumn (exampleTable 1 "cities" .DISK_LEVEL)
      (textColumn "nick")).2.roll false).2.getMetadataForDict 2 = none := by
  refine ⟨by decide, ⟨_, rfl⟩, ⟨_, rfl⟩, by decide, by decide, by decide, by decide, by decide,
    by decide⟩

end Catalog

/-! ## Commit and cancel of an update -/

namespace Fragmenter_Namespace

/-- C19: `cancelUpdate` returns the state with its catalog, fragmenters (the
chunk-metadata maps and tuple counts of every fragment, shadow and physical),
buffers and dictionaries as they were, and the roll with its metadata maps as
they were.  With no catalog set it does nothing at all.  With the catalog set
and the logical table found, it asks the storage manager to free the buffer of
each dirty chunk, in order, and nulls the buffer handle of each, when the
persistence level of the table differs from the memory level of the roll, and
otherwise it does nothing at all. -/
theorem cancelUpdate_frees_buffers {β δ : Type} (s : UpdelState β δ) (updelRoll : UpdelRoll) :
    ((updelRoll.cancelUpdate s).2.1.catalog = s.catalog ∧
      (updelRoll.cancelUpdate s).2.1.fragmenters = s.fragmenters ∧
      (updelRoll.cancelUpdate s).2.1.buffers = s.buffers ∧
      (updelRoll.cancelUpdate s).2.1.stringDicts = s.stringDicts ∧
      (updelRoll.cancelUpdate s).2.2.chunkMetadata = updelRoll.chunkMetadata ∧
      (updelRoll.cancelUpdate s).2.2.numTuples = updelRoll.numTuples) ∧
    (updelRoll.catalog = false → updelRoll.cancelUpdate s = (.ok (), s, updelRoll)) ∧
    (∀ td, updelRoll.catalog = true →
      s.catalog.getMetadataForTable updelRoll.logicalTableId = some td →
      (td.persistenceLevel ≠ updelRoll.memoryLevel →
        (updelRoll.cancelUpdate s).1 = .ok () ∧
        (updelRoll.cancelUpdate s).2.1.calls =
          s.calls ++ updelRoll.dirtyChunks.map (fun dit => DataMgrCall.free dit.buffer) ∧
        (updelRoll.cancelUpdate s).2.2.dirtyChunks =
          updelRoll.dirtyChunks.map (fun dit => { dit with buffer := none })) ∧
      (td.persistenceLevel = updelRoll.memoryLevel →
        updelRoll.cancelUpdate s = (.ok (), s, updelRoll))) := by
  refine ⟨?_, ?_, ?_⟩
  · unfold UpdelRoll.cancelUpdate
    split
    · exact ⟨rfl, rfl, rfl, rfl, rfl, rfl⟩
    · split
      · exact ⟨rfl, rfl, rfl, rfl, rfl, rfl⟩
      · split <;> exact ⟨rfl, rfl, rfl, rfl, rfl, rfl⟩
  · intro h
    simp [UpdelRoll.cancelUpdate, h]
  · intro td hcat htd
    refine ⟨fun hne => ?_, fun heq => ?_⟩
    · simp [UpdelRoll.cancelUpdate, hcat, htd, hne]
    · simp [UpdelRoll.cancelUpdate, hcat, htd, heq]

/-- C19 on the update of the spec's scenario, made at the CPU level on the
durable table `t1`: `cancelUpdate` frees the buffer of the one dirty chunk,
nulls its handle and leaves the fragment as it was. -/
theorem cancelUpdate_frees_buffers_witness :
    ((t1Update 2).2.2.cancelUpdate (t1Update 2).2.1).2.1.calls = [.free (some [1, 1, 1, 0])] ∧
    ((t1Update 2).2.2.cancelUpdate (t1Update 2).2.1).2.2.dirtyChunks =
      [{ key := [1, 1, 1, 0], buffer := none }] ∧
    ((t1Update 2).2.2.cancelUpdate (t1Update 2).2.1).2.1.fragmenters 1 =
      t1State.fragmenters 1 :=
  have h := cancelUpdate_frees_buffers (t1Update 2).2.1 (t1Update 2).2.2
  have h2 := (h.2.2 (exampleTable 1 "t1" .DISK_LEVEL) (by decide) (by decide)).1 (by decide)
  ⟨by rw [h2.2.1]; decide, by rw [h2.2.2]; decide, by rw [h.1.2.1]; decide⟩

end Fragmenter_Namespace

namespace Fragmenter_Namespace

theorem FragmentInfo.find_updateFirst (f : FragmentInfo → FragmentInfo)
    (hf : ∀ x, (f x).fragmentId = x.fragmentId) (fragmentId other : Int)
    (l : List FragmentInfo) :
    (FragmentInfo.updateFirst f fragmentId l).find? (fun x => x.fragmentId == other) =
      if other = fragmentId then (l.find? (fun x => x.fragmentId == other)).map f
      else l.find? (fun x => x.fragmentId == other) := by
  induction l with
  | nil => simp [FragmentInfo.updateFirst]
  | cons x rest ih =>
    simp only [FragmentInfo.updateFirst]
    by_cases hx : x.fragmentId = fragmentId
    · have hx' : (x.fragmentId == fragmentId) = true := by simpa using hx
      simp only [hx', if_true, List.find?_cons, hf]
      by_cases ho : other = fragmentId
      · subst ho
        simp [hx']
      · have h1 : (x.fragmentId == other) = false := by
          rw [hx]
          simpa using fun h => ho h.symm
        simp [ho, h1]
    · have hx' : (x.fragmentId == fragmentId) = false := by simpa using hx
      simp only [hx', Bool.false_eq_true, if_false, List.find?_cons]
      rw [ih]
      by_cases ho : other = fragmentId
      · subst ho
        simp [hx']
      · simp [ho]

/-- The fragment that a pointer points to after the fragment of `ptr` was
changed by a function that keeps the fragment id. -/
theorem UpdelState.fragment_setFragment {β δ : Type} (s : UpdelState β δ) (ptr other : Int × Int)
    (f : FragmentInfo → FragmentInfo) (hf : ∀ x, (f x).fragmentId = x.fragmentId) :
    (s.setFragment ptr f).fragment other =
      if other = ptr then (s.fragment other).map f else s.fragment other := by
  obtain ⟨t, i⟩ := ptr
  obtain ⟨t', i'⟩ := other
  simp only [UpdelState.fragment, UpdelState.setFragment]
  by_cases ht : t' = t
  · subst ht
    simp only [if_true]
    rw [FragmentInfo.find_updateFirst f hf]
    by_cases hi : i' = i
    · simp [hi]
    · simp [hi]
  · have : ¬ (t', i') = (t, i) := fun h => ht (by injection h)
    simp [ht, this]


/-- `updateMetadata` for a key recorded in the roll: the fragment of the key
takes the map and the count of the roll, every other fragment, the catalog,
the buffers, the dictionaries and the calls stay, and so do the metadata map
of the roll and the tuple count that it gives for every key. -/
theorem updateMetadata_spec {β δ : Type} (s : UpdelState β δ) (key : MetaDataKey)
    (updelRoll : UpdelRoll) :
    (updateMetadata s key updelRoll).1.catalog = s.catalog ∧
    (updateMetadata s key updelRoll).1.buffers = s.buffers ∧
    (updateMetadata s key updelRoll).1.stringDicts = s.stringDicts ∧
    (updateMetadata s key updelRoll).1.calls = s.calls ∧
    (∀ t, t ≠ key.2.1 →
      (updateMetadata s key updelRoll).1.fragmenters t = s.fragmenters t) ∧
    (∀ t, ((updateMetadata s key updelRoll).1.fragmenters t).shard_ = (s.fragmenters t).shard_) ∧
    (updateMetadata s key updelRoll).2.catalog = updelRoll.catalog ∧
    (updateMetadata s key updelRoll).2.logicalTableId = updelRoll.logicalTableId ∧
    (updateMetadata s key updelRoll).2.memoryLevel = updelRoll.memoryLevel ∧
    (updateMetadata s key updelRoll).2.dirtyChunks = updelRoll.dirtyChunks ∧
    (updateMetadata s key updelRoll).2.dirtyChunkeys = updelRoll.dirtyChunkeys ∧
    (updateMetadata s key updelRoll).2.chunkMetadata = updelRoll.chunkMetadata ∧
    (∀ k, (mapFind (updateMetadata s key updelRoll).2.numTuples k).getD 0 =
      (mapFind updelRoll.numTuples k).getD 0) ∧
    (∀ ptr, ptr ≠ key.2 →
      (updateMetadata s key updelRoll).1.fragment ptr = s.fragment ptr) ∧
    (∀ m, mapFind updelRoll.chunkMetadata key = some m →
      (updateMetadata s key updelRoll).1.fragment key.2 =
        (s.fragment key.2).map
          (FragmentInfo.committed m ((mapFind updelRoll.numTuples key).getD 0))) ∧
    (mapFind updelRoll.chunkMetadata key = none →
      (updateMetadata s key updelRoll).1.fragment key.2 = s.fragment key.2) := by
  unfold updateMetadata
  cases hm : mapFind updelRoll.chunkMetadata key with
  | none =>
    refine ⟨rfl, rfl, rfl, rfl, fun _ _ => rfl, fun _ => rfl, rfl, rfl, rfl, rfl, rfl, rfl,
      fun _ => rfl, fun _ _ => rfl, ?_, fun _ => rfl⟩
    intro m h
    cases h
  | some m =>
    have hkeep : ∀ x : FragmentInfo, ∀ n,
        ({ x with shadowChunkMetadataMap := m, chunkMetadataMap := m,
                  shadowNumTuples := n, physicalNumTuples := n } : FragmentInfo).fragmentId =
          x.fragmentId := fun _ _ => rfl
    have hcount : ∀ k, (mapFind (match mapFind updelRoll.numTuples key with
          | none => { updelRoll with numTuples := mapAssign updelRoll.numTuples key 0 }
          | some _ => updelRoll).numTuples k).getD 0 =
        (mapFind updelRoll.numTuples k).getD 0 := by
      intro k
      cases hn : mapFind updelRoll.numTuples key with
      | some n => rfl
      | none =>
        by_cases hk : k = key
        · subst hk
          show (mapFind (mapAssign updelRoll.numTuples k 0) k).getD 0 = _
          rw [mapFind_mapAssign_self, hn]
          rfl
        · show (mapFind (mapAssign updelRoll.numTuples key 0) k).getD 0 = _
          rw [mapFind_mapAssign_ne _ _ _ _ hk]
    have hroll : ∀ (P : UpdelRoll → Prop), P updelRoll →
        (∀ l, P { updelRoll with numTuples := l }) →
        P (match mapFind updelRoll.numTuples key with
          | none => { updelRoll with numTuples := mapAssign updelRoll.numTuples key 0 }
          | some _ => updelRoll) := by
      intro P h1 h2
      cases mapFind updelRoll.numTuples key with
      | none => exact h2 _
      | some _ => exact h1
    refine ⟨rfl, rfl, rfl, rfl, ?_, ?_, ?_, ?_, ?_, ?_, ?_, ?_, hcount, ?_, ?_, ?_⟩
    · intro t ht
      simp [UpdelState.setFragment, ht]
    · intro t
      simp only [UpdelState.setFragment]
      split <;> rfl
    · exact hroll (fun r => r.catalog = updelRoll.catalog) rfl (fun _ => rfl)
    · exact hroll (fun r => r.logicalTableId = updelRoll.logicalTableId) rfl (fun _ => rfl)
    · exact hroll (fun r => r.memoryLevel = updelRoll.memoryLevel) rfl (fun _ => rfl)
    · exact hroll (fun r => r.dirtyChunks = updelRoll.dirtyChunks) rfl (fun _ => rfl)
    · exact hroll (fun r => r.dirtyChunkeys = updelRoll.dirtyChunkeys) rfl (fun _ => rfl)
    · exact hroll (fun r => r.chunkMetadata = updelRoll.chunkMetadata) rfl (fun _ => rfl)
    · intro ptr hptr
      show (UpdelState.setFragment s key.2 _).fragment ptr = _
      rw [UpdelState.fragment_setFragment _ _ _ _ (fun x => hkeep x _)]
      simp [hptr]
    · intro m' hm'
      injection hm' with hm'
      subst hm'
      show (UpdelState.setFragment s key.2 _).fragment key.2 = _
      rw [UpdelState.fragment_setFragment _ _ _ _ (fun x => hkeep x _)]
      simp only [if_true]
      congr 1
      funext x
      unfold FragmentInfo.committed
      cases hn : mapFind updelRoll.numTuples key with
      | some n => simp [hn]
      | none => simp [hn, mapFind_mapAssign_self]
    · intro h
      cases h

end Fragmenter_Namespace

namespace Fragmenter_Namespace

/-- The loop of `commitUpdate` over keys that name pairwise distinct
fragments, when it returns: the fragment of every key recorded in the roll
takes the map and the count of the roll, the other fragments stay, and so do
the rest of the state and what the roll holds. -/
theorem UpdelRoll.commitUpdate.loop_fragments {β δ : Type} (keys : List MetaDataKey) :
    ∀ (s s' : UpdelState β δ) (updelRoll updelRoll' : UpdelRoll),
      UpdelRoll.commitUpdate.loop keys s updelRoll = (.ok (), s', updelRoll') →
      (keys.map (fun k => k.2)).Nodup →
      (s'.catalog = s.catalog ∧ s'.buffers = s.buffers ∧ s'.stringDicts = s.stringDicts ∧
        s'.calls = s.calls) ∧
      (∀ t, (∀ k ∈ keys, k.2.1 ≠ t) → s'.fragmenters t = s.fragmenters t) ∧
      (∀ t, (s'.fragmenters t).shard_ = (s.fragmenters t).shard_) ∧
      (updelRoll'.catalog = updelRoll.catalog ∧
        updelRoll'.logicalTableId = updelRoll.logicalTableId ∧
        updelRoll'.memoryLevel = updelRoll.memoryLevel ∧
        updelRoll'.dirtyChunks = updelRoll.dirtyChunks ∧
        updelRoll'.dirtyChunkeys = updelRoll.dirtyChunkeys ∧
        updelRoll'.chunkMetadata = updelRoll.chunkMetadata) ∧
      (∀ k, (mapFind updelRoll'.numTuples k).getD 0 = (mapFind updelRoll.numTuples k).getD 0) ∧
      (∀ ptr, (∀ k ∈ keys, k.2 ≠ ptr) → s'.fragment ptr = s.fragment ptr) ∧
      (∀ k ∈ keys, ∀ m, mapFind updelRoll.chunkMetadata k = some m →
        s'.fragment k.2 = (s.fragment k.2).map
          (FragmentInfo.committed m ((mapFind updelRoll.numTuples k).getD 0))) := by
  induction keys with
  | nil =>
    intro s s' updelRoll updelRoll' h _
    simp only [UpdelRoll.commitUpdate.loop] at h
    injection h with _ h
    injection h with h1 h2
    subst h1 h2
    refine ⟨⟨rfl, rfl, rfl, rfl⟩, fun _ _ => rfl, fun _ => rfl, ⟨rfl, rfl, rfl, rfl, rfl, rfl⟩,
      fun _ => rfl, fun _ _ => rfl, ?_⟩
    intro k hk
    simp at hk
  | cons key rest ih =>
    intro s s' updelRoll updelRoll' h hnodup
    simp only [UpdelRoll.commitUpdate.loop] at h
    split at h
    · cases h
    · simp only [List.map_cons, List.nodup_cons] at hnodup
      obtain ⟨hhead, hrest⟩ := hnodup
      obtain ⟨⟨a1, a2, a3, a4⟩, a5, a6, ⟨b1, b2, b3, b4, b5, b6⟩, a7, a8, a9⟩ := ih _ _ _ _ h hrest
      obtain ⟨u1, u2, u3, u4, u5, u6, u7, u8, u9, u10, u11, u12, u13, u14, u15, _⟩ :=
        updateMetadata_spec s key updelRoll
      have hfresh : ∀ k ∈ rest, k.2 ≠ key.2 := by
        intro k hk heq
        exact hhead (List.mem_map.mpr ⟨k, hk, heq⟩)
      refine ⟨⟨by rw [a1, u1], by rw [a2, u2], by rw [a3, u3], by rw [a4, u4]⟩, ?_, ?_,
        ⟨by rw [b1, u7], by rw [b2, u8], by rw [b3, u9], by rw [b4, u10], by rw [b5, u11],
          by rw [b6, u12]⟩, ?_, ?_, ?_⟩
      · intro t ht
        rw [a5 t (fun k hk => ht k (List.mem_cons_of_mem _ hk)),
          u5 t (fun h => ht key (List.mem_cons_self _ _) h.symm)]
      · intro t
        rw [a6 t, u6 t]
      · intro k
        rw [a7 k, u13 k]
      · intro ptr hptr
        rw [a8 ptr (fun k hk => hptr k (List.mem_cons_of_mem _ hk)),
          u14 ptr (fun h => hptr key (List.mem_cons_self _ _) h.symm)]
      · intro k hk m hm
        rcases List.mem_cons.mp hk with rfl | hk
        · rw [a8 k.2 hfresh]
          exact u15 m hm
        · have hne : k.2 ≠ key.2 := hfresh k hk
          have := a9 k hk m (by rw [u12]; exact hm)
          rw [this, u14 k.2 hne, u13 k]

end Fragmenter_Namespace

theorem mapFind_of_mem_nodup {κ ν : Type} [DecidableEq κ] (m : List (κ × ν)) (e : κ × ν)
    (hmem : e ∈ m) (hnodup : (m.map (fun x => x.1)).Nodup) : mapFind m e.1 = some e.2 := by
  induction m with
  | nil => simp at hmem
  | cons x rest ih =>
    obtain ⟨k, v⟩ := x
    simp only [List.map_cons, List.nodup_cons] at hnodup
    simp only [mapFind]
    rcases List.mem_cons.mp hmem with rfl | hmem
    · simp
    · have hne : k ≠ e.1 := by
        intro h
        exact hnodup.1 (List.mem_map.mpr ⟨e, hmem, h.symm⟩)
      simp only [hne, if_false]
      exact ih hmem hnodup.2

namespace Catalog

theorem checkpoint.loop_length (db_id : Int) (shards : List (Option Int)) :
    ∀ calls, checkpoint.loop db_id shards = .ok calls → calls.length = shards.length := by
  induction shards with
  | nil =>
    intro calls h
    simp only [checkpoint.loop] at h
    injection h with h
    subst h
    rfl
  | cons x rest ih =>
    intro calls h
    cases x with
    | none => simp [checkpoint.loop] at h
    | some t =>
      simp only [checkpoint.loop] at h
      split at h
      · cases h
      · rename_i calls' hrest
        injection h with h
        subst h
        simp [ih _ hrest]

/-- A returning `checkpoint` asks for the checkpoint of one table at least. -/
theorem checkpoint_nonempty (cat : Catalog) (logicalTableId : Int) (calls : List (Int × Int))
    (h : cat.checkpoint logicalTableId = .ok calls) : calls ≠ [] := by
  unfold checkpoint at h
  split at h
  · cases h
  · rename_i td _
    split at h
    · cases h
    · rename_i shards hshards
      have hlen := checkpoint.loop_length _ _ _ h
      unfold getPhysicalTablesDescriptors at hshards
      split at hshards
      · injection hshards with hshards
        subst hshards
        intro hnil
        rw [hnil] at hlen
        simp at hlen
      · rename_i ids _
        split at hshards
        · cases hshards
        · rename_i hne
          injection hshards with hshards
          subst hshards
          intro hnil
          rw [hnil] at hlen
          simp only [List.length_nil, List.length_map] at hlen
          have : ids = [] := List.length_eq_zero.mp hlen.symm
          rw [this] at hne
          simp at hne

end Catalog

namespace Fragmenter_Namespace

/-- C18: let the roll have its catalog set, and let the keys of its metadata
map name pairwise distinct fragments.  Whenever `commitUpdate` returns, the
dirty-chunk map of the roll is empty and its metadata map is as before; every
fragment named by a key of the roll has the map of the roll for that key as
its shadow and its physical chunk-metadata map and the tuple count of the roll
for that key (0 when the roll has none) as its shadow and its physical count;
every fragment that no key names, and every fragmenter without such a fragment,
is unchanged, as are the catalog and the buffers; the storage manager was asked
to checkpoint the tables of the logical table, one at least, exactly when the
table is durable, and then to drop the GPU copies of the dirty chunk keys
unless the update was made on the GPU.  A roll without catalog is committed
with no effect at all. -/
theorem commitUpdate_writes_back {β δ : Type} (s s' : UpdelState β δ)
    (updelRoll updelRoll' : UpdelRoll)
    (hcat : updelRoll.catalog = true)
    (hnodup : (updelRoll.chunkMetadata.map (fun cm => cm.1.2)).Nodup)
    (hrun : updelRoll.commitUpdate s = (.ok (), s', updelRoll')) :
    updelRoll'.dirtyChunks = [] ∧
    updelRoll'.chunkMetadata = updelRoll.chunkMetadata ∧
    (∀ cm ∈ updelRoll.chunkMetadata, ∀ f, s.fragment cm.1.2 = some f →
      (mapFind updelRoll'.numTuples cm.1).getD 0 = (mapFind updelRoll.numTuples cm.1).getD 0 ∧
      ∃ f', s'.fragment cm.1.2 = some f' ∧ f'.fragmentId = f.fragmentId ∧
        f'.shadowChunkMetadataMap = cm.2 ∧ f'.chunkMetadataMap = cm.2 ∧
        f'.shadowNumTuples = (mapFind updelRoll.numTuples cm.1).getD 0 ∧
        f'.physicalNumTuples = (mapFind updelRoll.numTuples cm.1).getD 0) ∧
    (∀ ptr, (∀ cm ∈ updelRoll.chunkMetadata, cm.1.2 ≠ ptr) →
      s'.fragment ptr = s.fragment ptr) ∧
    (∀ t, (∀ cm ∈ updelRoll.chunkMetadata, cm.1.2.1 ≠ t) →
      s'.fragmenters t = s.fragmenters t) ∧
    (s'.catalog = s.catalog ∧ s'.buffers = s.buffers) ∧
    (∃ td, s.catalog.getMetadataForTable updelRoll.logicalTableId = some td ∧
      (td.persistenceLevel = .DISK_LEVEL →
        ∃ tables, s.catalog.checkpoint updelRoll.logicalTableId = .ok tables ∧ tables ≠ [] ∧
          s'.calls = s.calls ++ tables.map (fun t => DataMgrCall.checkpoint t.1 t.2) ++
            (if updelRoll.memoryLevel ≠ .GPU_LEVEL then
              updelRoll.dirtyChunkeys.map
                (fun chunkey => DataMgrCall.deleteChunksWithPrefix chunkey .GPU_LEVEL)
            else [])) ∧
      (td.persistenceLevel ≠ .DISK_LEVEL →
        s'.calls = s.calls ++
          (if updelRoll.memoryLevel ≠ .GPU_LEVEL then
            updelRoll.dirtyChunkeys.map
              (fun chunkey => DataMgrCall.deleteChunksWithPrefix chunkey .GPU_LEVEL)
          else []))) ∧
    (∀ (s0 : UpdelState β δ) (roll0 : UpdelRoll), roll0.catalog = false →
      roll0.commitUpdate s0 = (.ok (), s0, roll0)) := by
  have hkeys : (updelRoll.chunkMetadata.map (fun cm => cm.1)).Nodup := by
    have h := hnodup
    rw [show (fun cm : MetaDataKey × List (Int × ChunkMetadata) => cm.1.2) =
      (fun k : MetaDataKey => k.2) ∘ (fun cm => cm.1) from rfl, ← List.map_map] at h
    exact List.Nodup.of_map _ h
  have hptrs : ((updelRoll.chunkMetadata.map (fun cm => cm.1)).map (fun k => k.2)).Nodup := by
    rw [List.map_map]
    exact hnodup
  have last : ∀ (s0 : UpdelState β δ) (roll0 : UpdelRoll), roll0.catalog = false →
      roll0.commitUpdate s0 = (.ok (), s0, roll0) := by
    intro s0 roll0 h0
    simp [UpdelRoll.commitUpdate, h0]
  unfold UpdelRoll.commitUpdate at hrun
  simp only [hcat, Bool.not_true, Bool.false_eq_true, if_false] at hrun
  split at hrun
  · cases hrun
  · rename_i td htd
    have body : ∀ (calls : List DataMgrCall),
        (match UpdelRoll.commitUpdate.loop (updelRoll.chunkMetadata.map (fun cm => cm.1))
            { s with calls := s.calls ++ calls } updelRoll with
          | (.error e, s, updelRoll) => ((.error e, s, updelRoll) :
              Result Unit × UpdelState β δ × UpdelRoll)
          | (.ok _, s, updelRoll) =>
            let updelRoll := { updelRoll with dirtyChunks := [] }
            let flushed : List DataMgrCall :=
              if updelRoll.memoryLevel ≠ .GPU_LEVEL then
                updelRoll.dirtyChunkeys.map
                  (fun chunkey => DataMgrCall.deleteChunksWithPrefix chunkey .GPU_LEVEL)
              else []
            (.ok (), { s with calls := s.calls ++ flushed }, updelRoll)) =
          (.ok (), s', updelRoll') →
        updelRoll'.dirtyChunks = [] ∧
        updelRoll'.chunkMetadata = updelRoll.chunkMetadata ∧
        (∀ cm ∈ updelRoll.chunkMetadata, ∀ f, s.fragment cm.1.2 = some f →
          (mapFind updelRoll'.numTuples cm.1).getD 0 =
            (mapFind updelRoll.numTuples cm.1).getD 0 ∧
          ∃ f', s'.fragment cm.1.2 = some f' ∧ f'.fragmentId = f.fragmentId ∧
            f'.shadowChunkMetadataMap = cm.2 ∧ f'.chunkMetadataMap = cm.2 ∧
            f'.shadowNumTuples = (mapFind updelRoll.numTuples cm.1).getD 0 ∧
            f'.physicalNumTuples = (mapFind updelRoll.numTuples cm.1).getD 0) ∧
        (∀ ptr, (∀ cm ∈ updelRoll.chunkMetadata, cm.1.2 ≠ ptr) →
          s'.fragment ptr = s.fragment ptr) ∧
        (∀ t, (∀ cm ∈ updelRoll.chunkMetadata, cm.1.2.1 ≠ t) →
          s'.fragmenters t = s.fragmenters t) ∧
        (s'.catalog = s.catalog ∧ s'.buffers = s.buffers) ∧
        s'.calls = s.calls ++ calls ++
          (if updelRoll.memoryLevel ≠ .GPU_LEVEL then
            updelRoll.dirtyChunkeys.map
              (fun chunkey => DataMgrCall.deleteChunksWithPrefix chunkey .GPU_LEVEL)
          else []) := by
      intro calls h
      split at h
      · cases h
      · rename_i s1 roll1 hloop
        obtain ⟨⟨a1, a2, _, a4⟩, a5, _, ⟨_, _, b3, _, b5, b6⟩, a7, a8, a9⟩ :=
          UpdelRoll.commitUpdate.loop_fragments _ _ _ _ _ hloop hptrs
        injection h with _ h
        injection h with h1 h2
        subst h1 h2
        refine ⟨rfl, b6, ?_, ?_, ?_, ⟨a1, a2⟩, ?_⟩
        · intro cm hcm f hf
          have hfind := mapFind_of_mem_nodup _ cm hcm hkeys
          have hfrag := a9 cm.1 (List.mem_map.mpr ⟨cm, hcm, rfl⟩) cm.2 hfind
          refine ⟨a7 cm.1, FragmentInfo.committed cm.2
            ((mapFind updelRoll.numTuples cm.1).getD 0) f, ?_, rfl, rfl, rfl, rfl, rfl⟩
          show s1.fragment cm.1.2 = _
          rw [hfrag]
          show Option.map _ (s.fragment cm.1.2) = _
          rw [hf]
          rfl
        · intro ptr hptr
          show s1.fragment ptr = _
          rw [a8 ptr]
          · rfl
          · intro k hk
            obtain ⟨cm, hcm, rfl⟩ := List.mem_map.mp hk
            exact hptr cm hcm
        · intro t ht
          show s1.fragmenters t = _
          rw [a5 t]
          intro k hk
          obtain ⟨cm, hcm, rfl⟩ := List.mem_map.mp hk
          exact ht cm hcm
        · show s1.calls ++ _ = _
          rw [a4, b3, b5]
    refine ⟨?_, ?_, ?_, ?_, ?_, ?_, ⟨td, htd, ?_, ?_⟩, last⟩
    all_goals
      by_cases hdisk : td.persistenceLevel = .DISK_LEVEL
      · simp only [hdisk, if_true] at hrun
        split at hrun
        · cases hrun
        · rename_i calls hcheck
          split at hcheck
          · cases hcheck
          · rename_i tables htables
            injection hcheck with hcheck
            subst hcheck
            obtain ⟨c1, c2, c3, c4, c5, c6, c7⟩ := body _ hrun
            first
              | exact c1
              | exact c2
              | exact c3
              | exact c4
              | exact c5
              | exact c6
              | exact fun _ => ⟨tables, htables, Catalog.checkpoint_nonempty _ _ _ htables, c7⟩
              | exact fun h => absurd hdisk h
      · simp only [hdisk, if_false] at hrun
        obtain ⟨c1, c2, c3, c4, c5, c6, c7⟩ := body _ hrun
        first
          | exact c1
          | exact c2
          | exact c3
          | exact c4
          | exact c5
          | exact c6
          | exact fun h => absurd h hdisk
          | exact fun _ => by rw [c7, List.append_nil]

end Fragmenter_Namespace

namespace Fragmenter_Namespace

/-- C18 on the update of the spec's scenario: after the commit, the roll has no
dirty chunk, fragment 0 of the table `t1` has the bounds -1 and 100 for the
column `a` in its physical and in its shadow map, and the storage manager was
asked for a checkpoint of the table and to drop the GPU copies of the chunk. -/
theorem commitUpdate_writes_back_witness :
    ((t1Update 2).2.2.commitUpdate (t1Update 2).2.1).2.2.dirtyChunks = [] ∧
    ((((t1Update 2).2.2.commitUpdate (t1Update 2).2.1).2.1.fragment (1, 0)).map
      (fun f => ((mapFind f.chunkMetadataMap 1).map (fun m => m.chunkStats),
        (mapFind f.shadowChunkMetadataMap 1).map (fun m => m.chunkStats)))) =
      some (some ⟨-1, 100, false⟩, some ⟨-1, 100, false⟩) ∧
    ((t1Update 2).2.2.commitUpdate (t1Update 2).2.1).2.1.calls =
      [.checkpoint 1 1, .deleteChunksWithPrefix [1, 1, 1, 0] .GPU_LEVEL] :=
  have h := commitUpdate_writes_back (t1Update 2).2.1
    ((t1Update 2).2.2.commitUpdate (t1Update 2).2.1).2.1 (t1Update 2).2.2
    ((t1Update 2).2.2.commitUpdate (t1Update 2).2.1).2.2 (by decide) (by decide)
    (Prod.ext (by decide) rfl)
  ⟨h.1, by decide, by decide⟩

end Fragmenter_Namespace

/-! ## The workers of an update -/

namespace Fragmenter_Namespace

variable {β δ : Type}

end Fragmenter_Namespace

namespace Fragmenter_Namespace

variable {β δ : Type}

end Fragmenter_Namespace

namespace Fragmenter_Namespace

variable {β δ : Type}

end Fragmenter_Namespace

namespace Fragmenter_Namespace

end Fragmenter_Namespace

/-! ## The statistics of an update -/

theorem foldl_min_init (l : List Int) : ∀ (a b : Int),
    l.foldl (fun acc x => min acc x) (min a b) = min (l.foldl (fun acc x => min acc x) a) b := by
  induction l with
  | nil => intro a b; rfl
  | cons x rest ih =>
    intro a b
    simp only [List.foldl_cons]
    rw [show min (min a b) x = min (min a x) b from by rw [min_assoc, min_comm b x, ← min_assoc]]
    exact ih _ _

theorem foldl_max_init (l : List Int) : ∀ (a b : Int),
    l.foldl (fun acc x => max acc x) (max a b) = max (l.foldl (fun acc x => max acc x) a) b := by
  induction l with
  | nil => intro a b; rfl
  | cons x rest ih =>
    intro a b
    simp only [List.foldl_cons]
    rw [show max (max a b) x = max (max a x) b from by rw [max_assoc, max_comm b x, ← max_assoc]]
    exact ih _ _

/-- The least of a slot vector after a value has been offered to one of its
slots is the lesser of the least before and the value. -/
theorem foldl_min_modify (x : Int) (l : List Int) : ∀ (c : Nat) (a : Int), c < l.length →
    (l.modify (fun m => if x < m then x else m) c).foldl (fun acc y => min acc y) a =
      min (l.foldl (fun acc y => min acc y) a) x := by
  induction l with
  | nil => intro c a h; simp at h
  | cons y rest ih =>
    intro c a h
    cases c with
    | zero =>
      rw [List.modify_zero_cons]
      simp only [List.foldl_cons]
      have : (if x < y then x else y) = min y x := by
        rw [min_def]
        split <;> split <;> omega
      rw [this, ← min_assoc]
      exact foldl_min_init rest _ _
    | succ c =>
      simp only [List.modify_succ_cons, List.foldl_cons]
      exact ih c _ (by simpa using h)

theorem foldl_max_modify (x : Int) (l : List Int) : ∀ (c : Nat) (a : Int), c < l.length →
    (l.modify (fun m => if x > m then x else m) c).foldl (fun acc y => max acc y) a =
      max (l.foldl (fun acc y => max acc y) a) x := by
  induction l with
  | nil => intro c a h; simp at h
  | cons y rest ih =>
    intro c a h
    cases c with
    | zero =>
      rw [List.modify_zero_cons]
      simp only [List.foldl_cons]
      have : (if x > y then x else y) = max y x := by
        rw [max_def]
        split <;> split <;> omega
      rw [this, ← max_assoc]
      exact foldl_max_init rest _ _
    | succ c =>
      simp only [List.modify_succ_cons, List.foldl_cons]
      exact ih c _ (by simpa using h)

theorem foldl_min_replicate (n : Nat) (a : Int) :
    (List.replicate n a).foldl (fun acc x => min acc x) a = a := by
  induction n with
  | zero => rfl
  | succ n ih => simp [List.replicate_succ, ih]

theorem foldl_max_replicate (n : Nat) (a : Int) :
    (List.replicate n a).foldl (fun acc x => max acc x) a = a := by
  induction n with
  | zero => rfl
  | succ n ih => simp [List.replicate_succ, ih]

theorem foldl_min_spec (l : List Int) : ∀ (b : Int),
    l.foldl (fun acc x => min acc x) b ≤ b ∧
    (∀ x ∈ l, l.foldl (fun acc x => min acc x) b ≤ x) ∧
    (l.foldl (fun acc x => min acc x) b = b ∨ l.foldl (fun acc x => min acc x) b ∈ l) := by
  induction l with
  | nil => intro b; simp
  | cons u l ih =>
    intro b
    simp only [List.foldl_cons]
    obtain ⟨k1, k2, k3⟩ := ih (min b u)
    refine ⟨le_trans k1 (min_le_left _ _), ?_, ?_⟩
    · intro x hx
      rcases List.mem_cons.mp hx with rfl | hx
      · exact le_trans k1 (min_le_right _ _)
      · exact k2 x hx
    · rcases k3 with k3 | k3
      · rw [k3]
        rcases min_choice b u with h | h
        · left; exact h
        · right; rw [h]; exact List.mem_cons_self _ _
      · right; exact List.mem_cons_of_mem _ k3

theorem foldl_max_spec (l : List Int) : ∀ (b : Int),
    b ≤ l.foldl (fun acc x => max acc x) b ∧
    (∀ x ∈ l, x ≤ l.foldl (fun acc x => max acc x) b) ∧
    (l.foldl (fun acc x => max acc x) b = b ∨ l.foldl (fun acc x => max acc x) b ∈ l) := by
  induction l with
  | nil => intro b; simp
  | cons u l ih =>
    intro b
    simp only [List.foldl_cons]
    obtain ⟨k1, k2, k3⟩ := ih (max b u)
    refine ⟨le_trans (le_max_left _ _) k1, ?_, ?_⟩
    · intro x hx
      rcases List.mem_cons.mp hx with rfl | hx
      · exact le_trans (le_max_right _ _) k1
      · exact k2 x hx
    · rcases k3 with k3 | k3
      · rw [k3]
        rcases max_choice b u with h | h
        · left; exact h
        · right; rw [h]; exact List.mem_cons_self _ _
      · right; exact List.mem_cons_of_mem _ k3

/-- The fold of `min` over a list with an element, from an upper bound of its
elements, is the least element of the list. -/
theorem foldl_min_least (l : List Int) (a : Int) (hne : l ≠ []) (hle : ∀ x ∈ l, x ≤ a) :
    l.foldl (fun acc x => min acc x) a ∈ l ∧
    ∀ x ∈ l, l.foldl (fun acc x => min acc x) a ≤ x := by
  cases l with
  | nil => exact absurd rfl hne
  | cons y rest =>
    simp only [List.foldl_cons]
    rw [min_eq_right (hle y (List.mem_cons_self _ _))]
    obtain ⟨k1, k2, k3⟩ := foldl_min_spec rest y
    refine ⟨?_, ?_⟩
    · rcases k3 with k3 | k3
      · rw [k3]; exact List.mem_cons_self _ _
      · exact List.mem_cons_of_mem _ k3
    · intro x hx
      rcases List.mem_cons.mp hx with rfl | hx
      · exact k1
      · exact k2 x hx

/-- The fold of `max` over a list with an element, from a lower bound of its
elements, is the greatest element of the list. -/
theorem foldl_max_greatest (l : List Int) (a : Int) (hne : l ≠ []) (hle : ∀ x ∈ l, a ≤ x) :
    l.foldl (fun acc x => max acc x) a ∈ l ∧
    ∀ x ∈ l, x ≤ l.foldl (fun acc x => max acc x) a := by
  cases l with
  | nil => exact absurd rfl hne
  | cons y rest =>
    simp only [List.foldl_cons]
    rw [max_eq_right (hle y (List.mem_cons_self _ _))]
    obtain ⟨k1, k2, k3⟩ := foldl_max_spec rest y
    refine ⟨?_, ?_⟩
    · rcases k3 with k3 | k3
      · rw [k3]; exact List.mem_cons_self _ _
      · exact List.mem_cons_of_mem _ k3
    · intro x hx
      rcases List.mem_cons.mp hx with rfl | hx
      · exact k1
      · exact k2 x hx

namespace Fragmenter_Namespace

theorem one_shiftLeft_pos (n : Nat) : 0 < 1 <<< n := by
  rw [Nat.one_shiftLeft]
  exact Nat.two_pow_pos n

theorem shiftRight_mul_shiftLeft (n a : Nat) : (a * (1 <<< n)) >>> n = a := by
  rw [Nat.shiftRight_eq_div_pow, Nat.one_shiftLeft]
  exact Nat.mul_div_cancel _ (Nat.two_pow_pos n)

/-- The conversion of an `int64_t` of at most 53 bits to `double` and back
gives the value. -/
theorem double_to_int64_int64_to_double (v : Int) (h : v.natAbs < 2 ^ 53) :
    double_to_int64 (int64_to_double v) = v := by
  have hpos : 0 < 1 <<< 1074 := one_shiftLeft_pos 1074
  have habs := shiftRight_mul_shiftLeft 1074 v.natAbs
  unfold int64_to_double
  simp only [h, if_true]
  unfold double_to_int64 Double.one
  generalize (1 <<< 1074 : Nat) = u at hpos habs ⊢
  have hu : (0 : Int) < Int.ofNat u := by
    simp only [Int.ofNat_eq_coe]
    exact_mod_cast hpos
  have hneg : (v * Int.ofNat u < 0) ↔ v < 0 := by
    constructor
    · intro hlt
      by_contra hge
      have := mul_nonneg (not_lt.mp hge) (le_of_lt hu)
      omega
    · intro hlt
      exact mul_neg_of_neg_of_pos hlt hu
  have hnat : (v * Int.ofNat u).natAbs = v.natAbs * u := by
    rw [Int.natAbs_mul]
    rfl
  have hrange : ((v.natAbs : Nat) : Int) < 9007199254740992 := by
    have : ((v.natAbs : Nat) : Int) < ((2 ^ 53 : Nat) : Int) := by exact_mod_cast h
    simpa using this
  have key : toInt64 (if v * Int.ofNat u < 0 then -Int.ofNat ((v * Int.ofNat u).natAbs >>> 1074)
      else Int.ofNat ((v * Int.ofNat u).natAbs >>> 1074)) = v := by
    rw [hnat, habs]
    unfold toInt64
    simp only [Int.ofNat_eq_coe] at hneg ⊢
    by_cases hv : v < 0
    · rw [if_pos (hneg.mpr hv)]
      have : ((v.natAbs : Nat) : Int) = -v := by omega
      rw [this] at hrange ⊢
      norm_num
      omega
    · rw [if_neg (fun hh => hv (hneg.mp hh))]
      have : ((v.natAbs : Nat) : Int) = v := by omega
      rw [this] at hrange ⊢
      norm_num
      omega
  exact key

end Fragmenter_Namespace

namespace Fragmenter_Namespace

variable {β δ : Type}

theorem is_integer_spec (ti : SQLTypeInfo) (h : ti.is_integer = true) :
    ti.is_string = false ∧ ti.is_decimal = false ∧ is_integral ti = true := by
  unfold SQLTypeInfo.is_integer at h
  unfold SQLTypeInfo.is_string SQLTypeInfo.IS_STRING SQLTypeInfo.is_decimal is_integral
    SQLTypeInfo.is_integer SQLTypeInfo.is_boolean SQLTypeInfo.is_time
    SQLTypeInfo.is_timeinterval
  cases hty : ti.type <;> simp_all

/-- The body of the row loop for an `int64_t` value of a type that is neither
a string nor a decimal, on an integer column: when it returns, the value,
converted to `double` and back, has been offered to the slot of the worker. -/
theorem updateColumn.row_int64 (acc : Accessors β δ) (cd cdl : ColumnDescriptor)
    (chunk_key : ChunkKey) (rhsType : SQLTypeInfo) (c roffs : Nat) (v : Int)
    (s s' : UpdelState β δ) (st st' : StatArrays)
    (h : updateColumn.row acc cd cdl chunk_key rhsType c roffs (.int64 v) s st =
      (.ok (), s', st'))
    (hint : cd.columnType.is_integer = true) (hstr : rhsType.is_string = false)
    (hdec : rhsType.is_decimal = false) :
    st' = st.set_minmax_int64 c (double_to_int64 (int64_to_double v)) := by
  obtain ⟨h1, h2, h3⟩ := is_integer_spec _ hint
  unfold updateColumn.row at h
  simp only [updateColumn.resolve, hstr, h1, h2, h3, hdec, Bool.false_eq_true, if_false,
    if_true] at h
  split at h
  · cases h
  · injection h with _ h
    injection h with _ h
    exact h.symm

end Fragmenter_Namespace

namespace Fragmenter_Namespace

variable {β δ : Type}

theorem int64Values_cons_int64 (rhsValues : List ScalarTargetValue) (r : Nat) (rest : List Nat)
    (v : Int) (h : rhsValues.get? (if 1 = rhsValues.length then 0 else r) = some (.int64 v)) :
    int64Values rhsValues (r :: rest) = v :: int64Values rhsValues rest := by
  unfold int64Values
  rw [List.filterMap_cons]
  simp only [h]

theorem int64Values_append (rhsValues : List ScalarTargetValue) (a b : List Nat) :
    int64Values rhsValues (a ++ b) = int64Values rhsValues a ++ int64Values rhsValues b := by
  unfold int64Values
  exact List.filterMap_append _ _ _

/-- The row loop of a worker over `int64_t` values of a type that is neither a
string nor a decimal, on an integer column: when it returns, the least and the
greatest of the slot vectors have taken in the values of the rows, each
converted to `double` and back, and every row had a value. -/
theorem updateColumn.rows_int64 (acc : Accessors β δ) (cd cdl : ColumnDescriptor)
    (chunk_key : ChunkKey) (fragOffsets : List Nat) (rhsValues : List ScalarTargetValue)
    (rhsType : SQLTypeInfo) (c : Nat)
    (hint : cd.columnType.is_integer = true) (hstr : rhsType.is_string = false)
    (hdec : rhsType.is_decimal = false)
    (hvalues : ∀ sv ∈ rhsValues, ∃ v, sv = .int64 v) (rows : List Nat) :
    ∀ (s s' : UpdelState β δ) (st st' : StatArrays),
      updateColumn.rows acc cd cdl chunk_key fragOffsets rhsValues rhsType c rows s st =
        (.ok (), s', st') →
      c < st.lmin.length → c < st.lmax.length →
      st'.lmin.length = st.lmin.length ∧ st'.lmax.length = st.lmax.length ∧
      (int64Values rhsValues rows).length = rows.length ∧
      st'.lmin.foldl (fun a x => min a x) INT64_MAX =
        ((int64Values rhsValues rows).map (fun v => double_to_int64 (int64_to_double v))).foldl
          (fun a x => min a x) (st.lmin.foldl (fun a x => min a x) INT64_MAX) ∧
      st'.lmax.foldl (fun a x => max a x) INT64_MIN =
        ((int64Values rhsValues rows).map (fun v => double_to_int64 (int64_to_double v))).foldl
          (fun a x => max a x) (st.lmax.foldl (fun a x => max a x) INT64_MIN) := by
  induction rows with
  | nil =>
    intro s s' st st' h _ _
    simp only [updateColumn.rows] at h
    injection h with _ h
    injection h with _ h
    subst h
    exact ⟨rfl, rfl, rfl, rfl, rfl⟩
  | cons r rest ih =>
    intro s s' st st' h hc1 hc2
    simp only [updateColumn.rows] at h
    split at h
    · rename_i roffs sv hoff hval
      obtain ⟨v, hv⟩ := hvalues sv (List.get?_mem hval)
      subst hv
      split at h
      · cases h
      · rename_i s1 st1 hrow
        have hst := updateColumn.row_int64 acc cd cdl chunk_key rhsType c roffs v s s1 st st1
          hrow hint hstr hdec
        subst hst
        obtain ⟨a1, a2, a3, a4, a5⟩ := ih _ _ _ _ h
          (by simp only [StatArrays.set_minmax_int64, List.length_modify]; exact hc1)
          (by simp only [StatArrays.set_minmax_int64, List.length_modify]; exact hc2)
        rw [int64Values_cons_int64 _ _ _ _ hval]
        simp only [StatArrays.set_minmax_int64, List.length_modify] at a1 a2
        refine ⟨a1, a2, by simp [a3], ?_, ?_⟩
        · rw [a4]
          simp only [StatArrays.set_minmax_int64, List.map_cons, List.foldl_cons]
          rw [foldl_min_modify _ _ _ _ hc1]
        · rw [a5]
          simp only [StatArrays.set_minmax_int64, List.map_cons, List.foldl_cons]
          rw [foldl_max_modify _ _ _ _ hc2]
    · cases h

end Fragmenter_Namespace

theorem range'_segment (rbegin segsz n : Nat) :
    List.range' rbegin (n - rbegin) =
      List.range' rbegin (min (rbegin + segsz) n - rbegin) ++
        List.range' (rbegin + segsz) (n - (rbegin + segsz)) := by
  by_cases hle : rbegin + segsz ≤ n
  · rw [min_eq_left hle, Nat.add_sub_cancel_left, List.range'_append_1]
    congr 1
    omega
  · have h1 : n - (rbegin + segsz) = 0 := by omega
    have h2 : min (rbegin + segsz) n = n := min_eq_right (by omega)
    rw [h1, h2]
    simp

/-- The segments of `nrow` rows for `ncore` workers hold all the rows. -/
theorem segsz_covers (nrow ncore : Nat) (h : 0 < ncore) :
    nrow ≤ ncore * ((nrow + ncore - 1) / ncore) := by
  have h1 := Nat.div_add_mod (nrow + ncore - 1) ncore
  have h2 := Nat.mod_lt (nrow + ncore - 1) h
  omega

namespace Fragmenter_Namespace

variable {β δ : Type}

theorem updateColumn.wait_cleanup_threads_none (threads : List (Option String))
    (failed_any_chunk : Option String) :
    updateColumn.wait_cleanup_threads threads failed_any_chunk = none ↔
      (∀ t ∈ threads, t = none) ∧ failed_any_chunk = none := by
  unfold updateColumn.wait_cleanup_threads
  constructor
  · intro h
    split at h
    · cases h
    · rename_i hfind
      refine ⟨?_, h⟩
      intro t ht
      cases t with
      | none => rfl
      | some e =>
        exfalso
        cases hf : threads.find? (fun t => t.isSome) with
        | none =>
          rw [List.find?_eq_none] at hf
          exact hf _ ht rfl
        | some x =>
          have hx := List.find?_some hf
          cases x with
          | none => cases hx
          | some e' => exact hfind e' hf
  · intro ⟨h1, h2⟩
    have hf : threads.find? (fun t => t.isSome) = none := by
      rw [List.find?_eq_none]
      intro t ht
      rw [h1 t ht]
      simp
    rw [hf]
    exact h2

/-- The task of a worker over `int64_t` values of a type that is neither a
string nor a decimal, on an integer column, when it returns. -/
theorem updateColumn.task_int64 (acc : Accessors β δ) (td : TableDescriptor)
    (cd : ColumnDescriptor) (shard_ : Int) (chunk_key : ChunkKey) (fragOffsets : List Nat)
    (rhsValues : List ScalarTargetValue) (rhsType : SQLTypeInfo) (segsz rbegin c : Nat)
    (hint : cd.columnType.is_integer = true) (hstr : rhsType.is_string = false)
    (hdec : rhsType.is_decimal = false)
    (hvalues : ∀ sv ∈ rhsValues, ∃ v, sv = .int64 v)
    (s s' : UpdelState β δ) (st st' : StatArrays)
    (h : updateColumn.task acc td cd shard_ chunk_key fragOffsets rhsValues rhsType segsz
      rbegin c s st = (.ok (), s', st'))
    (hc1 : c < st.lmin.length) (hc2 : c < st.lmax.length) :
    st'.lmin.length = st.lmin.length ∧ st'.lmax.length = st.lmax.length ∧
    (int64Values rhsValues
      (List.range' rbegin (min (rbegin + segsz) fragOffsets.length - rbegin))).length =
      min (rbegin + segsz) fragOffsets.length - rbegin ∧
    st'.lmin.foldl (fun a x => min a x) INT64_MAX =
      ((int64Values rhsValues
        (List.range' rbegin (min (rbegin + segsz) fragOffsets.length - rbegin))).map
          (fun v => double_to_int64 (int64_to_double v))).foldl
        (fun a x => min a x) (st.lmin.foldl (fun a x => min a x) INT64_MAX) ∧
    st'.lmax.foldl (fun a x => max a x) INT64_MIN =
      ((int64Values rhsValues
        (List.range' rbegin (min (rbegin + segsz) fragOffsets.length - rbegin))).map
          (fun v => double_to_int64 (int64_to_double v))).foldl
        (fun a x => max a x) (st.lmax.foldl (fun a x => max a x) INT64_MIN) := by
  unfold updateColumn.task at h
  simp only at h
  split at h
  · cases h
  · split at h
    · cases h
    · have key := updateColumn.rows_int64 acc cd _ chunk_key fragOffsets rhsValues rhsType c
        hint hstr hdec hvalues _ _ _ _ _ h hc1 hc2
      simp only [List.length_range'] at key
      exact key

end Fragmenter_Namespace

namespace Fragmenter_Namespace

variable {β δ : Type}

theorem updateColumn.raised_none (r : Result Unit) (h : updateColumn.raised r = none)
    (hne : r ≠ .error .check_failed) : r = .ok () := by
  unfold updateColumn.raised at h
  cases r with
  | ok u => rfl
  | error e =>
    cases e with
    | check_failed => exact absurd rfl hne
    | runtime_error msg => simp at h

/-- When the dispatch loop ends without an exception, it held none at its
start. -/
theorem updateColumn.dispatch_no_raise (acc : Accessors β δ) (cpu_threads : Nat)
    (td : TableDescriptor) (cd : ColumnDescriptor) (shard_ : Int) (chunk_key : ChunkKey)
    (fragOffsets : List Nat) (rhsValues : List ScalarTargetValue) (rhsType : SQLTypeInfo)
    (segsz : Nat) (fuel : Nat) :
    ∀ (rbegin c : Nat) (threads threads' : List (Option String))
      (failed_any_chunk failed' : Option String) (s s' : UpdelState β δ) (st st' : StatArrays),
      updateColumn.dispatch acc cpu_threads td cd shard_ chunk_key fragOffsets rhsValues
        rhsType segsz fuel rbegin c threads failed_any_chunk s st =
          (.ok (threads', failed'), s', st') →
      updateColumn.wait_cleanup_threads threads' failed' = none →
      updateColumn.wait_cleanup_threads threads failed_any_chunk = none := by
  induction fuel with
  | zero =>
    intro rbegin c threads threads' failed failed' s s' st st' h hwait
    simp only [updateColumn.dispatch] at h
    split at h
    · cases h
    · injection h with h1 h
      injection h1 with h1
      injection h1 with h1 h2
      subst h1 h2
      exact hwait
  | succ fuel ih =>
    intro rbegin c threads threads' failed failed' s s' st st' h hwait
    simp only [updateColumn.dispatch] at h
    split at h
    · split at h
      · cases h
      · rename_i rt s1 st1 hne htask
        by_cases hjoin : (threads ++ [updateColumn.raised rt]).length ≥ cpu_threads
        · simp only [hjoin, if_true] at h
          split at h
          · rename_i hsome
            injection h with h1 h
            injection h1 with h1
            injection h1 with h1 h2
            subst h1 h2
            have := ((updateColumn.wait_cleanup_threads_none _ _).mp hwait).2
            rw [this] at hsome
            cases hsome
          · have h0 := ih _ _ _ _ _ _ _ _ _ _ h hwait
            have h1 := ((updateColumn.wait_cleanup_threads_none _ _).mp h0).2
            obtain ⟨h2, h3⟩ := (updateColumn.wait_cleanup_threads_none _ _).mp h1
            exact (updateColumn.wait_cleanup_threads_none _ _).mpr
              ⟨fun t ht => h2 t (List.mem_append_left _ ht), h3⟩
        · simp only [hjoin, if_false] at h
          split at h
          · rename_i hsome
            injection h with h1 h
            injection h1 with h1
            injection h1 with h1 h2
            subst h1 h2
            obtain ⟨h2, h3⟩ := (updateColumn.wait_cleanup_threads_none _ _).mp hwait
            exact (updateColumn.wait_cleanup_threads_none _ _).mpr
              ⟨fun t ht => h2 t (List.mem_append_left _ ht), h3⟩
          · have h0 := ih _ _ _ _ _ _ _ _ _ _ h hwait
            obtain ⟨h2, h3⟩ := (updateColumn.wait_cleanup_threads_none _ _).mp h0
            exact (updateColumn.wait_cleanup_threads_none _ _).mpr
              ⟨fun t ht => h2 t (List.mem_append_left _ ht), h3⟩
    · injection h with h1 h
      injection h1 with h1
      injection h1 with h1 h2
      subst h1 h2
      exact hwait

/-- When the dispatch loop ends without an exception, the task it dispatched
first returned. -/
theorem updateColumn.dispatch_first_task (acc : Accessors β δ) (cpu_threads : Nat)
    (td : TableDescriptor) (cd : ColumnDescriptor) (shard_ : Int) (chunk_key : ChunkKey)
    (fragOffsets : List Nat) (rhsValues : List ScalarTargetValue) (rhsType : SQLTypeInfo)
    (segsz : Nat) (fuel : Nat) (rbegin c : Nat) (threads threads' : List (Option String))
    (failed_any_chunk failed' : Option String) (s s' : UpdelState β δ) (st st' : StatArrays)
    (h : updateColumn.dispatch acc cpu_threads td cd shard_ chunk_key fragOffsets rhsValues
      rhsType segsz (fuel + 1) rbegin c threads failed_any_chunk s st =
        (.ok (threads', failed'), s', st'))
    (hwait : updateColumn.wait_cleanup_threads threads' failed' = none)
    (hlt : rbegin < fragOffsets.length) :
    ∃ s1 st1 threads1 failed1,
      updateColumn.task acc td cd shard_ chunk_key fragOffsets rhsValues rhsType segsz
        rbegin c s st = (.ok (), s1, st1) ∧
      updateColumn.dispatch acc cpu_threads td cd shard_ chunk_key fragOffsets rhsValues
        rhsType segsz fuel (rbegin + segsz) (c + 1) threads1 failed1 s1 st1 =
          (.ok (threads', failed'), s', st') := by
  simp only [updateColumn.dispatch, hlt, if_true] at h
  split at h
  · cases h
  · rename_i rt s1 st1 hne htask
    have hrt : ∀ (hraised : updateColumn.raised rt = none), rt = .ok () :=
      fun hraised => updateColumn.raised_none rt hraised (fun hh => hne hh)
    by_cases hjoin : (threads ++ [updateColumn.raised rt]).length ≥ cpu_threads
    · simp only [hjoin, if_true] at h
      split at h
      · rename_i hsome
        injection h with h1 h
        injection h1 with h1
        injection h1 with h1 h2
        subst h1 h2
        have := ((updateColumn.wait_cleanup_threads_none _ _).mp hwait).2
        rw [this] at hsome
        cases hsome
      · have h0 := updateColumn.dispatch_no_raise _ _ _ _ _ _ _ _ _ _ _ _ _ _ _ _ _ _ _ _ _ h hwait
        have h1 := ((updateColumn.wait_cleanup_threads_none _ _).mp h0).2
        obtain ⟨h2, _⟩ := (updateColumn.wait_cleanup_threads_none _ _).mp h1
        have h3 := hrt (h2 _ (List.mem_append_right _ (List.mem_singleton_self _)))
        rw [h3] at htask
        exact ⟨s1, st1, _, _, htask, h⟩
    · simp only [hjoin, if_false] at h
      split at h
      · rename_i hsome
        injection h with h1 h
        injection h1 with h1
        injection h1 with h1 h2
        subst h1 h2
        obtain ⟨h2, h3⟩ := (updateColumn.wait_cleanup_threads_none _ _).mp hwait
        rw [h3] at hsome
        cases hsome
      · have h0 := updateColumn.dispatch_no_raise _ _ _ _ _ _ _ _ _ _ _ _ _ _ _ _ _ _ _ _ _ h hwait
        obtain ⟨h2, _⟩ := (updateColumn.wait_cleanup_threads_none _ _).mp h0
        have h3 := hrt (h2 _ (List.mem_append_right _ (List.mem_singleton_self _)))
        rw [h3] at htask
        exact ⟨s1, st1, _, _, htask, h⟩

/-- The dispatch loop over `int64_t` values of a type that is neither a string
nor a decimal, on an integer column: when it ends without an exception, no
task raised one, and the least and the greatest of the slot vectors have taken
in the values of all rows from `rbegin` on, each converted to `double` and
back. -/
theorem updateColumn.dispatch_int64 (acc : Accessors β δ) (cpu_threads : Nat)
    (td : TableDescriptor) (cd : ColumnDescriptor) (shard_ : Int) (chunk_key : ChunkKey)
    (fragOffsets : List Nat) (rhsValues : List ScalarTargetValue) (rhsType : SQLTypeInfo)
    (segsz ncore : Nat)
    (hint : cd.columnType.is_integer = true) (hstr : rhsType.is_string = false)
    (hdec : rhsType.is_decimal = false)
    (hvalues : ∀ sv ∈ rhsValues, ∃ v, sv = .int64 v)
    (hseg : fragOffsets.length ≤ ncore * segsz) (fuel : Nat) :
    ∀ (rbegin c : Nat) (threads threads' : List (Option String))
      (failed_any_chunk failed' : Option String) (s s' : UpdelState β δ) (st st' : StatArrays),
      updateColumn.dispatch acc cpu_threads td cd shard_ chunk_key fragOffsets rhsValues
        rhsType segsz fuel rbegin c threads failed_any_chunk s st =
          (.ok (threads', failed'), s', st') →
      updateColumn.wait_cleanup_threads threads' failed' = none →
      rbegin = c * segsz → st.lmin.length = ncore → st.lmax.length = ncore →
      updateColumn.wait_cleanup_threads threads failed_any_chunk = none ∧
      st'.lmin.length = ncore ∧ st'.lmax.length = ncore ∧
      (int64Values rhsValues
        (List.range' rbegin (fragOffsets.length - rbegin))).length =
        fragOffsets.length - rbegin ∧
      st'.lmin.foldl (fun a x => min a x) INT64_MAX =
        ((int64Values rhsValues (List.range' rbegin (fragOffsets.length - rbegin))).map
            (fun v => double_to_int64 (int64_to_double v))).foldl
          (fun a x => min a x) (st.lmin.foldl (fun a x => min a x) INT64_MAX) ∧
      st'.lmax.foldl (fun a x => max a x) INT64_MIN =
        ((int64Values rhsValues (List.range' rbegin (fragOffsets.length - rbegin))).map
            (fun v => double_to_int64 (int64_to_double v))).foldl
          (fun a x => max a x) (st.lmax.foldl (fun a x => max a x) INT64_MIN) := by
  have done : ∀ (rbegin : Nat), ¬ rbegin < fragOffsets.length →
      (int64Values rhsValues (List.range' rbegin (fragOffsets.length - rbegin))) = [] := by
    intro rbegin hge
    have : fragOffsets.length - rbegin = 0 := by omega
    rw [this]
    rfl
  induction fuel with
  | zero =>
    intro rbegin c threads threads' failed failed' s s' st st' h hwait _ hl1 hl2
    simp only [updateColumn.dispatch] at h
    split at h
    · cases h
    · rename_i hge
      injection h with h1 h
      injection h with _ h
      injection h1 with h1
      injection h1 with h1 h2
      subst h h1 h2
      rw [done _ hge]
      have : fragOffsets.length - rbegin = 0 := by omega
      exact ⟨hwait, hl1, hl2, by rw [this]; rfl, rfl, rfl⟩
  | succ fuel ih =>
    intro rbegin c threads threads' failed failed' s s' st st' h hwait hrb hl1 hl2
    have horig := h
    simp only [updateColumn.dispatch] at h
    split at h
    · rename_i hlt
      have hc : c < ncore := by
        have h1 : c * segsz < ncore * segsz := by rw [← hrb]; omega
        exact Nat.lt_of_mul_lt_mul_right h1
      obtain ⟨s1, st1, threads1, failed1, htask, hrest⟩ :=
        updateColumn.dispatch_first_task _ _ _ _ _ _ _ _ _ _ _ _ _ _ _ _ _ _ _ _ _ horig hwait
          hlt
      have hstart := updateColumn.dispatch_no_raise _ _ _ _ _ _ _ _ _ _ _ _ _ _ _ _ _ _ _ _ _
        horig hwait
      obtain ⟨t1, t2, t3, t4, t5⟩ := updateColumn.task_int64 acc td cd shard_ chunk_key
        fragOffsets rhsValues rhsType segsz rbegin c hint hstr hdec hvalues s s1 st st1 htask
        (by rw [hl1]; exact hc) (by rw [hl2]; exact hc)
      obtain ⟨_, b1, b2, b3, b4, b5⟩ := ih _ _ _ _ _ _ _ _ _ _ hrest hwait
        (by rw [hrb, Nat.succ_mul]) (by rw [t1, hl1]) (by rw [t2, hl2])
      refine ⟨hstart, b1, b2, ?_, ?_, ?_⟩
      · rw [range'_segment rbegin segsz, int64Values_append, List.length_append, t3, b3]
        omega
      · rw [b4, t4, range'_segment rbegin segsz fragOffsets.length, int64Values_append,
          List.map_append, List.foldl_append]
      · rw [b5, t5, range'_segment rbegin segsz fragOffsets.length, int64Values_append,
          List.map_append, List.foldl_append]
    · rename_i hge
      injection h with h1 h
      injection h with _ h
      injection h1 with h1
      injection h1 with h1 h2
      subst h h1 h2
      rw [done _ hge]
      have : fragOffsets.length - rbegin = 0 := by omega
      exact ⟨hwait, hl1, hl2, by rw [this]; rfl, rfl, rfl⟩

end Fragmenter_Namespace

namespace Fragmenter_Namespace

variable {β δ : Type}

/-- C17, as the code has it: for an integer target column and `int64_t`
right-hand values of a type that is neither a string nor a decimal, whenever
`updateColumn` hands a summary to `updateColumnMetadata`, for any number of
workers, every row has its value, and `lmin` and `lmax` of the summary are the
least and the greatest of the values of the rows after each was converted to
`double` and back to `int64_t`; they are the least and the greatest of the
values themselves when every value has at most 53 bits. -/
theorem updateColumn_integer_summary (acc : Accessors β δ) (cpu_threads : Nat)
    (s s' : UpdelState β δ) (td : TableDescriptor) (cd : ColumnDescriptor) (fragmentId : Int)
    (fragOffsets : List Nat) (rhsValues : List ScalarTargetValue) (rhsType : SQLTypeInfo)
    (memoryLevel : MemoryLevel) (updelRoll updelRoll' : UpdelRoll) (sm : Summary)
    (hint : cd.columnType.is_integer = true) (hstr : rhsType.is_string = false)
    (hdec : rhsType.is_decimal = false)
    (hvalues : ∀ sv ∈ rhsValues, ∃ v, sv = .int64 v)
    (hrun : updateColumn acc cpu_threads s td cd fragmentId fragOffsets rhsValues rhsType
      memoryLevel updelRoll = (.ok (some sm), s', updelRoll')) :
    1 ≤ cpu_threads ∧
    (int64Values rhsValues (List.range fragOffsets.length)).length = fragOffsets.length ∧
    1 ≤ fragOffsets.length ∧
    sm.lmin = ((int64Values rhsValues (List.range fragOffsets.length)).map
      (fun v => double_to_int64 (int64_to_double v))).foldl (fun a x => min a x) INT64_MAX ∧
    sm.lmax = ((int64Values rhsValues (List.range fragOffsets.length)).map
      (fun v => double_to_int64 (int64_to_double v))).foldl (fun a x => max a x) INT64_MIN ∧
    ((∀ v ∈ int64Values rhsValues (List.range fragOffsets.length), v.natAbs < 2 ^ 53) →
      sm.lmin ∈ int64Values rhsValues (List.range fragOffsets.length) ∧
      (∀ v ∈ int64Values rhsValues (List.range fragOffsets.length), sm.lmin ≤ v) ∧
      sm.lmax ∈ int64Values rhsValues (List.range fragOffsets.length) ∧
      (∀ v ∈ int64Values rhsValues (List.range fragOffsets.length), v ≤ sm.lmax)) := by
  have main : 1 ≤ cpu_threads ∧
      (int64Values rhsValues (List.range fragOffsets.length)).length = fragOffsets.length ∧
      1 ≤ fragOffsets.length ∧
      sm.lmin = ((int64Values rhsValues (List.range fragOffsets.length)).map
        (fun v => double_to_int64 (int64_to_double v))).foldl (fun a x => min a x) INT64_MAX ∧
      sm.lmax = ((int64Values rhsValues (List.range fragOffsets.length)).map
        (fun v => double_to_int64 (int64_to_double v))).foldl
          (fun a x => max a x) INT64_MIN := by
    unfold updateColumn at hrun
    simp only at hrun
    split at hrun
    · cases hrun
    · rename_i hrows
      split at hrun
      · cases hrun
      · split at hrun
        · cases hrun
        · split at hrun
          · cases hrun
          · split at hrun
            · cases hrun
            · rename_i hcore
              split at hrun
              · cases hrun
              · rename_i threads failed s1 st1 hdisp
                split at hrun
                · cases hrun
                · rename_i hwait
                  split at hrun
                  · cases hrun
                  · injection hrun with h1 _
                    injection h1 with h1
                    injection h1 with h1
                    subst h1
                    have hpos : 0 < cpu_threads := Nat.pos_of_ne_zero hcore
                    obtain ⟨_, _, _, a3, a4, a5⟩ := updateColumn.dispatch_int64 acc cpu_threads
                      td cd _ _ fragOffsets rhsValues rhsType _ cpu_threads hint hstr hdec
                      hvalues (segsz_covers _ _ hpos) _ _ _ _ _ _ _ _ _ _ _ hdisp hwait
                      (by simp) (by simp [StatArrays.new]) (by simp [StatArrays.new])
                    simp only [Nat.sub_zero, ← List.range_eq_range'] at a3 a4 a5
                    refine ⟨hpos, a3, by omega, ?_, ?_⟩
                    · show st1.lmin.foldl (fun a x => min a x) INT64_MAX = _
                      rw [a4]
                      simp only [StatArrays.new]
                      rw [foldl_min_replicate]
                    · show st1.lmax.foldl (fun a x => max a x) INT64_MIN = _
                      rw [a5]
                      simp only [StatArrays.new]
                      rw [foldl_max_replicate]
  obtain ⟨m1, m2, m3, m4, m5⟩ := main
  refine ⟨m1, m2, m3, m4, m5, ?_⟩
  intro hsmall
  have hmap : (int64Values rhsValues (List.range fragOffsets.length)).map
      (fun v => double_to_int64 (int64_to_double v)) =
      int64Values rhsValues (List.range fragOffsets.length) := by
    conv_rhs => rw [← List.map_id (int64Values rhsValues (List.range fragOffsets.length))]
    apply List.map_congr_left
    intro v hv
    exact double_to_int64_int64_to_double v (hsmall v hv)
  rw [hmap] at m4 m5
  have hne : int64Values rhsValues (List.range fragOffsets.length) ≠ [] := by
    intro hnil
    rw [hnil] at m2
    simp at m2
    omega
  have hbound : ∀ v ∈ int64Values rhsValues (List.range fragOffsets.length),
      v ≤ INT64_MAX ∧ INT64_MIN ≤ v := by
    intro v hv
    have h := hsmall v hv
    have h2 : ((v.natAbs : Nat) : Int) < 9007199254740992 := by
      have : ((v.natAbs : Nat) : Int) < ((2 ^ 53 : Nat) : Int) := by exact_mod_cast h
      simpa using this
    unfold INT64_MAX INT64_MIN
    simp only [Int.ofNat_eq_coe]
    norm_num
    omega
  obtain ⟨l1, l2⟩ := foldl_min_least _ INT64_MAX hne (fun v hv => (hbound v hv).1)
  obtain ⟨g1, g2⟩ := foldl_max_greatest _ INT64_MIN hne (fun v hv => (hbound v hv).2)
  rw [← m4] at l1 l2
  rw [← m5] at g1 g2
  exact ⟨l1, l2, g1, g2⟩

end Fragmenter_Namespace

namespace Fragmenter_Namespace

/-- C17 on the update of a `BIGINT` column with the one value `2^53 + 1`: the
summary has `lmin = lmax = 2^53`, the value after its conversion to `double`
and back, and not the value written. -/
theorem updateColumn_integer_summary_witness :
    (t1Rounded 2).1 =
      .ok (some ⟨false, DBL_MIN, DBL_MAX, 9007199254740992, 9007199254740992⟩) ∧
    int64Values [.int64 9007199254740993] (List.range 1) = [9007199254740993] ∧
    ((int64Values [.int64 9007199254740993] (List.range 1)).map
      (fun v => double_to_int64 (int64_to_double v))).foldl (fun a x => min a x) INT64_MAX =
        9007199254740992 :=
  have h := updateColumn_integer_summary cellAccessors 2 t1State (t1Rounded 2).2.1
    (exampleTable 1 "t1" .DISK_LEVEL) t1A 0 [0] [.int64 9007199254740993]
    (SQLTypeInfo.ofType .kBIGINT false) .CPU_LEVEL (UpdelRoll.new 0 .DISK_LEVEL)
    (t1Rounded 2).2.2 ⟨false, DBL_MIN, DBL_MAX, 9007199254740992, 9007199254740992⟩
    (by decide) (by decide) (by decide) (by simp) (Prod.ext (by decide) rfl)
  ⟨by decide, by decide, h.2.2.2.1.symm⟩

/-- The update of the spec's scenario, of three rows with the values 5, -1 and
100, hands over the bounds -1 and 100 with one, two, three or four workers. -/
theorem updateColumn_scenario_summary :
    ∀ ncore ∈ [1, 2, 3, 4],
      (t1Update ncore).1 = .ok (some ⟨false, DBL_MIN, DBL_MAX, 100, -1⟩) := by
  decide

end Fragmenter_Namespace

/-! ## The column count of a table after an undone `addColumn` -/

namespace Catalog

theorem delDictionary_tables (cat cat' : Catalog) (cd : ColumnDescriptor)
    (r : Result (Option String)) (h : cat.delDictionary cd = (r, cat')) :
    cat'.tableDescriptorMapById_ = cat.tableDescriptorMapById_ := by
  unfold delDictionary at h
  repeat' split at h
  all_goals
    injection h with _ h
    subst h
    rfl

theorem roll.one_backward_tables (cat cat' : Catalog)
    (cdr : Option ColumnDescriptor × Option ColumnDescriptor) (r : Result (List String))
    (h : roll.one false cat cdr = (r, cat')) :
    cat'.tableDescriptorMapById_ = cat.tableDescriptorMapById_ := by
  unfold roll.one at h
  simp only [Bool.false_eq_true, if_false] at h
  split at h
  · injection h with _ h; subst h; rfl
  · split at h
    · injection h with _ h; subst h; rfl
    · split at h
      · split at h
        · split at h
          · rename_i hdel
            have := delDictionary_tables _ _ _ _ hdel
            injection h with _ h
            subst h
            rw [this]
            split <;> rfl
          · rename_i hdel
            have := delDictionary_tables _ _ _ _ hdel
            injection h with _ h
            subst h
            rw [this]
            split <;> rfl
        · injection h with _ h
          subst h
          split <;> rfl
      · injection h with _ h
        subst h
        split <;> rfl

theorem roll.loop_backward_tables
    (pending : List (Option ColumnDescriptor × Option ColumnDescriptor)) :
    ∀ (cat cat' : Catalog) (r : Result (List String)),
      roll.loop false pending cat = (r, cat') →
      cat'.tableDescriptorMapById_ = cat.tableDescriptorMapById_ := by
  induction pending with
  | nil =>
    intro cat cat' r h
    simp only [roll.loop] at h
    injection h with _ h
    subst h
    rfl
  | cons cdr rest ih =>
    intro cat cat' r h
    simp only [roll.loop] at h
    split at h
    · rename_i hone
      have := roll.one_backward_tables _ _ _ _ hone
      injection h with _ h
      subst h
      exact this
    · rename_i hone
      have h1 := roll.one_backward_tables _ _ _ _ hone
      split at h
      · rename_i hrest
        have h2 := ih _ _ _ hrest
        injection h with _ h
        subst h
        rw [h2, h1]
      · rename_i hrest
        have h2 := ih _ _ _ hrest
        injection h with _ h
        subst h
        rw [h2, h1]

/-- `roll(false)` leaves the table descriptors, with their column counts, as
they are. -/
theorem roll_backward_tables (cat : Catalog) :
    (cat.roll false).2.tableDescriptorMapById_ = cat.tableDescriptorMapById_ := by
  unfold roll
  split
  · rename_i hloop
    exact roll.loop_backward_tables _ _ _ _ hloop
  · rename_i hloop
    exact (roll.loop_backward_tables _ _ _ _ hloop :)

/-- Whether `roll(false)` returns or not, a lookup of a table by id finds
what it found before. -/
theorem roll_backward_getMetadataForTable (cat : Catalog) (tableId : Int) :
    (cat.roll false).2.getMetadataForTable tableId = cat.getMetadataForTable tableId := by
  unfold getMetadataForTable
  rw [roll_backward_tables]

/-- A returning `addColumn` changes the table descriptors only by the
increment of the column count of the table. -/
theorem addColumn_tables (cat cat1 : Catalog) (td : TableDescriptor) (cd cd' : ColumnDescriptor)
    (h : cat.addColumn td cd = (.ok cd', cat1)) :
    cat1.tableDescriptorMapById_ = cat.tableDescriptorMapById_.map
      (fun e => if e.2.tableId = td.tableId
        then (e.1, { e.2 with nColumns := e.2.nColumns + 1 }) else e) := by
  unfold addColumn at h
  simp only at h
  split at h
  · cases h
  · rename_i cd1 c0 hdict
    have hc0 : c0.tableDescriptorMapById_ = cat.tableDescriptorMapById_ := by
      split at hdict
      · split at hdict
        · cases hdict
        · rename_i cd2 ref c2 hadd
          obtain ⟨⟨dd, st, hc2, _⟩, _⟩ := addDictionary_spec _ _ _ _ _ hadd
          injection hdict with _ hdict
          subst hdict
          rw [hc2]
      · injection hdict with _ hdict
        subst hdict
        rfl
    split at h
    · cases h
    · split at h
      · cases h
      · split at h
        · cases h
        · split at h
          · cases h
          · injection h with _ h
            subst h
            simp only [updateTableDescriptor, hc0]

/-- The lookup in a table map whose descriptors of one table id were updated
in place. -/
theorem mapFind_updated_tables {κ : Type} [DecidableEq κ]
    (f : TableDescriptor → TableDescriptor) (tableId : Int)
    (m : List (κ × TableDescriptor)) (k : κ) :
    mapFind (m.map (fun e => if e.2.tableId = tableId then (e.1, f e.2) else e)) k =
      (mapFind m k).map (fun t => if t.tableId = tableId then f t else t) := by
  induction m with
  | nil => rfl
  | cons e rest ih =>
    obtain ⟨k', v⟩ := e
    rw [List.map_cons]
    by_cases hv : v.tableId = tableId
    · rw [if_pos hv]
      by_cases hk : k' = k
      · simp [hv, hk, mapFind]
      · simp [hv, hk, mapFind, ih]
    · rw [if_neg hv]
      by_cases hk : k' = k
      · simp [hv, hk, mapFind]
      · simp [hv, hk, mapFind, ih]

/-- C29 (code bug): `addColumn` increments the in-memory column count of the
table and `roll(false)` does not take the increment back.  For every catalog
in which the table is found under its id, after a returning `addColumn` the
catalog left by `roll(false)` finds the table with `nColumns` one above the
value before `addColumn`, not equal to it. -/
theorem addColumn_roll_backward_nColumns (cat cat1 : Catalog) (td t : TableDescriptor)
    (cd cd' : ColumnDescriptor)
    (hadd : cat.addColumn td cd = (.ok cd', cat1))
    (htd : cat.getMetadataForTable td.tableId = some t)
    (hid : t.tableId = td.tableId) :
    ((cat1.roll false).2.getMetadataForTable td.tableId).map (fun t' => t'.nColumns) =
      some (t.nColumns + 1) ∧
    ((cat1.roll false).2.getMetadataForTable td.tableId).map (fun t' => t'.nColumns) ≠
      some t.nColumns := by
  have key : ((cat1.roll false).2.getMetadataForTable td.tableId).map
      (fun t' => t'.nColumns) = some (t.nColumns + 1) := by
    rw [roll_backward_getMetadataForTable]
    unfold getMetadataForTable at htd ⊢
    rw [addColumn_tables _ _ _ _ _ hadd,
      mapFind_updated_tables (fun t => { t with nColumns := t.nColumns + 1 }), htd]
    simp [hid]
  refine ⟨key, ?_⟩
  rw [key]
  intro h
  injection h with h
  omega

/-- C29 on the catalog with the table `cities`, whose descriptor counts no
column: after `addColumn` of the text column `motto` and `roll(false)`, the
descriptor counts one column. -/
theorem addColumn_roll_backward_nColumns_witness :
    (citiesCatalog.getMetadataForTable 1).map (fun t' => t'.nColumns) = some 0 ∧
    ((pendingMotto.roll false).2.getMetadataForTable 1).map (fun t' => t'.nColumns) =
      some 1 :=
  ⟨by decide,
   (addColumn_roll_backward_nColumns citiesCatalog pendingMotto
    (exampleTable 1 "cities" .DISK_LEVEL) (exampleTable 1 "cities" .DISK_LEVEL)
    (textColumn "motto")
    { textColumn "motto" with
      tableId := 1, columnId := 3,
      columnType := { SQLTypeInfo.ofType .kTEXT false with
                      compression := .kENCODING_DICT, comp_param := 2, size := 4 } }
    (by decide) (by decide) (by decide)).1⟩

end Catalog

/-! ## Sequential positional indexes -/

namespace Catalog

/-- C27: for a table found under its id whose `columnIdBySpi_` has `n`
entries, `getColumnIdBySpi` returns `columnIdBySpi_[c] + i` for the index
`SPIMAP_GEO_PHYSICAL_INPUT(c, i)` with `c < n` and `i < 8`, when
`SPIMAP_MAGIC1 + 8 * (c + 1) + i` does not overflow `unsigned`, and returns
`columnIdBySpi_[spi - 1]` for an index `spi` with `1 ≤ spi ≤ n` and
`spi < SPIMAP_MAGIC1`. -/
theorem getColumnIdBySpi_spec (cat : Catalog) (tableId : Int) (td : TableDescriptor)
    (htd : cat.getMetadataForTable tableId = some td) :
    (∀ c i : Nat, c < td.columnIdBySpi_.length → i < 8 →
      SPIMAP_MAGIC1 + 8 * (c + 1) + i < 2 ^ 32 →
      ∃ columnId, td.columnIdBySpi_.get? c = some columnId ∧
        cat.getColumnIdBySpi tableId (SPIMAP_GEO_PHYSICAL_INPUT c i) =
          .ok (columnId + Int.ofNat i)) ∧
    (∀ spi : Nat, 1 ≤ spi → spi ≤ td.columnIdBySpi_.length → spi < SPIMAP_MAGIC1 →
      ∃ columnId, td.columnIdBySpi_.get? (spi - 1) = some columnId ∧
        cat.getColumnIdBySpi tableId spi = .ok columnId) := by
  unfold getMetadataForTable at htd
  constructor
  · intro c i hc hi hno
    obtain ⟨columnId, hcol⟩ : ∃ columnId, td.columnIdBySpi_.get? c = some columnId :=
      ⟨td.columnIdBySpi_.get ⟨c, hc⟩, List.get?_eq_get hc⟩
    refine ⟨columnId, hcol, ?_⟩
    have hmagic : SPIMAP_MAGIC1 = 1073741823 := by decide
    have hspi : SPIMAP_GEO_PHYSICAL_INPUT c i = SPIMAP_MAGIC1 + (8 * (c + 1) + i) := by
      unfold SPIMAP_GEO_PHYSICAL_INPUT SPIMAP_MAGIC2
      rw [hmagic] at hno ⊢
      rw [Nat.mod_eq_of_lt (by omega), Nat.mod_eq_of_lt (by omega)]
    have hge : SPIMAP_MAGIC1 + (8 * (c + 1) + i) ≥ SPIMAP_MAGIC1 := Nat.le_add_right _ _
    have hdiv : (8 * (c + 1) + i) / 8 = c + 1 := by omega
    have hmod : (8 * (c + 1) + i) % 8 = i := by omega
    unfold getColumnIdBySpi
    rw [htd, hspi]
    simp only [hge, if_true, Nat.add_sub_cancel_left, SPIMAP_MAGIC2, hdiv, hmod,
      Nat.add_sub_cancel, hcol]
    rw [if_pos ⟨Nat.succ_pos c, hc⟩]
  · intro spi h1 hn hlt
    have hidx : spi - 1 < td.columnIdBySpi_.length := by omega
    obtain ⟨columnId, hcol⟩ : ∃ columnId, td.columnIdBySpi_.get? (spi - 1) = some columnId :=
      ⟨td.columnIdBySpi_.get ⟨spi - 1, hidx⟩, List.get?_eq_get hidx⟩
    refine ⟨columnId, hcol, ?_⟩
    have hnge : ¬ spi ≥ SPIMAP_MAGIC1 := by omega
    unfold getColumnIdBySpi
    rw [htd]
    simp only [hnge, if_false, hcol, add_zero]
    rw [if_pos ⟨h1, hn⟩]

/-- C27 on the catalog with the table `cities`, given the columns 1, 2 and 6
in the order of their positions: the second physical column of the geometry
column at position 2 is the column 8, and the position 3 is the column 6. -/
theorem getColumnIdBySpi_spec_witness :
    ({ citiesCatalog with tableDescriptorMapById_ :=
        [(1, { exampleTable 1 "cities" .DISK_LEVEL with columnIdBySpi_ := [1, 2, 6] })] }
      : Catalog).getColumnIdBySpi 1 (SPIMAP_GEO_PHYSICAL_INPUT 2 2) = .ok 8 ∧
    ({ citiesCatalog with tableDescriptorMapById_ :=
        [(1, { exampleTable 1 "cities" .DISK_LEVEL with columnIdBySpi_ := [1, 2, 6] })] }
      : Catalog).getColumnIdBySpi 1 3 = .ok 6 :=
  have h := getColumnIdBySpi_spec
    { citiesCatalog with tableDescriptorMapById_ :=
        [(1, { exampleTable 1 "cities" .DISK_LEVEL with columnIdBySpi_ := [1, 2, 6] })] }
    1 { exampleTable 1 "cities" .DISK_LEVEL with columnIdBySpi_ := [1, 2, 6] } (by decide)
  ⟨by
    obtain ⟨columnId, hcol, hres⟩ := h.1 2 2 (by decide) (by decide) (by decide)
    have : columnId = 6 := by
      have h6 : (some columnId : Option Int) = some 6 := hcol.symm.trans (by decide)
      exact Option.some.inj h6
    rw [hres, this]
    rfl,
   by
    obtain ⟨columnId, hcol, hres⟩ := h.2 3 (by decide) (by decide) (by decide)
    have : columnId = 6 := by
      have h6 : (some columnId : Option Int) = some 6 := hcol.symm.trans (by decide)
      exact Option.some.inj h6
    rw [hres, this]⟩

end Catalog

/-! ## The migration of the schema of `mapd_tables` -/

namespace Catalog

/-- When every column looked for is among the names read, no statement is
run. -/
theorem updateTableDescriptorSchema.alter_skip (cols : List String)
    (l : List (String × String)) (db : TablesSchema) (h : ∀ nd ∈ l, nd.1 ∈ cols) :
    updateTableDescriptorSchema.alter cols l db = (.ok (), db) := by
  induction l with
  | nil => rfl
  | cons nd rest ih =>
    obtain ⟨name, decl⟩ := nd
    have hname : cols.contains name = true := by
      simpa using h (name, decl) (List.mem_cons_self _ _)
    simp only [updateTableDescriptorSchema.alter, hname, if_true]
    exact ih (fun nd hnd => h nd (List.mem_cons_of_mem _ hnd))

/-- When a column of the schema that has the name of a column looked for, up
to case, has that very name and was among the names read, the tests return,
the columns looked for are in the schema, and the schema keeps its columns. -/
theorem updateTableDescriptorSchema.alter_ok (cols : List String)
    (l : List (String × String)) :
    ∀ db : TablesSchema,
      (∀ nd ∈ l, ∀ c ∈ db.mapd_tables_info, to_upper c = to_upper nd.1 →
        c = nd.1 ∧ c ∈ cols) →
      (l.map (fun nd => to_upper nd.1)).Nodup →
      ∃ db', updateTableDescriptorSchema.alter cols l db = (.ok (), db') ∧
        (∀ nd ∈ l, nd.1 ∈ cols ∨ nd.1 ∈ db'.mapd_tables_info) ∧
        (∀ c ∈ db.mapd_tables_info, c ∈ db'.mapd_tables_info) := by
  induction l with
  | nil =>
    intro db _ _
    exact ⟨db, rfl, fun nd hnd => absurd hnd (List.not_mem_nil _), fun c hc => hc⟩
  | cons nd rest ih =>
    intro db hfresh hnodup
    obtain ⟨name, decl⟩ := nd
    rw [List.map_cons, List.nodup_cons] at hnodup
    by_cases hname : cols.contains name = true
    · obtain ⟨db', hrun, hin, hkeep⟩ :=
        ih db (fun nd hnd => hfresh nd (List.mem_cons_of_mem _ hnd)) hnodup.2
      refine ⟨db', ?_, ?_, hkeep⟩
      · simp only [updateTableDescriptorSchema.alter, hname, if_true]
        exact hrun
      · intro nd hnd
        rcases List.mem_cons.mp hnd with heq | hrest
        · subst heq
          exact Or.inl (by simpa using hname)
        · exact hin nd hrest
    · have hany : db.mapd_tables_info.any (fun c => decide (to_upper c = to_upper name)) =
          false := by
        rw [List.any_eq_false]
        intro c hc hup
        have hup' : to_upper c = to_upper name := by simpa using hup
        obtain ⟨heq, hcols⟩ := hfresh (name, decl) (List.mem_cons_self _ _) c hc hup'
        apply hname
        have hcn : c = name := heq
        have : name ∈ cols := hcn ▸ hcols
        simpa using this
      have hadd : db.alterAdd name decl =
          (.ok (), { (db.query ("ALTER TABLE mapd_tables ADD " ++ name ++ " " ++ decl)) with
            mapd_tables_info := db.mapd_tables_info ++ [name] }) := by
        unfold TablesSchema.alterAdd
        simp only [TablesSchema.query, hany, Bool.false_eq_true, if_false]
      obtain ⟨db', hrun, hin, hkeep⟩ :=
        ih { (db.query ("ALTER TABLE mapd_tables ADD " ++ name ++ " " ++ decl)) with
            mapd_tables_info := db.mapd_tables_info ++ [name] }
          (by
            intro nd hnd c hc hup
            rcases List.mem_append.mp hc with hold | hnew
            · exact hfresh nd (List.mem_cons_of_mem _ hnd) c hold hup
            · rw [List.mem_singleton] at hnew
              subst hnew
              exact absurd (List.mem_map.mpr ⟨nd, hnd, hup.symm⟩) hnodup.1)
          hnodup.2
      refine ⟨db', ?_, ?_, ?_⟩
      · simp only [updateTableDescriptorSchema.alter, hname, if_false, hadd]
        exact hrun
      · intro nd hnd
        rcases List.mem_cons.mp hnd with heq | hrest
        · subst heq
          exact Or.inr (hkeep _ (List.mem_append_right _ (List.mem_singleton_self _)))
        · exact hin nd hrest
      · intro c hc
        exact hkeep c (List.mem_append_left _ hc)

/-- C25: for a schema of `mapd_tables` in which a column with the name of one
of the six migrated columns, up to case, has that very name,
`updateTableDescriptorSchema` returns; a second run returns too, runs the
statements `BEGIN TRANSACTION`, `PRAGMA TABLE_INFO(mapd_tables)` and `END
TRANSACTION` and no other, and leaves the columns that the first run left;
and a run on a schema that has the six columns runs those three statements
and no other and leaves the columns as they are. -/
theorem updateTableDescriptorSchema_idempotent (db : TablesSchema)
    (hsubset : ∀ nd ∈ updateTableDescriptorSchema.columns, ∀ c ∈ db.mapd_tables_info,
      to_upper c = to_upper nd.1 → c = nd.1) :
    ∃ db1, updateTableDescriptorSchema db = (.ok (), db1) ∧
      updateTableDescriptorSchema db1 =
        (.ok (), { db1 with statements := db1.statements ++
          ["BEGIN TRANSACTION", "PRAGMA TABLE_INFO(mapd_tables)", "END TRANSACTION"] }) ∧
      ((∀ nd ∈ updateTableDescriptorSchema.columns, nd.1 ∈ db.mapd_tables_info) →
        db1 = { db with statements := db.statements ++
          ["BEGIN TRANSACTION", "PRAGMA TABLE_INFO(mapd_tables)", "END TRANSACTION"] }) := by
  have hnodup : (updateTableDescriptorSchema.columns.map
      (fun nd => to_upper nd.1)).Nodup := by decide
  have second : ∀ d : TablesSchema,
      (∀ nd ∈ updateTableDescriptorSchema.columns, nd.1 ∈ d.mapd_tables_info) →
      updateTableDescriptorSchema d =
        (.ok (), { d with statements := d.statements ++
          ["BEGIN TRANSACTION", "PRAGMA TABLE_INFO(mapd_tables)", "END TRANSACTION"] }) := by
    intro d hall
    unfold updateTableDescriptorSchema
    simp only [TablesSchema.query]
    rw [updateTableDescriptorSchema.alter_skip _ _ _ hall]
    simp
  obtain ⟨db', hrun, hin, hkeep⟩ := updateTableDescriptorSchema.alter_ok
    db.mapd_tables_info updateTableDescriptorSchema.columns
    ((db.query "BEGIN TRANSACTION").query "PRAGMA TABLE_INFO(mapd_tables)")
    (fun nd hnd c hc hup => ⟨hsubset nd hnd c hc hup, hc⟩) hnodup
  refine ⟨db'.query "END TRANSACTION", ?_, ?_, ?_⟩
  · unfold updateTableDescriptorSchema
    simp only [TablesSchema.query] at hrun ⊢
    rw [hrun]
  · have hall : ∀ nd ∈ updateTableDescriptorSchema.columns,
        nd.1 ∈ (db'.query "END TRANSACTION").mapd_tables_info := by
      intro nd hnd
      rcases hin nd hnd with hcols | hnew
      · exact hkeep _ hcols
      · exact hnew
    exact second _ hall
  · intro hall
    have hskip := updateTableDescriptorSchema.alter_skip db.mapd_tables_info
      updateTableDescriptorSchema.columns
      ((db.query "BEGIN TRANSACTION").query "PRAGMA TABLE_INFO(mapd_tables)") hall
    have hdb' : db' = (db.query "BEGIN TRANSACTION").query "PRAGMA TABLE_INFO(mapd_tables)" := by
      have := hrun.symm.trans hskip
      injection this with _ this
    rw [hdb']
    simp [TablesSchema.query]

/-- C25 on the schema of an old store, which has the columns `shard` and
`userid` of the six: the first run adds the other four columns, in the order
of the tests, and the second run adds none. -/
theorem updateTableDescriptorSchema_idempotent_witness :
    (updateTableDescriptorSchema oldSchema).1 = .ok () ∧
    (updateTableDescriptorSchema oldSchema).2.mapd_tables_info =
      ["tableid", "name", "userid", "ncolumns", "isview", "fragments", "shard",
       "max_chunk_size", "shard_column_id", "num_shards", "key_metainfo"] ∧
    (updateTableDescriptorSchema (updateTableDescriptorSchema oldSchema).2).1 = .ok () ∧
    (updateTableDescriptorSchema (updateTableDescriptorSchema oldSchema).2).2.mapd_tables_info =
      (updateTableDescriptorSchema oldSchema).2.mapd_tables_info :=
  have h := updateTableDescriptorSchema_idempotent oldSchema (by decide)
  ⟨by decide, by decide,
   by
    obtain ⟨db1, h1, h2, _⟩ := h
    rw [h1, h2],
   by
    obtain ⟨db1, h1, h2, _⟩ := h
    rw [h1, h2]⟩

end Catalog

/-! ## Write guards -/

/-- The catalog object that a guard created on `cat` works on: the system
catalog for a catalog with the name of the system database. -/
theorem write_lock.new_scope (w : Catalogs) (tid : Nat) (cat : CatalogRef) :
    write_lock.new w tid cat =
      write_lock.lock_catalog { catalog := cat, lock := none, holds_lock := false } w tid
        (if (w.get cat).name = MAPD_SYSTEM_DB then .sysCatalog else cat) := by
  unfold write_lock.new
  split <;> rfl

/-- A guard created by the thread that is recorded as the owner does not
block, acquires nothing and leaves the catalogs as they are. -/
theorem write_lock.new_inner (w : Catalogs) (tid : Nat) (cat : CatalogRef)
    (howner : (w.get (if (w.get cat).name = MAPD_SYSTEM_DB then .sysCatalog else cat)
      ).thread_holding_write_lock = some tid) :
    write_lock.new w tid cat =
      some ({ catalog := cat, lock := none, holds_lock := false }, w) := by
  rw [write_lock.new_scope]
  unfold write_lock.lock_catalog
  rw [if_neg (by simpa using howner)]

/-- The destruction of a guard that acquired nothing leaves the catalogs as
they are. -/
theorem write_lock.destroy_inner (w : Catalogs) (cat : CatalogRef) :
    write_lock.destroy { catalog := cat, lock := none, holds_lock := false } w = w := by
  simp [write_lock.destroy]

/-- A properly nested sequence of guards run by the thread that is recorded
as the owner: no guard blocks or acquires, and the catalogs stay as they
are. -/
theorem Guards.run_inner (tid : Nat) (cat : CatalogRef) (guards : Guards) :
    ∀ w : Catalogs,
      (w.get (if (w.get cat).name = MAPD_SYSTEM_DB then .sysCatalog else cat)
        ).thread_holding_write_lock = some tid →
      Guards.run tid cat guards w = some (List.replicate guards.count false, w) := by
  induction guards with
  | none =>
    intro w _
    rfl
  | seq first second ih1 ih2 =>
    intro w howner
    simp only [Guards.run, ih1 w howner, ih2 w howner, Guards.count, List.replicate_add]
  | scope body ih =>
    intro w howner
    simp only [Guards.run, write_lock.new_inner w tid cat howner, ih w howner, Guards.count,
      write_lock.destroy_inner, List.replicate_succ]

/-- C24: a thread `tid` creates a guard on a catalog while the catalog object
that the guard works on (the system catalog when the catalog has the name of
the system database, the catalog itself otherwise) has no owner and a free
mutex.  The guard does not block, acquires the mutex for the thread and
records the thread as the owner.  Every properly nested sequence of guards
that the thread then runs on the catalog returns with no guard holding the
lock and with the catalogs, the owner among them, as they were; and the
destruction of the outermost guard resets the owner to no thread and frees
the mutex.  For a catalog with the name of the system database, the catalog
object itself stays as it is throughout. -/
theorem write_lock_nesting (w : Catalogs) (tid : Nat) (cat : CatalogRef) (inner : Guards)
    (scope : CatalogRef)
    (hscope : scope = if (w.get cat).name = MAPD_SYSTEM_DB then .sysCatalog else cat)
    (howner : (w.get scope).thread_holding_write_lock = none)
    (hfree : (w.get scope).sharedMutex_ = ⟨none, []⟩) :
    ∃ g w1, write_lock.new w tid cat = some (g, w1) ∧
      g.holds_lock = true ∧ g.lock = some scope ∧
      w1 = w.set scope { w.get scope with
        thread_holding_write_lock := some tid, sharedMutex_ := ⟨some tid, []⟩ } ∧
      Guards.run tid cat inner w1 = some (List.replicate inner.count false, w1) ∧
      write_lock.new w1 tid cat =
        some ({ catalog := cat, lock := none, holds_lock := false }, w1) ∧
      write_lock.destroy { catalog := cat, lock := none, holds_lock := false } w1 = w1 ∧
      g.destroy w1 = w ∧
      ((w.get cat).name = MAPD_SYSTEM_DB → cat = .catalog →
        w1.catalog = w.catalog ∧ w1.sysCatalog.thread_holding_write_lock = some tid) := by
  have hnew : write_lock.new w tid cat =
      some ({ catalog := cat, lock := some scope, holds_lock := true },
        w.set scope { w.get scope with
          thread_holding_write_lock := some tid, sharedMutex_ := ⟨some tid, []⟩ }) := by
    rw [write_lock.new_scope, ← hscope]
    unfold write_lock.lock_catalog
    rw [if_pos (by rw [howner]; exact fun h => Option.noConfusion h)]
    simp [SharedMutex.lock, hfree]
  have hname : ((w.set scope { w.get scope with
      thread_holding_write_lock := some tid, sharedMutex_ := ⟨some tid, []⟩ }).get cat).name =
      (w.get cat).name := by
    cases scope <;> cases cat <;> rfl
  have hget : ((w.set scope { w.get scope with
      thread_holding_write_lock := some tid, sharedMutex_ := ⟨some tid, []⟩ }).get
        scope).thread_holding_write_lock = some tid := by
    cases scope <;> rfl
  have howner1 : ((w.set scope { w.get scope with
      thread_holding_write_lock := some tid, sharedMutex_ := ⟨some tid, []⟩ }).get
        (if ((w.set scope { w.get scope with
          thread_holding_write_lock := some tid, sharedMutex_ := ⟨some tid, []⟩ }).get
            cat).name = MAPD_SYSTEM_DB then .sysCatalog else cat)).thread_holding_write_lock =
      some tid := by
    rw [hname, ← hscope]
    exact hget
  refine ⟨_, _, hnew, rfl, rfl, rfl, Guards.run_inner tid cat inner _ howner1,
    write_lock.new_inner _ tid cat howner1, write_lock.destroy_inner _ cat, ?_, ?_⟩
  · unfold write_lock.destroy
    simp only [if_true, hname]
    by_cases hsys : (w.get cat).name = MAPD_SYSTEM_DB
    · rw [if_pos hsys] at hscope
      subst hscope
      rw [if_pos hsys]
      cases w with
      | mk c sc =>
        cases sc with
        | mk n o m =>
          simp only [Catalogs.get] at howner hfree
          subst howner hfree
          rfl
    · rw [if_neg hsys] at hscope
      subst hscope
      rw [if_neg hsys]
      cases scope
      · cases w with
        | mk c sc =>
          cases c with
          | mk n o m =>
            simp only [Catalogs.get] at howner hfree
            subst howner hfree
            rfl
      · cases w with
        | mk c sc =>
          cases sc with
          | mk n o m =>
            simp only [Catalogs.get] at howner hfree
            subst howner hfree
            rfl
  · intro hsys hcat
    rw [if_pos hsys] at hscope
    subst hscope hcat
    exact ⟨rfl, rfl⟩

/-- C24 for the thread 7 on a catalog with the name of the system database,
with a guard whose scope holds two guards one after the other, the first with
a guard in its scope: the outermost guard holds the lock of the system
catalog, the three inner guards hold none, and the catalogs end as they
started. -/
theorem write_lock_nesting_witness :
    Guards.run 7 .catalog (.scope (.seq (.scope (.scope .none)) (.scope .none)))
      (freeCatalogs MAPD_SYSTEM_DB) =
        some ([true, false, false, false], freeCatalogs MAPD_SYSTEM_DB) ∧
    (∃ g w1, write_lock.new (freeCatalogs MAPD_SYSTEM_DB) 7 .catalog = some (g, w1) ∧
      w1.sysCatalog.thread_holding_write_lock = some 7 ∧
      w1.catalog = (freeCatalogs MAPD_SYSTEM_DB).catalog ∧
      Guards.run 7 .catalog (.seq (.scope (.scope .none)) (.scope .none)) w1 =
        some ([false, false, false], w1) ∧
      g.destroy w1 = freeCatalogs MAPD_SYSTEM_DB) :=
  ⟨by decide,
   by
    obtain ⟨g, w1, hnew, _, _, _, hrun, _, _, hdestroy, hsys⟩ :=
      write_lock_nesting (freeCatalogs MAPD_SYSTEM_DB) 7 .catalog
        (.seq (.scope (.scope .none)) (.scope .none)) .sysCatalog (by decide) (by decide)
        (by decide)
    exact ⟨g, w1, hnew, (hsys (by decide) rfl).2, (hsys (by decide) rfl).1, hrun, hdestroy⟩⟩

/-! ## Renaming tables -/

namespace Catalog

/-- The lookups in the table maps after a returning `renamePhysicalTable`. -/
theorem renamePhysicalTable_lookups (cat cat' : Catalog) (td : TableDescriptor)
    (newTableName : String)
    (h : cat.renamePhysicalTable td newTableName = (.ok (), cat')) :
    ∃ changeTd, mapFind cat.tableDescriptorMap_ (to_upper td.tableName) = some changeTd ∧
      cat'.logicalToPhysicalTableMapById_ = cat.logicalToPhysicalTableMapById_ ∧
      (∀ id, mapFind cat'.tableDescriptorMapById_ id =
        (mapFind cat.tableDescriptorMapById_ id).map
          (fun t => if t.tableId = changeTd.tableId
            then { t with tableName := newTableName } else t)) ∧
      mapFind cat'.tableDescriptorMap_ (to_upper newTableName) =
        some { changeTd with tableName := newTableName } ∧
      (∀ name, name ≠ to_upper newTableName →
        mapFind cat'.tableDescriptorMap_ name =
          if name = to_upper td.tableName then none
          else (mapFind cat.tableDescriptorMap_ name).map
            (fun t => if t.tableId = changeTd.tableId
              then { t with tableName := newTableName } else t)) := by
  unfold renamePhysicalTable at h
  split at h
  · cases h
  · rename_i st hst
    simp only at h
    split at h
    · cases h
    · rename_i changeTd hfind
      injection h with _ h
      subst h
      refine ⟨changeTd, hfind, rfl, ?_, ?_, ?_⟩
      · intro id
        simp only [updateTableDescriptor]
        exact mapFind_updated_tables (fun t => { t with tableName := newTableName }) _ _ _
      · simp only [updateTableDescriptor]
        exact mapFind_mapAssign_self _ _ _
      · intro name hne
        simp only [updateTableDescriptor]
        rw [mapFind_mapAssign_ne _ _ _ _ hne]
        by_cases hold : name = to_upper td.tableName
        · rw [if_pos hold, hold]
          exact mapFind_mapErase_self _ _
        · rw [if_neg hold, mapFind_mapErase_ne _ _ _ hold]
          exact mapFind_updated_tables (fun t => { t with tableName := newTableName }) _ _ _

/-- A returning `renamePhysicalTable` of a table that the by-id map holds, to
a name whose upper-cased form is the key of no other table, keeps the table
maps in agreement. -/
theorem renamePhysicalTable_tablesAgree (cat cat' : Catalog) (td : TableDescriptor)
    (newTableName : String)
    (h : cat.renamePhysicalTable td newTableName = (.ok (), cat'))
    (hagree : cat.tablesAgree)
    (htd : mapFind cat.tableDescriptorMapById_ td.tableId = some td)
    (hfresh : ∀ t, mapFind cat.tableDescriptorMap_ (to_upper newTableName) = some t →
      t.tableId = td.tableId) :
    cat'.tablesAgree ∧
    mapFind cat'.tableDescriptorMapById_ td.tableId =
      some { td with tableName := newTableName } ∧
    mapFind cat'.tableDescriptorMap_ (to_upper newTableName) =
      some { td with tableName := newTableName } ∧
    (∀ name, name ≠ to_upper newTableName →
      mapFind cat.tableDescriptorMap_ name = none →
      mapFind cat'.tableDescriptorMap_ name = none) ∧
    (∀ id, (mapFind cat'.tableDescriptorMapById_ id).isSome =
      (mapFind cat.tableDescriptorMapById_ id).isSome) := by
  obtain ⟨changeTd, hfind, _, hbyId, hnew, hother⟩ :=
    renamePhysicalTable_lookups cat cat' td newTableName h
  obtain ⟨hname, hid⟩ := hagree
  have hchange : changeTd = td := by
    have h1 := (hid _ _ htd).2
    rw [hfind] at h1
    exact Option.some.inj h1
  subst hchange
  have hbyId' : mapFind cat'.tableDescriptorMapById_ changeTd.tableId =
      some { changeTd with tableName := newTableName } := by
    rw [hbyId, htd]
    simp
  refine ⟨⟨?_, ?_⟩, hbyId', hnew, ?_, ?_⟩
  · intro name t hfound
    by_cases hkey : name = to_upper newTableName
    · subst hkey
      rw [hnew] at hfound
      have ht := Option.some.inj hfound
      subst ht
      exact ⟨rfl, hbyId'⟩
    · rw [hother name hkey] at hfound
      split at hfound
      · cases hfound
      · cases hu : mapFind cat.tableDescriptorMap_ name with
        | none =>
          rw [hu] at hfound
          cases hfound
        | some u =>
          rw [hu] at hfound
          obtain ⟨hu1, hu2⟩ := hname _ _ hu
          have hne : u.tableId ≠ changeTd.tableId := by
            intro heq
            rw [heq, htd] at hu2
            have := Option.some.inj hu2
            subst this
            rename_i hold
            exact hold hu1
          simp only [Option.map_some', if_neg hne] at hfound
          have ht := Option.some.inj hfound
          subst ht
          refine ⟨hu1, ?_⟩
          rw [hbyId, hu2]
          simp [hne]
  · intro id t hfound
    rw [hbyId] at hfound
    cases hu : mapFind cat.tableDescriptorMapById_ id with
    | none =>
      rw [hu] at hfound
      cases hfound
    | some u =>
      rw [hu] at hfound
      obtain ⟨hu1, hu2⟩ := hid _ _ hu
      by_cases heq : u.tableId = changeTd.tableId
      · have hut : u = changeTd := by
          rw [hu1, heq, htd] at hu
          exact (Option.some.inj hu).symm
        subst hut
        simp only [Option.map_some', if_true] at hfound
        have ht := Option.some.inj hfound
        subst ht
        exact ⟨hu1, hnew⟩
      · simp only [Option.map_some', if_neg heq] at hfound
        have ht := Option.some.inj hfound
        subst ht
        refine ⟨hu1, ?_⟩
        have hk1 : to_upper u.tableName ≠ to_upper newTableName := by
          intro hk
          rw [hk] at hu2
          exact heq (hfresh _ hu2)
        have hk0 : to_upper u.tableName ≠ to_upper changeTd.tableName := by
          intro hk
          rw [hk, hfind] at hu2
          exact heq (congrArg TableDescriptor.tableId (Option.some.inj hu2)).symm
        rw [hother _ hk1, if_neg hk0, hu2]
        simp [heq]
  · intro name hkey hnone
    rw [hother name hkey, hnone]
    split <;> rfl
  · intro id
    rw [hbyId]
    cases mapFind cat.tableDescriptorMapById_ id <;> rfl

/-- The loop of `renameTable` over the physical tables, for names whose
upper-cased forms are pairwise distinct and keys of no table: when it returns,
the table maps still agree, a key that was free and is none of the names is
still free, and the by-id map has the keys it had. -/
theorem renameTable.loop_tablesAgree (newTableName : String) (physicalTables : List Int) :
    ∀ (i : Nat) (cat cat' : Catalog),
      renameTable.loop newTableName physicalTables i cat = (.ok (), cat') →
      cat.tablesAgree →
      (∀ j, i ≤ j → j < i + physicalTables.length →
        mapFind cat.tableDescriptorMap_
          (to_upper (generatePhysicalTableName newTableName (Int.ofNat j + 1))) = none) →
      (∀ j k, i ≤ j → j < k → k < i + physicalTables.length →
        to_upper (generatePhysicalTableName newTableName (Int.ofNat j + 1)) ≠
          to_upper (generatePhysicalTableName newTableName (Int.ofNat k + 1))) →
      cat'.tablesAgree ∧
      (∀ name, (∀ j, i ≤ j → j < i + physicalTables.length →
          name ≠ to_upper (generatePhysicalTableName newTableName (Int.ofNat j + 1))) →
        mapFind cat.tableDescriptorMap_ name = none →
        mapFind cat'.tableDescriptorMap_ name = none) ∧
      (∀ id, (mapFind cat'.tableDescriptorMapById_ id).isSome =
        (mapFind cat.tableDescriptorMapById_ id).isSome) := by
  induction physicalTables with
  | nil =>
    intro i cat cat' h hagree _ _
    simp only [renameTable.loop] at h
    injection h with _ h
    subst h
    exact ⟨hagree, fun _ _ hn => hn, fun _ => rfl⟩
  | cons physical_tb_id rest ih =>
    intro i cat cat' h hagree hfresh hdistinct
    simp only [renameTable.loop] at h
    split at h
    · cases h
    · rename_i phys_td hphys
      split at h
      · cases h
      · rename_i cat1 hrename
        have hkey := (hagree.2 _ _ hphys).1
        obtain ⟨hagree1, _, _, hfree1, hsome1⟩ :=
          renamePhysicalTable_tablesAgree cat cat1 phys_td _ hrename hagree
            (by rw [← hkey]; exact hphys)
            (by
              intro t ht
              rw [hfresh i (Nat.le_refl i) (by simp)] at ht
              cases ht)
        obtain ⟨hagree', hfree', hsome'⟩ := ih (i + 1) cat1 cat' h hagree1
          (by
            intro j hj1 hj2
            apply hfree1
            · exact (hdistinct i j (Nat.le_refl i) (by omega)
                (by simp only [List.length_cons]; omega)).symm
            · exact hfresh j (by omega) (by simp only [List.length_cons]; omega))
          (by
            intro j k hj hjk hk
            exact hdistinct j k (by omega) hjk (by simp only [List.length_cons]; omega))
        refine ⟨hagree', ?_, ?_⟩
        · intro name hname hnone
          apply hfree'
          · intro j hj1 hj2
            exact hname j (by omega) (by simp only [List.length_cons]; omega)
          · exact hfree1 name (hname i (Nat.le_refl i) (by simp)) hnone
        · intro id
          rw [hsome', hsome1]

/-- C28 (corrected): in a catalog whose table maps agree, for a table `td`
that the by-id map holds and a new name such that the upper-cased forms of the
names that `renameTable` gives, the new name and those generated from it for
the physical tables of `td`, are pairwise distinct and keys of no table: after
a returning `renameTable` the table maps agree, so that every table is found
by name under its upper-cased name, and the table found under the id of `td`
has the new name and is the one found by the new name. -/
theorem renameTable_tablesAgree (cat cat' : Catalog) (td : TableDescriptor)
    (newTableName : String)
    (h : cat.renameTable td newTableName = (.ok (), cat'))
    (hagree : cat.tablesAgree)
    (htd : cat.getMetadataForTable td.tableId = some td)
    (hfresh : ∀ name ∈ renameTable.names cat td newTableName,
      cat.getMetadataForTableByName name = none)
    (hdistinct : ((renameTable.names cat td newTableName).map to_upper).Nodup) :
    cat'.tablesAgree ∧
    ∃ t, cat'.getMetadataForTable td.tableId = some t ∧
      cat'.getMetadataForTableByName newTableName = some t ∧
      t.tableName = newTableName ∧ t.tableId = td.tableId := by
  unfold getMetadataForTable at htd
  unfold getMetadataForTableByName at hfresh
  have last : ∀ cat1 : Catalog, cat1.tablesAgree →
      mapFind cat1.tableDescriptorMap_ (to_upper newTableName) = none →
      (mapFind cat1.tableDescriptorMapById_ td.tableId).isSome = true →
      cat1.renamePhysicalTable ((cat1.getMetadataForTable td.tableId).getD td) newTableName =
        (.ok (), cat') →
      cat'.tablesAgree ∧
      ∃ t, cat'.getMetadataForTable td.tableId = some t ∧
        cat'.getMetadataForTableByName newTableName = some t ∧
        t.tableName = newTableName ∧ t.tableId = td.tableId := by
    intro cat1 hagree1 hnone hsome hrename
    unfold getMetadataForTable at hrename ⊢
    unfold getMetadataForTableByName
    cases hfound : mapFind cat1.tableDescriptorMapById_ td.tableId with
    | none =>
      rw [hfound] at hsome
      cases hsome
    | some t1 =>
      rw [hfound] at hrename
      simp only [Option.getD_some] at hrename
      have hid := (hagree1.2 _ _ hfound).1
      obtain ⟨hagree', hbyId, hbyName, _, _⟩ :=
        renamePhysicalTable_tablesAgree cat1 cat' t1 newTableName hrename hagree1
          (by rw [← hid]; exact hfound)
          (by
            intro t ht
            rw [hnone] at ht
            cases ht)
      refine ⟨hagree', { t1 with tableName := newTableName }, ?_, hbyName, rfl, hid.symm⟩
      rw [hid]
      exact hbyId
  unfold renameTable at h
  simp only at h
  split at h
  · cases h
  · rename_i cat1 hrenamed
    cases hphys : mapFind cat.logicalToPhysicalTableMapById_ td.tableId with
    | none =>
      rw [hphys] at hrenamed
      injection hrenamed with _ hrenamed
      subst hrenamed
      simp only [renameTable.names, hphys, List.mem_singleton, forall_eq] at hfresh
      exact last cat hagree hfresh (by rw [htd]; rfl) h
    | some physicalTables =>
      rw [hphys] at hrenamed
      simp only at hrenamed
      split at hrenamed
      · cases hrenamed
      · simp only [renameTable.names, hphys] at hfresh hdistinct
        rw [List.map_append, List.nodup_append] at hdistinct
        obtain ⟨hd1, _, hd3⟩ := hdistinct
        have hgen : ∀ j, j < physicalTables.length →
            generatePhysicalTableName newTableName (Int.ofNat j + 1) ∈
              (List.range physicalTables.length).map
                (fun i => generatePhysicalTableName newTableName (Int.ofNat i + 1)) :=
          fun j hj => List.mem_map.mpr ⟨j, List.mem_range.mpr hj, rfl⟩
        obtain ⟨hagree1, hfree1, hsome1⟩ :=
          renameTable.loop_tablesAgree newTableName physicalTables 0 cat cat1 hrenamed hagree
            (by
              intro j _ hj
              exact hfresh _ (List.mem_append_left _ (hgen j (by omega))))
            (by
              intro j k _ hjk hk heq
              rw [List.map_map] at hd1
              have hinj := List.nodup_map_iff_inj_on (List.nodup_range _) |>.mp hd1
              have := hinj j (List.mem_range.mpr (by omega)) k (List.mem_range.mpr (by omega)) heq
              omega)
        refine last cat1 hagree1 ?_ (by rw [hsome1, htd]; rfl) h
        apply hfree1
        · intro j _ hj heq
          refine hd3 (List.mem_map.mpr ⟨_, hgen j (by omega), rfl⟩) ?_
          rw [← heq]
          simp
        · exact hfresh _ (List.mem_append_right _ (List.mem_singleton_self _))

/-- The table maps of the catalog with the tables `a` and `B` agree. -/
theorem twoTables_tablesAgree : twoTables.tablesAgree := by
  constructor
  · intro name t h
    simp only [twoTables, mapFind] at h
    split at h
    · rename_i hn
      subst hn
      have ht := Option.some.inj h
      subst ht
      exact ⟨by decide, by decide⟩
    · split at h
      · rename_i hn
        subst hn
        have ht := Option.some.inj h
        subst ht
        exact ⟨by decide, by decide⟩
      · cases h
  · intro id t h
    simp only [twoTables, mapFind] at h
    split at h
    · rename_i hn
      subst hn
      have ht := Option.some.inj h
      subst ht
      exact ⟨by decide, by decide⟩
    · split at h
      · rename_i hn
        subst hn
        have ht := Option.some.inj h
        subst ht
        exact ⟨by decide, by decide⟩
      · cases h

/-- C28 on the catalog with the tables `a` and `B`: the table `a` is renamed
to `c`, and is found under its id 1 and by the name `c` with that name. -/
theorem renameTable_tablesAgree_witness :
    (twoTables.renameTable (exampleTable 1 "a" .DISK_LEVEL) "c").2.tablesAgree ∧
    ∃ t, (twoTables.renameTable (exampleTable 1 "a" .DISK_LEVEL) "c").2.getMetadataForTable 1 =
        some t ∧
      (twoTables.renameTable (exampleTable 1 "a" .DISK_LEVEL) "c").2.getMetadataForTableByName
        "c" = some t ∧
      t.tableName = "c" ∧ t.tableId = 1 :=
  renameTable_tablesAgree twoTables
    (twoTables.renameTable (exampleTable 1 "a" .DISK_LEVEL) "c").2
    (exampleTable 1 "a" .DISK_LEVEL) "c" (Prod.ext (by decide) rfl) twoTables_tablesAgree
    (by decide) (by decide) (by decide)

/-- C28 as stated fails on the catalog with the tables `a` and `B`, whose
table maps agree: `renameTable` of `a` to `b` returns, as the store tells the
names `b` and `B` apart; afterwards the table `B` is held under its id 2 with
the name `B`, while the table found by the name `B` is the renamed table 1,
so that the table maps do not agree. -/
theorem renameTable_tablesAgree_counterexample :
    twoTables.tablesAgree ∧
    (twoTables.renameTable (exampleTable 1 "a" .DISK_LEVEL) "b").1 = .ok () ∧
    (twoTables.renameTable (exampleTable 1 "a" .DISK_LEVEL) "b").2.getMetadataForTable 2 =
      some (exampleTable 2 "B" .DISK_LEVEL) ∧
    (twoTables.renameTable (exampleTable 1 "a" .DISK_LEVEL) "b").2.getMetadataForTableByName
      "B" = some (exampleTable 1 "b" .DISK_LEVEL) ∧
    ¬ (twoTables.renameTable (exampleTable 1 "a" .DISK_LEVEL) "b").2.tablesAgree := by
  refine ⟨twoTables_tablesAgree, by decide, by decide, by decide, ?_⟩
  intro hagree
  have h2 := (hagree.2 2 (exampleTable 2 "B" .DISK_LEVEL) (by decide)).2
  revert h2
  decide

end Catalog

/-! ## The rows of an update -/

/-- A decimal type is no string type, and a floating-point type is neither a
string type nor an integer type. -/
theorem is_decimal_fp_spec (ti : SQLTypeInfo) :
    (ti.is_decimal = true → ti.is_string = false) ∧
    (ti.is_fp = true → ti.is_string = false ∧ ti.is_integer = false) := by
  unfold SQLTypeInfo.is_string SQLTypeInfo.IS_STRING SQLTypeInfo.is_decimal
    SQLTypeInfo.is_integer SQLTypeInfo.is_fp
  cases hty : ti.type <;> simp_all

namespace Fragmenter_Namespace

variable {β δ : Type}

/-- C21: the body of the row loop for a decimal column and an `int64_t`
right-hand value `v` of a type that is no string type, when the value is
stored: with `d` the value read back from the row, the body raises the
overflow error, whose message names `v` and the dimension and the scale of
the right-hand type and of the column, if and only if exactly one of `v` and
`d` is negative; and it returns when both or none are. -/
theorem updateColumn_row_decimal_overflow (acc : Accessors β δ) (cd cdl : ColumnDescriptor)
    (chunk_key : ChunkKey) (rhsType : SQLTypeInfo) (c roffs : Nat) (v : Int)
    (s : UpdelState β δ) (st : StatArrays) (buf : β)
    (hdec : cd.columnType.is_decimal = true) (hrhs : rhsType.is_string = false)
    (hput : acc.put_scalar_int64 (s.buffers chunk_key) roffs cd.columnType v cd.columnName
      (some rhsType) = .ok buf) :
    ((updateColumn.row acc cd cdl chunk_key rhsType c roffs (.int64 v) s st).1 =
        .error (.runtime_error (overflowMessage v rhsType cd.columnType)) ↔
      ((v < 0 ∧ 0 ≤ acc.get_scalar_int64 buf roffs cd.columnType) ∨
       (0 ≤ v ∧ acc.get_scalar_int64 buf roffs cd.columnType < 0))) ∧
    ((updateColumn.row acc cd cdl chunk_key rhsType c roffs (.int64 v) s st).1 = .ok () ↔
      ((v < 0 ∧ acc.get_scalar_int64 buf roffs cd.columnType < 0) ∨
       (0 ≤ v ∧ 0 ≤ acc.get_scalar_int64 buf roffs cd.columnType))) := by
  have hstr := (is_decimal_fp_spec cd.columnType).1 hdec
  unfold updateColumn.row
  simp only [updateColumn.resolve, hrhs, hstr, hdec, hput, Bool.false_eq_true, if_false,
    if_true]
  by_cases hv : 0 ≤ v <;> by_cases hd : acc.get_scalar_int64 buf roffs cd.columnType < 0
  · simp [hv, hd]
  · have hd' : 0 ≤ acc.get_scalar_int64 buf roffs cd.columnType := by omega
    simp [hv, hd, hd']
  · have hv' : v < 0 := by omega
    simp [hv, hd, hv']
  · have hv' : v < 0 := by omega
    have hd' : 0 ≤ acc.get_scalar_int64 buf roffs cd.columnType := by omega
    simp [hv, hd, hv', hd']

/-- C21 on row 2 of the column `d` of `t1`, a `DECIMAL(18, 2)`, for values of
type `DECIMAL(18, 0)`: the value `2^61`, which the scaling by 100 wraps to a
negative value, raises the overflow error, and the value 5 does not. -/
theorem updateColumn_row_decimal_overflow_witness :
    (updateColumn.row cellAccessors t1D t1D [1, 1, 2, 0]
      { SQLTypeInfo.ofType .kDECIMAL false with dimension := 18, scale := 0 } 0 2
      (.int64 2305843009213693952) t1State (StatArrays.new 1)).1 =
        .error (.runtime_error (overflowMessage 2305843009213693952
          { SQLTypeInfo.ofType .kDECIMAL false with dimension := 18, scale := 0 }
          t1D.columnType)) ∧
    (updateColumn.row cellAccessors t1D t1D [1, 1, 2, 0]
      { SQLTypeInfo.ofType .kDECIMAL false with dimension := 18, scale := 0 } 0 2
      (.int64 5) t1State (StatArrays.new 1)).1 = .ok () :=
  ⟨(updateColumn_row_decimal_overflow cellAccessors t1D t1D [1, 1, 2, 0]
      { SQLTypeInfo.ofType .kDECIMAL false with dimension := 18, scale := 0 } 0 2
      2305843009213693952 t1State (StatArrays.new 1) _ (by decide) (by decide) rfl).1.mpr
      (Or.inr ⟨by decide, by decide⟩),
   (updateColumn_row_decimal_overflow cellAccessors t1D t1D [1, 1, 2, 0]
      { SQLTypeInfo.ofType .kDECIMAL false with dimension := 18, scale := 0 } 0 2
      5 t1State (StatArrays.new 1) _ (by decide) (by decide) rfl).2.mpr
      (Or.inr ⟨by decide, by decide⟩)⟩

/-- The update of the column `d` of `t1` whose last value overflows raises the
overflow error, with any number of workers from 1 to 4. -/
theorem updateColumn_overflow_scenario :
    ∀ ncore ∈ [1, 2, 3, 4],
      (t1Overflow ncore).1 = .error (.runtime_error
        "Data conversion overflow on 2305843009213693952 from DECIMAL(18, 0) to (18, 2)") := by
  decide

end Fragmenter_Namespace

namespace Fragmenter_Namespace

variable {β δ : Type}

/-- C22 (code bug): the body of the row loop for a null right-hand value, a
`NullableString` with no string or with the empty string.  For a column that
is no string column the null of the column type is written at the row and
the null flag of the slot of the worker is set.  For a string column the
row gets the index that the dictionary of the column returns for the empty
string, that index is offered to the integer bounds of the slot, and the null
flags stay as they are. -/
theorem updateColumn_row_null (acc : Accessors β δ) (cd cdl : ColumnDescriptor)
    (chunk_key : ChunkKey) (rhsType : SQLTypeInfo) (c roffs : Nat) (str : Option String)
    (s : UpdelState β δ) (st : StatArrays) (hnull : str = none ∨ str = some "") :
    (cd.columnType.is_string = false → ∀ buf,
      acc.put_null (s.buffers chunk_key) roffs cd.columnType cd.columnName = .ok buf →
      updateColumn.row acc cd cdl chunk_key rhsType c roffs (.string str) s st =
        (.ok (), s.setBuffer chunk_key buf, st.set_null c) ∧
      (c < st.null.length → (st.set_null c).null.get? c = some true)) ∧
    (cd.columnType.is_string = true → ∀ buf,
      acc.put_scalar_int32 (s.buffers chunk_key) roffs cd.columnType
        (acc.getOrAdd (s.stringDicts cdl.columnType.comp_param) "").1 cd.columnName = .ok buf →
      updateColumn.row acc cd cdl chunk_key rhsType c roffs (.string str) s st =
        (.ok (),
         (s.setStringDict cdl.columnType.comp_param
            (acc.getOrAdd (s.stringDicts cdl.columnType.comp_param) "").2).setBuffer
            chunk_key buf,
         st.set_minmax_int64 c (acc.getOrAdd (s.stringDicts cdl.columnType.comp_param) "").1) ∧
      (st.set_minmax_int64 c
        (acc.getOrAdd (s.stringDicts cdl.columnType.comp_param) "").1).null = st.null) := by
  constructor
  · intro hstr buf hput
    refine ⟨?_, ?_⟩
    · unfold updateColumn.row
      rcases hnull with h | h <;> subst h <;>
        simp only [updateColumn.resolve, hstr, Bool.false_eq_true, if_false, hput,
          String.length_empty, gt_iff_lt, Nat.lt_irrefl]
    · intro hc
      simp [StatArrays.set_null, List.getElem?_set, hc]
  · intro hstr buf hput
    refine ⟨?_, rfl⟩
    unfold updateColumn.row
    rcases hnull with h | h <;> subst h <;>
      simp only [updateColumn.resolve, hstr, if_true, UpdelState.setStringDict, hput]

/-- C22 on row 0 of the columns of `t2`: null is written to the `DOUBLE`
column `f` and the null flag of the slot is set, while the text column `s`
gets the index of the empty string and the null flag of the slot stays
unset. -/
theorem updateColumn_row_null_witness :
    (updateColumn.row cellAccessors t2F t2F [1, 2, 1, 0] (SQLTypeInfo.ofType .kDOUBLE false) 0 0
      (.string none) t2State (StatArrays.new 1)).2.2.null = [true] ∧
    (updateColumn.row cellAccessors t2S t2S [1, 2, 2, 0] (SQLTypeInfo.ofType .kTEXT false) 0 0
      (.string none) t2State (StatArrays.new 1)).2.2.null = [false] :=
  have h := updateColumn_row_null cellAccessors t2F t2F [1, 2, 1, 0]
    (SQLTypeInfo.ofType .kDOUBLE false) 0 0 none t2State (StatArrays.new 1) (Or.inl rfl)
  have h' := updateColumn_row_null cellAccessors t2S t2S [1, 2, 2, 0]
    (SQLTypeInfo.ofType .kTEXT false) 0 0 none t2State (StatArrays.new 1) (Or.inl rfl)
  ⟨by rw [(h.1 (by decide) _ rfl).1]; decide,
   by rw [(h'.2 (by decide) _ rfl).1]; decide⟩

/-- The update of row 0 of the text column `s` of `t2` with null returns; its
summary has no null, and bounds that hold the index 1 that the dictionary gave
the empty string, which is what the row holds. -/
theorem updateColumn_null_scenario :
    (t2Null 1).1 = .ok (some ⟨false, DBL_MIN, DBL_MAX, 1, 1⟩) ∧
    mapFind ((t2Null 1).2.1.buffers [1, 2, 2, 0]).cells 0 = some 1 ∧
    (t2Null 1).2.1.stringDicts 1 = ["y", ""] := by
  decide

/-- C23 (corrected): the body of the row loop for a string column and a
right-hand value of a string type that is given as the index `i` of a string
in the dictionary of the right-hand type: the row gets the index that the
dictionary of the column returns for that string, which is also offered to the
integer bounds of the slot. -/
theorem updateColumn_row_string_index (acc : Accessors β δ) (cd cdl : ColumnDescriptor)
    (chunk_key : ChunkKey) (rhsType : SQLTypeInfo) (c roffs : Nat) (i : Int) (str : String)
    (s : UpdelState β δ) (st : StatArrays) (buf : β)
    (hrhs : rhsType.is_string = true)
    (hdict : (s.catalog.getMetadataForDict rhsType.comp_param).isSome = true)
    (hget : acc.getString (s.stringDicts rhsType.comp_param) i = .ok str)
    (hlc : cd.columnType.is_string = true)
    (hput : acc.put_scalar_int32 (s.buffers chunk_key) roffs cd.columnType
      (acc.getOrAdd (s.stringDicts cdl.columnType.comp_param) str).1 cd.columnName = .ok buf) :
    updateColumn.row acc cd cdl chunk_key rhsType c roffs (.int64 i) s st =
      (.ok (),
       (s.setStringDict cdl.columnType.comp_param
          (acc.getOrAdd (s.stringDicts cdl.columnType.comp_param) str).2).setBuffer
          chunk_key buf,
       st.set_minmax_int64 c (acc.getOrAdd (s.stringDicts cdl.columnType.comp_param) str).1) := by
  obtain ⟨dd, hdd⟩ := Option.isSome_iff_exists.mp hdict
  unfold updateColumn.row
  simp only [updateColumn.resolve, hrhs, if_true, hdd, hget, hlc, UpdelState.setStringDict,
    hput]

/-- C23 on row 0 of the text column `s` of `t2`, whose dictionary holds `y`
under the index 0, for the index 1 of `y` in the dictionary 2: the row gets
the index 0. -/
theorem updateColumn_row_string_index_witness :
    mapFind ((updateColumn.row cellAccessors t2S t2S [1, 2, 2, 0] textOfDict2 0 0 (.int64 1)
      t2State (StatArrays.new 1)).2.1.buffers [1, 2, 2, 0]).cells 0 = some 0 := by
  rw [updateColumn_row_string_index cellAccessors t2S t2S [1, 2, 2, 0] textOfDict2 0 0 1 "y"
    t2State (StatArrays.new 1) _ (by decide) (by decide) rfl (by decide) rfl]
  decide

/-- C23 as stated fails on the update of row 0 of the text column `s` of
`t2` with the index 1 of a column of dictionary 2: the index resolves in
dictionary 2, to the string `y`, the update returns, and the row holds the
index 0 of `y` in the dictionary of `s`, not the index 1. -/
theorem updateColumn_row_string_index_counterexample :
    cellAccessors.getString (t2State.stringDicts 2) 1 = .ok "y" ∧
    (∃ sm, (t2Copy 1).1 = .ok (some sm)) ∧
    mapFind ((t2Copy 1).2.1.buffers [1, 2, 2, 0]).cells 0 = some 0 ∧
    mapFind ((t2Copy 1).2.1.buffers [1, 2, 2, 0]).cells 0 ≠ some 1 := by
  refine ⟨by decide, ⟨⟨false, DBL_MIN, DBL_MAX, 0, 0⟩, by decide⟩, by decide, by decide⟩

end Fragmenter_Namespace

/-! ## The floating-point statistics of an update -/

namespace Fragmenter_Namespace

variable {β δ : Type}

/-- The body of the row loop for a `double` value on a floating-point column:
when it returns, the value has been offered to the `double` bounds of the slot
of the worker. -/
theorem updateColumn.row_double (acc : Accessors β δ) (cd cdl : ColumnDescriptor)
    (chunk_key : ChunkKey) (rhsType : SQLTypeInfo) (c roffs : Nat) (v : Double)
    (s s' : UpdelState β δ) (st st' : StatArrays)
    (h : updateColumn.row acc cd cdl chunk_key rhsType c roffs (.double v) s st =
      (.ok (), s', st'))
    (hfp : cd.columnType.is_fp = true) :
    st' = st.set_minmax_double c v := by
  obtain ⟨h1, h2⟩ := (is_decimal_fp_spec cd.columnType).2 hfp
  unfold updateColumn.row at h
  simp only [updateColumn.resolve, h1, h2, Bool.false_eq_true, if_false] at h
  split at h
  · cases h
  · injection h with _ h
    injection h with _ h
    exact h.symm

theorem doubleValues_cons_double (rhsValues : List ScalarTargetValue) (r : Nat) (rest : List Nat)
    (v : Double) (h : rhsValues.get? (if 1 = rhsValues.length then 0 else r) = some (.double v)) :
    doubleValues rhsValues (r :: rest) = v :: doubleValues rhsValues rest := by
  unfold doubleValues
  rw [List.filterMap_cons]
  simp only [h]

theorem doubleValues_append (rhsValues : List ScalarTargetValue) (a b : List Nat) :
    doubleValues rhsValues (a ++ b) = doubleValues rhsValues a ++ doubleValues rhsValues b := by
  unfold doubleValues
  exact List.filterMap_append _ _ _

/-- The row loop of a worker over `double` values on a floating-point column:
when it returns, the least and the greatest of the `double` slot vectors have
taken in the values of the rows, and every row had a value. -/
theorem updateColumn.rows_double (acc : Accessors β δ) (cd cdl : ColumnDescriptor)
    (chunk_key : ChunkKey) (fragOffsets : List Nat) (rhsValues : List ScalarTargetValue)
    (rhsType : SQLTypeInfo) (c : Nat)
    (hfp : cd.columnType.is_fp = true)
    (hvalues : ∀ sv ∈ rhsValues, ∃ v, sv = .double v) (rows : List Nat) :
    ∀ (s s' : UpdelState β δ) (st st' : StatArrays),
      updateColumn.rows acc cd cdl chunk_key fragOffsets rhsValues rhsType c rows s st =
        (.ok (), s', st') →
      c < st.dmin.length → c < st.dmax.length →
      st'.dmin.length = st.dmin.length ∧ st'.dmax.length = st.dmax.length ∧
      (doubleValues rhsValues rows).length = rows.length ∧
      st'.dmin.foldl (fun a x => min a x) DBL_MAX =
        (doubleValues rhsValues rows).foldl
          (fun a x => min a x) (st.dmin.foldl (fun a x => min a x) DBL_MAX) ∧
      st'.dmax.foldl (fun a x => max a x) DBL_MIN =
        (doubleValues rhsValues rows).foldl
          (fun a x => max a x) (st.dmax.foldl (fun a x => max a x) DBL_MIN) := by
  induction rows with
  | nil =>
    intro s s' st st' h _ _
    simp only [updateColumn.rows] at h
    injection h with _ h
    injection h with _ h
    subst h
    exact ⟨rfl, rfl, rfl, rfl, rfl⟩
  | cons r rest ih =>
    intro s s' st st' h hc1 hc2
    simp only [updateColumn.rows] at h
    split at h
    · rename_i roffs sv hoff hval
      obtain ⟨v, hv⟩ := hvalues sv (List.get?_mem hval)
      subst hv
      split at h
      · cases h
      · rename_i s1 st1 hrow
        have hst := updateColumn.row_double acc cd cdl chunk_key rhsType c roffs v s s1 st st1
          hrow hfp
        subst hst
        obtain ⟨a1, a2, a3, a4, a5⟩ := ih _ _ _ _ h
          (by simp only [StatArrays.set_minmax_double, List.length_modify]; exact hc1)
          (by simp only [StatArrays.set_minmax_double, List.length_modify]; exact hc2)
        rw [doubleValues_cons_double _ _ _ _ hval]
        simp only [StatArrays.set_minmax_double, List.length_modify] at a1 a2
        refine ⟨a1, a2, by simp [a3], ?_, ?_⟩
        · rw [a4]
          simp only [StatArrays.set_minmax_double, List.foldl_cons]
          rw [foldl_min_modify _ _ _ _ hc1]
        · rw [a5]
          simp only [StatArrays.set_minmax_double, List.foldl_cons]
          rw [foldl_max_modify _ _ _ _ hc2]
    · cases h

/-- The task of a worker over `double` values on a floating-point column, when
it returns. -/
theorem updateColumn.task_double (acc : Accessors β δ) (td : TableDescriptor)
    (cd : ColumnDescriptor) (shard_ : Int) (chunk_key : ChunkKey) (fragOffsets : List Nat)
    (rhsValues : List ScalarTargetValue) (rhsType : SQLTypeInfo) (segsz rbegin c : Nat)
    (hfp : cd.columnType.is_fp = true)
    (hvalues : ∀ sv ∈ rhsValues, ∃ v, sv = .double v)
    (s s' : UpdelState β δ) (st st' : StatArrays)
    (h : updateColumn.task acc td cd shard_ chunk_key fragOffsets rhsValues rhsType segsz
      rbegin c s st = (.ok (), s', st'))
    (hc1 : c < st.dmin.length) (hc2 : c < st.dmax.length) :
    st'.dmin.length = st.dmin.length ∧ st'.dmax.length = st.dmax.length ∧
    (doubleValues rhsValues
      (List.range' rbegin (min (rbegin + segsz) fragOffsets.length - rbegin))).length =
      min (rbegin + segsz) fragOffsets.length - rbegin ∧
    st'.dmin.foldl (fun a x => min a x) DBL_MAX =
      (doubleValues rhsValues
        (List.range' rbegin (min (rbegin + segsz) fragOffsets.length - rbegin))).foldl
        (fun a x => min a x) (st.dmin.foldl (fun a x => min a x) DBL_MAX) ∧
    st'.dmax.foldl (fun a x => max a x) DBL_MIN =
      (doubleValues rhsValues
        (List.range' rbegin (min (rbegin + segsz) fragOffsets.length - rbegin))).foldl
        (fun a x => max a x) (st.dmax.foldl (fun a x => max a x) DBL_MIN) := by
  unfold updateColumn.task at h
  simp only at h
  split at h
  · cases h
  · split at h
    · cases h
    · have key := updateColumn.rows_double acc cd _ chunk_key fragOffsets rhsValues rhsType c
        hfp hvalues _ _ _ _ _ h hc1 hc2
      simp only [List.length_range'] at key
      exact key

/-- The dispatch loop over `double` values on a floating-point column: when it
ends without an exception, no task raised one, and the least and the greatest
of the `double` slot vectors have taken in the values of all rows from
`rbegin` on. -/
theorem updateColumn.dispatch_double (acc : Accessors β δ) (cpu_threads : Nat)
    (td : TableDescriptor) (cd : ColumnDescriptor) (shard_ : Int) (chunk_key : ChunkKey)
    (fragOffsets : List Nat) (rhsValues : List ScalarTargetValue) (rhsType : SQLTypeInfo)
    (segsz ncore : Nat)
    (hfp : cd.columnType.is_fp = true)
    (hvalues : ∀ sv ∈ rhsValues, ∃ v, sv = .double v)
    (hseg : fragOffsets.length ≤ ncore * segsz) (fuel : Nat) :
    ∀ (rbegin c : Nat) (threads threads' : List (Option String))
      (failed_any_chunk failed' : Option String) (s s' : UpdelState β δ) (st st' : StatArrays),
      updateColumn.dispatch acc cpu_threads td cd shard_ chunk_key fragOffsets rhsValues
        rhsType segsz fuel rbegin c threads failed_any_chunk s st =
          (.ok (threads', failed'), s', st') →
      updateColumn.wait_cleanup_threads threads' failed' = none →
      rbegin = c * segsz → st.dmin.length = ncore → st.dmax.length = ncore →
      updateColumn.wait_cleanup_threads threads failed_any_chunk = none ∧
      st'.dmin.length = ncore ∧ st'.dmax.length = ncore ∧
      (doubleValues rhsValues
        (List.range' rbegin (fragOffsets.length - rbegin))).length =
        fragOffsets.length - rbegin ∧
      st'.dmin.foldl (fun a x => min a x) DBL_MAX =
        (doubleValues rhsValues (List.range' rbegin (fragOffsets.length - rbegin))).foldl
          (fun a x => min a x) (st.dmin.foldl (fun a x => min a x) DBL_MAX) ∧
      st'.dmax.foldl (fun a x => max a x) DBL_MIN =
        (doubleValues rhsValues (List.range' rbegin (fragOffsets.length - rbegin))).foldl
          (fun a x => max a x) (st.dmax.foldl (fun a x => max a x) DBL_MIN) := by
  have done : ∀ (rbegin : Nat), ¬ rbegin < fragOffsets.length →
      (doubleValues rhsValues (List.range' rbegin (fragOffsets.length - rbegin))) = [] := by
    intro rbegin hge
    have : fragOffsets.length - rbegin = 0 := by omega
    rw [this]
    rfl
  induction fuel with
  | zero =>
    intro rbegin c threads threads' failed failed' s s' st st' h hwait _ hl1 hl2
    simp only [updateColumn.dispatch] at h
    split at h
    · cases h
    · rename_i hge
      injection h with h1 h
      injection h with _ h
      injection h1 with h1
      injection h1 with h1 h2
      subst h h1 h2
      rw [done _ hge]
      have : fragOffsets.length - rbegin = 0 := by omega
      exact ⟨hwait, hl1, hl2, by rw [this]; rfl, rfl, rfl⟩
  | succ fuel ih =>
    intro rbegin c threads threads' failed failed' s s' st st' h hwait hrb hl1 hl2
    have horig := h
    simp only [updateColumn.dispatch] at h
    split at h
    · rename_i hlt
      have hc : c < ncore := by
        have h1 : c * segsz < ncore * segsz := by rw [← hrb]; omega
        exact Nat.lt_of_mul_lt_mul_right h1
      obtain ⟨s1, st1, threads1, failed1, htask, hrest⟩ :=
        updateColumn.dispatch_first_task _ _ _ _ _ _ _ _ _ _ _ _ _ _ _ _ _ _ _ _ _ horig hwait
          hlt
      have hstart := updateColumn.dispatch_no_raise _ _ _ _ _ _ _ _ _ _ _ _ _ _ _ _ _ _ _ _ _
        horig hwait
      obtain ⟨t1, t2, t3, t4, t5⟩ := updateColumn.task_double acc td cd shard_ chunk_key
        fragOffsets rhsValues rhsType segsz rbegin c hfp hvalues s s1 st st1 htask
        (by rw [hl1]; exact hc) (by rw [hl2]; exact hc)
      obtain ⟨_, b1, b2, b3, b4, b5⟩ := ih _ _ _ _ _ _ _ _ _ _ hrest hwait
        (by rw [hrb, Nat.succ_mul]) (by rw [t1, hl1]) (by rw [t2, hl2])
      refine ⟨hstart, b1, b2, ?_, ?_, ?_⟩
      · rw [range'_segment rbegin segsz, doubleValues_append, List.length_append, t3, b3]
        omega
      · rw [b4, t4, range'_segment rbegin segsz fragOffsets.length, doubleValues_append,
          List.foldl_append]
      · rw [b5, t5, range'_segment rbegin segsz fragOffsets.length, doubleValues_append,
          List.foldl_append]
    · rename_i hge
      injection h with h1 h
      injection h with _ h
      injection h1 with h1
      injection h1 with h1 h2
      subst h h1 h2
      rw [done _ hge]
      have : fragOffsets.length - rbegin = 0 := by omega
      exact ⟨hwait, hl1, hl2, by rw [this]; rfl, rfl, rfl⟩

/-- C30 (code bug): for a floating-point target column and `double`
right-hand values, whenever `updateColumn` hands a summary to
`updateColumnMetadata`, for any number of workers, every row has its value,
`dmin` of the summary is the fold of `min` over the values from the greatest
finite `double` and `dmax` is the fold of `max` over the values from
`numeric_limits<double>::min()`, the least positive normal `double`.  So
`dmin` is the least of the values, when none exceeds the greatest finite
`double`; but when every value is below the least positive normal `double`,
as when all are negative, `dmax` is that constant and none of the values. -/
theorem updateColumn_double_summary (acc : Accessors β δ) (cpu_threads : Nat)
    (s s' : UpdelState β δ) (td : TableDescriptor) (cd : ColumnDescriptor) (fragmentId : Int)
    (fragOffsets : List Nat) (rhsValues : List ScalarTargetValue) (rhsType : SQLTypeInfo)
    (memoryLevel : MemoryLevel) (updelRoll updelRoll' : UpdelRoll) (sm : Summary)
    (hfp : cd.columnType.is_fp = true)
    (hvalues : ∀ sv ∈ rhsValues, ∃ v, sv = .double v)
    (hrun : updateColumn acc cpu_threads s td cd fragmentId fragOffsets rhsValues rhsType
      memoryLevel updelRoll = (.ok (some sm), s', updelRoll')) :
    1 ≤ cpu_threads ∧
    (doubleValues rhsValues (List.range fragOffsets.length)).length = fragOffsets.length ∧
    1 ≤ fragOffsets.length ∧
    sm.dmin = (doubleValues rhsValues (List.range fragOffsets.length)).foldl
      (fun a x => min a x) DBL_MAX ∧
    sm.dmax = (doubleValues rhsValues (List.range fragOffsets.length)).foldl
      (fun a x => max a x) DBL_MIN ∧
    ((∀ v ∈ doubleValues rhsValues (List.range fragOffsets.length), v ≤ DBL_MAX) →
      sm.dmin ∈ doubleValues rhsValues (List.range fragOffsets.length) ∧
      ∀ v ∈ doubleValues rhsValues (List.range fragOffsets.length), sm.dmin ≤ v) ∧
    ((∀ v ∈ doubleValues rhsValues (List.range fragOffsets.length), v < DBL_MIN) →
      sm.dmax = DBL_MIN ∧
      sm.dmax ∉ doubleValues rhsValues (List.range fragOffsets.length)) := by
  have main : 1 ≤ cpu_threads ∧
      (doubleValues rhsValues (List.range fragOffsets.length)).length = fragOffsets.length ∧
      1 ≤ fragOffsets.length ∧
      sm.dmin = (doubleValues rhsValues (List.range fragOffsets.length)).foldl
        (fun a x => min a x) DBL_MAX ∧
      sm.dmax = (doubleValues rhsValues (List.range fragOffsets.length)).foldl
        (fun a x => max a x) DBL_MIN := by
    unfold updateColumn at hrun
    simp only at hrun
    split at hrun
    · cases hrun
    · rename_i hrows
      split at hrun
      · cases hrun
      · split at hrun
        · cases hrun
        · split at hrun
          · cases hrun
          · split at hrun
            · cases hrun
            · rename_i hcore
              split at hrun
              · cases hrun
              · rename_i threads failed s1 st1 hdisp
                split at hrun
                · cases hrun
                · rename_i hwait
                  split at hrun
                  · cases hrun
                  · injection hrun with h1 _
                    injection h1 with h1
                    injection h1 with h1
                    subst h1
                    have hpos : 0 < cpu_threads := Nat.pos_of_ne_zero hcore
                    obtain ⟨_, _, _, a3, a4, a5⟩ := updateColumn.dispatch_double acc cpu_threads
                      td cd _ _ fragOffsets rhsValues rhsType _ cpu_threads hfp
                      hvalues (segsz_covers _ _ hpos) _ _ _ _ _ _ _ _ _ _ _ hdisp hwait
                      (by simp) (by simp [StatArrays.new]) (by simp [StatArrays.new])
                    simp only [Nat.sub_zero, ← List.range_eq_range'] at a3 a4 a5
                    refine ⟨hpos, a3, by omega, ?_, ?_⟩
                    · show st1.dmin.foldl (fun a x => min a x) DBL_MAX = _
                      rw [a4]
                      simp only [StatArrays.new]
                      rw [foldl_min_replicate]
                    · show st1.dmax.foldl (fun a x => max a x) DBL_MIN = _
                      rw [a5]
                      simp only [StatArrays.new]
                      rw [foldl_max_replicate]
  obtain ⟨m1, m2, m3, m4, m5⟩ := main
  refine ⟨m1, m2, m3, m4, m5, ?_, ?_⟩
  · intro hbound
    have hne : doubleValues rhsValues (List.range fragOffsets.length) ≠ [] := by
      intro hnil
      rw [hnil] at m2
      simp at m2
      omega
    obtain ⟨l1, l2⟩ := foldl_min_least _ DBL_MAX hne hbound
    rw [← m4] at l1 l2
    exact ⟨l1, l2⟩
  · intro hbelow
    obtain ⟨k1, _, k3⟩ :=
      foldl_max_spec (doubleValues rhsValues (List.range fragOffsets.length)) DBL_MIN
    rw [← m5] at k1 k3
    have hmax : sm.dmax = DBL_MIN := by
      rcases k3 with k3 | k3
      · exact k3
      · exact absurd (hbelow _ k3) (not_lt.mpr k1)
    refine ⟨hmax, ?_⟩
    intro hmem
    have := hbelow _ hmem
    rw [hmax] at this
    exact lt_irrefl _ this

/-- C30 on the update of the `DOUBLE` column `f` of `t2` with the values -1,
-2 and -3, with two workers: the summary has the least value -3 as `dmin` and,
as `dmax`, the least positive normal `double`, not the greatest value -1. -/
theorem updateColumn_double_summary_witness :
    (t2Negative 2).1 =
      .ok (some ⟨false, DBL_MIN, -3 * Double.one, INT64_MIN, INT64_MAX⟩) ∧
    doubleValues [.double (-Double.one), .double (-2 * Double.one), .double (-3 * Double.one)]
      (List.range 3) = [-Double.one, -2 * Double.one, -3 * Double.one] ∧
    (⟨false, DBL_MIN, -3 * Double.one, INT64_MIN, INT64_MAX⟩ : Summary).dmax = DBL_MIN ∧
    DBL_MIN ∉ doubleValues
      [.double (-Double.one), .double (-2 * Double.one), .double (-3 * Double.one)]
      (List.range 3) :=
  have h := updateColumn_double_summary cellAccessors 2 t2State (t2Negative 2).2.1
    (exampleTable 2 "t2" .DISK_LEVEL) t2F 0 [0, 1, 2]
    [.double (-Double.one), .double (-2 * Double.one), .double (-3 * Double.one)]
    (SQLTypeInfo.ofType .kDOUBLE false) .CPU_LEVEL (UpdelRoll.new 0 .DISK_LEVEL)
    (t2Negative 2).2.2 ⟨false, DBL_MIN, -3 * Double.one, INT64_MIN, INT64_MAX⟩
    (by decide) (by simp) (Prod.ext (by decide) rfl)
  ⟨by decide, by decide, (h.2.2.2.2.2.2 (by decide)).1, (h.2.2.2.2.2.2 (by decide)).2⟩

/-- The update of the column `f` of `t2` with the values -1, -2 and -3 hands
over the bounds -3 and `numeric_limits<double>::min()` with one, two, three or
four workers. -/
theorem updateColumn_negative_scenario :
    ∀ ncore ∈ [1, 2, 3, 4],
      (t2Negative ncore).1 =
        .ok (some ⟨false, DBL_MIN, -3 * Double.one, INT64_MIN, INT64_MAX⟩) := by
  decide

end Fragmenter_Namespace

/-! ## The tasks of an update -/

/-- The slot `c` is below the number of segments of `nrow` rows exactly when
its segment starts at a row. -/
theorem lt_segments_iff (nrow segsz c : Nat) (hseg : 1 ≤ segsz) :
    c < (nrow + segsz - 1) / segsz ↔ c * segsz < nrow := by
  rw [← Nat.succ_le_iff, Nat.le_div_iff_mul_le (by omega), Nat.succ_mul]
  omega

namespace Fragmenter_Namespace

variable {β δ : Type}

/-- The tasks of the dispatch loop from the slot `c` on, when the rounds
suffice for the rows that are left. -/
theorem updateColumn.tasks_closed (nrow segsz : Nat) (hseg : 1 ≤ segsz) (fuel : Nat) :
    ∀ c : Nat, nrow ≤ c * segsz + fuel →
      updateColumn.tasks nrow segsz fuel (c * segsz) c =
        (List.range' c ((nrow + segsz - 1) / segsz - c)).map (fun j => (j * segsz, j)) := by
  induction fuel with
  | zero =>
    intro c hfuel
    have hk : ¬ c < (nrow + segsz - 1) / segsz := by
      rw [lt_segments_iff nrow segsz c hseg]
      omega
    have : (nrow + segsz - 1) / segsz - c = 0 := by omega
    rw [this]
    rfl
  | succ fuel ih =>
    intro c hfuel
    by_cases hlt : c * segsz < nrow
    · have hk : c < (nrow + segsz - 1) / segsz := (lt_segments_iff nrow segsz c hseg).mpr hlt
      have hlen : (nrow + segsz - 1) / segsz - c = ((nrow + segsz - 1) / segsz - (c + 1)) + 1 := by
        omega
      have hnext : c * segsz + segsz = (c + 1) * segsz := (Nat.succ_mul c segsz).symm
      simp only [updateColumn.tasks, hlt, if_true]
      rw [hnext, ih (c + 1) (by rw [← hnext]; omega), hlen, List.range'_succ, List.map_cons]
    · have hk : ¬ c < (nrow + segsz - 1) / segsz := by
        rw [lt_segments_iff nrow segsz c hseg]
        exact hlt
      have : (nrow + segsz - 1) / segsz - c = 0 := by omega
      simp only [updateColumn.tasks, hlt, if_false]
      rw [this]
      rfl

/-- The rows of the segment that starts at the row `c * segsz`. -/
theorem updateColumn.mem_segment (segsz nrow c r : Nat) :
    r ∈ updateColumn.segment segsz nrow (c * segsz) ↔
      c * segsz ≤ r ∧ r < (c + 1) * segsz ∧ r < nrow := by
  unfold updateColumn.segment
  rw [List.mem_range'_1, Nat.succ_mul]
  constructor
  · rintro ⟨h1, h2⟩
    have := Nat.min_le_left (c * segsz + segsz) nrow
    have := Nat.min_le_right (c * segsz + segsz) nrow
    omega
  · rintro ⟨h1, h2, h3⟩
    refine ⟨h1, ?_⟩
    have : r < min (c * segsz + segsz) nrow := lt_min h2 h3
    omega

/-- The row loop of a task of a table that is no shard, on a column that is no
string column, runs over the segment of the task. -/
theorem updateColumn.task_segment (acc : Accessors β δ) (td : TableDescriptor)
    (cd : ColumnDescriptor) (shard_ : Int) (chunk_key : ChunkKey) (fragOffsets : List Nat)
    (rhsValues : List ScalarTargetValue) (rhsType : SQLTypeInfo) (segsz rbegin c : Nat)
    (s : UpdelState β δ) (st : StatArrays) (hshard : shard_ < 0)
    (hstr : cd.columnType.is_string = false) :
    updateColumn.task acc td cd shard_ chunk_key fragOffsets rhsValues rhsType segsz rbegin c
      s st =
    updateColumn.rows acc cd cd chunk_key fragOffsets rhsValues rhsType c
      (updateColumn.segment segsz fragOffsets.length rbegin) s st := by
  unfold updateColumn.task updateColumn.segment
  simp only [hshard, if_true, hstr, Bool.false_eq_true, if_false]

/-- When the dispatch loop ends without an exception, it has run the tasks
of `updateColumn.tasks`, each with its start and its slot, one after the
other, and every one of them returned. -/
theorem updateColumn.dispatch_runTasks (acc : Accessors β δ) (cpu_threads : Nat)
    (td : TableDescriptor) (cd : ColumnDescriptor) (shard_ : Int) (chunk_key : ChunkKey)
    (fragOffsets : List Nat) (rhsValues : List ScalarTargetValue) (rhsType : SQLTypeInfo)
    (segsz : Nat) (fuel : Nat) :
    ∀ (rbegin c : Nat) (threads threads' : List (Option String))
      (failed_any_chunk failed' : Option String) (s s' : UpdelState β δ) (st st' : StatArrays),
      updateColumn.dispatch acc cpu_threads td cd shard_ chunk_key fragOffsets rhsValues
        rhsType segsz fuel rbegin c threads failed_any_chunk s st =
          (.ok (threads', failed'), s', st') →
      updateColumn.wait_cleanup_threads threads' failed' = none →
      updateColumn.runTasks acc td cd shard_ chunk_key fragOffsets rhsValues rhsType segsz
        (updateColumn.tasks fragOffsets.length segsz fuel rbegin c) s st = (.ok (), s', st') := by
  induction fuel with
  | zero =>
    intro rbegin c threads threads' failed failed' s s' st st' h _
    simp only [updateColumn.dispatch] at h
    split at h
    · cases h
    · injection h with _ h
      injection h with h1 h2
      subst h1 h2
      rfl
  | succ fuel ih =>
    intro rbegin c threads threads' failed failed' s s' st st' h hwait
    by_cases hlt : rbegin < fragOffsets.length
    · obtain ⟨s1, st1, threads1, failed1, htask, hrest⟩ :=
        updateColumn.dispatch_first_task _ _ _ _ _ _ _ _ _ _ _ _ _ _ _ _ _ _ _ _ _ h hwait hlt
      simp only [updateColumn.tasks, hlt, if_true, updateColumn.runTasks, htask]
      exact ih _ _ _ _ _ _ _ _ _ _ hrest hwait
    · simp only [updateColumn.dispatch, hlt, if_false] at h
      injection h with _ h
      injection h with h1 h2
      subst h1 h2
      simp only [updateColumn.tasks, hlt, if_false, updateColumn.runTasks]

/-- The segments of `nrow ≥ 1` rows for `ncore ≥ 1` workers, with `segsz` the
quotient of `nrow + ncore - 1` by `ncore` and `k` the quotient of
`nrow + segsz - 1` by `segsz`: `k` is at most `ncore`; the loop header gives
the slots `0` to `k - 1`, the slot `c` with the start `c * segsz`; the rows of
the segment of the slot `c` are those from `c * segsz` up to but excluding the
lesser of `(c + 1) * segsz` and `nrow`, the first of which is among them; the
slot is below `ncore`; no two slots are the same; and every row below `nrow`
is in exactly one segment. -/
theorem updateColumn.tasks_partition (nrow ncore : Nat) (hrow : 1 ≤ nrow)
    (hcore : 1 ≤ ncore) :
    (nrow + (nrow + ncore - 1) / ncore - 1) / ((nrow + ncore - 1) / ncore) ≤ ncore ∧
    updateColumn.tasks nrow ((nrow + ncore - 1) / ncore) nrow 0 0 =
      (List.range ((nrow + (nrow + ncore - 1) / ncore - 1) / ((nrow + ncore - 1) / ncore))).map
        (fun c => (c * ((nrow + ncore - 1) / ncore), c)) ∧
    ((updateColumn.tasks nrow ((nrow + ncore - 1) / ncore) nrow 0 0).map
      (fun t => t.2)).Nodup ∧
    (∀ c, c < (nrow + (nrow + ncore - 1) / ncore - 1) / ((nrow + ncore - 1) / ncore) →
      c < ncore ∧
      c * ((nrow + ncore - 1) / ncore) ∈
        updateColumn.segment ((nrow + ncore - 1) / ncore) nrow
          (c * ((nrow + ncore - 1) / ncore)) ∧
      ∀ r, r ∈ updateColumn.segment ((nrow + ncore - 1) / ncore) nrow
          (c * ((nrow + ncore - 1) / ncore)) ↔
        c * ((nrow + ncore - 1) / ncore) ≤ r ∧
          r < min ((c + 1) * ((nrow + ncore - 1) / ncore)) nrow) ∧
    (∀ r, r < nrow →
      ∃! c, c < (nrow + (nrow + ncore - 1) / ncore - 1) / ((nrow + ncore - 1) / ncore) ∧
        r ∈ updateColumn.segment ((nrow + ncore - 1) / ncore) nrow
          (c * ((nrow + ncore - 1) / ncore))) := by
  generalize hsegsz : (nrow + ncore - 1) / ncore = segsz
  have hseg : 1 ≤ segsz := by
    rw [← hsegsz, Nat.le_div_iff_mul_le (by omega)]
    omega
  have hcover : nrow ≤ ncore * segsz := by
    rw [← hsegsz]
    exact segsz_covers nrow ncore (by omega)
  have hk : (nrow + segsz - 1) / segsz ≤ ncore := by
    apply Nat.le_of_not_lt
    rw [lt_segments_iff nrow segsz ncore hseg]
    omega
  have htasks : updateColumn.tasks nrow segsz nrow 0 0 =
      (List.range ((nrow + segsz - 1) / segsz)).map (fun c => (c * segsz, c)) := by
    have h := updateColumn.tasks_closed nrow segsz hseg nrow 0 (by omega)
    rw [Nat.zero_mul, Nat.sub_zero, ← List.range_eq_range'] at h
    exact h
  refine ⟨hk, htasks, ?_, ?_, ?_⟩
  · rw [htasks, List.map_map]
    have : ((fun t : Nat × Nat => t.2) ∘ fun c => (c * segsz, c)) = id := rfl
    rw [this, List.map_id]
    exact List.nodup_range _
  · intro c hc
    have hstart := (lt_segments_iff nrow segsz c hseg).mp hc
    refine ⟨by omega, ?_, ?_⟩
    · rw [updateColumn.mem_segment, Nat.succ_mul]
      omega
    · intro r
      rw [updateColumn.mem_segment, lt_min_iff]
  · intro r hr
    have hdiv := Nat.div_add_mod r segsz
    have hmod := Nat.mod_lt r (show 0 < segsz by omega)
    have hmul : r / segsz * segsz = segsz * (r / segsz) := Nat.mul_comm _ _
    refine ⟨r / segsz, ⟨?_, ?_⟩, ?_⟩
    · rw [lt_segments_iff nrow segsz _ hseg]
      omega
    · rw [updateColumn.mem_segment, Nat.succ_mul]
      omega
    · rintro c ⟨_, hmem⟩
      rw [updateColumn.mem_segment, Nat.succ_mul] at hmem
      obtain ⟨h1, h2, _⟩ := hmem
      have hle : c ≤ r / segsz := by
        rw [Nat.le_div_iff_mul_le (by omega)]
        exact h1
      have hge : r / segsz < c + 1 := by
        rw [Nat.div_lt_iff_lt_mul (by omega), Nat.succ_mul]
        exact h2
      omega

end Fragmenter_Namespace

/-! ## The reverse-lookup map under a grant through another catalog -/

namespace SysCatalog

/-- Updating the descriptors of one object leaves the descriptors as they were
under every key that is neither the key looked up, with the database of the
catalog, nor the key inserted, with the database of the object. -/
theorem getMetadataForObject_update_frame (s : SysCatalog) (r : String) (o : DBObject)
    (roleType : Bool) (cat : Catalog) (d : Int) (t : DBObjectType) (oid : Int)
    (hk1 : (d, t, oid) ≠
      (cat.currentDB_.dbId, o.objectKey_.permissionType, o.objectKey_.objectId))
    (hk2 : (d, t, oid) ≠
      (o.objectKey_.dbId, o.objectKey_.permissionType, o.objectKey_.objectId)) :
    (s.updateObjectDescriptorMap r o roleType cat).getMetadataForObject d t oid =
      s.getMetadataForObject d t oid := by
  have hmap : ∀ m : List (ObjectDescriptorKey × ObjectRoleDescriptor),
      (m.map (overwritePrivileges (cat.currentDB_.dbId, o.objectKey_.permissionType,
            o.objectKey_.objectId) r o.objectPrivs_)).filter
        (fun e => decide (e.1 = (d, t, oid))) =
      m.filter (fun e => decide (e.1 = (d, t, oid))) := by
    intro m
    induction m with
    | nil => rfl
    | cons e rest ih =>
      rw [List.map_cons, List.filter_cons, List.filter_cons, overwritePrivileges_fst, ih]
      by_cases he : e.1 = (d, t, oid)
      · have hne : ¬ (e.1 = (cat.currentDB_.dbId, o.objectKey_.permissionType,
            o.objectKey_.objectId) ∧ e.2.roleName = r) := by
          rintro ⟨h1, _⟩
          apply hk1
          rw [← he, h1]
        rw [overwritePrivileges_of_not _ _ _ _ hne]
      · simp only [he, decide_False, Bool.false_eq_true, if_false]
  unfold updateObjectDescriptorMap getMetadataForObject
  simp only
  split
  · rw [hmap]
  · rw [List.filter_append, hmap]
    have hnk : ¬ ((o.objectKey_.dbId, o.objectKey_.permissionType, o.objectKey_.objectId) =
        (d, t, oid)) := fun h => hk2 h.symm
    have : List.filter (fun e : ObjectDescriptorKey × ObjectRoleDescriptor =>
        decide (e.1 = (d, t, oid)))
        [(ObjectRoleDescriptor.key ⟨r, roleType, o.objectKey_.permissionType, o.objectKey_.dbId,
            o.objectKey_.objectId, o.objectPrivs_, o.ownerId_, o.objectName_⟩,
          ⟨r, roleType, o.objectKey_.permissionType, o.objectKey_.dbId,
            o.objectKey_.objectId, o.objectPrivs_, o.ownerId_, o.objectName_⟩)] = [] := by
      rw [List.filter_cons]
      simp only [ObjectRoleDescriptor.key, hnk, decide_False, Bool.false_eq_true, if_false,
        List.filter_nil]
    rw [this, List.append_nil]

/-- When the role has a descriptor under the key looked up, with the database
of the catalog, the update adds no descriptor: the descriptors under every
other key stay as they were, and the descriptors of the role under the key
looked up, of which there still is one, take the privileges of the object. -/
theorem getMetadataForObject_update_present (s : SysCatalog) (r : String) (o : DBObject)
    (roleType : Bool) (cat : Catalog)
    (hpresent : ∃ od ∈ s.getMetadataForObject cat.currentDB_.dbId
      o.objectKey_.permissionType o.objectKey_.objectId, od.roleName = r) :
    (∀ d t oid,
      (d, t, oid) ≠ (cat.currentDB_.dbId, o.objectKey_.permissionType, o.objectKey_.objectId) →
      (s.updateObjectDescriptorMap r o roleType cat).getMetadataForObject d t oid =
        s.getMetadataForObject d t oid) ∧
    (∀ od ∈ (s.updateObjectDescriptorMap r o roleType cat).getMetadataForObject
        cat.currentDB_.dbId o.objectKey_.permissionType o.objectKey_.objectId,
      od.roleName = r → od.privs = o.objectPrivs_) ∧
    (∃ od ∈ (s.updateObjectDescriptorMap r o roleType cat).getMetadataForObject
        cat.currentDB_.dbId o.objectKey_.permissionType o.objectKey_.objectId,
      od.roleName = r) := by
  obtain ⟨od0, hod0, hr0⟩ := hpresent
  rw [mem_getMetadataForObject] at hod0
  have hany : s.objectDescriptorMap_.any
      (fun d => decide (d.1 = (cat.currentDB_.dbId, o.objectKey_.permissionType,
        o.objectKey_.objectId)) && decide (d.2.roleName = r)) = true := by
    rw [List.any_eq_true]
    exact ⟨_, hod0, by simp [hr0]⟩
  have hupd : (s.updateObjectDescriptorMap r o roleType cat).objectDescriptorMap_ =
      s.objectDescriptorMap_.map (overwritePrivileges (cat.currentDB_.dbId,
        o.objectKey_.permissionType, o.objectKey_.objectId) r o.objectPrivs_) := by
    unfold updateObjectDescriptorMap
    simp only [hany, if_true]
  refine ⟨?_, ?_, ?_⟩
  · intro d t oid hk
    unfold getMetadataForObject
    rw [hupd]
    congr 1
    induction s.objectDescriptorMap_ with
    | nil => rfl
    | cons e rest ih =>
      rw [List.map_cons, List.filter_cons, List.filter_cons, overwritePrivileges_fst, ih]
      by_cases he : e.1 = (d, t, oid)
      · have hne : ¬ (e.1 = (cat.currentDB_.dbId, o.objectKey_.permissionType,
            o.objectKey_.objectId) ∧ e.2.roleName = r) := by
          rintro ⟨h1, _⟩
          apply hk
          rw [← he, h1]
        rw [overwritePrivileges_of_not _ _ _ _ hne]
      · simp only [he, decide_False, Bool.false_eq_true, if_false]
  · intro od hod hr
    rw [mem_getMetadataForObject, hupd, List.mem_map] at hod
    obtain ⟨e, _, heq⟩ := hod
    have hfst : e.1 = (cat.currentDB_.dbId, o.objectKey_.permissionType,
        o.objectKey_.objectId) := by
      rw [← overwritePrivileges_fst _ r o.objectPrivs_ e, heq]
    have hname : e.2.roleName = r := by
      rw [← overwritePrivileges_roleName (cat.currentDB_.dbId, o.objectKey_.permissionType,
        o.objectKey_.objectId) r o.objectPrivs_ e, heq]
      exact hr
    have := overwritePrivileges_privs _ _ o.objectPrivs_ e ⟨hfst, hname⟩
    rw [heq] at this
    exact this
  · refine ⟨(overwritePrivileges (cat.currentDB_.dbId, o.objectKey_.permissionType,
      o.objectKey_.objectId) r o.objectPrivs_
        ((cat.currentDB_.dbId, o.objectKey_.permissionType, o.objectKey_.objectId), od0)).2,
      ?_, ?_⟩
    · rw [mem_getMetadataForObject, hupd, List.mem_map]
      refine ⟨_, hod0, ?_⟩
      apply Prod.ext
      · rw [overwritePrivileges_fst]
      · rfl
    · rw [overwritePrivileges_roleName]
      exact hr0

/-- C2 (code bug): for an existing non-root role `r`, `grantDBObjectPrivileges_unsafe`
called with a Database-type object of a database `d` carrying the ALL database
privilege, through the catalog of another database in which `r` has a
descriptor under the Table-type key with the object id of the object, performs
the three single grants in their order and writes the record of `r` for the
Table-type key of `d`; but the reverse-lookup map neither gains nor updates a
descriptor under the Table-type key of `d`: the descriptors under that key are
as before, and the descriptors of `r` under the Table-type key of the database
of the catalog take the privileges that `r` now holds on the tables of `d`. -/
theorem grantDBObjectPrivileges_all_on_other_database (s : SysCatalog) (r : String)
    (o : DBObject) (cat : Catalog) (rl : Role) (hroot : r ≠ MAPD_ROOT_USER)
    (hrole : s.getMetadataForRole r = some rl) (hall : o.isAllOnDatabase = true)
    (hne : o.objectKey_.dbId ≠ cat.currentDB_.dbId)
    (hpresent : ∃ od ∈ s.getMetadataForObject cat.currentDB_.dbId .TableDBObjectType
      o.objectKey_.objectId, od.roleName = r) :
    ∃ o1 s1 o2 s2 o3 s3 rl3,
      grantDBObjectPrivileges_unsafe s r
        ((o.setPrivileges AccessPrivileges.ALL_TABLE).setPermissionType .TableDBObjectType)
        cat = (.ok o1, s1) ∧
      grantDBObjectPrivileges_unsafe s1 r
        ((o1.setPrivileges AccessPrivileges.ALL_VIEW).setPermissionType .ViewDBObjectType)
        cat = (.ok o2, s2) ∧
      grantDBObjectPrivileges_unsafe s2 r
        ((o2.setPrivileges AccessPrivileges.ALL_DASHBOARD).setPermissionType
          .DashboardDBObjectType) cat = (.ok o3, s3) ∧
      grantDBObjectPrivileges_unsafe s r o cat = (.ok o, s3) ∧
      s3.getMetadataForRole r = some rl3 ∧
      rl3.privilegesOn ⟨.TableDBObjectType, o.objectKey_.dbId, o.objectKey_.objectId⟩ =
        (rl.privilegesOn ⟨.TableDBObjectType, o.objectKey_.dbId, o.objectKey_.objectId⟩).add
          AccessPrivileges.ALL_TABLE ∧
      s3.getMetadataForObject o.objectKey_.dbId .TableDBObjectType o.objectKey_.objectId =
        s.getMetadataForObject o.objectKey_.dbId .TableDBObjectType o.objectKey_.objectId ∧
      (∃ od ∈ s3.getMetadataForObject cat.currentDB_.dbId .TableDBObjectType
          o.objectKey_.objectId, od.roleName = r) ∧
      (∀ od ∈ s3.getMetadataForObject cat.currentDB_.dbId .TableDBObjectType
          o.objectKey_.objectId,
        od.roleName = r → od.privs =
          (rl.privilegesOn
            ⟨.TableDBObjectType, o.objectKey_.dbId, o.objectKey_.objectId⟩).add
            AccessPrivileges.ALL_TABLE) := by
  obtain ⟨oname, otype, ⟨opt, d, oid⟩, oprivs, oowner⟩ := o
  simp only at hne hpresent ⊢
  set t1 : DBObject := ⟨oname, otype, ⟨.TableDBObjectType, d, oid⟩,
    AccessPrivileges.ALL_TABLE, oowner⟩ with ht1
  set t2 : DBObject := ⟨oname, otype, ⟨.ViewDBObjectType, d, oid⟩,
    AccessPrivileges.ALL_VIEW, oowner⟩ with ht2
  set t3 : DBObject := ⟨oname, otype, ⟨.DashboardDBObjectType, d, oid⟩,
    AccessPrivileges.ALL_DASHBOARD, oowner⟩ with ht3
  have hn1 : t1.isAllOnDatabase = false := by simp [DBObject.isAllOnDatabase, ht1]
  have hn2 : t2.isAllOnDatabase = false := by simp [DBObject.isAllOnDatabase, ht2]
  have hn3 : t3.isAllOnDatabase = false := by simp [DBObject.isAllOnDatabase, ht3]
  have hg1 := grantDBObjectPrivileges_single 1 s r t1 cat rl hn1 hroot hrole
  set s1 : SysCatalog := SysCatalog.updateObjectDescriptorMap
    { s with
      roleMap_ := mapAssign s.roleMap_ (to_upper r) (rl.grantPrivileges t1)
      sqliteConnector_ := insertOrUpdateObjectPrivileges s.sqliteConnector_ r
        rl.userPrivateRole_
        (t1.setPrivileges ((rl.privilegesOn t1.objectKey_).add t1.objectPrivs_)) }
    r (t1.setPrivileges ((rl.privilegesOn t1.objectKey_).add t1.objectPrivs_))
    rl.userPrivateRole_ cat with hs1
  have hr1 : s1.getMetadataForRole r = some (rl.grantPrivileges t1) := by
    simp [hs1, getMetadataForRole, mapFind_mapAssign_self]
  have hg2 := grantDBObjectPrivileges_single 1 s1 r t2 cat _ hn2 hroot hr1
  set s2 : SysCatalog := SysCatalog.updateObjectDescriptorMap
    { s1 with
      roleMap_ := mapAssign s1.roleMap_ (to_upper r) ((rl.grantPrivileges t1).grantPrivileges t2)
      sqliteConnector_ := insertOrUpdateObjectPrivileges s1.sqliteConnector_ r
        (rl.grantPrivileges t1).userPrivateRole_
        (t2.setPrivileges
          (((rl.grantPrivileges t1).privilegesOn t2.objectKey_).add t2.objectPrivs_)) }
    r (t2.setPrivileges
      (((rl.grantPrivileges t1).privilegesOn t2.objectKey_).add t2.objectPrivs_))
    (rl.grantPrivileges t1).userPrivateRole_ cat with hs2
  have hr2 : s2.getMetadataForRole r =
      some ((rl.grantPrivileges t1).grantPrivileges t2) := by
    simp [hs2, getMetadataForRole, mapFind_mapAssign_self]
  have hg3 := grantDBObjectPrivileges_single 1 s2 r t3 cat _ hn3 hroot hr2
  set s3 : SysCatalog := SysCatalog.updateObjectDescriptorMap
    { s2 with
      roleMap_ := mapAssign s2.roleMap_ (to_upper r)
        (((rl.grantPrivileges t1).grantPrivileges t2).grantPrivileges t3)
      sqliteConnector_ := insertOrUpdateObjectPrivileges s2.sqliteConnector_ r
        ((rl.grantPrivileges t1).grantPrivileges t2).userPrivateRole_
        (t3.setPrivileges
          ((((rl.grantPrivileges t1).grantPrivileges t2).privilegesOn t3.objectKey_).add
            t3.objectPrivs_)) }
    r (t3.setPrivileges
      ((((rl.grantPrivileges t1).grantPrivileges t2).privilegesOn t3.objectKey_).add
        t3.objectPrivs_))
    ((rl.grantPrivileges t1).grantPrivileges t2).userPrivateRole_ cat with hs3
  have hr3 : s3.getMetadataForRole r =
      some (((rl.grantPrivileges t1).grantPrivileges t2).grantPrivileges t3) := by
    simp [hs3, getMetadataForRole, mapFind_mapAssign_self]
  have hmain : grantDBObjectPrivileges_unsafe s r
      ⟨oname, otype, ⟨opt, d, oid⟩, oprivs, oowner⟩ cat =
      (.ok ⟨oname, otype, ⟨opt, d, oid⟩, oprivs, oowner⟩, s3) :=
    grantDBObjectPrivileges_compose s s1 s2 s3 r _ cat _ _ _ hall
      ((grantDBObjectPrivileges_depth 0 1 s r t1 cat hn1).trans hg1)
      ((grantDBObjectPrivileges_depth 0 1 s1 r t2 cat hn2).trans hg2)
      ((grantDBObjectPrivileges_depth 0 1 s2 r t3 cat hn3).trans hg3)
  have kTV : (⟨.TableDBObjectType, d, oid⟩ : DBObjectKey) ≠ t2.objectKey_ := by
    simp [ht2]
  have kTD : (⟨.TableDBObjectType, d, oid⟩ : DBObjectKey) ≠ t3.objectKey_ := by
    simp [ht3]
  have pT : (((rl.grantPrivileges t1).grantPrivileges t2).grantPrivileges t3).privilegesOn
      ⟨.TableDBObjectType, d, oid⟩ =
      (rl.privilegesOn ⟨.TableDBObjectType, d, oid⟩).add AccessPrivileges.ALL_TABLE := by
    rw [Role.privilegesOn_grantPrivileges_ne _ _ _ kTD,
      Role.privilegesOn_grantPrivileges_ne _ _ _ kTV]
    exact Role.privilegesOn_grantPrivileges_self rl t1
  -- the first grant finds the descriptor under the key of the catalog's database
  obtain ⟨f1, p1, e1⟩ := getMetadataForObject_update_present
    { s with
      roleMap_ := mapAssign s.roleMap_ (to_upper r) (rl.grantPrivileges t1)
      sqliteConnector_ := insertOrUpdateObjectPrivileges s.sqliteConnector_ r
        rl.userPrivateRole_
        (t1.setPrivileges ((rl.privilegesOn t1.objectKey_).add t1.objectPrivs_)) }
    r (t1.setPrivileges ((rl.privilegesOn t1.objectKey_).add t1.objectPrivs_))
    rl.userPrivateRole_ cat hpresent
  -- the second and the third grant work on keys of other types
  have frame2 : ∀ dd, s2.getMetadataForObject dd .TableDBObjectType oid =
      s1.getMetadataForObject dd .TableDBObjectType oid := by
    intro dd
    exact getMetadataForObject_update_frame _ r _ _ cat dd .TableDBObjectType oid
      (by intro h; simp [ht2, DBObject.setPrivileges] at h)
      (by intro h; simp [ht2, DBObject.setPrivileges] at h)
  have frame3 : ∀ dd, s3.getMetadataForObject dd .TableDBObjectType oid =
      s2.getMetadataForObject dd .TableDBObjectType oid := by
    intro dd
    exact getMetadataForObject_update_frame _ r _ _ cat dd .TableDBObjectType oid
      (by intro h; simp [ht3, DBObject.setPrivileges] at h)
      (by intro h; simp [ht3, DBObject.setPrivileges] at h)
  refine ⟨_, s1, _, s2, _, s3, _, hg1, hg2, hg3, hmain, hr3, pT, ?_, ?_, ?_⟩
  · rw [frame3, frame2]
    exact f1 d .TableDBObjectType oid
      (by intro h; simp [ht1, DBObject.setPrivileges] at h; exact hne h)
  · rw [frame3, frame2]
    exact e1
  · rw [frame3, frame2]
    exact p1

/-- C2 on the role `analyst`, which holds the mask 4 on the tables of
database 1: ALL on DATABASE of database 2 granted through the catalog of
database 1 leaves no descriptor under the Table-type key of database 2, and
the descriptor of the role under the Table-type key of database 1 takes the
privileges granted on the tables of database 2. -/
theorem grantDBObjectPrivileges_all_on_other_database_witness :
    ∃ s3, grantDBObjectPrivileges_unsafe readerSys "analyst" allOnDatabaseTwo systemCatalog =
        (.ok allOnDatabaseTwo, s3) ∧
      s3.getMetadataForObject 2 .TableDBObjectType (-1) = [] ∧
      (∃ od ∈ s3.getMetadataForObject 1 .TableDBObjectType (-1), od.roleName = "analyst") ∧
      (∀ od ∈ s3.getMetadataForObject 1 .TableDBObjectType (-1),
        od.roleName = "analyst" → od.privs = AccessPrivileges.ALL_TABLE) := by
  obtain ⟨o1, s1, o2, s2, o3, s3, rl3, -, -, -, hmain, -, -, hnone, hsome, hprivs⟩ :=
    grantDBObjectPrivileges_all_on_other_database readerSys "analyst" allOnDatabaseTwo
      systemCatalog ⟨"analyst", false, [((tablesOfOne 4).objectKey_, tablesOfOne 4)]⟩
      (by decide) (by decide) (by decide) (by decide)
      ⟨⟨"analyst", false, .TableDBObjectType, 1, -1, ⟨4⟩, 0, "mapd"⟩, by decide, rfl⟩
  refine ⟨s3, hmain, hnone.trans (by decide), hsome, ?_⟩
  intro od hod hr
  exact (hprivs od hod hr).trans (by decide)

/-- The reverse-lookup map and the record of the role `analyst` after ALL on
DATABASE of database 2 was granted to it through the catalog of database 1:
the role holds the mask 4 on the tables of database 1 and all privileges on
the tables of database 2, while its one Table-type descriptor is under the key
of database 1 and lists all privileges. -/
theorem grantDBObjectPrivileges_other_database_scenario :
    readerSys.getMetadataForObject 1 .TableDBObjectType (-1) =
      [⟨"analyst", false, .TableDBObjectType, 1, -1, ⟨4⟩, 0, "mapd"⟩] ∧
    ( grantDBObjectPrivileges_unsafe readerSys "analyst" allOnDatabaseTwo systemCatalog).1 =
      .ok allOnDatabaseTwo ∧
    ( grantDBObjectPrivileges_unsafe readerSys "analyst" allOnDatabaseTwo
      systemCatalog).2.objectDescriptorMap_ =
      [((1, .TableDBObjectType, -1),
        ⟨"analyst", false, .TableDBObjectType, 1, -1, AccessPrivileges.ALL_TABLE, 0, "mapd"⟩),
       ((2, .ViewDBObjectType, -1),
        ⟨"analyst", false, .ViewDBObjectType, 2, -1, AccessPrivileges.ALL_VIEW, 0, "d2"⟩),
       ((2, .DashboardDBObjectType, -1),
        ⟨"analyst", false, .DashboardDBObjectType, 2, -1, AccessPrivileges.ALL_DASHBOARD, 0,
          "d2"⟩)] ∧
    (( grantDBObjectPrivileges_unsafe readerSys "analyst" allOnDatabaseTwo
      systemCatalog).2.getMetadataForRole "analyst").map
        (fun rl => (rl.privilegesOn ⟨.TableDBObjectType, 1, -1⟩,
          rl.privilegesOn ⟨.TableDBObjectType, 2, -1⟩)) =
      some (⟨4⟩, AccessPrivileges.ALL_TABLE) := by
  decide

end SysCatalog

namespace Fragmenter_Namespace

variable {β δ : Type}

/-- The dispatch loop, started with fewer tasks in `threads` than workers and
with no exception held, with rounds enough for the rows that are left and
with at most as many tasks to create as workers are free: the loop creates
every task of `updateColumn.tasks`, and joins the tasks when, and only when,
it has created as many as there are workers. -/
theorem updateColumn.dispatch_spawn (acc : Accessors β δ) (cpu_threads : Nat)
    (td : TableDescriptor) (cd : ColumnDescriptor) (shard_ : Int) (chunk_key : ChunkKey)
    (fragOffsets : List Nat) (rhsValues : List ScalarTargetValue) (rhsType : SQLTypeInfo)
    (segsz : Nat) (hseg : 1 ≤ segsz) (fuel : Nat) :
    ∀ (rbegin c : Nat) (threads : List (Option String)) (s : UpdelState β δ) (st : StatArrays),
      fragOffsets.length ≤ rbegin + fuel →
      threads.length < cpu_threads →
      threads.length + (updateColumn.tasks fragOffsets.length segsz fuel rbegin c).length ≤
        cpu_threads →
      (∀ e s' st',
        updateColumn.spawn acc td cd shard_ chunk_key fragOffsets rhsValues rhsType segsz
          (updateColumn.tasks fragOffsets.length segsz fuel rbegin c) s st =
            (.error e, s', st') →
        updateColumn.dispatch acc cpu_threads td cd shard_ chunk_key fragOffsets rhsValues
          rhsType segsz fuel rbegin c threads none s st = (.error e, s', st')) ∧
      (∀ raised s' st',
        updateColumn.spawn acc td cd shard_ chunk_key fragOffsets rhsValues rhsType segsz
          (updateColumn.tasks fragOffsets.length segsz fuel rbegin c) s st =
            (.ok raised, s', st') →
        updateColumn.dispatch acc cpu_threads td cd shard_ chunk_key fragOffsets rhsValues
          rhsType segsz fuel rbegin c threads none s st =
          (.ok (if (threads ++ raised).length ≥ cpu_threads then
              ([], updateColumn.wait_cleanup_threads (threads ++ raised) none)
            else (threads ++ raised, none)), s', st')) := by
  have stop : ∀ (fuel rbegin c : Nat) (threads : List (Option String)) (s : UpdelState β δ)
      (st : StatArrays), ¬ rbegin < fragOffsets.length → threads.length < cpu_threads →
      (∀ e s' st',
        updateColumn.spawn acc td cd shard_ chunk_key fragOffsets rhsValues rhsType segsz
          [] s st = (.error e, s', st') →
        updateColumn.dispatch acc cpu_threads td cd shard_ chunk_key fragOffsets rhsValues
          rhsType segsz fuel rbegin c threads none s st = (.error e, s', st')) ∧
      (∀ raised s' st',
        updateColumn.spawn acc td cd shard_ chunk_key fragOffsets rhsValues rhsType segsz
          [] s st = (.ok raised, s', st') →
        updateColumn.dispatch acc cpu_threads td cd shard_ chunk_key fragOffsets rhsValues
          rhsType segsz fuel rbegin c threads none s st =
          (.ok (if (threads ++ raised).length ≥ cpu_threads then
              ([], updateColumn.wait_cleanup_threads (threads ++ raised) none)
            else (threads ++ raised, none)), s', st')) := by
    intro fuel rbegin c threads s st hge hthreads
    have hdisp : updateColumn.dispatch acc cpu_threads td cd shard_ chunk_key fragOffsets
        rhsValues rhsType segsz fuel rbegin c threads none s st =
        (.ok (threads, none), s, st) := by
      cases fuel <;> simp only [updateColumn.dispatch, hge, if_false]
    constructor
    · intro e s' st' h
      simp only [updateColumn.spawn] at h
      cases h
    · intro raised s' st' h
      simp only [updateColumn.spawn] at h
      injection h with h1 h2
      injection h1 with h1
      injection h2 with h2 h3
      subst h1 h2 h3
      rw [hdisp, List.append_nil, if_neg (by omega)]
  induction fuel with
  | zero =>
    intro rbegin c threads s st hfuel hthreads _
    simp only [updateColumn.tasks]
    exact stop 0 rbegin c threads s st (by omega) hthreads
  | succ fuel ih =>
    intro rbegin c threads s st hfuel hthreads hlen
    by_cases hlt : rbegin < fragOffsets.length
    · simp only [updateColumn.tasks, hlt, if_true, List.length_cons] at hlen ⊢
      cases htask : updateColumn.task acc td cd shard_ chunk_key fragOffsets rhsValues rhsType
          segsz rbegin c s st with
      | mk r p =>
        obtain ⟨s1, st1⟩ := p
        have hnext := ih (rbegin + segsz) (c + 1)
        by_cases hcheck : r = .error .check_failed
        · subst hcheck
          simp only [updateColumn.spawn, updateColumn.dispatch, hlt, if_true, htask]
          constructor
          · intro e s' st' h
            injection h with h1 h2
            injection h1 with h1
            injection h2 with h2 h3
            subst h1 h2 h3
            rfl
          · intro raised s' st' h
            cases h
        · have hspawn : updateColumn.spawn acc td cd shard_ chunk_key fragOffsets rhsValues
              rhsType segsz ((rbegin, c) ::
                updateColumn.tasks fragOffsets.length segsz fuel (rbegin + segsz) (c + 1))
              s st =
              (match updateColumn.spawn acc td cd shard_ chunk_key fragOffsets rhsValues
                  rhsType segsz
                  (updateColumn.tasks fragOffsets.length segsz fuel (rbegin + segsz) (c + 1))
                  s1 st1 with
                | (.error e, s, st) => (.error e, s, st)
                | (.ok threads, s, st) => (.ok (updateColumn.raised r :: threads), s, st)) := by
            rw [updateColumn.spawn, htask]
            cases r with
            | ok u => rfl
            | error e =>
              cases e with
              | check_failed => exact absurd rfl hcheck
              | runtime_error msg => rfl
          have hdispatch : updateColumn.dispatch acc cpu_threads td cd shard_ chunk_key
              fragOffsets rhsValues rhsType segsz (fuel + 1) rbegin c threads none s st =
              (if (if (threads ++ [updateColumn.raised r]).length ≥ cpu_threads then
                    (([] : List (Option String)),
                      updateColumn.wait_cleanup_threads (threads ++ [updateColumn.raised r])
                        none)
                  else (threads ++ [updateColumn.raised r], none)).2.isSome then
                (.ok (if (threads ++ [updateColumn.raised r]).length ≥ cpu_threads then
                    (([] : List (Option String)),
                      updateColumn.wait_cleanup_threads (threads ++ [updateColumn.raised r])
                        none)
                  else (threads ++ [updateColumn.raised r], none)), s1, st1)
              else
                updateColumn.dispatch acc cpu_threads td cd shard_ chunk_key fragOffsets
                  rhsValues rhsType segsz fuel (rbegin + segsz) (c + 1)
                  (if (threads ++ [updateColumn.raised r]).length ≥ cpu_threads then
                    (([] : List (Option String)),
                      updateColumn.wait_cleanup_threads (threads ++ [updateColumn.raised r])
                        none)
                  else (threads ++ [updateColumn.raised r], none)).1
                  (if (threads ++ [updateColumn.raised r]).length ≥ cpu_threads then
                    (([] : List (Option String)),
                      updateColumn.wait_cleanup_threads (threads ++ [updateColumn.raised r])
                        none)
                  else (threads ++ [updateColumn.raised r], none)).2 s1 st1) := by
            rw [updateColumn.dispatch]
            simp only [hlt, if_true, htask]
          rw [hspawn, hdispatch]
          by_cases hjoin : (threads ++ [updateColumn.raised r]).length ≥ cpu_threads
          · have hrest : updateColumn.tasks fragOffsets.length segsz fuel (rbegin + segsz)
                (c + 1) = [] := by
              apply List.eq_nil_of_length_eq_zero
              simp only [List.length_append, List.length_singleton] at hjoin
              omega
            have hdone : ¬ rbegin + segsz < fragOffsets.length := by
              intro hmore
              cases fuel with
              | zero => omega
              | succ fuel' =>
                simp only [updateColumn.tasks, hmore, if_true] at hrest
                cases hrest
            rw [hrest]
            simp only [hjoin, if_true, updateColumn.spawn]
            constructor
            · intro e s' st' h
              cases h
            · intro raised s' st' h
              injection h with h1 h2
              injection h1 with h1
              injection h2 with h2 h3
              subst h1 h2 h3
              have hlen' : (threads ++ [updateColumn.raised r]).length ≥ cpu_threads := hjoin
              rw [if_pos hlen']
              cases hw : updateColumn.wait_cleanup_threads
                  (threads ++ [updateColumn.raised r]) none with
              | some e => simp
              | none =>
                simp only [Option.isSome_none, Bool.false_eq_true, if_false]
                have hzero : (0 : Nat) < cpu_threads := by omega
                have hstop := (stop fuel (rbegin + segsz) (c + 1) [] s1 st1 hdone
                  (by simpa using hzero)).2 [] s1 st1 (by simp only [updateColumn.spawn])
                rw [hstop]
                simp only [List.append_nil, List.length_nil, ge_iff_le, Nat.le_zero_eq]
                rw [if_neg (by omega)]
          · simp only [hjoin, if_false, Option.isSome_none, Bool.false_eq_true]
            obtain ⟨ih1, ih2⟩ := hnext (threads ++ [updateColumn.raised r]) s1 st1
              (by omega) (by omega)
              (by
                simp only [List.length_append, List.length_singleton] at hjoin ⊢
                omega)
            constructor
            · intro e s' st' h
              split at h
              · rename_i e1 s2 st2 hsp
                injection h with h1 h2
                injection h1 with h1
                injection h2 with h2 h3
                subst h1 h2 h3
                exact ih1 _ _ _ hsp
              · cases h
            · intro raised s' st' h
              split at h
              · cases h
              · rename_i raised' s2 st2 hsp
                injection h with h1 h2
                injection h1 with h1
                injection h2 with h2 h3
                subst h1 h2 h3
                rw [ih2 _ _ _ hsp]
                simp only [List.append_assoc, List.singleton_append]
    · simp only [updateColumn.tasks, hlt, if_false]
      exact stop (fuel + 1) rbegin c threads s st hlt hthreads

/-- The tasks that were created and returned are as many as the tasks of the
list. -/
theorem updateColumn.spawn_length (acc : Accessors β δ) (td : TableDescriptor)
    (cd : ColumnDescriptor) (shard_ : Int) (chunk_key : ChunkKey) (fragOffsets : List Nat)
    (rhsValues : List ScalarTargetValue) (rhsType : SQLTypeInfo) (segsz : Nat)
    (tasks : List (Nat × Nat)) :
    ∀ (s s' : UpdelState β δ) (st st' : StatArrays) (raised : List (Option String)),
      updateColumn.spawn acc td cd shard_ chunk_key fragOffsets rhsValues rhsType segsz tasks
        s st = (.ok raised, s', st') →
      raised.length = tasks.length := by
  induction tasks with
  | nil =>
    intro s s' st st' raised h
    simp only [updateColumn.spawn] at h
    injection h with h1 _
    injection h1 with h1
    subst h1
    rfl
  | cons t rest ih =>
    intro s s' st st' raised h
    obtain ⟨rbegin, c⟩ := t
    simp only [updateColumn.spawn] at h
    split at h
    · cases h
    · split at h
      · cases h
      · rename_i threads s2 st2 hrest
        injection h with h1 _
        injection h1 with h1
        subst h1
        simp only [List.length_cons]
        rw [ih _ _ _ _ _ hrest]

/-- The task of a worker either ends the process with a failed check before
its row loop, leaving the state as it is, or is its row loop over the rows of
its segment. -/
theorem updateColumn.task_rows (acc : Accessors β δ) (td : TableDescriptor)
    (cd : ColumnDescriptor) (shard_ : Int) (chunk_key : ChunkKey) (fragOffsets : List Nat)
    (rhsValues : List ScalarTargetValue) (rhsType : SQLTypeInfo) (segsz rbegin c : Nat)
    (s : UpdelState β δ) (st : StatArrays) :
    updateColumn.task acc td cd shard_ chunk_key fragOffsets rhsValues rhsType segsz rbegin c
      s st = (.error .check_failed, s, st) ∨
    ∃ cdl, updateColumn.task acc td cd shard_ chunk_key fragOffsets rhsValues rhsType segsz
      rbegin c s st =
      updateColumn.rows acc cd cdl chunk_key fragOffsets rhsValues rhsType c
        (updateColumn.segment segsz fragOffsets.length rbegin) s st := by
  unfold updateColumn.task updateColumn.segment
  simp only
  split
  · exact Or.inl rfl
  · rename_i cdl _
    split
    · rename_i e he
      left
      have : e = .check_failed := by
        split at he
        · split at he
          · injection he with he
            exact he.symm
          · split at he
            · injection he with he
              exact he.symm
            · cases he
        · cases he
      rw [this]
    · exact Or.inr ⟨cdl, rfl⟩

/-- C26: for `nrow ≥ 1` rows and `ncore ≥ 1` workers, with `segsz` the
quotient of `nrow + ncore - 1` by `ncore` and `k` the quotient of
`nrow + segsz - 1` by `segsz`: `k` is at most `ncore`, and the dispatch loop
of `updateColumn`, whatever the column and the values, creates exactly the
tasks of the slots `c = 0, ..., k - 1`, in this order, the task of the slot
`c` starting at the row `c * segsz`: it ends the process when one of them
fails a check, and else ends with the state and the statistics that these
tasks leave, having joined them exactly when `k = ncore`.  The task of a slot
that gets to its row loop runs it over the rows of its segment, which are
those from `c * segsz` up to but excluding the lesser of `(c + 1) * segsz` and
`nrow`, the first of which is among them; the slot is below `ncore`; no two
tasks have the same slot; and every row below `nrow` is a row of exactly one
task. -/
theorem updateColumn_dispatch_partition (nrow ncore : Nat) (hrow : 1 ≤ nrow)
    (hcore : 1 ≤ ncore) :
    (nrow + (nrow + ncore - 1) / ncore - 1) / ((nrow + ncore - 1) / ncore) ≤ ncore ∧
    (∀ (acc : Accessors β δ) (td : TableDescriptor) (cd : ColumnDescriptor) (shard_ : Int)
      (chunk_key : ChunkKey) (fragOffsets : List Nat) (rhsValues : List ScalarTargetValue)
      (rhsType : SQLTypeInfo) (s : UpdelState β δ) (st : StatArrays),
      fragOffsets.length = nrow →
      (∀ e s' st',
        updateColumn.spawn acc td cd shard_ chunk_key fragOffsets rhsValues rhsType
          ((nrow + ncore - 1) / ncore)
          ((List.range
            ((nrow + (nrow + ncore - 1) / ncore - 1) / ((nrow + ncore - 1) / ncore))).map
            (fun c => (c * ((nrow + ncore - 1) / ncore), c))) s st = (.error e, s', st') →
        updateColumn.dispatch acc ncore td cd shard_ chunk_key fragOffsets rhsValues rhsType
          ((nrow + ncore - 1) / ncore) nrow 0 0 [] none s st = (.error e, s', st')) ∧
      (∀ raised s' st',
        updateColumn.spawn acc td cd shard_ chunk_key fragOffsets rhsValues rhsType
          ((nrow + ncore - 1) / ncore)
          ((List.range
            ((nrow + (nrow + ncore - 1) / ncore - 1) / ((nrow + ncore - 1) / ncore))).map
            (fun c => (c * ((nrow + ncore - 1) / ncore), c))) s st = (.ok raised, s', st') →
        raised.length =
          (nrow + (nrow + ncore - 1) / ncore - 1) / ((nrow + ncore - 1) / ncore) ∧
        updateColumn.dispatch acc ncore td cd shard_ chunk_key fragOffsets rhsValues rhsType
          ((nrow + ncore - 1) / ncore) nrow 0 0 [] none s st =
          (.ok (if ncore ≤ raised.length then
              ([], updateColumn.wait_cleanup_threads raised none)
            else (raised, none)), s', st'))) ∧
    (∀ (acc : Accessors β δ) (td : TableDescriptor) (cd : ColumnDescriptor) (shard_ : Int)
      (chunk_key : ChunkKey) (fragOffsets : List Nat) (rhsValues : List ScalarTargetValue)
      (rhsType : SQLTypeInfo) (rbegin c : Nat) (s : UpdelState β δ) (st : StatArrays),
      fragOffsets.length = nrow →
      updateColumn.task acc td cd shard_ chunk_key fragOffsets rhsValues rhsType
        ((nrow + ncore - 1) / ncore) rbegin c s st = (.error .check_failed, s, st) ∨
      ∃ cdl, updateColumn.task acc td cd shard_ chunk_key fragOffsets rhsValues rhsType
        ((nrow + ncore - 1) / ncore) rbegin c s st =
        updateColumn.rows acc cd cdl chunk_key fragOffsets rhsValues rhsType c
          (updateColumn.segment ((nrow + ncore - 1) / ncore) nrow rbegin) s st) ∧
    updateColumn.tasks nrow ((nrow + ncore - 1) / ncore) nrow 0 0 =
      (List.range ((nrow + (nrow + ncore - 1) / ncore - 1) / ((nrow + ncore - 1) / ncore))).map
        (fun c => (c * ((nrow + ncore - 1) / ncore), c)) ∧
    ((updateColumn.tasks nrow ((nrow + ncore - 1) / ncore) nrow 0 0).map
      (fun t => t.2)).Nodup ∧
    (∀ c, c < (nrow + (nrow + ncore - 1) / ncore - 1) / ((nrow + ncore - 1) / ncore) →
      c < ncore ∧
      c * ((nrow + ncore - 1) / ncore) ∈
        updateColumn.segment ((nrow + ncore - 1) / ncore) nrow
          (c * ((nrow + ncore - 1) / ncore)) ∧
      ∀ r, r ∈ updateColumn.segment ((nrow + ncore - 1) / ncore) nrow
          (c * ((nrow + ncore - 1) / ncore)) ↔
        c * ((nrow + ncore - 1) / ncore) ≤ r ∧
          r < min ((c + 1) * ((nrow + ncore - 1) / ncore)) nrow) ∧
    (∀ r, r < nrow →
      ∃! c, c < (nrow + (nrow + ncore - 1) / ncore - 1) / ((nrow + ncore - 1) / ncore) ∧
        r ∈ updateColumn.segment ((nrow + ncore - 1) / ncore) nrow
          (c * ((nrow + ncore - 1) / ncore))) := by
  obtain ⟨hk, htasks, hnodup, hslots, hcover⟩ := updateColumn.tasks_partition nrow ncore hrow hcore
  have hseg : 1 ≤ (nrow + ncore - 1) / ncore := by
    rw [Nat.le_div_iff_mul_le (by omega)]
    omega
  refine ⟨hk, ?_, ?_, htasks, hnodup, hslots, hcover⟩
  · intro acc td cd shard_ chunk_key fragOffsets rhsValues rhsType s st hlen
    subst hlen
    obtain ⟨d1, d2⟩ := updateColumn.dispatch_spawn acc ncore td cd shard_ chunk_key fragOffsets
      rhsValues rhsType ((fragOffsets.length + ncore - 1) / ncore) hseg fragOffsets.length
      0 0 [] s st (by omega) (by simpa using hcore)
      (by
        rw [htasks]
        simpa using hk)
    rw [htasks] at d1 d2
    refine ⟨d1, ?_⟩
    intro raised s' st' hspawn
    have hlength := updateColumn.spawn_length _ _ _ _ _ _ _ _ _ _ _ _ _ _ _ hspawn
    simp only [List.length_map, List.length_range] at hlength
    refine ⟨hlength, ?_⟩
    have := d2 raised s' st' hspawn
    simpa using this
  · intro acc td cd shard_ chunk_key fragOffsets rhsValues rhsType rbegin c s st hlen
    subst hlen
    exact updateColumn.task_rows acc td cd shard_ chunk_key fragOffsets rhsValues rhsType _
      rbegin c s st

/-- C26 for the update of the three rows of the column `a` of `t1` with two
workers: the segments have two rows, the dispatch loop creates the tasks of
the slots 0 and 1, which start at the rows 0 and 2, and joins them, none
having raised an exception; the statistics it ends with hold the values 5 and
-1 in the slot 0 and the value 100 in the slot 1. -/
theorem updateColumn_dispatch_partition_witness :
    updateColumn.tasks 3 2 3 0 0 = [(0, 0), (2, 1)] ∧
    (updateColumn.dispatch cellAccessors 2 (exampleTable 1 "t1" .DISK_LEVEL) t1A (-1)
      [1, 1, 1, 0] [0, 1, 2] [.int64 5, .int64 (-1), .int64 100]
      (SQLTypeInfo.ofType .kBIGINT false) 2 3 0 0 [] none t1State (StatArrays.new 2)).1 =
      .ok ([], none) ∧
    (updateColumn.dispatch cellAccessors 2 (exampleTable 1 "t1" .DISK_LEVEL) t1A (-1)
      [1, 1, 1, 0] [0, 1, 2] [.int64 5, .int64 (-1), .int64 100]
      (SQLTypeInfo.ofType .kBIGINT false) 2 3 0 0 [] none t1State (StatArrays.new 2)).2.2 =
      { StatArrays.new 2 with lmin := [-1, 100], lmax := [5, 100] } ∧
    (∀ r, r < 3 → ∃! c, c < 2 ∧ r ∈ updateColumn.segment 2 3 (c * 2)) :=
  have h := @updateColumn_dispatch_partition CellBuffer (List String) 3 2 (by decide)
    (by decide)
  have hrun := ((h.2.1 cellAccessors (exampleTable 1 "t1" .DISK_LEVEL) t1A (-1) [1, 1, 1, 0]
    [0, 1, 2] [.int64 5, .int64 (-1), .int64 100] (SQLTypeInfo.ofType .kBIGINT false) t1State
    (StatArrays.new 2) rfl).2 [none, none]
    (updateColumn.spawn cellAccessors (exampleTable 1 "t1" .DISK_LEVEL) t1A (-1) [1, 1, 1, 0]
      [0, 1, 2] [.int64 5, .int64 (-1), .int64 100] (SQLTypeInfo.ofType .kBIGINT false) 2
      [(0, 0), (2, 1)] t1State (StatArrays.new 2)).2.1
    (updateColumn.spawn cellAccessors (exampleTable 1 "t1" .DISK_LEVEL) t1A (-1) [1, 1, 1, 0]
      [0, 1, 2] [.int64 5, .int64 (-1), .int64 100] (SQLTypeInfo.ofType .kBIGINT false) 2
      [(0, 0), (2, 1)] t1State (StatArrays.new 2)).2.2
    (Prod.ext (by decide) rfl)).2
  ⟨h.2.2.2.1, (congrArg Prod.fst hrun).trans (by decide),
    (congrArg (fun x => x.2.2) hrun).trans (by decide), h.2.2.2.2.2.2⟩

end Fragmenter_Namespace

end Catalog_Namespace
